import Mathlib

/-! p2linux: a pSOS+ kernel API on POSIX threads.

Shallow embedding of the wait-list, message-queue, semaphore and partition
code of `task.c`, `queue.c`, `vqueue.c`, `sema4.c` and `memblk.c`, followed by
the theorems that settle the specification claims about them.

Conventions of the embedding

* A C pointer is an address (`Int` for message slots, `Nat` for task control
  blocks and partition blocks); the null pointer is address `0` or `none`.
* A singly linked list reached from a head pointer is the Lean list of its
  nodes in link order; a node is identified by its address.
* Code that runs with an object mutex held is one atomic transition of the
  object state; blocking and timing are inputs of the transition.
* `ULONG` is the 32-bit `unsigned long` of the ARM target; counters that the
  code can drive below zero wrap modulo `2 ^ 32`.
-/

set_option autoImplicit false

namespace Task

/-- The part of `p2pthread_cb_t` (task.c) that the wait-list code reads: the
address of the control block, which is what the C code compares, and the
`sched_priority` of its `prv_priority` field. The `nxt_susp` link is the list
order of the wait list that holds the block. -/
structure p2pthread_cb_t where
  addr : Nat
  prv_priority : Int
deriving DecidableEq, Repr

/-- `link_susp_tcb` (task.c:401): when `*list_head` is null the new entry
becomes the head, otherwise the loop walks to the entry whose `nxt_susp` is
null and links the new entry behind it. -/
def link_susp_tcb : List p2pthread_cb_t → p2pthread_cb_t → List p2pthread_cb_t
  | [], new_entry => [new_entry]
  | nxt_entry :: rest, new_entry => nxt_entry :: link_susp_tcb rest new_entry

/-- The `for` loop of `unlink_susp_tcb` (task.c:466): `current_tcb` runs down
the list; when `current_tcb->nxt_susp == entry` the entry is spliced out and
the loop goes on from the node that followed the entry. -/
def unlink_loop (entry : Nat) : List p2pthread_cb_t → List p2pthread_cb_t
  | [] => []
  | [current_tcb] => [current_tcb]
  | current_tcb :: nxt :: rest =>
      if nxt.addr = entry then current_tcb :: unlink_loop entry rest
      else current_tcb :: unlink_loop entry (nxt :: rest)

/-- `unlink_susp_tcb` (task.c:446): the head is unlinked directly, any other
entry through the loop over its predecessor. -/
def unlink_susp_tcb (list : List p2pthread_cb_t) (entry : Nat) : List p2pthread_cb_t :=
  match list with
  | [] => []
  | head :: rest => if head.addr = entry then rest else unlink_loop entry (head :: rest)

/-- The priority scan of `signal_for_my_task` (task.c:520): a later entry
replaces `signalled_task` only when its priority is strictly greater. -/
def priority_scan (signalled_task : p2pthread_cb_t) :
    List p2pthread_cb_t → p2pthread_cb_t
  | [] => signalled_task
  | current_tcb :: rest =>
      priority_scan
        (if current_tcb.prv_priority > signalled_task.prv_priority then current_tcb
         else signalled_task) rest

/-- The task that `signal_for_my_task` designates: `*list_head` for FIFO pend
order, the result of the priority scan (which starts at the head itself)
otherwise; `none` is the null pointer of an empty list. -/
def signalled_task (list : List p2pthread_cb_t) (pend_order : Int) : Option p2pthread_cb_t :=
  match list with
  | [] => none
  | head :: _ => if pend_order ≠ 0 then some (priority_scan head list) else some head

/-- `signal_for_my_task` (task.c:496) seen from the task whose control block is
at `my_tcb`: TRUE iff the designated task is the caller. -/
def signal_for_my_task (list : List p2pthread_cb_t) (pend_order : Int) (my_tcb : Nat) : Bool :=
  match signalled_task list pend_order with
  | none => false
  | some t => t.addr == my_tcb

/-- Serving a wait list: the designated task is taken and removed with
`unlink_susp_tcb`, `rounds` times or until the list is empty. -/
def serve (pend_order : Int) : Nat → List p2pthread_cb_t → List p2pthread_cb_t
  | 0, _ => []
  | rounds + 1, list =>
      match signalled_task list pend_order with
      | none => []
      | some t => t :: serve pend_order rounds (unlink_susp_tcb list t.addr)

/-- The order in which two waiters of equal priority entered the list `l`:
`a` stands before `b`. -/
def enqueued_before (l : List p2pthread_cb_t) (a b : p2pthread_cb_t) : Prop :=
  List.Sublist [a, b] l

/-- Service order of a priority-pend list `l`: `a` is served before `b` when
it has the greater priority, or the same priority and the earlier place. -/
def served_before (l : List p2pthread_cb_t) (a b : p2pthread_cb_t) : Prop :=
  b.prv_priority < a.prv_priority ∨
    (a.prv_priority = b.prv_priority ∧ enqueued_before l a b)

/-- The conversion of a `ULONG` to `int` on the 32-bit target, as in the
assignments `msgs_per_extent = qsize` (queue.c:972) and
`msgs_per_queue = qsize` (vqueue.c:743): values from `2 ^ 31` on come out
negative. -/
def ulong_to_int (x : Nat) : Int :=
  if x % 4294967296 < 2147483648 then ((x % 4294967296 : Nat) : Int)
  else ((x % 4294967296 : Nat) : Int) - 4294967296

end Task

namespace Queue

open Task

/-- `q_msg_t` (queue.c:43): a message of four `ULONG` words. -/
abbrev q_msg_t := Nat × Nat × Nat × Nat

/-- The message that `bzero` and the clearing loop of `fetch_msg_from` leave
in a slot. -/
def null_msg : q_msg_t := (0, 0, 0, 0)

def SEND : Nat := 0
def BCAST : Nat := 1
def KILLD : Nat := 2

def Q_NOWAIT : Nat := 0x01
def Q_PRIOR : Nat := 0x02
def Q_LIMIT : Nat := 0x04

def ERR_NO_ERROR : Nat := 0
def ERR_TIMEOUT : Nat := 0x01
def ERR_OBJDEL : Nat := 0x05
def ERR_NOQCB : Nat := 0x33
def ERR_NOMGB : Nat := 0x34
def ERR_QFULL : Nat := 0x35
def ERR_QKILLD : Nat := 0x36
def ERR_NOMSG : Nat := 0x37

/-- The fields of `p2pt_queue_t` (queue.c:75) that the message code uses.
A `q_msg_t *` is the byte address of a slot, slots are 16 bytes apart, and
`mem` gives the message stored at a slot address. `first_extent` is the chain
of extents in `nxt_extent` order, each extent given by the address of its
`msgs[0]`; the empty chain is the null pointer. -/
structure p2pt_queue_t where
  flags : Nat
  queue_head : Int
  queue_tail : Int
  send_type : Nat
  first_extent : List Int
  last_msg_in_queue : Int
  first_susp : List p2pthread_cb_t
  bcst_tasks_awakened : Nat
  msg_count : Int
  msgs_per_extent : Int
  total_extents : Int
  mem : Int → q_msg_t

/-- The `for` loop shared by `send_msg_to` and `fetch_msg_from`
(queue.c:593, 708) that looks, among the extents after the first, for the one
whose `msgs[0] .. msgs[max_msg]` holds `p`. The result is `cur_extent` (the
chain from it, empty when the loop ran off the end) and the
`last_msg_in_extent` computed last. -/
def find_extent (p max_msg : Int) : List Int → Int → List Int × Int
  | [], last_msg_in_extent => ([], last_msg_in_extent)
  | cur_extent :: rest, _ =>
      if p ≥ cur_extent ∧ p ≤ cur_extent + 16 * max_msg then
        (cur_extent :: rest, cur_extent + 16 * max_msg)
      else find_extent p max_msg rest (cur_extent + 16 * max_msg)

/-- The extent search at the top of `send_msg_to` and `fetch_msg_from`: the
first extent spans `msgs[0] .. msgs[max_msg + 1]`, the others are searched by
`find_extent`. -/
def extent_of (p max_msg first_extent : Int) (rest : List Int) : List Int × Int :=
  if p < first_extent ∨ p > first_extent + 16 * (max_msg + 1) then
    find_extent p max_msg rest (first_extent + 16 * (max_msg + 1))
  else (first_extent :: rest, first_extent + 16 * (max_msg + 1))

/-- The pointer step of `send_msg_to` and `fetch_msg_from` (queue.c:611,
726): `p++`, and when that passes `last_msg_in_extent` the pointer goes to
`msgs[0]` of the next extent, or of the first extent after the last one.
`none` is the dereference of a null `cur_extent` or `first_extent`. -/
def step_forward (queue : p2pt_queue_t) (p : Int) : Option Int :=
  match queue.first_extent with
  | [] => none
  | first_extent :: rest =>
      let found := extent_of p (queue.msgs_per_extent - 1) first_extent rest
      if p + 16 > found.2 then
        match found.1 with
        | [] => none
        | [_] => some first_extent
        | _ :: nxt_extent :: _ => some nxt_extent
      else some (p + 16)

/-- `send_msg_to` (queue.c:557): store at `queue_tail`, advance it, count. -/
def send_msg_to (queue : p2pt_queue_t) (msg : q_msg_t) : Option p2pt_queue_t :=
  let queue := { queue with mem := Function.update queue.mem queue.queue_tail msg }
  match step_forward queue queue.queue_tail with
  | none => none
  | some queue_tail =>
      some { queue with queue_tail := queue_tail, msg_count := queue.msg_count + 1 }

/-- The search loop of `urgent_msg_to` (queue.c:487), which also keeps the
`last_msg_in_prv_extent` of the extent before the current one (`some` exactly
when `prv_extent` is not null). The result is `first_msg_in_extent` and that
previous-extent record. -/
def find_extent_prv (p max_msg : Int) : List Int → Int → Option Int → Int × Option Int
  | [], first_msg_in_extent, prv => (first_msg_in_extent, prv)
  | cur_extent :: rest, _, prv =>
      if p ≥ cur_extent ∧ p ≤ cur_extent + 16 * max_msg then (cur_extent, prv)
      else find_extent_prv p max_msg rest cur_extent (some (cur_extent + 16 * max_msg))

/-- `urgent_msg_to` (queue.c:456): step `queue_head` back, wrapping to the
last slot of the previous extent or to `last_msg_in_queue`, store there, count. -/
def urgent_msg_to (queue : p2pt_queue_t) (msg : q_msg_t) : Option p2pt_queue_t :=
  match queue.first_extent with
  | [] => none
  | first_extent :: rest =>
      let max_msg := queue.msgs_per_extent - 1
      let found : Int × Option Int :=
        if queue.queue_head < first_extent ∨
            queue.queue_head > first_extent + 16 * (max_msg + 1) then
          find_extent_prv queue.queue_head max_msg rest first_extent
            (some (first_extent + 16 * (max_msg + 1)))
        else (first_extent, none)
      let queue_head :=
        if queue.queue_head - 16 < found.1 then
          match found.2 with
          | some last_msg_in_prv_extent => last_msg_in_prv_extent
          | none => queue.last_msg_in_queue
        else queue.queue_head - 16
      some { queue with
        queue_head := queue_head
        mem := Function.update queue.mem queue_head msg
        msg_count := queue.msg_count + 1 }

/-- `fetch_msg_from` (queue.c:657) with a non-null `msg`: the message at
`queue_head` is copied out; a broadcast fetch counts the awakened task; the
slot is cleared and the head advanced for a normal send, or when the wait list
is empty, and then a send type other than SEND is set back to SEND. -/
def fetch_msg_from (queue : p2pt_queue_t) : Option (q_msg_t × p2pt_queue_t) :=
  let msg := queue.mem queue.queue_head
  let queue :=
    if queue.send_type = BCAST then
      { queue with bcst_tasks_awakened := queue.bcst_tasks_awakened + 1 }
    else queue
  if queue.send_type = SEND ∨ queue.first_susp = [] then
    let queue := { queue with mem := Function.update queue.mem queue.queue_head null_msg }
    match step_forward queue queue.queue_head with
    | none => none
    | some queue_head =>
        some (msg, { queue with
          queue_head := queue_head
          msg_count := queue.msg_count - 1
          send_type := if queue.send_type ≠ SEND then SEND else queue.send_type })
  else some (msg, queue)

/-- The `block_size` that `new_extent_for` computes (queue.c:813) and asks of
the allocator, a `size_t` of 32 bits: 16 bytes for each of the `qsize`
messages plus the 20 bytes of the header with `msgs[0]`, modulo `2 ^ 32`. -/
def extent_block_size (qsize : Nat) : Int := (16 * (qsize : Int) + 20) % 4294967296

/-- `new_extent_for` (queue.c:799). `ts_malloc` is what the allocator returns:
`none` for a null pointer, otherwise the address of `msgs[0]` of the new
block, which starts 4 bytes before with the `nxt_extent` link and has
`block_size` bytes. The slots that lie in the block are cleared, the block is
appended to the extent chain and its `msgs[qsize]` becomes
`last_msg_in_queue`. Addresses are integers without a limit. -/
def new_extent_for (queue : p2pt_queue_t) (qsize : Nat) (ts_malloc : Option Int) :
    Option Int × p2pt_queue_t :=
  let block_size : Int := extent_block_size qsize
  match ts_malloc with
  | none => (none, queue)
  | some new_extent =>
      (some new_extent, { queue with
        mem := fun a =>
          if new_extent ≤ a ∧ a + 16 ≤ new_extent - 4 + block_size then null_msg
          else queue.mem a
        total_extents := queue.total_extents + 1
        first_extent := queue.first_extent ++ [new_extent]
        last_msg_in_queue := new_extent + 16 * (qsize : Int) })

/-- `q_create` (queue.c:866). `qcb` is the control block the allocator
returns, `none` for a null pointer; `q_create` does not set its `first_extent`
field before `new_extent_for` reads it (queue.c:842), so the block is given by
the extent chain that field points to when the block is handed out, `some []`
for a field that is null (a value that is not the address of a chain of
blocks ending in a null link has no place in this embedding). `ts_malloc` is
the result of the extent allocation
and `mem` the memory before the call. The head and the tail are set to a slot
of the first extent of the chain, and `msgs_per_extent`, an `int`, gets the
`ULONG` `qsize` converted. The result is the status and the created queue. -/
def q_create (qsize opt : Nat) (qcb : Option (List Int)) (ts_malloc : Option Int)
    (mem : Int → q_msg_t) : Nat × Option p2pt_queue_t :=
  match qcb with
  | some first_extent =>
      let queue : p2pt_queue_t :=
        { flags := opt, queue_head := 0, queue_tail := 0, send_type := SEND,
          first_extent := first_extent, last_msg_in_queue := 0, first_susp := [],
          bcst_tasks_awakened := 0, msg_count := 0, msgs_per_extent := 0,
          total_extents := 0, mem := mem }
      match new_extent_for queue qsize ts_malloc with
      | (some _, queue) =>
          let slot : Int :=
            if qsize > 0 then queue.first_extent.headD 0 + 16 else queue.first_extent.headD 0
          (ERR_NO_ERROR, some { queue with
            queue_head := slot
            queue_tail := slot
            send_type := SEND
            first_susp := []
            bcst_tasks_awakened := 0
            msgs_per_extent := ulong_to_int qsize
            msg_count := 0 })
      | (none, _) => (ERR_NOMGB, none)
  | none => (ERR_NOQCB, none)

/-- The `qsize` that `q_send`, `q_urgent` and `q_broadcast` pass to
`new_extent_for`: the `int` value `msgs_per_extent - 1` converted to `ULONG`. -/
def extent_qsize (queue : p2pt_queue_t) : Nat :=
  ((queue.msgs_per_extent - 1) % 4294967296).toNat

/-- `q_send` (queue.c:1130) on an existing queue, between taking and releasing
`queue_lock`; the result is the status and the queue afterwards. -/
def q_send (queue : p2pt_queue_t) (msg : q_msg_t) (ts_malloc : Option Int) :
    Option (Nat × p2pt_queue_t) :=
  if queue.msg_count > queue.total_extents * queue.msgs_per_extent then
    if queue.flags &&& Q_LIMIT = 0 then
      match new_extent_for queue (extent_qsize queue) ts_malloc with
      | (some new_extent, queue) =>
          (send_msg_to { queue with queue_tail := new_extent } msg).map
            fun queue => (ERR_NO_ERROR, queue)
      | (none, queue) => some (ERR_QFULL, queue)
    else some (ERR_QFULL, queue)
  else if queue.msg_count = queue.total_extents * queue.msgs_per_extent then
    if queue.flags &&& Q_LIMIT = 0 then
      match new_extent_for queue (extent_qsize queue) ts_malloc with
      | (some new_extent, queue) =>
          (send_msg_to { queue with queue_tail := new_extent } msg).map
            fun queue => (ERR_NO_ERROR, queue)
      | (none, queue) => some (ERR_QFULL, queue)
    else if queue.msgs_per_extent = 0 ∧ queue.first_susp ≠ [] then
      (send_msg_to queue msg).map fun queue => (ERR_NO_ERROR, queue)
    else some (ERR_QFULL, queue)
  else (send_msg_to queue msg).map fun queue => (ERR_NO_ERROR, queue)

/-- `q_urgent` (queue.c:1018) on an existing queue. -/
def q_urgent (queue : p2pt_queue_t) (msg : q_msg_t) (ts_malloc : Option Int) :
    Option (Nat × p2pt_queue_t) :=
  if queue.msg_count > queue.total_extents * queue.msgs_per_extent then
    if queue.flags &&& Q_LIMIT = 0 then
      match new_extent_for queue (extent_qsize queue) ts_malloc with
      | (some new_extent, queue) =>
          (urgent_msg_to { queue with queue_tail := new_extent } msg).map
            fun queue => (ERR_NO_ERROR, queue)
      | (none, queue) => some (ERR_QFULL, queue)
    else some (ERR_QFULL, queue)
  else (urgent_msg_to queue msg).map fun queue => (ERR_NO_ERROR, queue)

/-- One evaluation of `waiting_on_queue` (queue.c:1598) by the task at
`my_tcb` up to its first decision: FALSE (waiting is over) when the queue is
killed, or when a message is queued and it is a broadcast or the caller is the
task `signal_for_my_task` designates. -/
def waiting_on_queue (queue : p2pt_queue_t) (my_tcb : Nat) : Bool :=
  if queue.send_type &&& KILLD ≠ 0 then false
  else if queue.msg_count > 0 then
    !(decide (queue.send_type &&& BCAST ≠ 0) ||
      signal_for_my_task queue.first_susp ((queue.flags &&& Q_PRIOR : Nat) : Int) my_tcb)
  else true

/-- The end of `q_receive` (queue.c:1819) for a task whose wait is over with
`retcode` 0: it leaves the wait list and fetches; on a killed queue the status
is `ERR_QKILLD`. -/
def q_receive_fetch (queue : p2pt_queue_t) (our_tcb : Nat) :
    Option (Nat × q_msg_t × p2pt_queue_t) :=
  let queue := { queue with first_susp := unlink_susp_tcb queue.first_susp our_tcb }
  (fetch_msg_from queue).map fun r =>
    (if queue.send_type &&& KILLD ≠ 0 then ERR_QKILLD else ERR_NO_ERROR, r.1, r.2)

/-- `q_receive` (queue.c:1696) with `Q_NOWAIT` on a queue in SEND mode, run
without another task changing the queue meanwhile: the caller joins the wait
list; if `waiting_on_queue` ends the wait it leaves the list and fetches,
otherwise the timed wait expires, it leaves the list and the status is
`ERR_NOMSG`. -/
def q_receive_nowait (queue : p2pt_queue_t) (our_tcb : p2pthread_cb_t) :
    Option (Nat × Option q_msg_t × p2pt_queue_t) :=
  let queue := { queue with first_susp := link_susp_tcb queue.first_susp our_tcb }
  if waiting_on_queue queue our_tcb.addr then
    some (ERR_NOMSG, none,
      { queue with first_susp := unlink_susp_tcb queue.first_susp our_tcb.addr })
  else
    (q_receive_fetch queue our_tcb.addr).map fun r => (r.1, some r.2.1, r.2.2)

/-- A call on a fixed-message queue: `q_send` and `q_urgent` with the message
and the answer the allocator would give, `q_receive` with `Q_NOWAIT` by a task. -/
inductive q_call where
  | send (msg : q_msg_t) (ts_malloc : Option Int)
  | urgent (msg : q_msg_t) (ts_malloc : Option Int)
  | receive (our_tcb : p2pthread_cb_t)

/-- The status, the message received (if any) and the queue after a call. -/
def q_step (queue : p2pt_queue_t) : q_call → Option ((Nat × Option q_msg_t) × p2pt_queue_t)
  | .send msg ts_malloc => (q_send queue msg ts_malloc).map fun r => ((r.1, none), r.2)
  | .urgent msg ts_malloc => (q_urgent queue msg ts_malloc).map fun r => ((r.1, none), r.2)
  | .receive our_tcb => (q_receive_nowait queue our_tcb).map fun r => ((r.1, r.2.1), r.2.2)

/-- A sequence of calls: the list of their results and the final queue. -/
def q_run (queue : p2pt_queue_t) :
    List q_call → Option (List (Nat × Option q_msg_t) × p2pt_queue_t)
  | [] => some ([], queue)
  | call :: calls =>
      match q_step queue call with
      | none => none
      | some (r, queue) =>
          match q_run queue calls with
          | none => none
          | some (rs, queue) => some (r :: rs, queue)

/-- The slot index `i` places after index `h` in a ring of `n + 1` slots. -/
def ring_slot (n h i : Nat) : Nat := if h + i ≤ n then h + i else h + i - (n + 1)

end Queue

namespace Queue

/-- The queue that `q_create` builds for capacity 4 without Q_LIMIT when the
allocator places `msgs[0]` of the first extent at 4096. -/
def grow_queue : p2pt_queue_t :=
  { flags := 0, queue_head := 4112, queue_tail := 4112, send_type := SEND,
    first_extent := [4096], last_msg_in_queue := 4160, first_susp := [],
    bcst_tasks_awakened := 0, msg_count := 0, msgs_per_extent := 4,
    total_extents := 1, mem := fun _ => null_msg }

/-- Calls on an extensible capacity-4 queue whose allocator hands out the
block at 8192: messages 1 to 4 are sent, two are received, messages 5 to 7
are sent (the last one makes `q_send` add an extent), five are received. -/
def grow_calls : List q_call :=
  (List.range 4).map (fun i => q_call.send (i + 1, 0, 0, 0) (some 8192)) ++
    List.replicate 2 (q_call.receive ⟨2, 10⟩) ++
    (List.range 3).map (fun i => q_call.send (i + 5, 0, 0, 0) (some 8192)) ++
    List.replicate 5 (q_call.receive ⟨2, 10⟩)

end Queue

namespace Queue

open Task

/-- `q_broadcast` (queue.c:1294) while it holds `queue_lock` (queue.c:1311
to 1374): with tasks waiting, the message is put in front of the queue and the
send type becomes BCAST (after a new extent when the queue is over-full and
extensible). The result is the status and the queue. -/
def q_broadcast_send (queue : p2pt_queue_t) (msg : q_msg_t) (ts_malloc : Option Int) :
    Option (Nat × p2pt_queue_t) :=
  if queue.first_susp ≠ [] then
    if queue.msg_count > queue.total_extents * queue.msgs_per_extent then
      if queue.flags &&& Q_LIMIT = 0 then
        match new_extent_for queue (extent_qsize queue) ts_malloc with
        | (some new_extent, queue) =>
            (urgent_msg_to { queue with queue_tail := new_extent } msg).map
              fun queue => (ERR_NO_ERROR, { queue with send_type := BCAST })
        | (none, queue) => some (ERR_QFULL, queue)
      else some (ERR_QFULL, queue)
    else
      (urgent_msg_to queue msg).map
        fun queue => (ERR_NO_ERROR, { queue with send_type := BCAST })
  else some (ERR_NO_ERROR, queue)

/-- The statement `queue->bcst_tasks_awakened = 0` of `q_broadcast`
(queue.c:1380), which the caller makes after it has released `queue_lock` and
before it signals the waiters. No lock is held, so the fetch of a waiter that
has taken `queue_lock` meanwhile comes before it. -/
def q_broadcast_clear (queue : p2pt_queue_t) : p2pt_queue_t :=
  { queue with bcst_tasks_awakened := 0 }

/-- The start of `q_broadcast` on the schedule in which no waiter takes
`queue_lock` between its release at queue.c:1374 and the clearing of the
counter at queue.c:1380. -/
def q_broadcast_start (queue : p2pt_queue_t) (msg : q_msg_t) (ts_malloc : Option Int) :
    Option (Nat × p2pt_queue_t) :=
  (q_broadcast_send queue msg ts_malloc).map fun r => (r.1, q_broadcast_clear r.2)

/-- The end of `q_broadcast` (queue.c:1437), reached when the wait list is
empty: the value stored through `count`. -/
def q_broadcast_count (queue : p2pt_queue_t) : Nat := queue.bcst_tasks_awakened

/-- The waiters of a queue wake up and, one after the other in the order
given by their control-block addresses, find that `waiting_on_queue` ends
their wait, leave the wait list and fetch. The result is the status and
message of each and the queue afterwards; `none` when a task would go on
waiting. -/
def receivers_run (queue : p2pt_queue_t) :
    List Nat → Option (List (Nat × q_msg_t) × p2pt_queue_t)
  | [] => some ([], queue)
  | our_tcb :: rest =>
      if waiting_on_queue queue our_tcb then none
      else
        match q_receive_fetch queue our_tcb with
        | none => none
        | some r =>
            (receivers_run r.2.2 rest).map fun rs => ((r.1, r.2.1) :: rs.1, rs.2)

/-- A broadcast in progress: the send type is BCAST, the broadcast message
`msg` stands at `queue_head`, and `nxt` is the slot after `queue_head`. -/
structure Bcast (q : p2pt_queue_t) (msg : q_msg_t) (nxt : Int) : Prop where
  st : q.send_type = BCAST
  front : q.mem q.queue_head = msg
  cnt : q.msg_count > 0
  next : step_forward q q.queue_head = some nxt

/-- A capacity-4 queue that has grown a second extent at 8192: its head is at
the first slot of that extent, the messages 5 and 6 are queued there, and the
tasks 2, 5 and 8 are in its wait list. -/
def bcast_queue2 : p2pt_queue_t :=
  { flags := 0, queue_head := 8192, queue_tail := 8224, send_type := SEND,
    first_extent := [4096, 8192], last_msg_in_queue := 8240,
    first_susp := [⟨2, 10⟩, ⟨5, 15⟩, ⟨8, 20⟩],
    bcst_tasks_awakened := 0, msg_count := 2, msgs_per_extent := 4, total_extents := 2,
    mem := fun a => if a = 8192 then (5, 0, 0, 0) else if a = 8208 then (6, 0, 0, 0)
      else null_msg }

end Queue

namespace Queue

/-- The slot addresses `msgs[0] .. msgs[k - 1]` of an extent whose `msgs[0]`
is at `e`. -/
def extent_slots (e : Int) (k : Nat) : List Int :=
  (List.range k).map fun (i : Nat) => e + 16 * (i : Int)

/-- The slots of the extents after the first, `n` slots each, in chain order. -/
def rest_slots (n : Nat) : List Int → List Int
  | [] => []
  | e :: es => extent_slots e n ++ rest_slots n es

/-- All slots of a queue in the order in which the head and tail pointers go
through them: the `n + 1` slots of the first extent, then the `n` slots of each
further extent. -/
def queue_slots (e0 : Int) (rest : List Int) (n : Nat) : List Int :=
  extent_slots e0 (n + 1) ++ rest_slots n rest

/-- The slot to which `urgent_msg_to` moves a `queue_head` that stands at `p`. -/
def head_before (queue : p2pt_queue_t) (p : Int) : Option Int :=
  (urgent_msg_to { queue with queue_head := p } null_msg).map fun r => r.queue_head

/-- Slot `b` comes right after slot `a`: `fetch_msg_from` and `send_msg_to`
step from `a` to `b`, and `urgent_msg_to` steps the head back from `b` to `a`. -/
def slot_link (queue : p2pt_queue_t) (a b : Int) : Prop :=
  step_forward queue a = some b ∧ head_before queue b = some a

/-- The slots that the next `k` fetches read when the head stands at `p` and
nothing is sent meanwhile. -/
def queued_slots (queue : p2pt_queue_t) : Nat → Int → Option (List Int)
  | 0, _ => some []
  | k + 1, p =>
      match step_forward queue p with
      | none => none
      | some nxt => (queued_slots queue k nxt).map fun slots => p :: slots

/-- The queued messages in fetch order: the contents of the `msg_count` slots
from `queue_head` on. -/
def queued_msgs (queue : p2pt_queue_t) : Option (List q_msg_t) :=
  (queued_slots queue queue.msg_count.toNat queue.queue_head).map fun slots =>
    slots.map queue.mem

/-- The extent chain of a queue: `msgs[0]` of the first extent is at `e0` and
it has `n + 1` slots, the further extents `rest` have `n` slots each, the
extents do not overlap, and `last_msg_in_queue` is the last slot of the last
extent. -/
structure Extents (q : p2pt_queue_t) (e0 : Int) (rest : List Int) (n : Nat) : Prop where
  ext : q.first_extent = e0 :: rest
  per : q.msgs_per_extent = (n : Int)
  tot : q.total_extents = 1 + (rest.length : Int)
  lastq : (queue_slots e0 rest n).getLast? = some q.last_msg_in_queue
  apart_first : ∀ e ∈ rest, e0 + 16 * ((n : Int) + 1) ≤ e ∨ e + 16 * (n : Int) ≤ e0
  apart_rest : rest.Pairwise fun a b => a + 16 * (n : Int) ≤ b ∨ b + 16 * (n : Int) ≤ a
  npos : rest ≠ [] → 0 < n

end Queue

namespace VQueue

open Task

def SEND : Nat := 0
def BCAST : Nat := 1
def KILLD : Nat := 2

def Q_NOWAIT : Nat := 0x01
def Q_PRIOR : Nat := 0x02

def ERR_NO_ERROR : Nat := 0
def ERR_MSGSIZ : Nat := 0x31
def ERR_BUFSIZ : Nat := 0x32
def ERR_NOQCB : Nat := 0x33
def ERR_NOMGB : Nat := 0x34
def ERR_QFULL : Nat := 0x35
def ERR_QKILLD : Nat := 0x36
def ERR_NOMSG : Nat := 0x37

/-- One element of the data extent of a variable-length queue: the `msglen`
field of `q_vmsg_t` (vqueue.c:45) and the `msg_len` bytes of message data that
start at its `msgbuf` field. -/
structure q_vmsg_t where
  msglen : Nat
  msgbuf : List Nat
deriving DecidableEq, Repr

/-- The fields of `p2pt_vqueue_t` (vqueue.c:62) that the message code uses. A
`q_vmsg_t *` is the byte address of an element, elements are `vmsg_len` bytes
apart, and `mem` gives the element stored at an address. -/
structure p2pt_vqueue_t where
  flags : Nat
  queue_head : Int
  queue_tail : Int
  send_type : Nat
  first_msg_in_queue : Int
  last_msg_in_queue : Int
  first_susp : List p2pthread_cb_t
  bcst_tasks_awakened : Nat
  msg_count : Int
  msgs_per_queue : Int
  msg_len : Nat
  vmsg_len : Int
  mem : Int → q_vmsg_t

/-- The copy loops of `urgent_msg_to` and `send_msg_to` (vqueue.c:483, 518):
the first `msglen` bytes of the destination are overwritten with the bytes of
the source; the copy ends where either runs out. -/
def copy_bytes : Nat → List Nat → List Nat → List Nat
  | 0, _, dst => dst
  | _ + 1, [], dst => dst
  | _ + 1, _ :: _, [] => []
  | msglen + 1, b :: src, _ :: dst => b :: copy_bytes msglen src dst

/-- The element that `send_msg_to` and `urgent_msg_to` leave at the slot they
write: the message bytes copied over the old data (when `msg` is not null) and
the new `msglen`. -/
def store_msg (old : q_vmsg_t) (msg : List Nat) (msglen : Nat) : q_vmsg_t :=
  { msglen := msglen, msgbuf := copy_bytes msglen msg old.msgbuf }

/-- `urgent_msg_to` (vqueue.c:447) with a non-null `msg`. -/
def urgent_msg_to (queue : p2pt_vqueue_t) (msg : List Nat) (msglen : Nat) : p2pt_vqueue_t :=
  let queue_head :=
    if queue.queue_head - queue.vmsg_len < queue.first_msg_in_queue then queue.last_msg_in_queue
    else queue.queue_head - queue.vmsg_len
  { queue with
    queue_head := queue_head
    mem := Function.update queue.mem queue_head (store_msg (queue.mem queue_head) msg msglen)
    msg_count := queue.msg_count + 1 }

/-- `send_msg_to` (vqueue.c:504) with a non-null `msg`. -/
def send_msg_to (queue : p2pt_vqueue_t) (msg : List Nat) (msglen : Nat) : p2pt_vqueue_t :=
  { queue with
    mem := Function.update queue.mem queue.queue_tail
      (store_msg (queue.mem queue.queue_tail) msg msglen)
    queue_tail :=
      if queue.queue_tail + queue.vmsg_len > queue.last_msg_in_queue then
        queue.first_msg_in_queue
      else queue.queue_tail + queue.vmsg_len
    msg_count := queue.msg_count + 1 }

/-- `fetch_msg_from` (vqueue.c:565) with non-null `msg` and `msglen`: the
result is the `msglen` bytes copied to the caller, the length stored through
`msglen`, and the queue afterwards. A broadcast fetch counts the awakened task;
the element is cleared and the head advanced for a normal send, or when the
wait list is empty, and then a send type other than SEND is set back to SEND. -/
def fetch_msg_from (queue : p2pt_vqueue_t) : List Nat × Nat × p2pt_vqueue_t :=
  let head := queue.mem queue.queue_head
  let queue :=
    if queue.send_type = BCAST then
      { queue with bcst_tasks_awakened := queue.bcst_tasks_awakened + 1 }
    else queue
  if queue.send_type = SEND ∨ queue.first_susp = [] then
    (head.msgbuf.take head.msglen, head.msglen, { queue with
      mem := Function.update queue.mem queue.queue_head
        { msglen := 0, msgbuf := head.msgbuf.set 0 0 }
      queue_head :=
        if queue.queue_head + queue.vmsg_len > queue.last_msg_in_queue then
          queue.first_msg_in_queue
        else queue.queue_head + queue.vmsg_len
      msg_count := queue.msg_count - 1
      send_type := if queue.send_type ≠ SEND then SEND else queue.send_type })
  else (head.msgbuf.take head.msglen, head.msglen, queue)

/-- `data_extent_for` (vqueue.c:668). An element is the 4-byte `msglen`
followed by `msg_len` data bytes; `vmsg_len` and `alloc_size` are `size_t`
values of 32 bits, so the element size and the size of the block of
`msgs_per_queue + 1` elements are taken modulo `2 ^ 32`. The elements that lie
in the block of `alloc_size` bytes are cleared. `ts_malloc` is the allocator's
answer, `none` for a null pointer. Addresses are integers without a limit. -/
def data_extent_for (queue : p2pt_vqueue_t) (ts_malloc : Option Int) :
    Option Int × p2pt_vqueue_t :=
  let vmsg_len : Int := (4 + (queue.msg_len : Int)) % 4294967296
  let queue := { queue with vmsg_len := vmsg_len }
  let alloc_size : Int := (vmsg_len * (queue.msgs_per_queue + 1)) % 4294967296
  match ts_malloc with
  | none => (none, queue)
  | some new_extent =>
      (some new_extent, { queue with
        mem := fun a =>
          if new_extent ≤ a ∧ a + vmsg_len ≤ new_extent + alloc_size then
            { msglen := 0, msgbuf := List.replicate queue.msg_len 0 }
          else queue.mem a
        first_msg_in_queue := new_extent
        last_msg_in_queue := new_extent + (vmsg_len * queue.msgs_per_queue) % 4294967296 })

/-- `q_vcreate` (vqueue.c:720). `qcb` tells whether the control block was
allocated, `ts_malloc` is the result of the extent allocation and `mem` the
memory before the call. `msgs_per_queue` is an `int` and gets the `ULONG`
`qsize` converted. -/
def q_vcreate (opt qsize msglen : Nat) (qcb : Bool) (ts_malloc : Option Int)
    (mem : Int → q_vmsg_t) : Nat × Option p2pt_vqueue_t :=
  if qcb then
    let queue : p2pt_vqueue_t :=
      { flags := opt, queue_head := 0, queue_tail := 0, send_type := SEND,
        first_msg_in_queue := 0, last_msg_in_queue := 0, first_susp := [],
        bcst_tasks_awakened := 0, msg_count := 0, msgs_per_queue := ulong_to_int qsize,
        msg_len := msglen, vmsg_len := 0, mem := mem }
    match data_extent_for queue ts_malloc with
    | (some _, queue) =>
        (ERR_NO_ERROR, some { queue with
          queue_head := queue.first_msg_in_queue
          queue_tail := queue.first_msg_in_queue
          send_type := SEND
          first_susp := []
          bcst_tasks_awakened := 0
          msg_count := 0 })
    | (none, _) => (ERR_NOMGB, none)
  else (ERR_NOQCB, none)

/-- `q_vurgent` (vqueue.c:871) on an existing queue. -/
def q_vurgent (queue : p2pt_vqueue_t) (msgbuf : List Nat) (msglen : Nat) :
    Nat × p2pt_vqueue_t :=
  if msglen > queue.msg_len then (ERR_MSGSIZ, queue)
  else if queue.msg_count > queue.msgs_per_queue then (ERR_QFULL, queue)
  else (ERR_NO_ERROR, urgent_msg_to queue msgbuf msglen)

/-- `q_vsend` (vqueue.c:960) on an existing queue. -/
def q_vsend (queue : p2pt_vqueue_t) (msgbuf : List Nat) (msglen : Nat) :
    Nat × p2pt_vqueue_t :=
  if msglen > queue.msg_len then (ERR_MSGSIZ, queue)
  else if queue.msg_count > queue.msgs_per_queue then (ERR_QFULL, queue)
  else if queue.msg_count = queue.msgs_per_queue then
    if queue.msgs_per_queue = 0 ∧ queue.first_susp ≠ [] then
      (ERR_NO_ERROR, send_msg_to queue msgbuf msglen)
    else (ERR_QFULL, queue)
  else (ERR_NO_ERROR, send_msg_to queue msgbuf msglen)

/-- One evaluation of `waiting_on_vqueue` (vqueue.c:1321) by the task at
`my_tcb` up to its first decision; FALSE means the wait is over. -/
def waiting_on_vqueue (queue : p2pt_vqueue_t) (my_tcb : Nat) : Bool :=
  if queue.send_type &&& KILLD ≠ 0 then false
  else if queue.msg_count > 0 then
    !(decide (queue.send_type &&& BCAST ≠ 0) ||
      signal_for_my_task queue.first_susp ((queue.flags &&& Q_PRIOR : Nat) : Int) my_tcb)
  else true

/-- The end of `q_vreceive` (vqueue.c:1547) for a task whose wait is over with
`retcode` 0: it leaves the wait list and fetches; on a killed queue the status
is `ERR_QKILLD`. The result is status, bytes, length and queue. -/
def q_vreceive_fetch (queue : p2pt_vqueue_t) (our_tcb : Nat) :
    Nat × List Nat × Nat × p2pt_vqueue_t :=
  let queue := { queue with first_susp := unlink_susp_tcb queue.first_susp our_tcb }
  (if queue.send_type &&& KILLD ≠ 0 then ERR_QKILLD else ERR_NO_ERROR, fetch_msg_from queue)

/-- `q_vreceive` (vqueue.c:1419) with `Q_NOWAIT` and a buffer of `buflen`
bytes on a queue in SEND mode, run without another task changing the queue
meanwhile. The result is the status, the message received (if any) and the
queue. -/
def q_vreceive_nowait (queue : p2pt_vqueue_t) (our_tcb : p2pthread_cb_t) (buflen : Nat) :
    Nat × Option (List Nat × Nat) × p2pt_vqueue_t :=
  if buflen < queue.msg_len then (ERR_BUFSIZ, none, queue)
  else
    let queue := { queue with first_susp := link_susp_tcb queue.first_susp our_tcb }
    if waiting_on_vqueue queue our_tcb.addr then
      (ERR_NOMSG, none,
        { queue with first_susp := unlink_susp_tcb queue.first_susp our_tcb.addr })
    else
      let r := q_vreceive_fetch queue our_tcb.addr
      (r.1, some (r.2.1, r.2.2.1), r.2.2.2)

/-- A call on a variable-length queue: `q_vsend` and `q_vurgent` with the
message (its length is the `msglen` argument), `q_vreceive` with `Q_NOWAIT` by
a task with a buffer of `buflen` bytes. -/
inductive vq_call where
  | vsend (msg : List Nat)
  | vurgent (msg : List Nat)
  | vreceive (our_tcb : p2pthread_cb_t) (buflen : Nat)

/-- The status, the message and length received (if any) and the queue after a
call. -/
def vq_step (queue : p2pt_vqueue_t) : vq_call → (Nat × Option (List Nat × Nat)) × p2pt_vqueue_t
  | .vsend msg => (((q_vsend queue msg msg.length).1, none), (q_vsend queue msg msg.length).2)
  | .vurgent msg =>
      (((q_vurgent queue msg msg.length).1, none), (q_vurgent queue msg msg.length).2)
  | .vreceive our_tcb buflen =>
      (((q_vreceive_nowait queue our_tcb buflen).1, (q_vreceive_nowait queue our_tcb buflen).2.1),
        (q_vreceive_nowait queue our_tcb buflen).2.2)

/-- A sequence of calls: the list of their results and the final queue. -/
def vq_run (queue : p2pt_vqueue_t) :
    List vq_call → List (Nat × Option (List Nat × Nat)) × p2pt_vqueue_t
  | [] => ([], queue)
  | call :: calls =>
      ((vq_step queue call).1 :: (vq_run (vq_step queue call).2 calls).1,
        (vq_run (vq_step queue call).2 calls).2)

/-- The specification of a variable-length queue of capacity `n` and maximum
message length `L`, in the words of the claim: a list of messages; a message
longer than `L` is refused with `ERR_MSGSIZ`; `q_vsend` appends iff fewer than
`n` are queued, `q_vurgent` puts in front iff at most `n` are queued, each
otherwise answers `ERR_QFULL` and changes nothing; a receive with a buffer
shorter than `L` is refused with `ERR_BUFSIZ`, otherwise it takes the front
message with its bytes and its length, or answers `ERR_NOMSG` on the empty list. -/
def vlist_step (n L : Nat) (msgs : List (List Nat)) :
    vq_call → (Nat × Option (List Nat × Nat)) × List (List Nat)
  | .vsend msg =>
      if msg.length > L then ((ERR_MSGSIZ, none), msgs)
      else if msgs.length < n then ((ERR_NO_ERROR, none), msgs ++ [msg])
      else ((ERR_QFULL, none), msgs)
  | .vurgent msg =>
      if msg.length > L then ((ERR_MSGSIZ, none), msgs)
      else if msgs.length ≤ n then ((ERR_NO_ERROR, none), msg :: msgs)
      else ((ERR_QFULL, none), msgs)
  | .vreceive _ buflen =>
      if buflen < L then ((ERR_BUFSIZ, none), msgs)
      else
        match msgs with
        | [] => ((ERR_NOMSG, none), [])
        | msg :: rest => ((ERR_NO_ERROR, some (msg, msg.length)), rest)

/-- The list specification run over a sequence of calls. -/
def vlist_run (n L : Nat) (msgs : List (List Nat)) :
    List vq_call → List (Nat × Option (List Nat × Nat)) × List (List Nat)
  | [] => ([], msgs)
  | call :: calls =>
      ((vlist_step n L msgs call).1 :: (vlist_run n L (vlist_step n L msgs call).2 calls).1,
        (vlist_run n L (vlist_step n L msgs call).2 calls).2)

/-- The slot index `i` places after index `h` in a ring of `n + 1` slots. -/
def ring_slot (n h i : Nat) : Nat := if h + i ≤ n then h + i else h + i - (n + 1)

/-- The address of element `k` of the data extent at `first` with elements
`stride` bytes apart. -/
def slot_addr (first stride : Int) (k : Nat) : Int := first + stride * (k : Int)

/-- The message a fetch would copy out of an element. -/
def slot_msg (e : q_vmsg_t) : List Nat := e.msgbuf.take e.msglen

/-- The elements a variable-length queue holds, read from the head on in
fetch order: `count` slots of the ring of `n + 1` elements at `first`,
starting at slot `h`. -/
def vring_elems (mem : Int → q_vmsg_t) (first stride : Int) (n h count : Nat) : List q_vmsg_t :=
  (List.range count).map fun i => mem (slot_addr first stride (ring_slot n h i))

/-- The state of a variable-length queue of capacity `n` and message length
`L` whose extent is at `first`, in SEND mode with nobody waiting, with its
head at slot `h` and holding the messages `msgs` in fetch order. -/
structure VRing (q : p2pt_vqueue_t) (opt : Nat) (first : Int) (n L h : Nat)
    (msgs : List (List Nat)) : Prop where
  flags : q.flags = opt
  fst : q.first_msg_in_queue = first
  lst : q.last_msg_in_queue = slot_addr first (4 + (L : Int)) n
  per : q.msgs_per_queue = (n : Int)
  len : q.msg_len = L
  vlen : q.vmsg_len = 4 + (L : Int)
  st : q.send_type = SEND
  susp : q.first_susp = []
  hh : h ≤ n
  head : q.queue_head = slot_addr first (4 + (L : Int)) h
  cnt : q.msg_count = (msgs.length : Int)
  cle : msgs.length ≤ n + 1
  tail : q.queue_tail = slot_addr first (4 + (L : Int)) (ring_slot n h msgs.length)
  room : ∀ k, k ≤ n → (q.mem (slot_addr first (4 + (L : Int)) k)).msgbuf.length = L
  contents :
    (vring_elems q.mem first (4 + (L : Int)) n h msgs.length).map
        (fun e => (slot_msg e, e.msglen)) =
      msgs.map fun m => (m, m.length)

/-- The sixteen bytes of message `i` of the validation run. -/
def vmsg (i : Nat) : List Nat := i :: List.replicate 15 0

/-- Nine 16-byte `q_vsend` calls, messages 1 to 9, as the validation run makes
on each variable-length queue. -/
def nine_vsends : List vq_call := (List.range 9).map fun i => vq_call.vsend (vmsg (i + 1))

end VQueue

namespace VQueue

open Task

/-- `q_vbroadcast` (vqueue.c:1065) from its start to the point where the caller
waits for the wait list to drain: with `queue_lock` held and tasks waiting, a
full queue gives `ERR_QFULL`, otherwise the message is put in front, the send
type becomes BCAST and `bcst_tasks_awakened` is cleared; with no task waiting
nothing is done. The result is the status and the queue. -/
def q_vbroadcast_send (queue : p2pt_vqueue_t) (msgbuf : List Nat) (msglen : Nat) :
    Nat × p2pt_vqueue_t :=
  if queue.first_susp ≠ [] then
    if queue.msg_count > queue.msgs_per_queue then (ERR_QFULL, queue)
    else
      (ERR_NO_ERROR, { urgent_msg_to queue msgbuf msglen with
        send_type := BCAST
        bcst_tasks_awakened := 0 })
  else (ERR_NO_ERROR, queue)

/-- The end of `q_vbroadcast` (vqueue.c:1168), reached when the wait list is
empty: the value stored through `tasks`. -/
def q_vbroadcast_count (queue : p2pt_vqueue_t) : Nat := queue.bcst_tasks_awakened

/-- The waiters of a variable-length queue wake up and, one after the other in
the order given by their control-block addresses, find that
`waiting_on_vqueue` ends their wait, leave the wait list and fetch. The result
is the status, bytes and length for each and the queue afterwards; `none` when
a task would go on waiting. -/
def vreceivers_run (queue : p2pt_vqueue_t) :
    List Nat → Option (List (Nat × List Nat × Nat) × p2pt_vqueue_t)
  | [] => some ([], queue)
  | our_tcb :: rest =>
      if waiting_on_vqueue queue our_tcb then none
      else
        (vreceivers_run (q_vreceive_fetch queue our_tcb).2.2.2 rest).map fun rs =>
          (((q_vreceive_fetch queue our_tcb).1, (q_vreceive_fetch queue our_tcb).2.1,
            (q_vreceive_fetch queue our_tcb).2.2.1) :: rs.1, rs.2)

/-- The queue that `q_vcreate` builds for capacity 4 and 16-byte messages when
the allocator places the data extent at 4096. -/
def vlq1 : p2pt_vqueue_t :=
  { flags := 0, queue_head := 4096, queue_tail := 4096, send_type := SEND,
    first_msg_in_queue := 4096, last_msg_in_queue := 4176, first_susp := [],
    bcst_tasks_awakened := 0, msg_count := 0, msgs_per_queue := 4, msg_len := 16,
    vmsg_len := 20,
    mem := fun a =>
      if 4096 ≤ a ∧ a + 20 ≤ 4096 + 100 then
        { msglen := 0, msgbuf := List.replicate 16 0 }
      else { msglen := 0, msgbuf := [] } }

/-- The queue `vlq1` with the tasks 3, 6 and 9 in its wait list. -/
def vlq1_waited : p2pt_vqueue_t :=
  { vlq1 with first_susp := [⟨3, 10⟩, ⟨6, 15⟩, ⟨9, 20⟩] }

/-- The queue `vlq1_waited` after a `q_vbroadcast` of message 10 whose three
waiters have left in the order 3, 6, 9; `vlq1` when that run is not possible. -/
def vlq1_after_broadcast : p2pt_vqueue_t :=
  match vreceivers_run (q_vbroadcast_send vlq1_waited (vmsg 10) 16).2 [3, 6, 9] with
  | some r => r.2
  | none => vlq1

end VQueue

namespace Sema4

open Task

def SM_PRIOR : Nat := 0x02
def SM_NOWAIT : Nat := 0x01

def ERR_NO_ERROR : Nat := 0
def ERR_TIMEOUT : Nat := 0x01
def ERR_NOSCB : Nat := 0x41
def ERR_NOSEM : Nat := 0x42
def ERR_SKILLD : Nat := 0x43

def SEND : Nat := 0
def KILLD : Nat := 2

/-- The value `pthread_cond_timedwait` returns when the time has run out. -/
def ETIMEDOUT : Nat := 110

/-- `SEM_VALUE_MAX` of glibc and of LinuxThreads, the `INT_MAX` of the host.
The functions below take the limit as their first argument
`sem_value_max`. -/
def linux_sem_value_max : Nat := 2147483647

/-- The fields of `p2pt_sema4_t` (sema4.c:46) that `sm_v` and `sm_p` use.
`pthread_sema4` is the value of the POSIX semaphore. -/
structure p2pt_sema4_t where
  flags : Nat
  pthread_sema4 : Int
  send_type : Nat
  first_susp : List p2pthread_cb_t

/-- POSIX `sem_init`: the status and the value of the semaphore. A value of
at most `SEM_VALUE_MAX` is stored and the call returns 0; for a greater value
the call returns -1 and the semaphore is left as `sem`, what it held before. -/
def sem_init (sem_value_max : Nat) (sem : Int) (value : Nat) : Int × Int :=
  if value ≤ sem_value_max then (0, (value : Int)) else (-1, sem)

/-- POSIX `sem_post`: the status and the value of the semaphore. Below
`SEM_VALUE_MAX` there is one token more and the call returns 0; at
`SEM_VALUE_MAX` the value stays and the call returns -1. -/
def sem_post (sem_value_max : Nat) (sem : Int) : Int × Int :=
  if sem < (sem_value_max : Int) then (0, sem + 1) else (-1, sem)

/-- POSIX `sem_trywait`: when the value is positive it is decremented and the
call returns 0; otherwise the value stays and the call returns -1. -/
def sem_trywait (sem : Int) : Int × Int := if sem > 0 then (0, sem - 1) else (-1, sem)

/-- `sm_create` (sema4.c:380) when the control block is allocated: the flags,
`sem_init` with the count, SEND mode, no waiter. `sem` is what the block holds
in `pthread_sema4` when the allocator hands it out. When `sem_init` fails,
`sm_create` prints the reason and goes on (sema4.c:447), so the semaphore is
created all the same, with the value it held. -/
def sm_create (sem_value_max count opt : Nat) (sem : Int) : p2pt_sema4_t :=
  { flags := opt, pthread_sema4 := (sem_init sem_value_max sem count).2, send_type := SEND,
    first_susp := [] }

/-- Where a call of `sm_p` stands between two sections it runs with
`sema4_lock` held: asleep in the `tm_wkafter` of `waiting_on_sema4`, blocked in
the condition wait of `sm_p`, or returned with a status. -/
inductive sm_pc where
  | sleeping
  | blocked
  | returned (error : Nat)
deriving DecidableEq, Repr

/-- The local variables of one call of `sm_p` (sema4.c:755). -/
structure sm_p_call where
  our_tcb : p2pthread_cb_t
  opt : Nat
  max_wait : Nat
  retcode : Nat
  pc : sm_pc

/-- The call passes a timeout to `waiting_on_sema4`: always with SM_NOWAIT,
otherwise when `max_wait` is not zero. -/
def has_timeout (call : sm_p_call) : Bool :=
  decide (call.opt &&& SM_NOWAIT ≠ 0) || decide (call.max_wait ≠ 0)

/-- The end of `sm_p` (sema4.c:861): the caller leaves the wait list; a killed
semaphore gives `ERR_SKILLD` (and the last waiter out sets SEND again), a
`retcode` of `ETIMEDOUT` gives `ERR_NOSEM` with SM_NOWAIT and `ERR_TIMEOUT`
without, anything else is success. -/
def sm_p_finish (semaphore : p2pt_sema4_t) (call : sm_p_call) : p2pt_sema4_t × sm_p_call :=
  let semaphore :=
    { semaphore with first_susp := unlink_susp_tcb semaphore.first_susp call.our_tcb.addr }
  if semaphore.send_type &&& KILLD ≠ 0 then
    (if semaphore.first_susp = [] then { semaphore with send_type := SEND } else semaphore,
      { call with pc := .returned ERR_SKILLD })
  else if call.retcode = ETIMEDOUT then
    (semaphore, { call with
      pc := .returned (if call.opt &&& SM_NOWAIT ≠ 0 then ERR_NOSEM else ERR_TIMEOUT) })
  else (semaphore, { call with pc := .returned ERR_NO_ERROR })

/-- `waiting_on_sema4` has returned 1 to the loop of `sm_p`: a call with a
timeout whose `retcode` is `ETIMEDOUT` leaves the loop, every other call goes
into the condition wait. -/
def sm_p_no_token (semaphore : p2pt_sema4_t) (call : sm_p_call) : p2pt_sema4_t × sm_p_call :=
  if has_timeout call ∧ call.retcode = ETIMEDOUT then sm_p_finish semaphore call
  else (semaphore, { call with pc := .blocked })

/-- One pass through the `while` of `waiting_on_sema4` (sema4.c:686):
`sem_trywait`; without a token the result is 1; with a token the caller either
is the task `signal_for_my_task` designates (result 0, `retcode` 0, and `sm_p`
finishes) or puts the token back with `sem_post` and goes to sleep. -/
def sm_p_try (sem_value_max : Nat) (semaphore : p2pt_sema4_t) (call : sm_p_call) :
    p2pt_sema4_t × sm_p_call :=
  if (sem_trywait semaphore.pthread_sema4).1 = 0 then
    let semaphore := { semaphore with pthread_sema4 := (sem_trywait semaphore.pthread_sema4).2 }
    if signal_for_my_task semaphore.first_susp ((semaphore.flags &&& SM_PRIOR : Nat) : Int)
        call.our_tcb.addr then
      sm_p_finish semaphore { call with retcode := 0 }
    else
      ({ semaphore with pthread_sema4 := (sem_post sem_value_max semaphore.pthread_sema4).2 },
        { call with pc := .sleeping })
  else sm_p_no_token semaphore call

/-- `waiting_on_sema4` (sema4.c:656) from its start: a killed semaphore ends
the wait with `retcode` 0, otherwise the `while` is entered. -/
def sm_p_check (sem_value_max : Nat) (semaphore : p2pt_sema4_t) (call : sm_p_call) :
    p2pt_sema4_t × sm_p_call :=
  if semaphore.send_type &&& KILLD ≠ 0 then sm_p_finish semaphore { call with retcode := 0 }
  else sm_p_try sem_value_max semaphore call

/-- The start of `sm_p` (sema4.c:755) on an existing semaphore: the caller
joins the wait list, `retcode` is 0 and `waiting_on_sema4` is evaluated. -/
def sm_p_enter (sem_value_max : Nat) (semaphore : p2pt_sema4_t) (our_tcb : p2pthread_cb_t)
    (opt max_wait : Nat) : p2pt_sema4_t × sm_p_call :=
  sm_p_check sem_value_max
    { semaphore with first_susp := link_susp_tcb semaphore.first_susp our_tcb }
    { our_tcb := our_tcb, opt := opt, max_wait := max_wait, retcode := 0, pc := .blocked }

/-- A call of `sm_p` goes on after it has taken `sema4_lock` again. Out of the
sleep in `waiting_on_sema4`, a call with a timeout that has `expired` leaves
the `while` with result 1, any other call makes the next pass. Out of the
condition wait, a timed wait stores its return value `rc` in `retcode`, and
`waiting_on_sema4` is evaluated again. -/
def sm_p_resume (sem_value_max : Nat) (semaphore : p2pt_sema4_t) (call : sm_p_call)
    (expired : Bool) (rc : Nat) : p2pt_sema4_t × sm_p_call :=
  match call.pc with
  | .sleeping =>
      if has_timeout call ∧ expired then sm_p_no_token semaphore call
      else sm_p_try sem_value_max semaphore call
  | .blocked =>
      sm_p_check sem_value_max semaphore
        { call with retcode := if has_timeout call then rc else call.retcode }
  | .returned _ => (semaphore, call)

end Sema4

namespace MemBlk

def PT_DEL : Nat := 0x04

def ERR_NO_ERROR : Nat := 0
def ERR_OBJDEL : Nat := 0x05
def ERR_OBJTFULL : Nat := 0x08
def ERR_BUFSIZE : Nat := 0x29
def ERR_BUFINUSE : Nat := 0x2B
def ERR_NOBUF : Nat := 0x2C
def ERR_BUFADDR : Nat := 0x2D
def ERR_BUFFREE : Nat := 0x2F

/-- `ULONG` arithmetic: the value modulo `2 ^ 32`. -/
def ulong (x : Int) : Nat := (x % 4294967296).toNat

/-- The fields of `p2pt_prtn_t` (memblk.c:48) and of its `prtn_extent_t` that
the block code uses. An address is a natural number and 0 is the null pointer.
`mem a` is the pointer stored in the link cell that starts at address `a`;
link cells at different addresses are taken to be apart, which holds for the
starts of blocks since a block is at least as long as a pointer. -/
structure p2pt_prtn_t where
  flags : Nat
  first_free : Nat
  last_free : Nat
  free_blk_count : Nat
  used_blk_count : Nat
  blk_size : Nat
  baddr : Nat
  bcount : Nat
  mem : Nat → Nat

/-- The `for` loop of `new_extent_for` (memblk.c:424): while the block after
`block_ptr` still starts before `limit`, its address is written into the link
cell of `block_ptr` and the loop moves on. `rounds` bounds the number of
passes; the number of blocks is enough for a block size above zero. The result
is the final `block_ptr` and the memory. -/
def link_blocks (blk_size limit : Nat) : Nat → Nat → (Nat → Nat) → Nat × (Nat → Nat)
  | 0, block_ptr, mem => (block_ptr, mem)
  | rounds + 1, block_ptr, mem =>
      if block_ptr + blk_size < limit then
        link_blocks blk_size limit rounds (block_ptr + blk_size)
          (Function.update mem block_ptr (block_ptr + blk_size))
      else (block_ptr, mem)

/-- `new_extent_for` (memblk.c:385). `ts_malloc` tells whether the extent
control block was allocated. With a non-null `datablk` the data area is
cleared, the blocks are linked, `first_free` is `datablk`, `last_free` is where
the loop stopped and `free_blk_count` is `numblks`. The result is `none` for a
null extent. -/
def new_extent_for (prtn : p2pt_prtn_t) (datablk numblks : Nat) (ts_malloc : Bool) :
    Option p2pt_prtn_t :=
  if ts_malloc then
    if datablk ≠ 0 then
      let extent_data_size := ulong (prtn.blk_size * numblks)
      let cleared : Nat → Nat := fun a =>
        if datablk ≤ a ∧ a < datablk + extent_data_size then 0 else prtn.mem a
      let linked := link_blocks prtn.blk_size (datablk + extent_data_size) numblks datablk cleared
      some { prtn with
        baddr := datablk
        bcount := numblks
        mem := linked.2
        first_free := datablk
        last_free := linked.1
        free_blk_count := numblks }
    else none
  else none

/-- What `pt_create` leaves behind: the status, the partition when one was
linked into the partition list, the value stored through `nbuf`, and the
memory, which the call may have written even when it fails. -/
structure pt_create_result where
  error : Nat
  prtn : Option p2pt_prtn_t
  nbuf : Option Nat
  mem : Nat → Nat

/-- `pt_create` (memblk.c:477). `pcb` and `ts_malloc` tell whether the control
block and the extent control block were allocated, `mem` is the memory before
the call. The result is `none` when the call divides by a zero block size. -/
def pt_create (paddr length bsize flags : Nat) (pcb ts_malloc : Bool) (mem : Nat → Nat) :
    Option pt_create_result :=
  if pcb then
    let error := if bsize % 2 ≠ 0 ∨ bsize < 4 then ERR_BUFSIZE else ERR_NO_ERROR
    let prtn : p2pt_prtn_t :=
      { flags := 0, first_free := 0, last_free := 0, free_blk_count := 0,
        used_blk_count := 0, blk_size := bsize, baddr := 0, bcount := 0, mem := mem }
    if bsize = 0 then none
    else
      match new_extent_for prtn paddr (length / bsize) ts_malloc with
      | some prtn =>
          let prtn := { prtn with flags := flags }
          if error = ERR_NO_ERROR then
            some { error := error, prtn := some prtn, nbuf := some prtn.free_blk_count,
                   mem := prtn.mem }
          else some { error := error, prtn := none, nbuf := none, mem := prtn.mem }
      | none => some { error := ERR_OBJTFULL, prtn := none, nbuf := none, mem := mem }
  else some { error := ERR_OBJTFULL, prtn := none, nbuf := none, mem := mem }

/-- `pt_getbuf` (memblk.c:689) on an existing partition: the status, the
address stored through `bufaddr`, and the partition afterwards. -/
def pt_getbuf (prtn : p2pt_prtn_t) : Nat × Nat × p2pt_prtn_t :=
  if prtn.first_free ≠ 0 then
    (ERR_NO_ERROR, prtn.first_free, { prtn with
      first_free := prtn.mem prtn.first_free
      free_blk_count := ulong ((prtn.free_blk_count : Int) - 1)
      used_blk_count := ulong ((prtn.used_blk_count : Int) + 1) })
  else (ERR_NOBUF, 0, prtn)

/-- The search loop of `pt_retbuf` (memblk.c:817) from `blk_ptr` on: `some
true` when `bufaddr` is met, `some false` when the null link is reached first,
`none` when neither happens within `rounds` links. -/
def on_free_list (mem : Nat → Nat) (bufaddr : Nat) : Nat → Nat → Option Bool
  | 0, _ => none
  | rounds + 1, blk_ptr =>
      if blk_ptr = 0 then some false
      else if blk_ptr = bufaddr then some true
      else on_free_list mem bufaddr rounds (mem blk_ptr)

/-- `pt_retbuf` (memblk.c:777) on an existing partition, with `rounds` links
allowed to the search of the free list: the status and the partition
afterwards; `none` when the search does not end, or when the store through
`last_free` would go through a null pointer. -/
def pt_retbuf (rounds : Nat) (prtn : p2pt_prtn_t) (bufaddr : Nat) :
    Option (Nat × p2pt_prtn_t) :=
  let extent_size := ulong (prtn.bcount * prtn.blk_size)
  if bufaddr = prtn.baddr ∨ (bufaddr > prtn.baddr ∧ bufaddr < prtn.baddr + extent_size) then
    match on_free_list prtn.mem bufaddr rounds prtn.first_free with
    | none => none
    | some true => some (ERR_BUFFREE, prtn)
    | some false =>
        if prtn.last_free = 0 then none
        else
          some (ERR_NO_ERROR, { prtn with
            mem := Function.update (Function.update prtn.mem bufaddr 0) prtn.last_free bufaddr
            last_free := bufaddr
            first_free := if prtn.first_free = 0 then bufaddr else prtn.first_free
            free_blk_count := ulong ((prtn.free_blk_count : Int) + 1)
            used_blk_count := ulong ((prtn.used_blk_count : Int) - 1) })
  else some (ERR_BUFADDR, prtn)

/-- A call on a partition: `pt_getbuf`, or `pt_retbuf` with a buffer address. -/
inductive pt_call where
  | getbuf
  | retbuf (bufaddr : Nat)

/-- The status, the address handed out (0 for `pt_retbuf`) and the partition
after a call. -/
def pt_step (rounds : Nat) (prtn : p2pt_prtn_t) : pt_call → Option ((Nat × Nat) × p2pt_prtn_t)
  | .getbuf => some (((pt_getbuf prtn).1, (pt_getbuf prtn).2.1), (pt_getbuf prtn).2.2)
  | .retbuf bufaddr => (pt_retbuf rounds prtn bufaddr).map fun r => ((r.1, 0), r.2)

/-- A sequence of calls: the list of their results and the final partition. -/
def pt_run (rounds : Nat) (prtn : p2pt_prtn_t) :
    List pt_call → Option (List (Nat × Nat) × p2pt_prtn_t)
  | [] => some ([], prtn)
  | call :: calls =>
      match pt_step rounds prtn call with
      | none => none
      | some (r, prtn) =>
          match pt_run rounds prtn calls with
          | none => none
          | some (rs, prtn) => some (r :: rs, prtn)

/-- The free list of a partition as a list of block addresses: following the
link cells from `first` visits exactly the addresses of `blocks` and then the
null pointer. -/
def is_free_list (mem : Nat → Nat) : Nat → List Nat → Prop
  | first, [] => first = 0
  | first, a :: rest => first = a ∧ a ≠ 0 ∧ is_free_list mem (mem a) rest

/-- The address is the start of one of the `n` blocks of `bsize` bytes at
`base`. -/
def is_block (base bsize n a : Nat) : Prop :=
  base ≤ a ∧ (a - base) % bsize = 0 ∧ (a - base) / bsize < n

instance (base bsize n a : Nat) : Decidable (is_block base bsize n a) := by
  unfold is_block
  infer_instance

/-- A `pt_retbuf` argument that the block accounting can take: an address
outside the data area, or the start of a block, except the block `last_free`
still points to when the free list is empty. -/
def ret_ok (prtn : p2pt_prtn_t) (bufaddr : Nat) : Bool :=
  decide (bufaddr < prtn.baddr ∨ prtn.baddr + prtn.bcount * prtn.blk_size ≤ bufaddr) ||
    (decide (is_block prtn.baddr prtn.blk_size prtn.bcount bufaddr) &&
      !(decide (prtn.first_free = 0) && decide (prtn.last_free = bufaddr)))

/-- Every `pt_retbuf` of the sequence has an argument that satisfies `ret_ok`
in the state in which it is made. -/
def calls_ok (rounds : Nat) (prtn : p2pt_prtn_t) : List pt_call → Bool
  | [] => true
  | .getbuf :: calls => calls_ok rounds (pt_getbuf prtn).2.2 calls
  | .retbuf bufaddr :: calls =>
      ret_ok prtn bufaddr &&
        match pt_retbuf rounds prtn bufaddr with
        | none => true
        | some r => calls_ok rounds r.2 calls

/-- The state of a partition of `n ≥ 1` blocks of `bs` bytes at `base` whose
free list is `fl`: the list is made of distinct blocks of the partition, the
counters agree with it, and `last_free` is its last block when it has one. -/
structure Accounted (p : p2pt_prtn_t) (base bs n : Nat) (fl : List Nat) : Prop where
  baddr : p.baddr = base
  bcount : p.bcount = n
  bsize : p.blk_size = bs
  bpos : 0 < bs
  basepos : 0 < base
  npos : 0 < n
  fits : base + n * bs < 4294967296
  chain : is_free_list p.mem p.first_free fl
  nodup : fl.Nodup
  blocks : ∀ a ∈ fl, is_block base bs n a
  free : p.free_blk_count = fl.length
  used : p.used_blk_count + fl.length = n
  last : ∀ a, fl.getLast? = some a → p.last_free = a
  lastnz : p.last_free ≠ 0

/-- The addresses of the blocks `j, j + 1, ..` of a partition, `m` of them. -/
def blocks_from (base bs j : Nat) : Nat → List Nat
  | 0 => []
  | m + 1 => (base + j * bs) :: blocks_from base bs (j + 1) m

/-- The partition that a `pt_create` with status 0 has linked into the
partition list; `none` when the call fails. -/
def pt_created (paddr length bsize flags : Nat) (pcb ts_malloc : Bool) (mem : Nat → Nat) :
    Option p2pt_prtn_t :=
  match pt_create paddr length bsize flags pcb ts_malloc mem with
  | some r => if r.error = ERR_NO_ERROR then r.prtn else none
  | none => none

/-- A `pt_create` with both allocations granted, over a memory of null link
cells, followed by a sequence of calls on the new partition. -/
def pt_session (rounds paddr length bsize : Nat) (calls : List pt_call) :
    Option (List (Nat × Nat) × p2pt_prtn_t) :=
  match pt_created paddr length bsize 0 true true (fun _ => 0) with
  | some prtn => pt_run rounds prtn calls
  | none => none

/-- What is read off a partition: `first_free`, `last_free`, `free_blk_count`,
`used_blk_count`, and the contents of the link cells at the given addresses. -/
def pt_view (prtn : p2pt_prtn_t) (cells : List Nat) : Nat × Nat × Nat × Nat × List Nat :=
  (prtn.first_free, prtn.last_free, prtn.free_blk_count, prtn.used_blk_count,
    cells.map prtn.mem)

end MemBlk

namespace MemBlk

def ERR_NODENO : Nat := 0x04
def ERR_OBJNF : Nat := 0x09

/-- An entry of `prtn_list`: the `prtn_id` and `ptname` fields of a partition
control block (memblk.c:48) next to the fields the block code uses. A name is
the list of its four characters. -/
structure pt_entry where
  prtn_id : Nat
  ptname : List Nat
  prtn : p2pt_prtn_t

/-- `strncmp(a, b, n) == 0`: the strings agree up to the first NUL or up to `n`
characters; a list that has ended counts as NUL. -/
def strncmp_eq : Nat → List Nat → List Nat → Bool
  | 0, _, _ => true
  | n + 1, a, b =>
      if a.headD 0 ≠ b.headD 0 then false
      else if a.headD 0 = 0 then true
      else strncmp_eq n a.tail b.tail

/-- `pcb_for` (memblk.c:154): the first control block of the list with the
given id. -/
def pcb_for (prtn_list : List pt_entry) (prtn_id : Nat) : Option pt_entry :=
  prtn_list.find? fun e => decide (e.prtn_id = prtn_id)

/-- `new_prtn_id` (memblk.c:192): 1 for an empty list, otherwise the greatest
id of the list plus one, in `ULONG` arithmetic. -/
def new_prtn_id : List pt_entry → Nat
  | [] => 1
  | first :: rest =>
      ulong (((rest.foldl (fun m e => if e.prtn_id > m then e.prtn_id else m)
        first.prtn_id : Nat) : Int) + 1)

/-- The loop of `link_pcb` (memblk.c:270) seen from the node after
`current_pcb`: the new block goes in front of the first following block with
a greater id, or to the end. -/
def link_after (new_prtn : pt_entry) : List pt_entry → List pt_entry
  | [] => [new_prtn]
  | nxt :: more =>
      if nxt.prtn_id > new_prtn.prtn_id then new_prtn :: nxt :: more
      else nxt :: link_after new_prtn more

/-- `link_pcb` (memblk.c:251): the new block becomes the list when the list is
empty; otherwise it is linked somewhere behind the first block. -/
def link_pcb (prtn_list : List pt_entry) (new_prtn : pt_entry) : List pt_entry :=
  match prtn_list with
  | [] => [new_prtn]
  | first :: rest => first :: link_after new_prtn rest

/-- `pt_ident` (memblk.c:894) with a name that is not null: the status and the
value stored through `ptid` (nothing is stored for a node other than 0). -/
def pt_ident (prtn_list : List pt_entry) (name : List Nat) (node : Nat) : Nat × Option Nat :=
  if node ≠ 0 then (ERR_NODENO, none)
  else
    match prtn_list.find? fun e => strncmp_eq 4 name e.ptname with
    | some e => (ERR_NO_ERROR, some e.prtn_id)
    | none => (ERR_OBJNF, some 0)

/-- What `pt_create` leaves behind, list of partitions included: the status,
the values stored through `ptid` and `nbuf`, the partition list and the
memory. -/
structure pt_create_outcome where
  error : Nat
  ptid : Option Nat
  nbuf : Option Nat
  prtn_list : List pt_entry
  mem : Nat → Nat

/-- `pt_create` (memblk.c:477) with its effect on `prtn_list`: the partition
that `pt_create` has set up without error gets the id `new_prtn_id` gives and
is linked by `link_pcb`; after an error the list is as before. The result is
`none` when the call divides by a zero block size. -/
def pt_create_linked (prtn_list : List pt_entry) (name : List Nat)
    (paddr length bsize flags : Nat) (pcb ts_malloc : Bool) (mem : Nat → Nat) :
    Option pt_create_outcome :=
  match pt_create paddr length bsize flags pcb ts_malloc mem with
  | none => none
  | some r =>
      match r.prtn with
      | some prtn =>
          some { error := r.error, ptid := some (new_prtn_id prtn_list), nbuf := r.nbuf,
                 prtn_list := link_pcb prtn_list
                   { prtn_id := new_prtn_id prtn_list, ptname := name, prtn := prtn },
                 mem := r.mem }
      | none =>
          some { error := r.error, ptid := none, nbuf := none, prtn_list := prtn_list,
                 mem := r.mem }

end MemBlk

namespace Event

def EV_NOWAIT : Nat := 0x01
def EV_ANY : Nat := 0x02

def ERR_NO_ERROR : Nat := 0
def ERR_TIMEOUT : Nat := 0x01
def ERR_NOEVS : Nat := 0x3C

/-- The value `pthread_cond_timedwait` returns when the time has run out. -/
def ETIMEDOUT : Nat := 110

/-- The event fields of the task control block that event.c uses, each a
32-bit `ULONG`. -/
structure p2pthread_cb_t where
  event_mask : Nat
  events_pending : Nat
  events_captured : Nat
deriving DecidableEq, Repr

/-- The complement `~x` of a 32-bit `ULONG`. -/
def ulong_not (x : Nat) : Nat := x ^^^ 4294967295

/-- `ev_send` (event.c:46) on an existing task, with `event_lock` held: flags
that were not all set yet are set (and the condition is signalled). -/
def ev_send (tcb : p2pthread_cb_t) (new_events : Nat) : p2pthread_cb_t :=
  if tcb.events_pending &&& new_events ≠ new_events then
    { tcb with events_pending := tcb.events_pending ||| new_events }
  else tcb

/-- `events_match_mask` (event.c:131): the result and the control block
afterwards. -/
def events_match_mask (tcb : p2pthread_cb_t) (rule : Nat) : Bool × p2pthread_cb_t :=
  let still_pending := tcb.events_captured
  let tcb := { tcb with
    events_captured := tcb.events_captured ||| (tcb.events_pending &&& tcb.event_mask) }
  let tcb := { tcb with
    events_pending := tcb.events_pending &&& (ulong_not tcb.event_mask ||| still_pending) }
  (if rule &&& EV_ANY ≠ 0 then decide (tcb.events_captured &&& tcb.event_mask ≠ 0)
    else decide (tcb.events_captured &&& tcb.event_mask = tcb.event_mask), tcb)

/-- One return of the condition wait of `ev_receive`: the events that other
tasks have sent to the caller while it waited, and the value `rc` that a timed
wait returns. -/
structure ev_wakeup where
  sent : List Nat
  rc : Nat

/-- What a loop of `ev_receive` leaves behind: the control block, `retcode`,
and the control block as it was before each evaluation of
`events_match_mask`, in order. -/
structure ev_loop_end where
  tcb : p2pthread_cb_t
  retcode : Nat
  evals : List p2pthread_cb_t

/-- The `while` loops of `ev_receive` (event.c:249, 269, 300): evaluate
`events_match_mask`; leave on a match, or, in a `timed` loop, when `retcode`
is `ETIMEDOUT`; otherwise wait. The waits return as `wakeups` says; the loop
is still waiting (`none`) when they are used up. -/
def ev_wait_loop (timed : Bool) (opt : Nat) :
    List ev_wakeup → p2pthread_cb_t → Nat → List p2pthread_cb_t → Option ev_loop_end
  | [], tcb, retcode, evals =>
      if (events_match_mask tcb opt).1 ∨ (timed ∧ retcode = ETIMEDOUT) then
        some ⟨(events_match_mask tcb opt).2, retcode, evals ++ [tcb]⟩
      else none
  | w :: wakeups, tcb, retcode, evals =>
      if (events_match_mask tcb opt).1 ∨ (timed ∧ retcode = ETIMEDOUT) then
        some ⟨(events_match_mask tcb opt).2, retcode, evals ++ [tcb]⟩
      else
        ev_wait_loop timed opt wakeups (w.sent.foldl ev_send (events_match_mask tcb opt).2)
          (if timed then w.rc else retcode) (evals ++ [tcb])

/-- What `ev_receive` returns and leaves behind: the status, the value stored
through `captured`, the control block, and the control block as it was before
each evaluation of `events_match_mask` made by the call. -/
structure ev_receive_result where
  error : Nat
  captured : Nat
  tcb : p2pthread_cb_t
  evals : List p2pthread_cb_t
deriving DecidableEq, Repr

/-- `ev_receive` (event.c:204) by the task with control block `tcb`; the waits
return as `wakeups` says, and the result is `none` when the call is still
waiting after them. The wait is timed with EV_NOWAIT or a `max_wait` other
than 0. -/
def ev_receive (tcb : p2pthread_cb_t) (mask opt max_wait : Nat) (wakeups : List ev_wakeup) :
    Option ev_receive_result :=
  match ev_wait_loop (decide (opt &&& EV_NOWAIT ≠ 0) || decide (max_wait ≠ 0)) opt wakeups
      { tcb with event_mask := mask } 0 [] with
  | none => none
  | some e =>
      if e.retcode = ETIMEDOUT then
        some ⟨if opt &&& EV_NOWAIT ≠ 0 then ERR_NOEVS else ERR_TIMEOUT,
          e.tcb.events_captured, e.tcb, e.evals⟩
      else some ⟨ERR_NO_ERROR, e.tcb.events_captured, { e.tcb with events_captured := 0 }, e.evals⟩

/-- The events that the evaluations of one call have moved from
`events_pending` to `events_captured`: the wanted events that were pending
before some evaluation. -/
def captured_in_call (evals : List p2pthread_cb_t) : Nat :=
  evals.foldl (fun acc tcb => acc ||| (tcb.events_pending &&& tcb.event_mask)) 0

end Event

namespace Queue

open Task

/-- The fixed-message queue that `q_create` builds for capacity 0 with the
option word `opt` when the allocator places `msgs[0]` of its extent at 4096. -/
def zero_size_queue (opt : Nat) : Option p2pt_queue_t :=
  (q_create 0 opt (some []) (some 4096) (fun _ => null_msg)).2

/-- The task 8 of the validation run, priority 20, pending on a queue. -/
def with_task_8 (queue : p2pt_queue_t) : p2pt_queue_t :=
  { queue with first_susp := [⟨8, 20⟩] }

end Queue

namespace VQueue

open Task

/-- The variable-length queue that `q_vcreate` builds for capacity 0 and
messages of up to 16 bytes when the allocator places its slots at 4096. -/
def zero_size_vqueue : Option p2pt_vqueue_t :=
  (q_vcreate 0 0 16 true (some 4096) (fun _ => ⟨0, []⟩)).2

end VQueue

namespace Sched

/-! ### The scheduler lock and task priorities (task.c) -/

def ERR_NO_ERROR : Nat := 0
def ERR_OBJDEL : Nat := 0x05
def ERR_PRIOR : Nat := 0x11
def SCHED_FIFO : Nat := 1
def SCHED_RR : Nat := 2

/-- The greatest value of the 32-bit `unsigned long` of the target. -/
def ULONG_MAX : Nat := 4294967295

/-- What task.c takes from outside: the priority range that the host gives
for a scheduling policy (`sched_get_priority_min`, `sched_get_priority_max`)
and the two bounds `MIN_P2PT_PRIORITY`, `MAX_P2PT_PRIORITY` of the header
p2pthread.h. -/
structure host_t where
  sched_get_priority_min : Nat → Int
  sched_get_priority_max : Nat → Int
  MIN_P2PT_PRIORITY : Nat
  MAX_P2PT_PRIORITY : Nat

/-- The part of `p2pthread_cb_t` that the scheduler lock and `t_setpri` use:
the address of the block, `pthrid`, `taskid`, the scheduling policy and the
`sched_priority` of `attr`, the `sched_priority` of `prv_priority`, and the
priority that the host thread runs at, which is the value last given to
`pthread_setschedparam` for it. -/
structure p2pthread_cb_t where
  addr : Nat
  pthrid : Nat
  taskid : Nat
  sched_policy : Nat
  attr_priority : Int
  prv_priority : Int
  thread_priority : Int
deriving DecidableEq, Repr

/-- The globals `scheduler_locked` (0 is the null thread id),
`sched_lock_level` and `task_list`. -/
structure sched_state where
  scheduler_locked : Nat
  sched_lock_level : Nat
  task_list : List p2pthread_cb_t
deriving DecidableEq, Repr

/-- `my_tcb` (task.c:138) for the caller whose `pthread_self()` is
`my_pthrid`: the first block of the task list with that thread id. -/
def my_tcb (s : sched_state) (my_pthrid : Nat) : Option p2pthread_cb_t :=
  s.task_list.find? fun current_tcb => decide (my_pthrid = current_tcb.pthrid)

/-- `tcb_for` (task.c:183): the first block of the task list with the task
id. -/
def tcb_for (s : sched_state) (taskid : Nat) : Option p2pthread_cb_t :=
  s.task_list.find? fun current_tcb => decide (current_tcb.taskid = taskid)

/-- A write through the pointer `tcb`: the block at that address is changed
by `f`. -/
def modify_tcb (task_list : List p2pthread_cb_t) (tcb : Nat)
    (f : p2pthread_cb_t → p2pthread_cb_t) : List p2pthread_cb_t :=
  task_list.map fun t => if t.addr = tcb then f t else t

/-- The two statements that end `sched_lock` and the outermost
`sched_unlock`: the priority is stored in `attr` and given to the host for
the thread. -/
def set_thread_priority (priority : Int) (tcb : p2pthread_cb_t) : p2pthread_cb_t :=
  { tcb with attr_priority := priority, thread_priority := priority }

/-- `sched_lock` (task.c:225) for the caller `my_pthrid`. One pass of the
`do` loop either takes the lock (owner null or the caller: the owner is set
and the level incremented, and an increment that wraps to 0 is taken back,
which leaves `ULONG_MAX`) or waits on `sched_lock_change`; the result is
`none` when the caller has to wait, since it goes on only from a later
state. After the loop the priority of the caller's block becomes the maximum
of its policy. -/
def sched_lock (host : host_t) (s : sched_state) (my_pthrid : Nat) : Option sched_state :=
  if s.scheduler_locked = 0 ∨ s.scheduler_locked = my_pthrid then
    let level := (s.sched_lock_level + 1) % 4294967296
    let level := if level = 0 then (level + 4294967295) % 4294967296 else level
    let s : sched_state :=
      { s with scheduler_locked := my_pthrid, sched_lock_level := level }
    match my_tcb s my_pthrid with
    | some tcb =>
        let max_priority := host.sched_get_priority_max tcb.sched_policy
        some { s with
          task_list := modify_tcb s.task_list tcb.addr (set_thread_priority max_priority) }
    | none => some s
  else none

/-- `sched_unlock` (task.c:338) for the caller `my_pthrid`: the owner
decrements a positive level and, when the level is then below 1, gets the
priority of `prv_priority` back and clears the owner; any other caller
changes nothing. -/
def sched_unlock (s : sched_state) (my_pthrid : Nat) : sched_state :=
  if s.scheduler_locked = my_pthrid then
    let s : sched_state :=
      if s.sched_lock_level > 0 then { s with sched_lock_level := s.sched_lock_level - 1 }
      else s
    if s.sched_lock_level < 1 then
      let s : sched_state :=
        match my_tcb s my_pthrid with
        | some tcb =>
            { s with
              task_list := modify_tcb s.task_list tcb.addr (set_thread_priority tcb.prv_priority) }
        | none => s
      { s with scheduler_locked := 0 }
    else s
  else s

/-- The cast `(int)` of a ULONG on the 32-bit target. -/
def to_int (x : Nat) : Int :=
  if x % 4294967296 < 2147483648 then ((x % 4294967296 : Nat) : Int)
  else ((x % 4294967296 : Nat) : Int) - 4294967296

/-- `translate_priority` (task.c:612): `*errp` becomes `ERR_PRIOR` for a
priority outside the p2pthread bounds and is left alone otherwise; the
priority as an `int` is reduced with the C remainder by the policy maximum
and raised to the policy minimum when below it. The result is the host
priority and `*errp`; `none` is the division by a policy maximum of 0. -/
def translate_priority (host : host_t) (p2pt_priority sched_policy errp : Nat) :
    Option (Int × Nat) :=
  let errp :=
    if p2pt_priority < host.MIN_P2PT_PRIORITY ∨ p2pt_priority > host.MAX_P2PT_PRIORITY
    then ERR_PRIOR else errp
  let pthread_priority := to_int p2pt_priority
  let min_priority := host.sched_get_priority_min sched_policy
  let max_priority := host.sched_get_priority_max sched_policy
  if max_priority = 0 then none
  else
    let pthread_priority := Int.tmod pthread_priority max_priority
    some (if pthread_priority < min_priority then min_priority else pthread_priority, errp)

/-- The result of `t_setpri`: the status, the value stored through `oldpri`
(`none` when nothing is stored) and the state. -/
structure t_setpri_result where
  error : Nat
  oldpri : Option Nat
  state : sched_state
deriving DecidableEq, Repr

/-- `t_setpri` (task.c:1440) called by `my_pthrid` with a non-null `oldpri`:
inside `sched_lock` and `sched_unlock` the block that `tcb_for` finds for
`tid` gets the translated priority in `prv_priority`, and when `tid` is not 0
and the block is not the caller's the priority is also copied into `attr`;
when `tcb_for` finds no block the status is `ERR_OBJDEL`. The result is
`none` when `sched_lock` has to wait or the translation divides by 0. -/
def t_setpri (host : host_t) (s : sched_state) (my_pthrid tid pri : Nat) :
    Option t_setpri_result :=
  match sched_lock host s my_pthrid with
  | none => none
  | some s =>
      match tcb_for s tid with
      | some tcb =>
          match translate_priority host pri tcb.sched_policy ERR_NO_ERROR with
          | none => none
          | some (new_priority, error) =>
              let other : Bool :=
                decide (tid ≠ 0) && decide (some tcb.addr ≠ (my_tcb s my_pthrid).map fun t => t.addr)
              let s : sched_state :=
                { s with task_list := modify_tcb s.task_list tcb.addr fun t =>
                    if other then { t with prv_priority := new_priority,
                                           attr_priority := new_priority }
                    else { t with prv_priority := new_priority } }
              some ⟨error, some ((tcb.prv_priority % 4294967296).toNat), sched_unlock s my_pthrid⟩
      | none => some ⟨ERR_OBJDEL, none, sched_unlock s my_pthrid⟩

/-- A run of `n` calls of `sched_lock` by the same caller, each from the
state the one before left; `none` when one of them has to wait. -/
def sched_lock_calls (host : host_t) (my_pthrid : Nat) : Nat → sched_state → Option sched_state
  | 0, s => some s
  | n + 1, s =>
      match sched_lock host s my_pthrid with
      | none => none
      | some s => sched_lock_calls host my_pthrid n s

/-- A run of `n` calls of `sched_unlock` by the same caller. -/
def sched_unlock_calls (my_pthrid : Nat) : Nat → sched_state → sched_state
  | 0, s => s
  | n + 1, s => sched_unlock_calls my_pthrid n (sched_unlock s my_pthrid)

/-- The Linux host: priorities 1 to 99 for SCHED_FIFO and SCHED_RR, 0 for
any other policy, with the p2pthread bounds 1 and 255. -/
def linux_host : host_t :=
  { sched_get_priority_min := fun policy => if policy = SCHED_FIFO ∨ policy = SCHED_RR then 1 else 0,
    sched_get_priority_max := fun policy => if policy = SCHED_FIFO ∨ policy = SCHED_RR then 99 else 0,
    MIN_P2PT_PRIORITY := 1, MAX_P2PT_PRIORITY := 255 }

/-- The task 3 of thread 103 with priority 20 under SCHED_FIFO and the task
4 of thread 104 with priority 30, no scheduler lock held. -/
def two_tasks : sched_state :=
  { scheduler_locked := 0, sched_lock_level := 0,
    task_list := [⟨4096, 103, 3, SCHED_FIFO, 20, 20, 20⟩, ⟨8192, 104, 4, SCHED_FIFO, 30, 30, 30⟩] }

end Sched

namespace Sched

/-- The priority that the specification describes: the requested priority
clamped into the range from the policy minimum to the policy maximum less
one. -/
def clamped_priority (host : host_t) (p2pt_priority sched_policy : Nat) : Int :=
  max (host.sched_get_priority_min sched_policy)
    (min (p2pt_priority : Int) (host.sched_get_priority_max sched_policy - 1))

end Sched

namespace Queue

open Task

/-! ### The queue list and `q_delete` (queue.c) -/

def ERR_TATQDEL : Nat := 0x38
def ERR_MATQDEL : Nat := 0x39

/-- An entry of `queue_list`: the `qid` and `qname` fields of a queue control
block next to the fields the message code uses. A name is the list of its four
characters. -/
structure q_entry where
  qid : Nat
  qname : List Nat
  queue : p2pt_queue_t

/-- `qcb_for` (queue.c:229): the first control block of the list with the
given id. -/
def qcb_for (queue_list : List q_entry) (qid : Nat) : Option q_entry :=
  queue_list.find? fun e => decide (e.qid = qid)

/-- `new_qid` (queue.c:268): 1 for an empty list, otherwise the greatest id of
the list plus one, in `ULONG` arithmetic. -/
def new_qid : List q_entry → Nat
  | [] => 1
  | first :: rest =>
      (rest.foldl (fun m e => if e.qid > m then e.qid else m) first.qid + 1) % 4294967296

/-- The loop of `link_qcb` (queue.c:343) seen from the node after
`current_qcb`: the new block goes in front of the first following block with
a greater id, or to the end. -/
def link_qcb_after (new_queue : q_entry) : List q_entry → List q_entry
  | [] => [new_queue]
  | nxt :: more =>
      if nxt.qid > new_queue.qid then new_queue :: nxt :: more
      else nxt :: link_qcb_after new_queue more

/-- `link_qcb` (queue.c:326): the new block becomes the list when the list is
empty; otherwise it is linked somewhere behind the first block. -/
def link_qcb (queue_list : List q_entry) (new_queue : q_entry) : List q_entry :=
  match queue_list with
  | [] => [new_queue]
  | first :: rest => first :: link_qcb_after new_queue rest

/-- The loop of `unlink_qcb` (queue.c:423) seen from the node after
`current_qcb`: the first following block with the id is taken out. -/
def unlink_qcb_after (qid : Nat) : List q_entry → List q_entry
  | [] => []
  | nxt :: more => if nxt.qid = qid then more else nxt :: unlink_qcb_after qid more

/-- `unlink_qcb` (queue.c:381): the head is taken out when it has the id,
otherwise the first block behind it that has the id. -/
def unlink_qcb (queue_list : List q_entry) (qid : Nat) : List q_entry :=
  match queue_list with
  | [] => []
  | first :: rest => if first.qid = qid then rest else first :: unlink_qcb_after qid rest

/-- A write through the pointer that `qcb_for` returned: the first block with
the id gets the queue state. -/
def store_qcb (queue : p2pt_queue_t) (qid : Nat) : List q_entry → List q_entry
  | [] => []
  | e :: rest =>
      if e.qid = qid then { e with queue := queue } :: rest
      else e :: store_qcb queue qid rest

/-- `q_create` (queue.c:866) with the queue list: a created queue gets the id
of `new_qid` and is linked into the list. The result is the status, the id
stored through `qid` and the list. -/
def q_create_linked (queue_list : List q_entry) (name : List Nat) (qsize opt : Nat)
    (qcb : Option (List Int)) (ts_malloc : Option Int) (mem : Int → q_msg_t) :
    Nat × Option Nat × List q_entry :=
  match q_create qsize opt qcb ts_malloc mem with
  | (error, some queue) =>
      (error, some (new_qid queue_list),
        link_qcb queue_list ⟨new_qid queue_list, name, queue⟩)
  | (error, none) => (error, none, queue_list)

/-- `q_send` (queue.c:1130) from its `qcb_for` on: `ERR_OBJDEL` when the list
has no queue of the id. -/
def q_send_id (queue_list : List q_entry) (qid : Nat) (msg : q_msg_t)
    (ts_malloc : Option Int) : Option (Nat × List q_entry) :=
  match qcb_for queue_list qid with
  | none => some (ERR_OBJDEL, queue_list)
  | some e => (q_send e.queue msg ts_malloc).map fun r => (r.1, store_qcb r.2 qid queue_list)

/-- `q_receive` (queue.c:1696) with `Q_NOWAIT` from its `qcb_for` on:
`ERR_OBJDEL` when the list has no queue of the id. -/
def q_receive_id (queue_list : List q_entry) (qid : Nat) (our_tcb : p2pthread_cb_t) :
    Option (Nat × Option q_msg_t × List q_entry) :=
  match qcb_for queue_list qid with
  | none => some (ERR_OBJDEL, none, queue_list)
  | some e =>
      (q_receive_nowait e.queue our_tcb).map fun r =>
        (r.1, r.2.1, store_qcb r.2.2 qid queue_list)

/-- The 16 bytes of `deleted_msg` (queue.c:1494), the string
"Queue Deleted!" with a line feed and a NUL, read as four little-endian
words. -/
def deleted_msg : q_msg_t := (0x75657551, 0x65442065, 0x6574656C, 0x000A2164)

/-- The part of `q_delete` (queue.c:1503) under `queue_lock`: the status is
`ERR_MATQDEL` for a queue with messages; with tasks pending the deletion
message is put in front, the send type becomes KILLD and the status
`ERR_TATQDEL`. -/
def q_delete_mark (queue : p2pt_queue_t) : Option (Nat × p2pt_queue_t) :=
  let error := if queue.msg_count ≠ 0 then ERR_MATQDEL else ERR_NO_ERROR
  if queue.first_susp ≠ [] then
    (urgent_msg_to queue deleted_msg).map fun queue =>
      (ERR_TATQDEL, { queue with send_type := KILLD })
  else some (error, queue)

/-- The result of `q_delete`: its status, the status and message that each
task pending on the queue got from its `q_receive`, in the order in which
they left the wait list, and the queue list. -/
structure q_delete_result where
  error : Nat
  waiters : List (Nat × q_msg_t)
  queue_list : List q_entry

/-- `q_delete` (queue.c:1489). With no queue of the id the status is
`ERR_OBJDEL`. Otherwise, after the part under `queue_lock`, the caller wakes
the pending tasks and waits until the wait list is empty, the tasks leaving
in the order `order`; then `delete_queue` unlinks the queue. The result is
`none` when the caller would go on waiting or a pointer is followed out of
the extents. -/
def q_delete (queue_list : List q_entry) (qid : Nat) (order : List Nat) :
    Option q_delete_result :=
  match qcb_for queue_list qid with
  | none => some ⟨ERR_OBJDEL, [], queue_list⟩
  | some e =>
      match q_delete_mark e.queue with
      | none => none
      | some (error, queue) =>
          if queue.first_susp ≠ [] then
            match receivers_run queue order with
            | none => none
            | some (rs, queue) =>
                if queue.first_susp ≠ [] then none
                else some ⟨error, rs, unlink_qcb queue_list e.qid⟩
          else some ⟨error, [], unlink_qcb queue_list e.qid⟩

/-- The queue list after `q_create("QUE1", 4, Q_LIMIT)` and
`q_create("QUE2", 4, Q_LIMIT)` on an empty list, the extents at 4096 and
8192. -/
def two_queues : List q_entry :=
  (q_create_linked
    (q_create_linked [] [81, 85, 69, 49] 4 Q_LIMIT (some []) (some 4096)
      (fun _ => null_msg)).2.2
    [81, 85, 69, 50] 4 Q_LIMIT (some []) (some 8192) (fun _ => null_msg)).2.2

/-- The state of the queue list that tests look at: the ids with the message
count, the send type and the wait list of each queue. -/
def list_view (queue_list : List q_entry) : List (Nat × Int × Nat × List p2pthread_cb_t) :=
  queue_list.map fun e => (e.qid, e.queue.msg_count, e.queue.send_type, e.queue.first_susp)

/-- The queue list `two_queues` with message 7 queued in queue 2 and the
tasks 5 and 8 pending on queue 1. -/
def busy_queues : List q_entry :=
  match q_send_id two_queues 2 (7, 0, 0, 0) none with
  | some (_, queue_list) =>
      queue_list.map fun e =>
        if e.qid = 1 then { e with queue := { e.queue with first_susp := [⟨5, 15⟩, ⟨8, 20⟩] } }
        else e
  | none => []

end Queue

namespace Timeout

/-! ### The deadline of a timed wait (queue.c, vqueue.c, sema4.c, event.c) -/

/-- The tick of p2pthread.h in milliseconds. -/
def P2PT_TICK : Nat := 10

/-- The value of a ULONG when it is stored in a `long` of the 32-bit target. -/
def to_long (x : Nat) : Int :=
  if x % 4294967296 < 2147483648 then ((x % 4294967296 : Nat) : Int)
  else ((x % 4294967296 : Nat) : Int) - 4294967296

/-- A `struct timespec`. -/
structure timespec where
  tv_sec : Int
  tv_nsec : Int
deriving DecidableEq, Repr

/-- The computation of `timeout` in `q_receive` (queue.c:1787), which
`q_vreceive` (vqueue.c:1515), `sm_p` (sema4.c:829) and `ev_receive`
(event.c:280) repeat word for word: `usec` is the wait in microseconds plus
`now.tv_usec`; when it is greater than 1000000 the whole seconds go to `sec`;
`tv_nsec` is `usec * 1000`. `now_sec` and `now_usec` are what `gettimeofday`
returned. -/
def timed_wait_timeout (max_wait : Nat) (now_sec now_usec : Int) : timespec :=
  let sec : Int := 0
  let usec : Int := to_long (max_wait * P2PT_TICK * 1000)
  let usec := usec + now_usec
  let sec := if usec > 1000000 then Int.tdiv usec 1000000 else sec
  let usec := if usec > 1000000 then Int.tmod usec 1000000 else usec
  { tv_sec := now_sec + sec, tv_nsec := usec * 1000 }

/-- The instant of a `timespec` in nanoseconds. -/
def instant (t : timespec) : Int := t.tv_sec * 1000000000 + t.tv_nsec

end Timeout

namespace MemBlk

/-- A store by the holder of an in-use block into the first word of the
block. -/
def user_store (prtn : p2pt_prtn_t) (bufaddr value : Nat) : p2pt_prtn_t :=
  { prtn with mem := Function.update prtn.mem bufaddr value }

end MemBlk

namespace VQueue

open Task

def ERR_TATQDEL : Nat := 0x38
def ERR_MATQDEL : Nat := 0x39

/-- The 16 bytes of `deleted_msg` (vqueue.c:1194): the string
"Queue Deleted!" with a line feed and a NUL. -/
def deleted_msg : List Nat :=
  [81, 117, 101, 117, 101, 32, 68, 101, 108, 101, 116, 101, 100, 33, 10, 0]

/-- The part of `q_vdelete` (vqueue.c:1206) under `queue_lock`: the status is
`ERR_MATQDEL` for a queue with messages; with tasks pending the 16 bytes of
the deletion message are put in front with `msglen` 16, the send type becomes
KILLD and the status `ERR_TATQDEL`. -/
def q_vdelete_mark (queue : p2pt_vqueue_t) : Nat × p2pt_vqueue_t :=
  let error := if queue.msg_count ≠ 0 then ERR_MATQDEL else ERR_NO_ERROR
  if queue.first_susp ≠ [] then
    (ERR_TATQDEL, { urgent_msg_to queue deleted_msg 16 with send_type := KILLD })
  else (error, queue)

/-- The queue that `q_vcreate` builds for capacity 4 and messages of up to
`msglen` bytes when the allocator places the data extent at 4096, with task 3
in its wait list. -/
def small_vqueue (msglen : Nat) : Option p2pt_vqueue_t :=
  (q_vcreate 0 4 msglen true (some 4096) (fun _ => ⟨0, []⟩)).2.map fun queue =>
    { queue with first_susp := [⟨3, 10⟩] }

end VQueue

namespace Queue

open Task

/-- The queue that `q_create` builds for capacity 1 with Q_LIMIT when the
allocator places `msgs[0]` of its extent at 4096, with task 8 pending. -/
def one_slot_queue : Option p2pt_queue_t :=
  (q_create 1 Q_LIMIT (some []) (some 4096) (fun _ => null_msg)).2.map with_task_8

/-- The bound of the specification on `msg_count`: the capacity of the
extents plus the urgent slot. -/
def msg_count_bound (queue : p2pt_queue_t) : Int :=
  queue.total_extents * queue.msgs_per_extent + 1

end Queue

namespace Sema4

open Task

def ERR_TATSDEL : Nat := 0x44

/-- The part of `sm_delete` (sema4.c:570) that changes the semaphore: with
tasks pending the send type becomes KILLD and the status `ERR_TATSDEL`. -/
def sm_delete_mark (semaphore : p2pt_sema4_t) : Nat × p2pt_sema4_t :=
  if semaphore.first_susp ≠ [] then (ERR_TATSDEL, { semaphore with send_type := KILLD })
  else (ERR_NO_ERROR, semaphore)

/-- A semaphore without tokens on which task 3 is pending in a call of `sm_p`
without timeout. -/
def pending_sema4 : p2pt_sema4_t × sm_p_call :=
  sm_p_enter linux_sem_value_max (sm_create linux_sem_value_max 0 0 0) ⟨3, 10⟩ 0 0

/-- The semaphore of `pending_sema4` after `sm_delete` has marked it. -/
def killed_sema4 : p2pt_sema4_t := (sm_delete_mark pending_sema4.1).2

end Sema4

namespace Queue

open Task

/-- The capacity-1 queue with the tasks 3 and 8 pending, after the part of
`q_delete` under `queue_lock`; the queue `grow_queue` stands in when that part
has no result. -/
def killed_queue : p2pt_queue_t :=
  match one_slot_queue.bind fun q =>
      q_delete_mark { q with first_susp := [⟨3, 10⟩, ⟨8, 20⟩] } with
  | some d => d.2
  | none => grow_queue

end Queue

namespace VQueue

open Task

/-- The queue of `small_vqueue 16`, task 3 pending, after the part of
`q_vdelete` under `queue_lock`. -/
def killed_vqueue : p2pt_vqueue_t :=
  match small_vqueue 16 with
  | some q => (q_vdelete_mark q).2
  | none => vlq1

end VQueue

namespace Sched

/-! ### Creation, start, suspension and registers of tasks (task.c) -/

def ERR_OBJTFULL : Nat := 0x08
def ERR_ACTIVE : Nat := 0x12
def ERR_SUSP : Nat := 0x14
def ERR_NOTSUSP : Nat := 0x15
def ERR_REGNUM : Nat := 0x17
def T_TSLICE : Nat := 0x02
def SIGCONT : Nat := 18
def SIGSTOP : Nat := 19

/-- The number of notepad registers of a task: the size of the array
`registers` that `t_create` clears up to index 7. -/
def NUM_TASK_REGS : Nat := 8

/-- The values that task.c stores in `suspend_reason`. -/
inductive suspend_reason_t where
  | WAIT_TSTRT
  | WAIT_READY
  | WAIT_TSUSP
deriving DecidableEq, Repr

/-- The tasks of the system: the scheduler globals and task list, and, for
the control block at each address, the fields `suspend_reason` and
`registers`, which hold for an address that is not yet a control block what
the memory there holds. `signals` are the calls of `pthread_kill` made so far
as thread id and signal, the latest last. -/
structure task_state where
  sched : sched_state
  suspend_reason : Nat → suspend_reason_t
  registers : Nat → Nat → Nat
  signals : List (Nat × Nat)

/-- `new_tid` (task.c:563): 1 for an empty task list, otherwise the greatest
task id of the list plus one, in `ULONG` arithmetic. -/
def new_tid : List p2pthread_cb_t → Nat
  | [] => 1
  | first :: rest =>
      (rest.foldl (fun m t => if t.taskid > m then t.taskid else m) first.taskid + 1)
        % 4294967296

/-- The result of `t_create`: the status, the value stored through `tid` and
the state. -/
structure t_create_result where
  error : Nat
  tid : Nat
  state : task_state

/-- `t_create` (task.c:876) with a non-null `tid`. `ts_malloc` is the address
of the block the allocator returns, `none` for a null pointer. The id is
stored through `tid` first. The block gets no thread, the id, SCHED_FIFO with
the translated priority, zeros in `registers[1]` to `registers[7]` and the
reason `WAIT_TSTRT`; it is appended to the task list when the status is still
0 and freed otherwise. The result is `none` when the translation divides
by 0. -/
def t_create (host : host_t) (s : task_state) (pri : Nat) (ts_malloc : Option Nat) :
    Option t_create_result :=
  let my_tid := new_tid s.sched.task_list
  match ts_malloc with
  | none => some ⟨ERR_OBJTFULL, my_tid, s⟩
  | some tcb =>
      match translate_priority host pri SCHED_FIFO ERR_NO_ERROR with
      | none => none
      | some (new_priority, error) =>
          let block : p2pthread_cb_t :=
            ⟨tcb, 0, my_tid, SCHED_FIFO, new_priority, new_priority, 0⟩
          let s : task_state :=
            { s with
              registers := fun a i =>
                if a = tcb ∧ 1 ≤ i ∧ i < 8 then 0 else s.registers a i
              suspend_reason := Function.update s.suspend_reason tcb .WAIT_TSTRT }
          if error = ERR_NO_ERROR then
            some ⟨error, my_tid,
              { s with sched := { s.sched with task_list := s.sched.task_list ++ [block] } }⟩
          else some ⟨error, my_tid, s⟩

/-- `tcb_delete` (task.c:652) on the task list: the block at the address is
unlinked. -/
def tcb_delete (tcb : Nat) : List p2pthread_cb_t → List p2pthread_cb_t
  | [] => []
  | current_tcb :: rest =>
      if current_tcb.addr = tcb then rest else current_tcb :: tcb_delete tcb rest

/-- The scheduler globals and the task list are replaced by what
`sched_lock` or `sched_unlock` left. -/
def with_sched (s : task_state) (sched : sched_state) : task_state :=
  { s with sched := sched }

/-- `t_start` (task.c:1018) called by `my_pthrid`. `parmblk` tells whether
the parameter block was allocated; `pthread_create` is the id of the new
thread and the priority the host runs it at, `none` when the host creates no
thread. A block in `WAIT_TSTRT` becomes `WAIT_READY`, its attributes are
initialised again with the policy that `mode` asks for, and it gets the
thread; when no thread can be made the status is `ERR_OBJDEL` and the block
is deleted. A block in another state gives `ERR_ACTIVE`. The result is `none`
when `sched_lock` has to wait. -/
def t_start (host : host_t) (s : task_state) (my_pthrid tid mode : Nat) (parmblk : Bool)
    (pthread_create : Option (Nat × Int)) : Option (Nat × task_state) :=
  match sched_lock host s.sched my_pthrid with
  | none => none
  | some sched =>
      let s := with_sched s sched
      match tcb_for s.sched tid with
      | some tcb =>
          if s.suspend_reason tcb.addr = .WAIT_TSTRT then
            let sched_policy := if mode &&& T_TSLICE ≠ 0 then SCHED_RR else SCHED_FIFO
            let s : task_state :=
              { s with suspend_reason := Function.update s.suspend_reason tcb.addr .WAIT_READY }
            let started : Option (Nat × Int) := if parmblk then pthread_create else none
            match started with
            | some (new_thread, priority) =>
                let task_list := modify_tcb s.sched.task_list tcb.addr fun t =>
                  { t with pthrid := new_thread, sched_policy := sched_policy,
                           attr_priority := 0, thread_priority := priority }
                let s := with_sched s { s.sched with task_list := task_list }
                some (ERR_NO_ERROR, with_sched s (sched_unlock s.sched my_pthrid))
            | none =>
                let task_list := tcb_delete tcb.addr s.sched.task_list
                let s := with_sched s { s.sched with task_list := task_list }
                some (ERR_OBJDEL, with_sched s (sched_unlock s.sched my_pthrid))
          else some (ERR_ACTIVE, with_sched s (sched_unlock s.sched my_pthrid))
      | none => some (ERR_OBJDEL, with_sched s (sched_unlock s.sched my_pthrid))

/-- The two statements that suspend a thread: the reason `WAIT_TSUSP` is
stored in the block and SIGSTOP is sent to its thread. -/
def suspend_tcb (s : task_state) (tcb : p2pthread_cb_t) : task_state :=
  { s with
    suspend_reason := Function.update s.suspend_reason tcb.addr .WAIT_TSUSP
    signals := s.signals ++ [(tcb.pthrid, SIGSTOP)] }

/-- `t_suspend` (task.c:1134) called by `my_pthrid`. With task id 0 the
caller is suspended unless it holds the scheduler lock at a level of at least
1, and the status is 0 in every case. Otherwise a block that is not in
`WAIT_TSUSP` is suspended inside `sched_lock` and `sched_unlock` when it is
not the caller's, and after them when it is the caller's and the caller does
not hold the scheduler lock (any more); a block in `WAIT_TSUSP` gives
`ERR_SUSP`, no block `ERR_OBJDEL`. The result is `none` when `sched_lock`
has to wait. -/
def t_suspend (host : host_t) (s : task_state) (my_pthrid tid : Nat) :
    Option (Nat × task_state) :=
  let self_tcb := my_tcb s.sched my_pthrid
  if tid = 0 then
    match self_tcb with
    | some self_tcb =>
        if s.sched.scheduler_locked = my_pthrid then
          if s.sched.sched_lock_level < 1 then some (ERR_NO_ERROR, suspend_tcb s self_tcb)
          else some (ERR_NO_ERROR, s)
        else some (ERR_NO_ERROR, suspend_tcb s self_tcb)
    | none => some (ERR_NO_ERROR, s)
  else
    match tcb_for s.sched tid with
    | some current_tcb =>
        if s.suspend_reason current_tcb.addr ≠ .WAIT_TSUSP then
          match sched_lock host s.sched my_pthrid with
          | none => none
          | some sched =>
              let s := with_sched s sched
              if some current_tcb.addr ≠ self_tcb.map (fun t => t.addr) then
                let s := suspend_tcb s current_tcb
                some (ERR_NO_ERROR, with_sched s (sched_unlock s.sched my_pthrid))
              else
                let s := with_sched s (sched_unlock s.sched my_pthrid)
                if s.sched.scheduler_locked = my_pthrid then some (ERR_NO_ERROR, s)
                else some (ERR_NO_ERROR, suspend_tcb s current_tcb)
        else some (ERR_SUSP, s)
    | none => some (ERR_OBJDEL, s)

/-- `t_resume` (task.c:1256) called by `my_pthrid`: a block in `WAIT_TSUSP`
becomes `WAIT_READY` and SIGCONT is sent to its thread; a block in another
state gives `ERR_NOTSUSP`, no block `ERR_OBJDEL`. The result is `none` when
`sched_lock` has to wait. -/
def t_resume (host : host_t) (s : task_state) (my_pthrid tid : Nat) :
    Option (Nat × task_state) :=
  match sched_lock host s.sched my_pthrid with
  | none => none
  | some sched =>
      let s := with_sched s sched
      match tcb_for s.sched tid with
      | some current_tcb =>
          if s.suspend_reason current_tcb.addr = .WAIT_TSUSP then
            let s : task_state :=
              { s with
                suspend_reason := Function.update s.suspend_reason current_tcb.addr .WAIT_READY
                signals := s.signals ++ [(current_tcb.pthrid, SIGCONT)] }
            some (ERR_NO_ERROR, with_sched s (sched_unlock s.sched my_pthrid))
          else some (ERR_NOTSUSP, with_sched s (sched_unlock s.sched my_pthrid))
      | none => some (ERR_OBJDEL, with_sched s (sched_unlock s.sched my_pthrid))

/-- The block that a task id names for the caller `my_pthrid` in `t_getreg`
and `t_setreg`: the caller's own block for id 0, the block of `tcb_for`
otherwise. -/
def named_tcb (sched : sched_state) (my_pthrid tid : Nat) : Option p2pthread_cb_t :=
  if tid = 0 then my_tcb sched my_pthrid else tcb_for sched tid

/-- `t_getreg` (task.c:1302) called by `my_pthrid`: the status, the value
stored through `reg_value` (`none` when nothing is stored) and the state. A
register number of `NUM_TASK_REGS` or more gives `ERR_REGNUM` at once;
otherwise the register of the named block is read inside `sched_lock` and
`sched_unlock`, and the status is `ERR_OBJDEL` when no block is named. The
result is `none` when `sched_lock` has to wait. -/
def t_getreg (host : host_t) (s : task_state) (my_pthrid tid regnum : Nat) :
    Option (Nat × Option Nat × task_state) :=
  if regnum < NUM_TASK_REGS then
    match sched_lock host s.sched my_pthrid with
    | none => none
    | some sched =>
        let s := with_sched s sched
        match named_tcb s.sched my_pthrid tid with
        | some tcb =>
            some (ERR_NO_ERROR, some (s.registers tcb.addr regnum),
              with_sched s (sched_unlock s.sched my_pthrid))
        | none => some (ERR_OBJDEL, none, with_sched s (sched_unlock s.sched my_pthrid))
  else some (ERR_REGNUM, none, s)

/-- `t_setreg` (task.c:1372) called by `my_pthrid`: as `t_getreg`, with the
value written to the register of the named block. -/
def t_setreg (host : host_t) (s : task_state) (my_pthrid tid regnum reg_value : Nat) :
    Option (Nat × task_state) :=
  if regnum < NUM_TASK_REGS then
    match sched_lock host s.sched my_pthrid with
    | none => none
    | some sched =>
        let s := with_sched s sched
        match named_tcb s.sched my_pthrid tid with
        | some tcb =>
            let s : task_state :=
              { s with registers := fun a i =>
                  if a = tcb.addr ∧ i = regnum then reg_value else s.registers a i }
            some (ERR_NO_ERROR, with_sched s (sched_unlock s.sched my_pthrid))
        | none => some (ERR_OBJDEL, with_sched s (sched_unlock s.sched my_pthrid))
  else some (ERR_REGNUM, s)

/-- A system without tasks, in which every byte of free memory reads as
`fill`. -/
def no_tasks (fill : Nat) : task_state :=
  { sched := { scheduler_locked := 0, sched_lock_level := 0, task_list := [] },
    suspend_reason := fun _ => .WAIT_TSUSP,
    registers := fun _ _ => fill,
    signals := [] }

end Sched

namespace Sched

/-- What identifies a control block in the task list: its address, its thread
and its task id. -/
def tcb_key (t : p2pthread_cb_t) : Nat × Nat × Nat := (t.addr, t.pthrid, t.taskid)

/-- A call of the task manager that changes `suspend_reason`. -/
inductive t_call where
  | start (tid mode : Nat) (parmblk : Bool) (pthread_create : Option (Nat × Int))
  | suspend (tid : Nat)
  | resume (tid : Nat)

/-- One call by the thread `my_pthrid`: the status and the state. -/
def t_step (host : host_t) (s : task_state) (my_pthrid : Nat) : t_call → Option (Nat × task_state)
  | .start tid mode parmblk pthread_create =>
      t_start host s my_pthrid tid mode parmblk pthread_create
  | .suspend tid => t_suspend host s my_pthrid tid
  | .resume tid => t_resume host s my_pthrid tid

/-- A sequence of calls, each with its caller: the statuses and the final
state; `none` when a caller has to wait for the scheduler lock. -/
def t_run (host : host_t) (s : task_state) : List (Nat × t_call) → Option (List Nat × task_state)
  | [] => some ([], s)
  | (my_pthrid, call) :: calls =>
      match t_step host s my_pthrid call with
      | none => none
      | some (error, s) =>
          match t_run host s calls with
          | none => none
          | some (errors, s) => some (error :: errors, s)

/-- The call is a `t_resume`. -/
def is_resume : t_call → Bool
  | .resume _ => true
  | _ => false

/-- The call is a `t_start`. -/
def is_start : t_call → Bool
  | .start _ _ _ _ => true
  | _ => false

/-- The block a `t_suspend` by `my_pthrid` is about has been started: the
block the task id names (the caller's own for id 0), if there is one, is not
in `WAIT_TSTRT`. -/
def suspends_started_task (s : task_state) (my_pthrid : Nat) : t_call → Bool
  | .suspend tid =>
      match named_tcb s.sched my_pthrid tid with
      | some tcb => decide (s.suspend_reason tcb.addr ≠ .WAIT_TSTRT)
      | none => true
  | _ => true

/-- Every `t_suspend` of the sequence is about a task that has been started
when the call is made. -/
def suspends_started (host : host_t) : task_state → List (Nat × t_call) → Bool
  | _, [] => true
  | s, (my_pthrid, call) :: calls =>
      suspends_started_task s my_pthrid call &&
        match t_step host s my_pthrid call with
        | some (_, s) => suspends_started host s calls
        | none => true

/-- The system after `t_create` of a task of priority 10 in the block at 4096,
its registers holding what the memory held. -/
def one_task (fill : Nat) : task_state :=
  match t_create linux_host (no_tasks fill) 10 (some 4096) with
  | some r => r.state
  | none => no_tasks fill

/-- The two tasks of `two_tasks`, both ready, with thread 103 holding the
scheduler lock at level 1. -/
def locked_tasks : task_state :=
  { sched := { two_tasks with scheduler_locked := 103, sched_lock_level := 1 },
    suspend_reason := fun _ => .WAIT_READY,
    registers := fun _ _ => 0,
    signals := [] }

end Sched

namespace VQueue

/-! ### The list of variable-length queues (vqueue.c) -/

/-- An entry of `vqueue_list`: the `qid` and `qname` fields of a queue control
block next to the fields the message code uses. A name is the list of its four
characters. -/
structure vq_entry where
  qid : Nat
  qname : List Nat
  queue : p2pt_vqueue_t

/-- `qcb_for` (vqueue.c:221): the first control block of the list with the
given id. -/
def qcb_for (vqueue_list : List vq_entry) (qid : Nat) : Option vq_entry :=
  vqueue_list.find? fun e => decide (e.qid = qid)

/-- `new_vqid` (vqueue.c:259): 0 for an empty list, otherwise the greatest id
of the list plus one, in `ULONG` arithmetic. -/
def new_vqid : List vq_entry → Nat
  | [] => 0
  | first :: rest =>
      (rest.foldl (fun m e => if e.qid > m then e.qid else m) first.qid + 1) % 4294967296

/-- The loop of `link_qcb` (vqueue.c:335) seen from the node after
`current_qcb`: the new block goes in front of the first following block with
a greater id, or to the end. -/
def link_qcb_after (new_vqueue : vq_entry) : List vq_entry → List vq_entry
  | [] => [new_vqueue]
  | nxt :: more =>
      if nxt.qid > new_vqueue.qid then new_vqueue :: nxt :: more
      else nxt :: link_qcb_after new_vqueue more

/-- `link_qcb` (vqueue.c:317): the new block becomes the list when the list is
empty; otherwise it is linked somewhere behind the first block. -/
def link_qcb (vqueue_list : List vq_entry) (new_vqueue : vq_entry) : List vq_entry :=
  match vqueue_list with
  | [] => [new_vqueue]
  | first :: rest => first :: link_qcb_after new_vqueue rest

/-- `q_vcreate` (vqueue.c:720) with the queue list: a created queue gets the
id of `new_vqid` and is linked into the list. The result is the status, the
id stored through `qid` and the list. -/
def q_vcreate_linked (vqueue_list : List vq_entry) (name : List Nat) (opt qsize msglen : Nat)
    (qcb : Bool) (ts_malloc : Option Int) (mem : Int → q_vmsg_t) :
    Nat × Option Nat × List vq_entry :=
  match q_vcreate opt qsize msglen qcb ts_malloc mem with
  | (error, some queue) =>
      (error, some (new_vqid vqueue_list),
        link_qcb vqueue_list ⟨new_vqid vqueue_list, name, queue⟩)
  | (error, none) => (error, none, vqueue_list)

/-- A list of two queues named A and B, with the ids 0 and 4294967295. -/
def old_vqueues : List vq_entry :=
  match q_vcreate 0 4 16 true (some 4096) (fun _ => ⟨0, []⟩) with
  | (_, some queue) => [⟨0, [65], queue⟩, ⟨4294967295, [66], queue⟩]
  | (_, none) => []

end VQueue

namespace Sema4

/-! ### The list of semaphores (sema4.c) -/

/-- An entry of `sema4_list`: the `smid` and `sname` fields of a semaphore
control block next to the fields the token code uses. -/
structure sm_entry where
  smid : Nat
  sname : List Nat
  semaphore : p2pt_sema4_t

/-- `smcb_for` (sema4.c:151): the first control block of the list with the
given id. -/
def smcb_for (sema4_list : List sm_entry) (smid : Nat) : Option sm_entry :=
  sema4_list.find? fun e => decide (e.smid = smid)

/-- `new_smid` (sema4.c:190): 1 for an empty list, otherwise the greatest id
of the list plus one, in `ULONG` arithmetic. -/
def new_smid : List sm_entry → Nat
  | [] => 1
  | first :: rest =>
      (rest.foldl (fun m e => if e.smid > m then e.smid else m) first.smid + 1) % 4294967296

/-- The loop of `link_smcb` (sema4.c:265) seen from the node after
`current_smcb`: the new block goes in front of the first following block with
a greater id, or to the end. -/
def link_smcb_after (new_sema4 : sm_entry) : List sm_entry → List sm_entry
  | [] => [new_sema4]
  | nxt :: more =>
      if nxt.smid > new_sema4.smid then new_sema4 :: nxt :: more
      else nxt :: link_smcb_after new_sema4 more

/-- `link_smcb` (sema4.c:248): the new block becomes the list when the list is
empty; otherwise it is linked somewhere behind the first block. -/
def link_smcb (sema4_list : List sm_entry) (new_sema4 : sm_entry) : List sm_entry :=
  match sema4_list with
  | [] => [new_sema4]
  | first :: rest => first :: link_smcb_after new_sema4 rest

/-- `sm_create` (sema4.c:380) with the semaphore list. `ts_malloc` is the
control block the allocator returns, `none` for a null pointer, otherwise
what the block holds in `pthread_sema4`. A semaphore that got its block gets
the id of `new_smid`, stored through `smid`, and is linked into the list, and
the status is 0; without a block the call returns `ERR_NOSCB`. -/
def sm_create_linked (sem_value_max : Nat) (sema4_list : List sm_entry) (name : List Nat)
    (count opt : Nat) (ts_malloc : Option Int) : Nat × Option Nat × List sm_entry :=
  match ts_malloc with
  | some sem =>
      (ERR_NO_ERROR, some (new_smid sema4_list),
        link_smcb sema4_list
          ⟨new_smid sema4_list, name, sm_create sem_value_max count opt sem⟩)
  | none => (ERR_NOSCB, none, sema4_list)

end Sema4

namespace MemBlk

def PT_NODEL : Nat := 0x00

/-- The three calls of `main` in test.c: partitions of 100 bytes in blocks of
10 at three addresses, each call with the list the one before has left. The
result is the list of the ids stored through `ptid`. -/
def three_partitions (mem : Nat → Nat) : Option (List (Option Nat)) :=
  match pt_create_linked [] [112, 116, 49, 0] 4096 100 10 PT_NODEL true true mem with
  | none => none
  | some o1 =>
      match pt_create_linked o1.prtn_list [112, 116, 50, 0] 8192 100 10 PT_NODEL true true
          o1.mem with
      | none => none
      | some o2 =>
          match pt_create_linked o2.prtn_list [112, 116, 51, 0] 12288 100 10 PT_NODEL true true
              o2.mem with
          | none => none
          | some o3 => some [o1.ptid, o2.ptid, o3.ptid]

end MemBlk

namespace Sched

/-- A task list with the ids 1 and 4294967295, neither task started. -/
def old_tasks : task_state :=
  { sched :=
      { scheduler_locked := 0, sched_lock_level := 0,
        task_list := [⟨4096, 0, 1, SCHED_FIFO, 10, 10, 0⟩,
          ⟨8192, 0, 4294967295, SCHED_FIFO, 10, 10, 0⟩] }
    suspend_reason := fun _ => .WAIT_TSTRT
    registers := fun _ _ => 0
    signals := [] }

end Sched

namespace Registry

/-- What the id rule says of one family of objects and a list `l` of its
control blocks: `key` is the id field, `first_id` the id given in an empty
list, `new_id` the function that chooses the id, `link` the function that
puts a block into the list and `lookup` the search by id. The new id is
`first_id` in an empty list and otherwise one more than the greatest id of
the list; it is the id of no block of the list; a block that gets the id goes
to the end of the list, the search by the id finds it, and a list in
ascending order of ids stays so. -/
def fresh_id_rule {α : Type} (key : α → Nat) (first_id : Nat) (new_id : List α → Nat)
    (link : List α → α → List α) (lookup : List α → Nat → Option α) (l : List α) : Prop :=
  (l = [] → new_id l = first_id) ∧
  (∀ e ∈ l, (∀ x ∈ l, key x ≤ key e) → new_id l = key e + 1) ∧
  (∀ e ∈ l, key e ≠ new_id l) ∧
  (∀ new_block, key new_block = new_id l →
    link l new_block = l ++ [new_block] ∧
    lookup (link l new_block) (new_id l) = some new_block ∧
    (l.Pairwise (fun a b => key a < key b) →
      (link l new_block).Pairwise (fun a b => key a < key b)))

end Registry
namespace Task

/-! ### Wait list: enqueue, selection, removal (task.c) -/

theorem link_susp_tcb_eq_append (l : List p2pthread_cb_t) (t : p2pthread_cb_t) :
    link_susp_tcb l t = l ++ [t] := by
  induction l with
  | nil => rfl
  | cons a l ih => simp [link_susp_tcb, ih]

theorem foldl_link_susp_tcb (ws acc : List p2pthread_cb_t) :
    ws.foldl link_susp_tcb acc = acc ++ ws := by
  induction ws generalizing acc with
  | nil => simp
  | cons a ws ih => simp [ih, link_susp_tcb_eq_append]

theorem unlink_loop_absent (e : Nat) :
    ∀ l : List p2pthread_cb_t, (∀ x ∈ l, x.addr ≠ e) → unlink_loop e l = l
  | [], _ => rfl
  | [_], _ => rfl
  | c :: n :: rest, h => by
      have hn : n.addr ≠ e := h n (by simp)
      have ih := unlink_loop_absent e (n :: rest) (fun x hx => h x (List.mem_cons_of_mem _ hx))
      simp [unlink_loop, hn, ih]

theorem unlink_loop_splice (r : p2pthread_cb_t) (post : List p2pthread_cb_t)
    (hpost : ∀ x ∈ post, x.addr ≠ r.addr) :
    ∀ (pre : List p2pthread_cb_t) (c : p2pthread_cb_t), (∀ x ∈ pre, x.addr ≠ r.addr) →
      unlink_loop r.addr (c :: (pre ++ r :: post)) = c :: (pre ++ post)
  | [], c, _ => by
      simp [unlink_loop, unlink_loop_absent r.addr post hpost]
  | p :: ps, c, h => by
      have hp : p.addr ≠ r.addr := h p (by simp)
      have ih := unlink_loop_splice r post hpost ps p (fun x hx => h x (List.mem_cons_of_mem _ hx))
      simp only [List.cons_append] at ih ⊢
      simp [unlink_loop, hp, ih]

theorem unlink_susp_tcb_middle (pre post : List p2pthread_cb_t) (r : p2pthread_cb_t)
    (hpre : ∀ x ∈ pre, x.addr ≠ r.addr) (hpost : ∀ x ∈ post, x.addr ≠ r.addr) :
    unlink_susp_tcb (pre ++ r :: post) r.addr = pre ++ post := by
  cases pre with
  | nil => simp [unlink_susp_tcb]
  | cons c ps =>
      have hc : c.addr ≠ r.addr := hpre c (by simp)
      have h := unlink_loop_splice r post hpost ps c
        (fun x hx => hpre x (List.mem_cons_of_mem _ hx))
      simp [unlink_susp_tcb, hc, h]

theorem priority_scan_spec :
    ∀ (l : List p2pthread_cb_t) (s : p2pthread_cb_t),
      (priority_scan s l = s ∧ ∀ x ∈ l, x.prv_priority ≤ s.prv_priority) ∨
      (∃ pre post, l = pre ++ priority_scan s l :: post ∧
        (∀ x ∈ pre, x.prv_priority < (priority_scan s l).prv_priority) ∧
        s.prv_priority < (priority_scan s l).prv_priority ∧
        ∀ x ∈ post, x.prv_priority ≤ (priority_scan s l).prv_priority)
  | [], s => Or.inl ⟨rfl, by simp⟩
  | c :: rest, s => by
      by_cases hc : c.prv_priority > s.prv_priority
      · have hstep : priority_scan s (c :: rest) = priority_scan c rest := by
          simp [priority_scan, hc]
        rw [hstep]
        rcases priority_scan_spec rest c with ⟨hr, hle⟩ | ⟨pre, post, hl, hpre, hlt, hpost⟩
        · right
          refine ⟨[], rest, by simp [hr], by simp, by rw [hr]; exact hc, by rw [hr]; exact hle⟩
        · right
          refine ⟨c :: pre, post, by rw [List.cons_append, ← hl], ?_, by omega, hpost⟩
          intro x hx
          rcases List.mem_cons.mp hx with rfl | hx
          · exact hlt
          · exact hpre x hx
      · have hstep : priority_scan s (c :: rest) = priority_scan s rest := by
          simp [priority_scan, hc]
        rw [hstep]
        rcases priority_scan_spec rest s with ⟨hr, hle⟩ | ⟨pre, post, hl, hpre, hlt, hpost⟩
        · left
          refine ⟨hr, ?_⟩
          intro x hx
          rcases List.mem_cons.mp hx with rfl | hx
          · omega
          · exact hle x hx
        · right
          refine ⟨c :: pre, post, by rw [List.cons_append, ← hl], ?_, hlt, hpost⟩
          intro x hx
          rcases List.mem_cons.mp hx with rfl | hx
          · omega
          · exact hpre x hx

/-- The designated task of a non-empty list splits the list: in FIFO order
nothing stands before it; in priority order everything before it has a
strictly smaller priority and nothing after it has a greater one. -/
theorem signalled_task_split (l : List p2pthread_cb_t) (pend_order : Int) (hl : l ≠ []) :
    ∃ pre r post, signalled_task l pend_order = some r ∧ l = pre ++ r :: post ∧
      (pend_order = 0 → pre = []) ∧
      (∀ x ∈ pre, x.prv_priority < r.prv_priority) ∧
      (pend_order ≠ 0 → ∀ x ∈ post, x.prv_priority ≤ r.prv_priority) := by
  cases l with
  | nil => exact absurd rfl hl
  | cons h t =>
      by_cases hp : pend_order = 0
      · exact ⟨[], h, t, by simp [signalled_task, hp], rfl, fun _ => rfl, by simp,
          fun hne => absurd hp hne⟩
      · have hsel : signalled_task (h :: t) pend_order = some (priority_scan h t) := by
          simp [signalled_task, hp, priority_scan]
        rcases priority_scan_spec t h with ⟨hr, hle⟩ | ⟨pre, post, hl', hpre, hlt, hpost⟩
        · refine ⟨[], h, t, by rw [hsel, hr], rfl, fun _ => rfl, by simp, fun _ => hle⟩
        · refine ⟨h :: pre, priority_scan h t, post, hsel, by rw [List.cons_append, ← hl'],
            fun h0 => absurd h0 hp, ?_, fun _ => hpost⟩
          intro x hx
          rcases List.mem_cons.mp hx with rfl | hx
          · exact hlt
          · exact hpre x hx

theorem nodup_addr_middle (pre post : List p2pthread_cb_t) (r : p2pthread_cb_t)
    (hd : ((pre ++ r :: post).map p2pthread_cb_t.addr).Nodup) :
    (∀ x ∈ pre, x.addr ≠ r.addr) ∧ (∀ x ∈ post, x.addr ≠ r.addr) ∧
      ((pre ++ post).map p2pthread_cb_t.addr).Nodup := by
  have hperm : ((pre ++ r :: post).map p2pthread_cb_t.addr).Perm
      (r.addr :: (pre ++ post).map p2pthread_cb_t.addr) := by
    have hmid : (pre ++ r :: post).Perm (r :: (pre ++ post)) := List.perm_middle
    exact hmid.map p2pthread_cb_t.addr
  have hd2 := (hperm.nodup_iff).mp hd
  rw [List.nodup_cons] at hd2
  obtain ⟨hnot, hnd⟩ := hd2
  refine ⟨?_, ?_, hnd⟩
  · intro x hx hEq
    exact hnot (List.mem_map.mpr ⟨x, List.mem_append_left _ hx, hEq⟩)
  · intro x hx hEq
    exact hnot (List.mem_map.mpr ⟨x, List.mem_append_right _ hx, hEq⟩)

theorem serve_fifo :
    ∀ (n : Nat) (l : List p2pthread_cb_t), l.length = n →
      (l.map p2pthread_cb_t.addr).Nodup → serve 0 n l = l
  | 0, l, hlen, _ => by
      have : l = [] := List.length_eq_zero.mp hlen
      simp [this, serve]
  | n + 1, l, hlen, hd => by
      have hne : l ≠ [] := by intro h; simp [h] at hlen
      obtain ⟨pre, r, post, hsel, hl, hfifo, _, _⟩ := signalled_task_split l 0 hne
      have hpre : pre = [] := hfifo rfl
      subst hpre
      simp only [List.nil_append] at hl
      subst hl
      obtain ⟨_, hpost, hnd⟩ := nodup_addr_middle [] post r (by simpa using hd)
      have hun : unlink_susp_tcb (r :: post) r.addr = post := by
        simpa using unlink_susp_tcb_middle [] post r (by simp) hpost
      have hlen' : post.length = n := by simpa using hlen
      have ih := serve_fifo n post hlen' (by simpa using hnd)
      simp [serve, hsel, hun, ih]

theorem served_before_mono {l l' : List p2pthread_cb_t} (hsub : List.Sublist l' l)
    {a b : p2pthread_cb_t} (h : served_before l' a b) : served_before l a b := by
  rcases h with h | ⟨h1, h2⟩
  · exact Or.inl h
  · exact Or.inr ⟨h1, List.Sublist.trans h2 hsub⟩

theorem serve_priority (pend_order : Int) (hp : pend_order ≠ 0) :
    ∀ (n : Nat) (l : List p2pthread_cb_t), l.length = n →
      (l.map p2pthread_cb_t.addr).Nodup →
      (serve pend_order n l).Perm l ∧ (serve pend_order n l).Pairwise (served_before l)
  | 0, l, hlen, _ => by
      have : l = [] := List.length_eq_zero.mp hlen
      simp [this, serve]
  | n + 1, l, hlen, hd => by
      have hne : l ≠ [] := by intro h; simp [h] at hlen
      obtain ⟨pre, r, post, hsel, hl, _, hlt, hle⟩ := signalled_task_split l pend_order hne
      subst hl
      obtain ⟨hpre, hpost, hnd⟩ := nodup_addr_middle pre post r hd
      have hun := unlink_susp_tcb_middle pre post r hpre hpost
      have hlen' : (pre ++ post).length = n := by
        simp only [List.length_append, List.length_cons] at hlen ⊢
        omega
      obtain ⟨ihp, ihs⟩ := serve_priority pend_order hp n (pre ++ post) hlen' hnd
      have hstep : serve pend_order (n + 1) (pre ++ r :: post) =
          r :: serve pend_order n (pre ++ post) := by
        simp [serve, hsel, hun]
      rw [hstep]
      have hsub : List.Sublist (pre ++ post) (pre ++ r :: post) :=
        List.Sublist.append (List.Sublist.refl pre) (List.sublist_cons_self r post)
      refine ⟨(List.Perm.cons r ihp).trans List.perm_middle.symm, ?_⟩
      rw [List.pairwise_cons]
      refine ⟨?_, ihs.imp (fun h => served_before_mono hsub h)⟩
      intro x hx
      have hx' : x ∈ pre ++ post := ihp.subset hx
      rcases List.mem_append.mp hx' with hxpre | hxpost
      · exact Or.inl (hlt x hxpre)
      · have hxle := hle hp x hxpost
        rcases lt_or_eq_of_le hxle with hlt' | heq
        · exact Or.inl hlt'
        · refine Or.inr ⟨heq.symm, ?_⟩
          have h1 : List.Sublist [r, x] (r :: post) :=
            List.Sublist.cons₂ r (List.singleton_sublist.mpr hxpost)
          exact List.Sublist.trans h1 (List.sublist_append_right pre (r :: post))

theorem signal_for_my_task_unique (l : List p2pthread_cb_t) (pend_order : Int)
    (hne : l ≠ []) (hd : (l.map p2pthread_cb_t.addr).Nodup) :
    ∃! t, t ∈ l ∧ signal_for_my_task l pend_order t.addr = true := by
  obtain ⟨pre, r, post, hsel, hl, _, _, _⟩ := signalled_task_split l pend_order hne
  have hr : r ∈ l := by rw [hl]; simp
  refine ⟨r, ⟨hr, by simp [signal_for_my_task, hsel]⟩, ?_⟩
  rintro t ⟨ht, hsig⟩
  have haddr : r.addr = t.addr := by simpa [signal_for_my_task, hsel] using hsig
  exact (List.inj_on_of_nodup_map hd hr ht haddr).symm

/-- C1. A wait list built by `link_susp_tcb` from distinct waiters and served by
taking, each round, the task `signal_for_my_task` designates and removing it
with `unlink_susp_tcb`: in FIFO pend order the waiters are served in their
enqueue order; in priority pend order the service order is a permutation of
the waiters in which a waiter of greater `prv_priority` comes first and
waiters of equal priority keep their enqueue order; and in every non-empty
list of distinct waiters exactly one waiter is the selected one. -/
theorem wait_list_service_order (ws : List p2pthread_cb_t) (pend_order : Int)
    (hd : (ws.map p2pthread_cb_t.addr).Nodup) :
    (pend_order = 0 → serve pend_order ws.length (ws.foldl link_susp_tcb []) = ws) ∧
    (pend_order ≠ 0 →
      (serve pend_order ws.length (ws.foldl link_susp_tcb [])).Perm ws ∧
      (serve pend_order ws.length (ws.foldl link_susp_tcb [])).Pairwise (served_before ws)) ∧
    (ws ≠ [] →
      ∃! t, t ∈ ws.foldl link_susp_tcb [] ∧
        signal_for_my_task (ws.foldl link_susp_tcb []) pend_order t.addr = true) := by
  have hl : ws.foldl link_susp_tcb [] = ws := by simp [foldl_link_susp_tcb]
  rw [hl]
  refine ⟨?_, ?_, ?_⟩
  · intro h0
    subst h0
    exact serve_fifo ws.length ws rfl hd
  · intro hp
    exact serve_priority pend_order hp ws.length ws rfl hd
  · intro hne
    exact signal_for_my_task_unique ws pend_order hne hd

/-- Witness for C1: three waiters T3 (priority 10), T6 (priority 20) and T9
(priority 20) enqueued in that order on a priority-pend list. -/
theorem wait_list_service_order_witness :
    (([⟨3, 10⟩, ⟨6, 20⟩, ⟨9, 20⟩] : List p2pthread_cb_t).map p2pthread_cb_t.addr).Nodup ∧
    (serve 2 3 (([⟨3, 10⟩, ⟨6, 20⟩, ⟨9, 20⟩] : List p2pthread_cb_t).foldl link_susp_tcb [])).Perm
      [⟨3, 10⟩, ⟨6, 20⟩, ⟨9, 20⟩] :=
  ⟨by decide,
   ((wait_list_service_order [⟨3, 10⟩, ⟨6, 20⟩, ⟨9, 20⟩] 2 (by decide)).2.1 (by decide)).1⟩

theorem ulong_to_int_small (n : Nat) (h : n < 2147483648) : ulong_to_int n = (n : Int) := by
  unfold ulong_to_int
  have h1 : n % 4294967296 = n := Nat.mod_eq_of_lt (by omega)
  rw [h1, if_pos h]

end Task

namespace Queue
open Task

/-! ### Fixed-message queue with a single extent (queue.c) -/

/-- The field that `q_create` does not set. When the control block that the
allocator hands out holds in `first_extent` the address of a block at 8192
(with a null link), `q_create` with capacity 1 returns 0 for a queue of one
extent whose chain is that block followed by the new extent at 4096, with its
head and tail at `msgs[1]` of the block at 8192, and the first `q_send` stores
its message there. -/
theorem q_create_reads_unset_first_extent :
    ((q_create 1 Q_LIMIT (some [8192]) (some 4096) (fun _ => null_msg)).2.map fun q =>
        (q.first_extent, q.total_extents, q.queue_head, q.queue_tail,
          (q_send q (1, 0, 0, 0) none).map (fun r => (r.1, r.2.mem 8208))))
      = some ([8192, 4096], 1, 8208, 8208, some (ERR_NO_ERROR, (1, 0, 0, 0))) :=
  rfl

end Queue
namespace Queue
open Task

/-! ### Extensible fixed-message queue (queue.c) -/

theorem grow_queue_created :
    q_create 4 0 (some []) (some 4096) (fun _ => null_msg)
      = (ERR_NO_ERROR, some grow_queue) := by
  have hmem : (fun a : Int => if 4096 ≤ a ∧ a + 16 ≤ 4096 - 4 + extent_block_size 4 then
      null_msg else null_msg) = fun _ => null_msg := by
    funext a
    split <;> rfl
  simp only [q_create, new_extent_for, grow_queue, hmem]
  rfl

/-- C3. On an extensible capacity-4 queue (first extent at 4096, allocator
answering 8192) the calls send 1..4, receive twice, send 5..7, receive five
times all return success, but the five last receives deliver messages 3, 4, 7
and then two cleared slots: `q_send` links the new extent behind the first one
while `queue_head` stands at slot 3, so the head reaches the new extent before
the slots that hold messages 5 and 6. -/
theorem q_send_new_extent_breaks_order :
    q_create 4 0 (some []) (some 4096) (fun _ => null_msg) = (ERR_NO_ERROR, some grow_queue) ∧
    (q_run grow_queue grow_calls).map Prod.fst =
      some [(0, none), (0, none), (0, none), (0, none),
        (0, some (1, 0, 0, 0)), (0, some (2, 0, 0, 0)),
        (0, none), (0, none), (0, none),
        (0, some (3, 0, 0, 0)), (0, some (4, 0, 0, 0)), (0, some (7, 0, 0, 0)),
        (0, some (0, 0, 0, 0)), (0, some (0, 0, 0, 0))] :=
  ⟨grow_queue_created, rfl⟩

end Queue
namespace VQueue
open Task

/-! ### Variable-length queue (vqueue.c) -/

theorem slot_addr_lt (a s : Int) (hs : 0 < s) (k1 k2 : Nat) :
    slot_addr a s k1 < slot_addr a s k2 ↔ k1 < k2 := by
  unfold slot_addr
  constructor
  · intro h
    have h1 : s * (k1 : Int) < s * (k2 : Int) := by linarith
    have h2 := lt_of_mul_lt_mul_left h1 (le_of_lt hs)
    exact_mod_cast h2
  · intro h
    have h1 : (k1 : Int) < (k2 : Int) := by exact_mod_cast h
    have h2 := mul_lt_mul_of_pos_left h1 hs
    linarith

theorem slot_addr_ne (a s : Int) (hs : 0 < s) (k1 k2 : Nat) (h : k1 ≠ k2) :
    slot_addr a s k1 ≠ slot_addr a s k2 := by
  rcases Nat.lt_or_gt_of_ne h with h1 | h1
  · exact ne_of_lt ((slot_addr_lt a s hs k1 k2).mpr h1)
  · exact ne_of_gt ((slot_addr_lt a s hs k2 k1).mpr h1)

theorem advance_slot (a s : Int) (hs : 0 < s) (n k : Nat) :
    (if slot_addr a s k + s > slot_addr a s n then a else slot_addr a s k + s) =
      slot_addr a s (if k + 1 ≤ n then k + 1 else 0) := by
  have hk : slot_addr a s k + s = slot_addr a s (k + 1) := by
    unfold slot_addr; push_cast; ring
  rw [hk]
  by_cases h : k + 1 ≤ n
  · have : ¬ (slot_addr a s (k + 1) > slot_addr a s n) := by
      intro hc
      have := (slot_addr_lt a s hs n (k + 1)).mp hc
      omega
    rw [if_neg this, if_pos h]
  · have : slot_addr a s (k + 1) > slot_addr a s n :=
      (slot_addr_lt a s hs n (k + 1)).mpr (by omega)
    rw [if_pos this, if_neg h]
    simp [slot_addr]

theorem retreat_slot (a s : Int) (hs : 0 < s) (n h : Nat) :
    (if slot_addr a s h - s < a then slot_addr a s n else slot_addr a s h - s) =
      slot_addr a s (if h = 0 then n else h - 1) := by
  by_cases h0 : h = 0
  · subst h0
    have : slot_addr a s 0 - s < a := by unfold slot_addr; simp; exact hs
    rw [if_pos this]
    simp
  · have hk : slot_addr a s h - s = slot_addr a s (h - 1) := by
      unfold slot_addr
      have : ((h - 1 : Nat) : Int) = (h : Int) - 1 := by omega
      rw [this]; ring
    have : ¬ (slot_addr a s (h - 1) < a) := by
      unfold slot_addr
      have : 0 ≤ s * ((h - 1 : Nat) : Int) := mul_nonneg (le_of_lt hs) (by positivity)
      linarith
    rw [hk, if_neg this, if_neg h0]

theorem copy_bytes_length : ∀ (k : Nat) (src dst : List Nat),
    (copy_bytes k src dst).length = dst.length
  | 0, _, _ => rfl
  | _ + 1, [], _ => rfl
  | _ + 1, _ :: _, [] => rfl
  | k + 1, _ :: src, _ :: dst => by simp [copy_bytes, copy_bytes_length k src dst]

theorem copy_bytes_take : ∀ (src dst : List Nat), src.length ≤ dst.length →
    (copy_bytes src.length src dst).take src.length = src
  | [], _, _ => by simp [copy_bytes]
  | _ :: _, [], h => by simp at h
  | b :: src, _ :: dst, h => by
      have := copy_bytes_take src dst (by simpa using h)
      simp [copy_bytes, this]

theorem vring_elems_snoc (mem : Int → q_vmsg_t) (a s : Int) (n h c : Nat) :
    vring_elems mem a s n h (c + 1) =
      vring_elems mem a s n h c ++ [mem (slot_addr a s (ring_slot n h c))] := by
  simp [vring_elems, List.range_succ]

theorem vring_elems_cons (mem : Int → q_vmsg_t) (a s : Int) (n h c : Nat) :
    vring_elems mem a s n h (c + 1) =
      mem (slot_addr a s (ring_slot n h 0)) ::
        (List.range c).map fun i => mem (slot_addr a s (ring_slot n h (i + 1))) := by
  simp [vring_elems, List.range_succ_eq_map, List.map_map, Function.comp_def]

theorem vring_elems_update_other (mem : Int → q_vmsg_t) (a s : Int) (hs : 0 < s)
    (n h c k : Nat) (v : q_vmsg_t) (hk : ∀ i, i < c → ring_slot n h i ≠ k) :
    vring_elems (Function.update mem (slot_addr a s k) v) a s n h c = vring_elems mem a s n h c := by
  unfold vring_elems
  apply List.map_congr_left
  intro i hi
  rw [Function.update_noteq (slot_addr_ne a s hs _ _ (hk i (List.mem_range.mp hi)))]

theorem stride_pos (L : Nat) : (0 : Int) < 4 + (L : Int) := by omega

theorem q_vsend_ring {q : p2pt_vqueue_t} {opt : Nat} {a : Int} {n L h : Nat}
    {msgs : List (List Nat)} (hR : VRing q opt a n L h msgs) (hn : 1 ≤ n) (msg : List Nat) :
    (L < msg.length → q_vsend q msg msg.length = (ERR_MSGSIZ, q)) ∧
    (msg.length ≤ L → msgs.length < n →
      (q_vsend q msg msg.length).1 = ERR_NO_ERROR ∧
        VRing (q_vsend q msg msg.length).2 opt a n L h (msgs ++ [msg])) ∧
    (msg.length ≤ L → n ≤ msgs.length → q_vsend q msg msg.length = (ERR_QFULL, q)) := by
  have hs := stride_pos L
  have hper0 : ¬ (q.msgs_per_queue = 0 ∧ q.first_susp ≠ []) := by
    rw [hR.per]; intro hc; have := hc.1; omega
  refine ⟨?_, ?_, ?_⟩
  · intro hlong
    have : msg.length > q.msg_len := by rw [hR.len]; exact hlong
    simp [q_vsend, this]
  · intro hshort hlt
    have h0 : ¬ (msg.length > q.msg_len) := by rw [hR.len]; omega
    have h1 : ¬ (q.msg_count > q.msgs_per_queue) := by rw [hR.cnt, hR.per]; omega
    have h2 : ¬ (q.msg_count = q.msgs_per_queue) := by rw [hR.cnt, hR.per]; omega
    have hq : q_vsend q msg msg.length = (ERR_NO_ERROR, send_msg_to q msg msg.length) := by
      simp [q_vsend, h0, h1, h2]
    rw [hq]
    refine ⟨rfl, ?_⟩
    have hh := hR.hh
    have hslot : ring_slot n h msgs.length ≤ n := by
      unfold ring_slot; split <;> omega
    have htail : (send_msg_to q msg msg.length).queue_tail =
        slot_addr a (4 + (L : Int)) (ring_slot n h (msgs.length + 1)) := by
      simp only [send_msg_to, hR.tail, hR.vlen, hR.lst, hR.fst]
      rw [advance_slot a _ hs]
      congr 1
      unfold ring_slot
      split <;> split <;> split <;> omega
    have hmem : (send_msg_to q msg msg.length).mem =
        Function.update q.mem (slot_addr a (4 + (L : Int)) (ring_slot n h msgs.length))
          (store_msg (q.mem (slot_addr a (4 + (L : Int)) (ring_slot n h msgs.length))) msg
            msg.length) := by
      simp only [send_msg_to, hR.tail]
    refine ⟨hR.flags, hR.fst, hR.lst, hR.per, hR.len, hR.vlen, hR.st, hR.susp, hR.hh, hR.head,
      ?_, ?_, ?_, ?_, ?_⟩
    · simp [send_msg_to, hR.cnt]
    · simp; omega
    · rw [htail]; simp
    · intro k hk
      rw [hmem]
      by_cases hkk : slot_addr a (4 + (L : Int)) k =
          slot_addr a (4 + (L : Int)) (ring_slot n h msgs.length)
      · rw [hkk, Function.update_same]
        simp only [store_msg, copy_bytes_length]
        exact hR.room _ hslot
      · rw [Function.update_noteq hkk]
        exact hR.room k hk
    · rw [hmem]
      simp only [List.length_append, List.length_singleton]
      rw [vring_elems_snoc, vring_elems_update_other _ _ _ hs, List.map_append, hR.contents]
      · simp only [Function.update_same, List.map_append, List.map_cons, List.map_nil]
        congr 2
        simp only [store_msg, slot_msg]
        rw [copy_bytes_take msg _ (by rw [hR.room _ hslot]; exact hshort)]
      · intro i hi
        unfold ring_slot
        split <;> split <;> omega
  · intro hshort hge
    have h0 : ¬ (msg.length > q.msg_len) := by rw [hR.len]; omega
    by_cases h1 : q.msg_count > q.msgs_per_queue
    · simp [q_vsend, h0, h1]
    · have h2 : q.msg_count = q.msgs_per_queue := by
        rw [hR.cnt, hR.per] at h1 ⊢; omega
      simp [q_vsend, h0, h2, hper0]

theorem q_vurgent_ring {q : p2pt_vqueue_t} {opt : Nat} {a : Int} {n L h : Nat}
    {msgs : List (List Nat)} (hR : VRing q opt a n L h msgs) (msg : List Nat) :
    (L < msg.length → q_vurgent q msg msg.length = (ERR_MSGSIZ, q)) ∧
    (msg.length ≤ L → msgs.length ≤ n →
      (q_vurgent q msg msg.length).1 = ERR_NO_ERROR ∧
        VRing (q_vurgent q msg msg.length).2 opt a n L (if h = 0 then n else h - 1)
          (msg :: msgs)) ∧
    (msg.length ≤ L → n < msgs.length → q_vurgent q msg msg.length = (ERR_QFULL, q)) := by
  have hs := stride_pos L
  refine ⟨?_, ?_, ?_⟩
  · intro hlong
    have : msg.length > q.msg_len := by rw [hR.len]; exact hlong
    simp [q_vurgent, this]
  · intro hshort hle
    have h0 : ¬ (msg.length > q.msg_len) := by rw [hR.len]; omega
    have h1 : ¬ (q.msg_count > q.msgs_per_queue) := by rw [hR.cnt, hR.per]; omega
    have hq : q_vurgent q msg msg.length = (ERR_NO_ERROR, urgent_msg_to q msg msg.length) := by
      simp [q_vurgent, h0, h1]
    rw [hq]
    refine ⟨rfl, ?_⟩
    have hh := hR.hh
    have hnew : (if q.queue_head - q.vmsg_len < q.first_msg_in_queue then q.last_msg_in_queue
        else q.queue_head - q.vmsg_len) =
        slot_addr a (4 + (L : Int)) (if h = 0 then n else h - 1) := by
      rw [hR.head, hR.vlen, hR.fst, hR.lst]
      exact retreat_slot a _ hs n h
    have hslot : (if h = 0 then n else h - 1) ≤ n := by split <;> omega
    have hhead : (urgent_msg_to q msg msg.length).queue_head =
        slot_addr a (4 + (L : Int)) (if h = 0 then n else h - 1) := by
      simp only [urgent_msg_to, hnew]
    have hmem : (urgent_msg_to q msg msg.length).mem =
        Function.update q.mem (slot_addr a (4 + (L : Int)) (if h = 0 then n else h - 1))
          (store_msg (q.mem (slot_addr a (4 + (L : Int)) (if h = 0 then n else h - 1))) msg
            msg.length) := by
      simp only [urgent_msg_to, hnew]
    refine ⟨hR.flags, hR.fst, hR.lst, hR.per, hR.len, hR.vlen, hR.st, hR.susp, hslot, hhead,
      ?_, ?_, ?_, ?_, ?_⟩
    · simp [urgent_msg_to, hR.cnt]
    · simp; omega
    · have : (urgent_msg_to q msg msg.length).queue_tail = q.queue_tail := rfl
      rw [this, hR.tail]
      congr 1
      simp only [List.length_cons]
      unfold ring_slot
      split <;> split <;> split <;> omega
    · intro k hk
      rw [hmem]
      by_cases hkk : slot_addr a (4 + (L : Int)) k =
          slot_addr a (4 + (L : Int)) (if h = 0 then n else h - 1)
      · rw [hkk, Function.update_same]
        simp only [store_msg, copy_bytes_length]
        exact hR.room _ hslot
      · rw [Function.update_noteq hkk]
        exact hR.room k hk
    · rw [hmem]
      simp only [List.length_cons]
      rw [vring_elems_cons]
      have hz : ring_slot n (if h = 0 then n else h - 1) 0 = (if h = 0 then n else h - 1) := by
        unfold ring_slot
        split <;> split <;> omega
      rw [hz]
      simp only [Function.update_same, List.map_cons]
      congr 1
      · simp only [store_msg, slot_msg]
        rw [copy_bytes_take msg _ (by rw [hR.room _ hslot]; exact hshort)]
      · refine Eq.trans ?_ hR.contents
        congr 1
        unfold vring_elems
        apply List.map_congr_left
        intro i hi
        have hi' := List.mem_range.mp hi
        have hsl : ring_slot n (if h = 0 then n else h - 1) (i + 1) = ring_slot n h i := by
          unfold ring_slot
          split <;> split <;> split <;> omega
        have hne : ring_slot n h i ≠ (if h = 0 then n else h - 1) := by
          unfold ring_slot
          split <;> split <;> omega
        rw [hsl, Function.update_noteq (slot_addr_ne a _ hs _ _ hne)]
  · intro hshort hgt
    have h0 : ¬ (msg.length > q.msg_len) := by rw [hR.len]; omega
    have h1 : q.msg_count > q.msgs_per_queue := by rw [hR.cnt, hR.per]; omega
    simp [q_vurgent, h0, h1]

theorem signal_alone (t : p2pthread_cb_t) (pend_order : Int) :
    signal_for_my_task [t] pend_order t.addr = true := by
  by_cases hp : pend_order = 0 <;> simp [signal_for_my_task, signalled_task, priority_scan, hp]

theorem q_vreceive_ring {q : p2pt_vqueue_t} {opt : Nat} {a : Int} {n L h : Nat}
    {msgs : List (List Nat)} (hR : VRing q opt a n L h msgs) (t : p2pthread_cb_t)
    (buflen : Nat) :
    (buflen < L → q_vreceive_nowait q t buflen = (ERR_BUFSIZ, none, q)) ∧
    (L ≤ buflen → msgs = [] →
      (q_vreceive_nowait q t buflen).1 = ERR_NOMSG ∧
      (q_vreceive_nowait q t buflen).2.1 = none ∧
      VRing (q_vreceive_nowait q t buflen).2.2 opt a n L h []) ∧
    (L ≤ buflen → ∀ m rest, msgs = m :: rest →
      (q_vreceive_nowait q t buflen).1 = ERR_NO_ERROR ∧
      (q_vreceive_nowait q t buflen).2.1 = some (m, m.length) ∧
      VRing (q_vreceive_nowait q t buflen).2.2 opt a n L (if h + 1 ≤ n then h + 1 else 0) rest) := by
  have hs := stride_pos L
  have hk : q.send_type &&& KILLD = 0 := by rw [hR.st]; decide
  have hun : unlink_susp_tcb [t] t.addr = [] := by simp [unlink_susp_tcb]
  refine ⟨?_, ?_, ?_⟩
  · intro hsmall
    have : buflen < q.msg_len := by rw [hR.len]; exact hsmall
    simp [q_vreceive_nowait, this]
  · intro hbig hnil
    subst hnil
    have hb : ¬ (buflen < q.msg_len) := by rw [hR.len]; omega
    have hc : ¬ (q.msg_count > 0) := by rw [hR.cnt]; simp
    have hwait : waiting_on_vqueue { q with first_susp := [t] } t.addr = true := by
      simp [waiting_on_vqueue, hk, hc]
    have hq : q_vreceive_nowait q t buflen = (ERR_NOMSG, none, { q with first_susp := [] }) := by
      simp only [q_vreceive_nowait, hb, if_false, hR.susp, link_susp_tcb, hwait, if_true, hun]
    rw [hq]
    exact ⟨rfl, rfl, hR.flags, hR.fst, hR.lst, hR.per, hR.len, hR.vlen, hR.st, rfl, hR.hh,
      hR.head, hR.cnt, hR.cle, hR.tail, hR.room, hR.contents⟩
  · intro hbig m rest hm
    subst hm
    have hh := hR.hh
    have hb : ¬ (buflen < q.msg_len) := by rw [hR.len]; omega
    have hc : q.msg_count > 0 := by rw [hR.cnt]; simp
    have hwait : waiting_on_vqueue { q with first_susp := [t] } t.addr = false := by
      simp [waiting_on_vqueue, hk, hc, signal_alone]
    have hcont := hR.contents
    rw [List.length_cons, vring_elems_cons] at hcont
    have hz : ring_slot n h 0 = h := by unfold ring_slot; split <;> omega
    rw [hz, ← hR.head] at hcont
    simp only [List.map_cons] at hcont
    have hhd := (List.cons.inj hcont).1
    have hrest := (List.cons.inj hcont).2
    have hbc : ¬ (q.send_type = BCAST) := by rw [hR.st]; decide
    have hsend : q.send_type = SEND ∨ ([] : List p2pthread_cb_t) = [] := Or.inl hR.st
    have hadv : (if q.queue_head + q.vmsg_len > q.last_msg_in_queue then q.first_msg_in_queue
        else q.queue_head + q.vmsg_len) =
        slot_addr a (4 + (L : Int)) (if h + 1 ≤ n then h + 1 else 0) := by
      rw [hR.head, hR.vlen, hR.fst, hR.lst]
      exact advance_slot a _ hs n h
    have hq : q_vreceive_nowait q t buflen =
        (ERR_NO_ERROR, some (m, m.length), { q with
          first_susp := []
          mem := Function.update q.mem q.queue_head
            { msglen := 0, msgbuf := (q.mem q.queue_head).msgbuf.set 0 0 }
          queue_head := slot_addr a (4 + (L : Int)) (if h + 1 ≤ n then h + 1 else 0)
          msg_count := q.msg_count - 1 }) := by
      have e1 : slot_msg (q.mem q.queue_head) = m := (Prod.mk.inj hhd).1
      have e2 : (q.mem q.queue_head).msglen = m.length := (Prod.mk.inj hhd).2
      simp only [slot_msg] at e1
      rw [e2] at e1
      simp only [q_vreceive_nowait, hb, if_false, hR.susp, link_susp_tcb, hwait,
        q_vreceive_fetch, hun, fetch_msg_from, hbc, hsend, if_true, hadv, hk, e1, e2]
      simp [hR.st]
    rw [hq]
    refine ⟨rfl, rfl, ?_⟩
    have hcle := hR.cle
    simp only [List.length_cons] at hcle
    refine ⟨hR.flags, hR.fst, hR.lst, hR.per, hR.len, hR.vlen, hR.st, rfl, ?_, rfl, ?_, ?_, ?_,
      ?_, ?_⟩
    · split <;> omega
    · simp [hR.cnt]
    · omega
    · simp only []
      rw [hR.tail]
      congr 1
      simp only [List.length_cons]
      unfold ring_slot
      split <;> split <;> split <;> omega
    · intro k hk'
      simp only []
      by_cases hkk : slot_addr a (4 + (L : Int)) k = q.queue_head
      · rw [hkk, Function.update_same]
        simp only [List.length_set]
        rw [hR.head]
        exact hR.room h hh
      · rw [Function.update_noteq hkk]
        exact hR.room k hk'
    · simp only []
      refine Eq.trans ?_ hrest
      congr 1
      unfold vring_elems
      apply List.map_congr_left
      intro i hi
      have hi' := List.mem_range.mp hi
      have hsl : ring_slot n (if h + 1 ≤ n then h + 1 else 0) i = ring_slot n h (i + 1) := by
        unfold ring_slot
        split <;> split <;> split <;> omega
      have hne : ring_slot n h (i + 1) ≠ h := by
        unfold ring_slot
        split <;> omega
      rw [hsl, hR.head, Function.update_noteq (slot_addr_ne a _ hs _ _ hne)]

theorem vq_step_ring {q : p2pt_vqueue_t} {opt : Nat} {a : Int} {n L h : Nat}
    {msgs : List (List Nat)} (hR : VRing q opt a n L h msgs) (hn : 1 ≤ n) (call : vq_call) :
    ∃ h', (vq_step q call).1 = (vlist_step n L msgs call).1 ∧
      VRing (vq_step q call).2 opt a n L h' (vlist_step n L msgs call).2 := by
  cases call with
  | vsend msg =>
      obtain ⟨h1, h2, h3⟩ := q_vsend_ring hR hn msg
      by_cases hlong : L < msg.length
      · have e := h1 hlong
        have hl : msg.length > L := hlong
        exact ⟨h, by simp [vq_step, vlist_step, e, hl], by simpa [vq_step, vlist_step, e, hl] using hR⟩
      · have hl : ¬ (msg.length > L) := hlong
        by_cases hlt : msgs.length < n
        · obtain ⟨e1, e2⟩ := h2 (by omega) hlt
          exact ⟨h, by simp [vq_step, vlist_step, e1, hl, hlt],
            by simpa [vq_step, vlist_step, hl, hlt] using e2⟩
        · have e := h3 (by omega) (by omega)
          exact ⟨h, by simp [vq_step, vlist_step, e, hl, hlt],
            by simpa [vq_step, vlist_step, e, hl, hlt] using hR⟩
  | vurgent msg =>
      obtain ⟨h1, h2, h3⟩ := q_vurgent_ring hR msg
      by_cases hlong : L < msg.length
      · have e := h1 hlong
        have hl : msg.length > L := hlong
        exact ⟨h, by simp [vq_step, vlist_step, e, hl], by simpa [vq_step, vlist_step, e, hl] using hR⟩
      · have hl : ¬ (msg.length > L) := hlong
        by_cases hle : msgs.length ≤ n
        · obtain ⟨e1, e2⟩ := h2 (by omega) hle
          exact ⟨_, by simp [vq_step, vlist_step, e1, hl, hle],
            by simpa [vq_step, vlist_step, hl, hle] using e2⟩
        · have e := h3 (by omega) (by omega)
          exact ⟨h, by simp [vq_step, vlist_step, e, hl, hle],
            by simpa [vq_step, vlist_step, e, hl, hle] using hR⟩
  | vreceive t buflen =>
      obtain ⟨h1, h2, h3⟩ := q_vreceive_ring hR t buflen
      by_cases hsmall : buflen < L
      · have e := h1 hsmall
        exact ⟨h, by simp [vq_step, vlist_step, e, hsmall],
          by simpa [vq_step, vlist_step, e, hsmall] using hR⟩
      · cases msgs with
        | nil =>
            obtain ⟨e1, e2, e3⟩ := h2 (by omega) rfl
            exact ⟨h, by simp [vq_step, vlist_step, e1, e2, hsmall],
              by simpa [vq_step, vlist_step, hsmall] using e3⟩
        | cons m rest =>
            obtain ⟨e1, e2, e3⟩ := h3 (by omega) m rest rfl
            exact ⟨_, by simp [vq_step, vlist_step, e1, e2, hsmall],
              by simpa [vq_step, vlist_step, hsmall] using e3⟩

theorem vq_run_ring {opt : Nat} {a : Int} {n L : Nat} (hn : 1 ≤ n) :
    ∀ (calls : List vq_call) (q : p2pt_vqueue_t) (h : Nat) (msgs : List (List Nat)),
      VRing q opt a n L h msgs →
      ∃ h', (vq_run q calls).1 = (vlist_run n L msgs calls).1 ∧
        VRing (vq_run q calls).2 opt a n L h' (vlist_run n L msgs calls).2
  | [], q, h, msgs, hR => ⟨h, rfl, hR⟩
  | call :: calls, q, h, msgs, hR => by
      obtain ⟨h1, hstep, hR1⟩ := vq_step_ring hR hn call
      obtain ⟨h2, hrun, hR2⟩ := vq_run_ring hn calls _ h1 _ hR1
      exact ⟨h2, by simp [vq_run, vlist_run, hstep, hrun], by simpa [vq_run, vlist_run] using hR2⟩

theorem q_vcreate_ring (opt n L : Nat) (a : Int) (mem : Int → q_vmsg_t)
    (hfit : (L + 4) * (n + 1) < 4294967296) :
    ∃ q0, q_vcreate opt n L true (some a) mem = (ERR_NO_ERROR, some q0) ∧
      VRing q0 opt a n L 0 [] := by
  have hL : L + 4 < 4294967296 := by nlinarith
  have hn : n + 1 < 1073741824 := by nlinarith
  have hn' : (L + 4) * n < 4294967296 := by nlinarith
  have h1 : (4 + (L : Int)) % 4294967296 = 4 + (L : Int) := by omega
  have h2 : ulong_to_int n = (n : Int) := ulong_to_int_small n (by omega)
  have h3 : ((4 + (L : Int)) * ((n : Int) + 1)) % 4294967296 =
      (4 + (L : Int)) * ((n : Int) + 1) := by
    have : (4 + (L : Int)) * ((n : Int) + 1) = (((L + 4) * (n + 1) : Nat) : Int) := by
      push_cast; ring
    rw [this]
    omega
  have h4 : ((4 + (L : Int)) * (n : Int)) % 4294967296 = (4 + (L : Int)) * (n : Int) := by
    have : (4 + (L : Int)) * (n : Int) = (((L + 4) * n : Nat) : Int) := by
      push_cast; ring
    rw [this]
    omega
  refine ⟨⟨opt, a, a, SEND, a, a + (4 + (L : Int)) * (n : Int), [], 0, 0, (n : Int), L,
    4 + (L : Int), fun x =>
      if a ≤ x ∧ x + (4 + (L : Int)) ≤ a + (4 + (L : Int)) * ((n : Int) + 1) then
        { msglen := 0, msgbuf := List.replicate L 0 }
      else mem x⟩, ?_, ?_⟩
  · simp only [q_vcreate, data_extent_for, if_true, h1, h2, h3, h4]
  · refine ⟨rfl, rfl, rfl, rfl, rfl, rfl, rfl, rfl, Nat.zero_le n, by simp [slot_addr],
      by simp, by simp, by simp [ring_slot, slot_addr], ?_, by simp [vring_elems]⟩
    intro k hk
    have hs := stride_pos L
    have h5 : a ≤ slot_addr a (4 + (L : Int)) k := by
      have := mul_nonneg (le_of_lt hs) (Int.ofNat_nonneg k)
      unfold slot_addr
      linarith
    have h6 : slot_addr a (4 + (L : Int)) k + (4 + (L : Int)) ≤
        a + (4 + (L : Int)) * ((n : Int) + 1) := by
      have hk' : ((k : Int) + 1) ≤ (n : Int) + 1 := by omega
      have := mul_le_mul_of_nonneg_left hk' (le_of_lt hs)
      unfold slot_addr
      linarith
    simp [h5, h6]

/-- C4 fails for sizes that do not fit the 32-bit fields of the queue. With
capacity 4294967295 the `int` field `msgs_per_queue` is -1, so on the empty
queue `q_vsend` and `q_vurgent` of a one-byte message return `ERR_QFULL`,
where the list of capacity 4294967295 takes the message. With capacity 2 and
a maximum length of 4294967292 the element size `4 + msg_len` is 0 as a
`size_t`, so all elements are at one address: two sends return 0, the second
message overwrites the first, and the first fetch returns message 2, where
the list returns message 1. -/
theorem q_vcreate_sizes_wrap :
    ((q_vcreate 0 4294967295 16 true (some 4096) (fun _ => ⟨0, []⟩)).2.map fun q =>
        (q.msgs_per_queue, q.msg_count, (q_vsend q [1] 1).1, (q_vurgent q [1] 1).1))
      = some (-1, 0, ERR_QFULL, ERR_QFULL) ∧
    (vlist_run 4294967295 16 [] [.vsend [1], .vurgent [1]]).1
      = [(ERR_NO_ERROR, none), (ERR_NO_ERROR, none)] ∧
    ((q_vcreate 0 2 4294967292 true (some 4096)
        (fun _ => ⟨0, [0, 0, 0, 0]⟩)).2.map fun q =>
        (q.vmsg_len, q.last_msg_in_queue,
          (vq_run q [.vsend [1], .vsend [2], .vreceive ⟨5, 15⟩ 4294967292]).1))
      = some (0, 4096, [(ERR_NO_ERROR, none), (ERR_NO_ERROR, none),
          (ERR_NO_ERROR, some ([2], 1))]) ∧
    (vlist_run 2 4294967292 [] [.vsend [1], .vsend [2], .vreceive ⟨5, 15⟩ 4294967292]).1
      = [(ERR_NO_ERROR, none), (ERR_NO_ERROR, none), (ERR_NO_ERROR, some ([1], 1))] := by
  refine ⟨by decide, by decide, ?_, by decide⟩
  rfl

/-- C4, for sizes that fit. A variable-length queue created by `q_vcreate`
with capacity `n ≥ 1` and maximum message length `L`, where the block of
`n + 1` elements of `L + 4` bytes is smaller than `2 ^ 32` bytes, behaves,
under every sequence of `q_vsend`, `q_vurgent` and receives in SEND mode, as
the bounded list `vlist_step`: `q_vsend` of a message of at most `L` bytes
succeeds iff fewer than `n` are queued and `q_vurgent` iff at most `n` are,
each otherwise returning `ERR_QFULL` with the queue unchanged; every receive
returns the front message with exactly its bytes and its length; sent
messages come out in send order and an urgent one before all that were
queued. -/
theorem vqueue_behaves_as_list (opt n L : Nat) (a : Int) (mem : Int → q_vmsg_t)
    (hn : 1 ≤ n) (hfit : (L + 4) * (n + 1) < 4294967296) (calls : List vq_call) :
    ∃ q0, q_vcreate opt n L true (some a) mem = (ERR_NO_ERROR, some q0) ∧
      (vq_run q0 calls).1 = (vlist_run n L [] calls).1 ∧
      (vq_run q0 calls).2.msg_count = ((vlist_run n L [] calls).2.length : Int) ∧
      (∀ msg : List Nat, msg.length ≤ L → n ≤ (vlist_run n L [] calls).2.length →
        q_vsend (vq_run q0 calls).2 msg msg.length = (ERR_QFULL, (vq_run q0 calls).2)) ∧
      (∀ msg : List Nat, msg.length ≤ L → n < (vlist_run n L [] calls).2.length →
        q_vurgent (vq_run q0 calls).2 msg msg.length = (ERR_QFULL, (vq_run q0 calls).2)) := by
  obtain ⟨q0, hcreate, hR0⟩ := q_vcreate_ring opt n L a mem hfit
  obtain ⟨h, hrun, hR⟩ := vq_run_ring hn calls q0 0 [] hR0
  exact ⟨q0, hcreate, hrun, hR.cnt,
    fun msg hlen hfull => (q_vsend_ring hR hn msg).2.2 hlen hfull,
    fun msg hlen hfull => (q_vurgent_ring hR msg).2.2 hlen hfull⟩

/-- Witness for C4: nine 16-byte sends succeed on a capacity-9 queue and give
five `ERR_QFULL` on a capacity-4 queue. -/
theorem vqueue_behaves_as_list_witness :
    (vlist_run 9 16 [] nine_vsends).1 = List.replicate 9 (0, none) ∧
    (vlist_run 4 16 [] nine_vsends).1 =
      List.replicate 4 (0, none) ++ List.replicate 5 (0x35, none) ∧
    ∃ q0, q_vcreate 0 4 16 true (some 4096) (fun _ => ⟨0, []⟩) = (ERR_NO_ERROR, some q0) ∧
      (vq_run q0 nine_vsends).1 = (vlist_run 4 16 [] nine_vsends).1 ∧
      (vq_run q0 nine_vsends).2.msg_count = ((vlist_run 4 16 [] nine_vsends).2.length : Int) ∧
      (∀ msg : List Nat, msg.length ≤ 16 → 4 ≤ (vlist_run 4 16 [] nine_vsends).2.length →
        q_vsend (vq_run q0 nine_vsends).2 msg msg.length =
          (ERR_QFULL, (vq_run q0 nine_vsends).2)) ∧
      (∀ msg : List Nat, msg.length ≤ 16 → 4 < (vlist_run 4 16 [] nine_vsends).2.length →
        q_vurgent (vq_run q0 nine_vsends).2 msg msg.length =
          (ERR_QFULL, (vq_run q0 nine_vsends).2)) :=
  ⟨by decide, by decide,
   vqueue_behaves_as_list 0 4 16 4096 (fun _ => ⟨0, []⟩) (by decide) (by decide) nine_vsends⟩

end VQueue
namespace Queue
open Task

/-! ### The ring of slots of a queue with several extents (queue.c) -/

theorem find_extent_at (p mm : Int) :
    ∀ (pre : List Int) (cur : Int) (post : List Int) (l0 : Int),
      (∀ e ∈ pre, ¬ (p ≥ e ∧ p ≤ e + 16 * mm)) → (p ≥ cur ∧ p ≤ cur + 16 * mm) →
      find_extent p mm (pre ++ cur :: post) l0 = (cur :: post, cur + 16 * mm)
  | [], cur, post, l0, _, hin => by
      simp only [List.nil_append, find_extent, hin, and_self, if_true]
  | e :: pre, cur, post, l0, hpre, hin => by
      have he : ¬ (p ≥ e ∧ p ≤ e + 16 * mm) := hpre e (by simp)
      simp only [List.cons_append, find_extent, he, if_false]
      exact find_extent_at p mm pre cur post _ (fun e' he' => hpre e' (List.mem_cons_of_mem _ he')) hin

theorem find_extent_prv_at (p mm : Int) :
    ∀ (pre : List Int) (cur : Int) (post : List Int) (f0 : Int) (prv0 : Option Int),
      (∀ e ∈ pre, ¬ (p ≥ e ∧ p ≤ e + 16 * mm)) → (p ≥ cur ∧ p ≤ cur + 16 * mm) →
      find_extent_prv p mm (pre ++ cur :: post) f0 prv0 =
        (cur, match pre.getLast? with
              | none => prv0
              | some e => some (e + 16 * mm))
  | [], cur, post, f0, prv0, _, hin => by
      simp only [List.nil_append, find_extent_prv, hin, and_self, if_true, List.getLast?_nil]
  | e :: pre, cur, post, f0, prv0, hpre, hin => by
      have he : ¬ (p ≥ e ∧ p ≤ e + 16 * mm) := hpre e (by simp)
      simp only [List.cons_append, find_extent_prv, he, if_false, List.append_eq]
      rw [find_extent_prv_at p mm pre cur post _ _
        (fun e' he' => hpre e' (List.mem_cons_of_mem _ he')) hin]
      cases pre with
      | nil => simp
      | cons x xs =>
          rw [List.getLast?_cons_cons]
          cases hg : (x :: xs).getLast? with
          | none => simp at hg
          | some l => rfl

/-- A slot of a further extent lies outside the first extent and outside the
extents before its own. -/
theorem rest_slot_apart {q : p2pt_queue_t} {e0 : Int} {rest : List Int} {n : Nat}
    (hE : Extents q e0 rest n) (pre : List Int) (cur : Int) (post : List Int)
    (hrest : rest = pre ++ cur :: post) (j : Nat) (hj : j < n) :
    (cur + 16 * (j : Int) < e0 ∨ cur + 16 * (j : Int) > e0 + 16 * ((n : Int) - 1 + 1)) ∧
    (∀ e ∈ pre, ¬ (cur + 16 * (j : Int) ≥ e ∧ cur + 16 * (j : Int) ≤ e + 16 * ((n : Int) - 1))) ∧
    (cur + 16 * (j : Int) ≥ cur ∧ cur + 16 * (j : Int) ≤ cur + 16 * ((n : Int) - 1)) := by
  have h1 := hE.apart_first cur (by rw [hrest]; simp)
  have h2 := hE.apart_rest
  rw [hrest, List.pairwise_append] at h2
  refine ⟨by omega, ?_, by omega⟩
  intro e he
  have := h2.2.2 e he cur (by simp)
  omega

theorem step_forward_first {q : p2pt_queue_t} {e0 : Int} {rest : List Int} {n : Nat}
    (hE : Extents q e0 rest n) (j : Nat) (hj : j < n) :
    step_forward q (e0 + 16 * (j : Int)) = some (e0 + 16 * ((j + 1 : Nat) : Int)) := by
  have hin : ¬ (e0 + 16 * (j : Int) < e0 ∨ e0 + 16 * (j : Int) > e0 + 16 * ((n : Int) - 1 + 1)) := by
    omega
  have hstep : ¬ (e0 + 16 * (j : Int) + 16 > e0 + 16 * ((n : Int) - 1 + 1)) := by omega
  simp only [step_forward, hE.ext, hE.per, extent_of, hin, if_false, hstep]
  congr 1
  push_cast
  omega

theorem step_forward_first_last {q : p2pt_queue_t} {e0 : Int} {rest : List Int} {n : Nat}
    (hE : Extents q e0 rest n) :
    step_forward q (e0 + 16 * (n : Int)) = some (rest.headD e0) := by
  have hin : ¬ (e0 + 16 * (n : Int) < e0 ∨ e0 + 16 * (n : Int) > e0 + 16 * ((n : Int) - 1 + 1)) := by
    omega
  have hstep : e0 + 16 * (n : Int) + 16 > e0 + 16 * ((n : Int) - 1 + 1) := by omega
  simp only [step_forward, hE.ext, hE.per, extent_of, hin, if_false, hstep, if_true]
  cases rest <;> rfl

theorem step_forward_rest {q : p2pt_queue_t} {e0 : Int} {rest : List Int} {n : Nat}
    (hE : Extents q e0 rest n) (pre : List Int) (cur : Int) (post : List Int)
    (hrest : rest = pre ++ cur :: post) (j : Nat) (hj : j + 1 < n) :
    step_forward q (cur + 16 * (j : Int)) = some (cur + 16 * ((j + 1 : Nat) : Int)) := by
  obtain ⟨h1, h2, h3⟩ := rest_slot_apart hE pre cur post hrest j (by omega)
  have hfind := find_extent_at (cur + 16 * (j : Int)) ((n : Int) - 1) pre cur post
    (e0 + 16 * ((n : Int) - 1 + 1)) h2 h3
  have hstep : ¬ (cur + 16 * (j : Int) + 16 > cur + 16 * ((n : Int) - 1)) := by omega
  simp only [step_forward, hE.ext, hE.per, extent_of, h1, if_true, hrest, hfind, hstep, if_false]
  congr 1
  push_cast
  omega

theorem step_forward_rest_last {q : p2pt_queue_t} {e0 : Int} {rest : List Int} {n : Nat}
    (hE : Extents q e0 rest n) (pre : List Int) (cur : Int) (post : List Int)
    (hrest : rest = pre ++ cur :: post) (j : Nat) (hj : j + 1 = n) :
    step_forward q (cur + 16 * (j : Int)) = some (post.headD e0) := by
  obtain ⟨h1, h2, h3⟩ := rest_slot_apart hE pre cur post hrest j (by omega)
  have hfind := find_extent_at (cur + 16 * (j : Int)) ((n : Int) - 1) pre cur post
    (e0 + 16 * ((n : Int) - 1 + 1)) h2 h3
  have hstep : cur + 16 * (j : Int) + 16 > cur + 16 * ((n : Int) - 1) := by omega
  simp only [step_forward, hE.ext, hE.per, extent_of, h1, if_true, hrest, hfind, hstep]
  cases post <;> rfl

theorem head_before_first {q : p2pt_queue_t} {e0 : Int} {rest : List Int} {n : Nat}
    (hE : Extents q e0 rest n) (j : Nat) (hj : j < n) :
    head_before q (e0 + 16 * ((j + 1 : Nat) : Int)) = some (e0 + 16 * (j : Int)) := by
  have hin : ¬ (e0 + 16 * ((j + 1 : Nat) : Int) < e0 ∨
      e0 + 16 * ((j + 1 : Nat) : Int) > e0 + 16 * ((n : Int) - 1 + 1)) := by
    push_cast
    omega
  have hstep : ¬ (e0 + 16 * ((j + 1 : Nat) : Int) - 16 < e0) := by
    push_cast
    omega
  simp only [head_before, urgent_msg_to, hE.ext, hE.per, hin, if_false, hstep, Option.map_some',
    Option.some.injEq]
  push_cast
  omega

theorem head_before_first_zero {q : p2pt_queue_t} {e0 : Int} {rest : List Int} {n : Nat}
    (hE : Extents q e0 rest n) :
    head_before q e0 = some q.last_msg_in_queue := by
  have hin : ¬ (e0 < e0 ∨ e0 > e0 + 16 * ((n : Int) - 1 + 1)) := by omega
  have hstep : e0 - 16 < e0 := by omega
  simp only [head_before, urgent_msg_to, hE.ext, hE.per, hin, if_false, hstep, if_true,
    Option.map_some']

theorem head_before_rest {q : p2pt_queue_t} {e0 : Int} {rest : List Int} {n : Nat}
    (hE : Extents q e0 rest n) (pre : List Int) (cur : Int) (post : List Int)
    (hrest : rest = pre ++ cur :: post) (j : Nat) (hj : j + 1 < n) :
    head_before q (cur + 16 * ((j + 1 : Nat) : Int)) = some (cur + 16 * (j : Int)) := by
  obtain ⟨h1, h2, h3⟩ := rest_slot_apart hE pre cur post hrest (j + 1) hj
  have hfind := find_extent_prv_at (cur + 16 * ((j + 1 : Nat) : Int)) ((n : Int) - 1) pre cur post
    e0 (some (e0 + 16 * ((n : Int) - 1 + 1))) h2 h3
  have hstep : ¬ (cur + 16 * ((j + 1 : Nat) : Int) - 16 < cur) := by
    push_cast
    omega
  simp only [head_before, urgent_msg_to, hE.ext, hE.per, h1, if_true, hrest, hfind, hstep,
    if_false, Option.map_some', Option.some.injEq]
  push_cast
  omega

theorem head_before_rest_zero {q : p2pt_queue_t} {e0 : Int} {rest : List Int} {n : Nat}
    (hE : Extents q e0 rest n) (pre : List Int) (cur : Int) (post : List Int)
    (hrest : rest = pre ++ cur :: post) :
    head_before q cur = some (match pre.getLast? with
      | none => e0 + 16 * (n : Int)
      | some e => e + 16 * ((n : Int) - 1)) := by
  have hn : 0 < n := hE.npos (by rw [hrest]; simp)
  obtain ⟨h1, h2, h3⟩ := rest_slot_apart hE pre cur post hrest 0 hn
  simp only [Nat.cast_zero, mul_zero, add_zero] at h1 h2 h3
  have hfind := find_extent_prv_at cur ((n : Int) - 1) pre cur post
    e0 (some (e0 + 16 * ((n : Int) - 1 + 1))) h2 h3
  have hstep : cur - 16 < cur := by omega
  simp only [head_before, urgent_msg_to, hE.ext, hE.per, h1, if_true, hrest, hfind, hstep,
    Option.map_some', Option.some.injEq]
  cases pre.getLast? with
  | none => simp
  | some e => rfl

end Queue
namespace Queue
open Task

theorem extent_slots_succ (e : Int) (k : Nat) :
    extent_slots e (k + 1) = extent_slots e k ++ [e + 16 * (k : Int)] := by
  simp [extent_slots, List.range_succ]

theorem extent_slots_head (e : Int) (k : Nat) : (extent_slots e (k + 1)).head? = some e := by
  simp [extent_slots, List.range_succ_eq_map]

theorem extent_slots_getLast (e : Int) (k : Nat) :
    (extent_slots e (k + 1)).getLast? = some (e + 16 * (k : Int)) := by
  rw [extent_slots_succ]
  simp

theorem rest_slots_append (n : Nat) :
    ∀ (pre post : List Int), rest_slots n (pre ++ post) = rest_slots n pre ++ rest_slots n post
  | [], _ => rfl
  | e :: pre, post => by
      simp only [List.cons_append, rest_slots, List.append_eq, rest_slots_append n pre post,
        List.append_assoc]

theorem rest_slots_head (n : Nat) (hn : 0 < n) (e0 : Int) (post : List Int) :
    (rest_slots n post ++ [e0]).head? = some (post.headD e0) := by
  obtain ⟨m, rfl⟩ : ∃ m, n = m + 1 := ⟨n - 1, by omega⟩
  cases post with
  | nil => rfl
  | cons e es =>
      simp only [rest_slots, List.append_assoc, List.headD_cons]
      rw [List.head?_append_of_ne_nil]
      · exact extent_slots_head e m
      · intro h
        have := extent_slots_head e m
        rw [h] at this
        simp at this

theorem queue_slots_getLast_nil (e0 : Int) (n : Nat) :
    (queue_slots e0 [] n).getLast? = some (e0 + 16 * (n : Int)) := by
  simp only [queue_slots, rest_slots, List.append_nil]
  exact extent_slots_getLast e0 n

theorem queue_slots_getLast_snoc (e0 : Int) (pre : List Int) (cur : Int) (m : Nat) :
    (queue_slots e0 (pre ++ [cur]) (m + 1)).getLast? = some (cur + 16 * (m : Int)) := by
  simp only [queue_slots, rest_slots_append, rest_slots, List.append_nil, extent_slots_succ cur m]
  simp only [← List.append_assoc]
  exact List.getLast?_concat _

theorem chain_first {q : p2pt_queue_t} {e0 : Int} {rest : List Int} {n : Nat}
    (hE : Extents q e0 rest n) : List.Chain' (slot_link q) (extent_slots e0 (n + 1)) := by
  unfold extent_slots
  rw [List.chain'_map (fun i : Nat => e0 + 16 * (i : Int)), List.chain'_range_succ]
  intro j hj
  exact ⟨step_forward_first hE j hj, head_before_first hE j hj⟩

theorem chain_extent {q : p2pt_queue_t} {e0 : Int} {rest : List Int} {n : Nat}
    (hE : Extents q e0 rest n) (pre : List Int) (cur : Int) (post : List Int)
    (hrest : rest = pre ++ cur :: post) : List.Chain' (slot_link q) (extent_slots cur n) := by
  cases n with
  | zero => exact List.chain'_nil
  | succ m =>
      unfold extent_slots
      rw [List.chain'_map (fun i : Nat => cur + 16 * (i : Int)), List.chain'_range_succ]
      intro j hj
      exact ⟨step_forward_rest hE pre cur post hrest j (by omega),
        head_before_rest hE pre cur post hrest j (by omega)⟩

theorem chain_rest {q : p2pt_queue_t} {e0 : Int} {rest : List Int} {n : Nat}
    (hE : Extents q e0 rest n) :
    ∀ (post pre : List Int), rest = pre ++ post →
      List.Chain' (slot_link q) (rest_slots n post ++ [e0])
  | [], _, _ => List.chain'_singleton e0
  | cur :: post, pre, hrest => by
      have hn : 0 < n := hE.npos (by rw [hrest]; simp)
      obtain ⟨m, hm⟩ : ∃ m, n = m + 1 := ⟨n - 1, by omega⟩
      have ih := chain_rest hE post (pre ++ [cur]) (by rw [hrest]; simp)
      simp only [rest_slots, List.append_assoc]
      refine List.Chain'.append (chain_extent hE pre cur post hrest) ih ?_
      intro x hx y hy
      rw [rest_slots_head n hn e0 post] at hy
      rw [hm, extent_slots_getLast] at hx
      simp only [Option.mem_def, Option.some.injEq] at hx hy
      subst hx
      subst hy
      refine ⟨step_forward_rest_last hE pre cur post hrest m hm.symm, ?_⟩
      cases post with
      | nil =>
          simp only [List.headD_nil]
          rw [head_before_first_zero hE]
          have hl := hE.lastq
          rw [hrest, hm, queue_slots_getLast_snoc] at hl
          exact hl.symm
      | cons nxt post' =>
          simp only [List.headD_cons]
          rw [head_before_rest_zero hE (pre ++ [cur]) nxt post' (by rw [hrest]; simp)]
          simp only [List.getLast?_concat, hm]
          congr 1
          push_cast
          omega

/-- In the ring order of the slots, closed by the first slot, each slot is
linked to the next: the pointer steps of the code go once around the ring. -/
theorem chain_all {q : p2pt_queue_t} {e0 : Int} {rest : List Int} {n : Nat}
    (hE : Extents q e0 rest n) :
    List.Chain' (slot_link q) (queue_slots e0 rest n ++ [e0]) := by
  simp only [queue_slots, List.append_assoc]
  refine List.Chain'.append (chain_first hE) (chain_rest hE rest [] rfl) ?_
  intro x hx y hy
  rw [extent_slots_getLast] at hx
  simp only [Option.mem_def, Option.some.injEq] at hx
  subst hx
  cases hr : rest with
  | nil =>
      rw [hr] at hy
      simp only [rest_slots, List.nil_append, List.head?_cons, Option.mem_def,
        Option.some.injEq] at hy
      subst hy
      have h1 := step_forward_first_last hE
      rw [hr] at h1
      refine ⟨h1, ?_⟩
      rw [head_before_first_zero hE]
      have hl := hE.lastq
      rw [hr, queue_slots_getLast_nil] at hl
      exact hl.symm
  | cons nxt post =>
      have hn : 0 < n := hE.npos (by rw [hr]; simp)
      rw [rest_slots_head n hn e0 rest, hr] at hy
      simp only [List.headD_cons, Option.mem_def, Option.some.injEq] at hy
      subst hy
      have h1 := step_forward_first_last hE
      rw [hr] at h1
      refine ⟨h1, ?_⟩
      rw [head_before_rest_zero hE [] nxt post hr]
      rfl

end Queue
namespace Queue
open Task

theorem mem_extent_slots (e : Int) (k : Nat) (x : Int) :
    x ∈ extent_slots e k ↔ ∃ j, j < k ∧ x = e + 16 * (j : Int) := by
  simp only [extent_slots, List.mem_map, List.mem_range]
  constructor
  · rintro ⟨j, hj, rfl⟩
    exact ⟨j, hj, rfl⟩
  · rintro ⟨j, hj, rfl⟩
    exact ⟨j, hj, rfl⟩

theorem mem_rest_slots (n : Nat) (x : Int) :
    ∀ (rest : List Int), x ∈ rest_slots n rest ↔ ∃ e ∈ rest, ∃ j, j < n ∧ x = e + 16 * (j : Int)
  | [] => by simp [rest_slots]
  | e :: es => by
      simp only [rest_slots, List.mem_append, mem_extent_slots, mem_rest_slots n x es,
        List.mem_cons, exists_eq_or_imp]

theorem nodup_extent_slots (e : Int) (k : Nat) : (extent_slots e k).Nodup := by
  unfold extent_slots
  refine List.Nodup.map ?_ (List.nodup_range k)
  intro i j hij
  simp only at hij
  omega

theorem nodup_rest_slots (n : Nat) :
    ∀ (rest : List Int),
      rest.Pairwise (fun a b => a + 16 * (n : Int) ≤ b ∨ b + 16 * (n : Int) ≤ a) →
      (rest_slots n rest).Nodup
  | [], _ => List.nodup_nil
  | e :: es, h => by
      obtain ⟨h1, h2⟩ := List.pairwise_cons.mp h
      refine List.nodup_append.mpr ⟨nodup_extent_slots e n, nodup_rest_slots n es h2, ?_⟩
      intro x hx hx'
      obtain ⟨j, hj, rfl⟩ := (mem_extent_slots e n x).mp hx
      obtain ⟨e', he', j', hj', heq⟩ := (mem_rest_slots n _ es).mp hx'
      have := h1 e' he'
      omega

theorem nodup_queue_slots {q : p2pt_queue_t} {e0 : Int} {rest : List Int} {n : Nat}
    (hE : Extents q e0 rest n) : (queue_slots e0 rest n).Nodup := by
  refine List.nodup_append.mpr
    ⟨nodup_extent_slots e0 (n + 1), nodup_rest_slots n rest hE.apart_rest, ?_⟩
  intro x hx hx'
  obtain ⟨j, hj, rfl⟩ := (mem_extent_slots e0 (n + 1) x).mp hx
  obtain ⟨e', he', j', hj', heq⟩ := (mem_rest_slots n _ rest).mp hx'
  have := hE.apart_first e' he'
  omega

theorem length_extent_slots (e : Int) (k : Nat) : (extent_slots e k).length = k := by
  simp [extent_slots]

theorem length_rest_slots (n : Nat) :
    ∀ (rest : List Int), (rest_slots n rest).length = rest.length * n
  | [] => by simp [rest_slots]
  | e :: es => by
      simp only [rest_slots, List.length_append, length_extent_slots, length_rest_slots n es,
        List.length_cons]
      rw [Nat.succ_mul]
      omega

theorem length_queue_slots (e0 : Int) (rest : List Int) (n : Nat) :
    (queue_slots e0 rest n).length = n + 1 + rest.length * n := by
  simp [queue_slots, length_extent_slots, length_rest_slots]

/-- The ring of slots read from any of its slots on: the slots in fetch
order starting at `p`, closed by `p`, are linked one to the next. -/
theorem ring_from {q : p2pt_queue_t} {e0 : Int} {rest : List Int} {n : Nat}
    (hE : Extents q e0 rest n) (p : Int) (hp : p ∈ queue_slots e0 rest n) :
    ∃ tl, List.Chain' (slot_link q) (p :: tl ++ [p]) ∧ (p :: tl).Nodup ∧
      (p :: tl).length = (queue_slots e0 rest n).length := by
  obtain ⟨tl0, hS⟩ : ∃ tl0, queue_slots e0 rest n = e0 :: tl0 := by
    have hh : (queue_slots e0 rest n).head? = some e0 := by
      unfold queue_slots
      rw [List.head?_append_of_ne_nil]
      · exact extent_slots_head e0 n
      · intro h
        have := extent_slots_head e0 n
        rw [h] at this
        simp at this
    cases hq : queue_slots e0 rest n with
    | nil => rw [hq] at hh; simp at hh
    | cons x xs =>
        rw [hq] at hh
        simp only [List.head?_cons, Option.some.injEq] at hh
        exact ⟨xs, by rw [hh]⟩
  have hall := chain_all hE
  rw [hS] at hall
  have hcyc : Cycle.Chain (slot_link q) ((e0 :: tl0 : List Int) : Cycle Int) :=
    (Cycle.chain_coe_cons (slot_link q) e0 tl0).mpr hall
  obtain ⟨pre, post, hsplit⟩ := List.append_of_mem hp
  have hrot : List.IsRotated (e0 :: tl0) (p :: (post ++ pre)) := by
    rw [← hS, hsplit]
    exact List.isRotated_append
  have hcoe : ((e0 :: tl0 : List Int) : Cycle Int) = ((p :: (post ++ pre) : List Int) : Cycle Int) :=
    Cycle.coe_eq_coe.mpr hrot
  rw [hcoe] at hcyc
  have hchain := (Cycle.chain_coe_cons (slot_link q) p (post ++ pre)).mp hcyc
  have hnd := nodup_queue_slots hE
  rw [hS] at hnd
  refine ⟨post ++ pre, hchain, hrot.nodup_iff.mp hnd, ?_⟩
  rw [hS]
  exact hrot.perm.length_eq.symm

theorem step_forward_congr (q q' : p2pt_queue_t) (h1 : q'.first_extent = q.first_extent)
    (h2 : q'.msgs_per_extent = q.msgs_per_extent) (p : Int) :
    step_forward q' p = step_forward q p := by
  simp only [step_forward, h1, h2]

theorem queued_slots_congr (q q' : p2pt_queue_t) (h1 : q'.first_extent = q.first_extent)
    (h2 : q'.msgs_per_extent = q.msgs_per_extent) :
    ∀ (k : Nat) (p : Int), queued_slots q' k p = queued_slots q k p
  | 0, _ => rfl
  | k + 1, p => by
      simp only [queued_slots, step_forward_congr q q' h1 h2 p]
      cases step_forward q p with
      | none => rfl
      | some nxt => simp only [queued_slots_congr q q' h1 h2 k nxt]

/-- Along a chain of linked slots the next `k` fetches read the first `k`
slots of the chain. -/
theorem queued_slots_chain (q : p2pt_queue_t) (z : Int) :
    ∀ (k : Nat) (a : Int) (l : List Int), List.Chain' (slot_link q) (a :: l ++ [z]) →
      k ≤ (a :: l).length → queued_slots q k a = some ((a :: l).take k)
  | 0, _, _, _, _ => rfl
  | k + 1, a, [], h, hk => by
      have hk0 : k = 0 := by simpa using hk
      subst hk0
      have hstep : step_forward q a = some z := by
        have := (List.chain'_cons.mp h).1
        exact this.1
      simp [queued_slots, hstep]
  | k + 1, a, b :: l, h, hk => by
      have h' := List.chain'_cons.mp h
      have hstep : step_forward q a = some b := h'.1.1
      have ih := queued_slots_chain q z k b l h'.2 (by simpa using hk)
      simp [queued_slots, hstep, ih]

theorem getLast_not_mem_take {l : List Int} (hnd : l.Nodup) (hne : l ≠ []) (k : Nat)
    (hk : k < l.length) : l.getLast hne ∉ l.take k := by
  intro hmem
  have hsplit : l = l.take k ++ l.drop k := (List.take_append_drop k l).symm
  have hdne : l.drop k ≠ [] := by
    intro h
    have := congrArg List.length h
    simp at this
    omega
  have hlast : l.getLast hne ∈ l.drop k := by
    have h1 : l.getLast? = (l.drop k).getLast? := by
      conv_lhs => rw [hsplit]
      exact List.getLast?_append_of_ne_nil _ hdne
    have h2 : l.getLast? = some (l.getLast hne) := List.getLast?_eq_getLast l hne
    rw [h2] at h1
    exact List.mem_of_getLast?_eq_some h1.symm
  rw [hsplit] at hnd
  exact (List.disjoint_of_nodup_append hnd) hmem hlast

end Queue
namespace Queue
open Task

/-! ### Broadcast on a fixed-message queue (queue.c) -/

theorem fetch_bcast_keep (q : p2pt_queue_t) (hst : q.send_type = BCAST)
    (hsusp : q.first_susp ≠ []) :
    fetch_msg_from q =
      some (q.mem q.queue_head, { q with bcst_tasks_awakened := q.bcst_tasks_awakened + 1 }) := by
  have hns : ¬ (q.send_type = SEND ∨ q.first_susp = []) := by
    rw [hst]
    intro h
    rcases h with h | h
    · exact absurd h (by decide)
    · exact hsusp h
  have hbc : (q.send_type = BCAST) = True := eq_true hst
  have hns' : (q.send_type = SEND ∨ q.first_susp = []) = False := eq_false hns
  unfold fetch_msg_from
  simp only [hbc, if_true, hns', if_false]

theorem fetch_bcast_last (q : p2pt_queue_t) (nxt : Int)
    (hst : q.send_type = BCAST) (hsusp : q.first_susp = [])
    (hnext : step_forward q q.queue_head = some nxt) :
    fetch_msg_from q = some (q.mem q.queue_head, { q with
      bcst_tasks_awakened := q.bcst_tasks_awakened + 1
      mem := Function.update q.mem q.queue_head null_msg
      queue_head := nxt
      msg_count := q.msg_count - 1
      send_type := SEND }) := by
  have hs : q.send_type = SEND ∨ q.first_susp = [] := Or.inr hsusp
  have hstep : step_forward
      { q with bcst_tasks_awakened := q.bcst_tasks_awakened + 1,
               mem := Function.update q.mem q.queue_head null_msg } q.queue_head = some nxt :=
    (step_forward_congr q _ rfl rfl _).trans hnext
  have hne : BCAST ≠ SEND := by decide
  have hbc : (q.send_type = BCAST) = True := eq_true hst
  have hs' : (q.send_type = SEND ∨ q.first_susp = []) = True := eq_true hs
  unfold fetch_msg_from
  simp only [hbc, if_true, hs', hstep]
  simp [hst, hne]

theorem waiting_on_queue_bcast (q : p2pt_queue_t) (t : Nat) (hst : q.send_type = BCAST)
    (hcnt : q.msg_count > 0) : waiting_on_queue q t = false := by
  have hk : q.send_type &&& KILLD = 0 := by rw [hst]; decide
  have hb : q.send_type &&& BCAST ≠ 0 := by rw [hst]; decide
  simp [waiting_on_queue, hk, hcnt, hb]

theorem receivers_run_append (q : p2pt_queue_t) (xs ys : List Nat)
    (rs : List (Nat × q_msg_t)) (q1 : p2pt_queue_t) (h : receivers_run q xs = some (rs, q1)) :
    receivers_run q (xs ++ ys) =
      (receivers_run q1 ys).map fun r => (rs ++ r.1, r.2) := by
  induction xs generalizing q rs with
  | nil =>
      simp only [receivers_run, Option.some.injEq, Prod.mk.injEq] at h
      obtain ⟨h1, h2⟩ := h
      subst h1; subst h2
      cases hr : receivers_run q ys <;> simp [hr]
  | cons x xs ih =>
      simp only [receivers_run, List.cons_append] at h ⊢
      cases hw : waiting_on_queue q x with
      | true => simp [hw] at h
      | false =>
          simp only [hw, Bool.false_eq_true, if_false] at h ⊢
          cases hf : q_receive_fetch q x with
          | none => simp [hf] at h
          | some r =>
              simp only [hf] at h ⊢
              cases hrest : receivers_run r.2.2 xs with
              | none => simp [hrest] at h
              | some rr =>
                  obtain ⟨rs', q'⟩ := rr
                  simp only [hrest, Option.map_some', Option.some.injEq, Prod.mk.injEq] at h
                  obtain ⟨h1, h2⟩ := h
                  subst h1
                  subst h2
                  have ih' := ih r.2.2 rs' hrest
                  simp only [List.append_eq, ih']
                  cases receivers_run q' ys <;> simp

theorem bcast_step_keep {qb : p2pt_queue_t} {msg : q_msg_t} {nxt : Int}
    (hB : Bcast qb msg nxt) (pre post : List p2pthread_cb_t) (r : p2pthread_cb_t) (k : Nat)
    (hd : ((pre ++ r :: post).map p2pthread_cb_t.addr).Nodup) (hne : pre ++ post ≠ []) :
    receivers_run { qb with first_susp := pre ++ r :: post, bcst_tasks_awakened := k } [r.addr] =
      some ([(ERR_NO_ERROR, msg)],
        { qb with first_susp := pre ++ post, bcst_tasks_awakened := k + 1 }) := by
  obtain ⟨hpre, hpost, _⟩ := nodup_addr_middle pre post r hd
  have hun := unlink_susp_tcb_middle pre post r hpre hpost
  have hw := waiting_on_queue_bcast
    { qb with first_susp := pre ++ r :: post, bcst_tasks_awakened := k } r.addr hB.st hB.cnt
  have hf := fetch_bcast_keep
    { qb with first_susp := pre ++ post, bcst_tasks_awakened := k } hB.st hne
  have hk : qb.send_type &&& KILLD = 0 := by rw [hB.st]; decide
  simp only [receivers_run, hw, Bool.false_eq_true, if_false, q_receive_fetch, hun, hf,
    Option.map_some', hk]
  simp [hB.front]

theorem bcast_step_last {qb : p2pt_queue_t} {msg : q_msg_t} {nxt : Int}
    (hB : Bcast qb msg nxt) (r : p2pthread_cb_t) (k : Nat) :
    receivers_run { qb with first_susp := [r], bcst_tasks_awakened := k } [r.addr] =
      some ([(ERR_NO_ERROR, msg)], { qb with
        first_susp := []
        bcst_tasks_awakened := k + 1
        mem := Function.update qb.mem qb.queue_head null_msg
        queue_head := nxt
        msg_count := qb.msg_count - 1
        send_type := SEND }) := by
  have hun : unlink_susp_tcb [r] r.addr = [] := by simp [unlink_susp_tcb]
  have hw := waiting_on_queue_bcast
    { qb with first_susp := [r], bcst_tasks_awakened := k } r.addr hB.st hB.cnt
  have hf := fetch_bcast_last
    { qb with first_susp := [], bcst_tasks_awakened := k } nxt hB.st rfl
    ((step_forward_congr qb _ rfl rfl _).trans hB.next)
  have hk : qb.send_type &&& KILLD = 0 := by rw [hB.st]; decide
  simp only [receivers_run, hw, Bool.false_eq_true, if_false, q_receive_fetch, hun, hf,
    Option.map_some', hk]
  simp [hB.front]

theorem bcast_drain_steps {qb : p2pt_queue_t} {msg : q_msg_t} {nxt : Int}
    (hB : Bcast qb msg nxt) :
    ∀ (part : List Nat) (rem : List p2pthread_cb_t) (k : Nat),
      (rem.map p2pthread_cb_t.addr).Nodup → part.Nodup →
      (∀ t ∈ part, t ∈ rem.map p2pthread_cb_t.addr) → part.length < rem.length →
      ∃ rem', receivers_run { qb with first_susp := rem, bcst_tasks_awakened := k } part =
          some (part.map (fun _ => (ERR_NO_ERROR, msg)),
            { qb with first_susp := rem', bcst_tasks_awakened := k + part.length }) ∧
        (rem'.map p2pthread_cb_t.addr).Nodup ∧
        rem'.length + part.length = rem.length ∧
        (∀ x, x ∈ rem'.map p2pthread_cb_t.addr ↔
          (x ∈ rem.map p2pthread_cb_t.addr ∧ x ∉ part))
  | [], rem, k, hd, _, _, _ => ⟨rem, by simp [receivers_run], hd, by simp, by simp⟩
  | t :: ts, rem, k, hd, hpd, hmem, hlen => by
      have ht : t ∈ rem.map p2pthread_cb_t.addr := hmem t (by simp)
      obtain ⟨r, hr, hrt⟩ := List.mem_map.mp ht
      obtain ⟨pre, post, hsplit⟩ := List.append_of_mem hr
      subst hsplit
      subst hrt
      obtain ⟨hpre, hpost, hnd⟩ := nodup_addr_middle pre post r hd
      have hlen' : ts.length < (pre ++ post).length := by
        simp only [List.length_append, List.length_cons] at hlen ⊢
        omega
      have hne : pre ++ post ≠ [] := by
        intro h
        rw [h] at hlen'
        simp at hlen'
      have hstep := bcast_step_keep hB pre post r k hd hne
      have hpd' := (List.nodup_cons.mp hpd)
      have hmem' : ∀ t' ∈ ts, t' ∈ (pre ++ post).map p2pthread_cb_t.addr := by
        intro t' ht'
        have h1 := hmem t' (List.mem_cons_of_mem _ ht')
        have hne' : t' ≠ r.addr := fun h => hpd'.1 (h ▸ ht')
        simp only [List.map_append, List.map_cons, List.mem_append, List.mem_cons] at h1 ⊢
        rcases h1 with h1 | h1 | h1
        · exact Or.inl h1
        · exact absurd h1 hne'
        · exact Or.inr h1
      obtain ⟨rem', hrun, hnd', hl', hmem''⟩ :=
        bcast_drain_steps hB ts (pre ++ post) (k + 1) hnd hpd'.2 hmem' hlen'
      refine ⟨rem', ?_, hnd', ?_, ?_⟩
      · have happ := receivers_run_append _ [r.addr] ts _ _ hstep
        simp only [List.singleton_append] at happ
        rw [happ, hrun]
        simp only [Option.map_some', List.map_cons, List.length_cons]
        congr 3
        omega
      · simp only [List.length_append, List.length_cons] at hl' ⊢
        omega
      · intro x
        rw [hmem'' x]
        simp only [List.map_append, List.map_cons, List.mem_append, List.mem_cons]
        constructor
        · rintro ⟨h1 | h1, h2⟩
          · refine ⟨Or.inl h1, ?_⟩
            rintro (h3 | h3)
            · obtain ⟨y, hy, hyx⟩ := List.mem_map.mp h1
              exact hpre y hy (hyx.trans h3)
            · exact h2 h3
          · refine ⟨Or.inr (Or.inr h1), ?_⟩
            rintro (h3 | h3)
            · obtain ⟨y, hy, hyx⟩ := List.mem_map.mp h1
              exact hpost y hy (hyx.trans h3)
            · exact h2 h3
        · rintro ⟨h1 | h1 | h1, h2⟩
          · exact ⟨Or.inl h1, fun h3 => h2 (Or.inr h3)⟩
          · exact absurd (Or.inl h1) h2
          · exact ⟨Or.inr h1, fun h3 => h2 (Or.inr h3)⟩

theorem urgent_msg_to_head (q : p2pt_queue_t) (msg : q_msg_t) (p : Int)
    (h : head_before q q.queue_head = some p) :
    urgent_msg_to q msg = some { q with
      queue_head := p
      mem := Function.update q.mem p msg
      msg_count := q.msg_count + 1 } := by
  unfold head_before urgent_msg_to at h
  unfold urgent_msg_to
  cases hext : q.first_extent with
  | nil => simp [hext] at h
  | cons e0 rest =>
      simp only [hext, Option.map_some', Option.some.injEq] at h ⊢
      rw [h]

theorem q_broadcast_send_room (q : p2pt_queue_t) (msg : q_msg_t) (a : Option Int) (p : Int)
    (hws : q.first_susp ≠ []) (hroom : q.msg_count ≤ q.total_extents * q.msgs_per_extent)
    (h : head_before q q.queue_head = some p) :
    q_broadcast_start q msg a = some (ERR_NO_ERROR, { q with
      queue_head := p
      mem := Function.update q.mem p msg
      msg_count := q.msg_count + 1
      send_type := BCAST
      bcst_tasks_awakened := 0 }) := by
  have h1 : ¬ (q.msg_count > q.total_extents * q.msgs_per_extent) := by omega
  have hu := urgent_msg_to_head q msg p h
  simp only [q_broadcast_start, q_broadcast_clear, q_broadcast_send, hws, ne_eq,
    not_false_eq_true, if_true, h1, if_false, hu, Option.map_some']

theorem map_update_of_not_mem (mem : Int → q_msg_t) (p : Int) (v : q_msg_t) (slots : List Int)
    (h : p ∉ slots) : slots.map (Function.update mem p v) = slots.map mem := by
  apply List.map_congr_left
  intro x hx
  exact Function.update_noteq (fun e => h (by rw [← e]; exact hx)) _ _

/-- What C5 says, on the schedule in which the broadcaster clears its counter
before a waiter fetches (`q_broadcast_start`). `q_broadcast` on a
fixed-message queue in SEND mode whose extents are laid out as `Extents`
says, with `N ≥ 1` distinct waiting tasks and room for the message
(`msg_count` not above `total_extents * msgs_per_extent`): the call returns 0,
the message is put in front of the queued messages and the mode becomes
BCAST; whatever the order in which the waiters then leave the wait list and
fetch, each obtains the broadcast message with status 0; while a waiter is
left the message stays queued and the mode stays BCAST; the fetch of the last
waiter removes it and sets the mode back to SEND; the count returned to the
broadcaster is `N`; and the queue is then the queue before the call with an
empty wait list, but for the cleared slot that held the broadcast, so
`msg_count` and the queued messages are the same as before. -/
theorem q_broadcast_wakes_every_waiter (q : p2pt_queue_t) (e0 : Int) (rest : List Int) (n : Nat)
    (msg : q_msg_t) (a : Option Int) (order : List Nat)
    (hE : Extents q e0 rest n)
    (hst : q.send_type = SEND)
    (hhead : q.queue_head ∈ queue_slots e0 rest n)
    (hws : q.first_susp ≠ [])
    (hd : (q.first_susp.map p2pthread_cb_t.addr).Nodup)
    (hcnt : 0 ≤ q.msg_count)
    (hroom : q.msg_count ≤ q.total_extents * q.msgs_per_extent)
    (horder : order.Perm (q.first_susp.map p2pthread_cb_t.addr)) :
    ∃ q1 q2 msgs,
      q_broadcast_start q msg a = some (ERR_NO_ERROR, q1) ∧
      q1.send_type = BCAST ∧ q1.msg_count = q.msg_count + 1 ∧
      queued_msgs q = some msgs ∧ queued_msgs q1 = some (msg :: msgs) ∧
      receivers_run q1 order = some (order.map (fun _ => (ERR_NO_ERROR, msg)), q2) ∧
      (∀ k, k < order.length → ∃ qk,
        receivers_run q1 (order.take k) =
          some ((order.take k).map (fun _ => (ERR_NO_ERROR, msg)), qk) ∧
        qk.send_type = BCAST ∧ qk.msg_count = q.msg_count + 1 ∧ qk.mem qk.queue_head = msg) ∧
      q_broadcast_count q2 = q.first_susp.length ∧
      q2 = { q with
        first_susp := []
        bcst_tasks_awakened := q.first_susp.length
        mem := Function.update q.mem q1.queue_head null_msg } ∧
      queued_msgs q2 = some msgs := by
  -- the ring of slots read from the head on, and the slot before the head
  obtain ⟨tl, hchain, hnd, hlenS⟩ := ring_from hE q.queue_head hhead
  have hne' : q.queue_head :: tl ≠ [] := List.cons_ne_nil _ _
  have hlast : (q.queue_head :: tl).getLast? = some ((q.queue_head :: tl).getLast hne') :=
    List.getLast?_eq_getLast _ hne'
  have hlink : slot_link q ((q.queue_head :: tl).getLast hne') q.queue_head :=
    (List.chain'_append.mp hchain).2.2 _ hlast _ rfl
  have hsend := q_broadcast_send_room q msg a _ hws hroom hlink.2
  have hB : Bcast { q with
      queue_head := (q.queue_head :: tl).getLast hne'
      mem := Function.update q.mem ((q.queue_head :: tl).getLast hne') msg
      msg_count := q.msg_count + 1
      send_type := BCAST
      bcst_tasks_awakened := 0 } msg q.queue_head :=
    ⟨rfl, by simp, by simp only []; omega, (step_forward_congr q _ rfl rfl _).trans hlink.1⟩
  -- the queued messages
  have hc : q.msg_count.toNat < (q.queue_head :: tl).length := by
    rw [hlenS, length_queue_slots]
    have h1 := hE.tot
    have h2 := hE.per
    rw [h1, h2] at hroom
    have h3 : (1 + (rest.length : Int)) * (n : Int) = ((n + rest.length * n : Nat) : Int) := by
      push_cast
      ring
    rw [h3] at hroom
    omega
  have hslots := queued_slots_chain q q.queue_head q.msg_count.toNat q.queue_head tl hchain
    (by omega)
  have hnot := getLast_not_mem_take hnd hne' q.msg_count.toNat hc
  have hq0 : queued_msgs q = some (((q.queue_head :: tl).take q.msg_count.toNat).map q.mem) := by
    simp only [queued_msgs, hslots, Option.map_some']
  have hq1 : queued_msgs { q with
      queue_head := (q.queue_head :: tl).getLast hne'
      mem := Function.update q.mem ((q.queue_head :: tl).getLast hne') msg
      msg_count := q.msg_count + 1
      send_type := BCAST
      bcst_tasks_awakened := 0 } =
        some (msg :: ((q.queue_head :: tl).take q.msg_count.toNat).map q.mem) := by
    have hto : (q.msg_count + 1).toNat = q.msg_count.toNat + 1 := by omega
    have hs1 : queued_slots { q with
        queue_head := (q.queue_head :: tl).getLast hne'
        mem := Function.update q.mem ((q.queue_head :: tl).getLast hne') msg
        msg_count := q.msg_count + 1
        send_type := BCAST
        bcst_tasks_awakened := 0 } q.msg_count.toNat q.queue_head =
          some ((q.queue_head :: tl).take q.msg_count.toNat) :=
      (queued_slots_congr q _ (by rfl) (by rfl) _ _).trans hslots
    simp only [queued_msgs, hto, queued_slots, hB.next, hs1,
      Option.map_some', List.map_cons, Function.update_same,
      map_update_of_not_mem _ _ _ _ hnot]
  have hq2 : queued_msgs { q with
      first_susp := []
      bcst_tasks_awakened := q.first_susp.length
      mem := Function.update q.mem ((q.queue_head :: tl).getLast hne') null_msg } =
        some (((q.queue_head :: tl).take q.msg_count.toNat).map q.mem) := by
    have hs2 : queued_slots { q with
        first_susp := []
        bcst_tasks_awakened := q.first_susp.length
        mem := Function.update q.mem ((q.queue_head :: tl).getLast hne') null_msg }
          q.msg_count.toNat q.queue_head = some ((q.queue_head :: tl).take q.msg_count.toNat) :=
      (queued_slots_congr q _ (by rfl) (by rfl) _ _).trans hslots
    simp only [queued_msgs, hs2, Option.map_some', map_update_of_not_mem _ _ _ _ hnot]
  -- the drain of the wait list
  have hlen : order.length = q.first_susp.length := by
    simpa using horder.length_eq
  have hond : order.Nodup := horder.nodup_iff.mpr hd
  have hne : order ≠ [] := by
    intro h0
    rw [h0] at hlen
    exact hws (List.length_eq_zero.mp hlen.symm)
  have hmemall : ∀ t ∈ order, t ∈ q.first_susp.map p2pthread_cb_t.addr :=
    fun t ht => horder.subset ht
  have hpart : ∀ k, k < order.length → ∃ rem',
      receivers_run { q with
        queue_head := (q.queue_head :: tl).getLast hne'
        mem := Function.update q.mem ((q.queue_head :: tl).getLast hne') msg
        msg_count := q.msg_count + 1
        send_type := BCAST
        bcst_tasks_awakened := 0 } (order.take k) =
        some ((order.take k).map (fun _ => (ERR_NO_ERROR, msg)), { q with
          queue_head := (q.queue_head :: tl).getLast hne'
          mem := Function.update q.mem ((q.queue_head :: tl).getLast hne') msg
          msg_count := q.msg_count + 1
          send_type := BCAST
          first_susp := rem'
          bcst_tasks_awakened := 0 + (order.take k).length }) ∧
      (rem'.map p2pthread_cb_t.addr).Nodup ∧
      rem'.length + (order.take k).length = q.first_susp.length ∧
      (∀ x, x ∈ rem'.map p2pthread_cb_t.addr ↔
        (x ∈ q.first_susp.map p2pthread_cb_t.addr ∧ x ∉ order.take k)) := by
    intro k hk
    have hsub : List.Sublist (order.take k) order := List.take_sublist k order
    have := bcast_drain_steps hB (order.take k) q.first_susp 0 hd (hond.sublist hsub)
      (fun t ht => hmemall t (hsub.subset ht))
      (by rw [List.length_take]; omega)
    exact this
  have hk1 : order.length - 1 < order.length := by
    have : 0 < order.length := List.length_pos.mpr hne
    omega
  obtain ⟨rem', hrun, hnd', hl', hmem'⟩ := hpart (order.length - 1) hk1
  have htake : order.take (order.length - 1) = order.dropLast := (List.dropLast_eq_take order).symm
  rw [htake] at hrun hl' hmem'
  have hsplit : order = order.dropLast ++ [order.getLast hne] :=
    (List.dropLast_append_getLast hne).symm
  have hrem1 : rem'.length = 1 := by
    rw [List.length_dropLast] at hl'
    omega
  obtain ⟨r, hr⟩ := List.length_eq_one.mp hrem1
  subst hr
  have hlast_in : order.getLast hne ∈ ([r].map p2pthread_cb_t.addr) := by
    rw [hmem']
    refine ⟨hmemall _ (List.getLast_mem hne), ?_⟩
    intro hin
    have hnd2 : (order.dropLast ++ [order.getLast hne]).Nodup := by rw [← hsplit]; exact hond
    have := List.disjoint_of_nodup_append hnd2 hin
    exact this (by simp)
  have hraddr : r.addr = order.getLast hne := by
    simp only [List.map_cons, List.map_nil, List.mem_singleton] at hlast_in
    exact hlast_in.symm
  have hlaststep := bcast_step_last hB r (0 + order.dropLast.length)
  have hfull := receivers_run_append _ order.dropLast [order.getLast hne] _ _ hrun
  rw [← hsplit, ← hraddr] at hfull
  simp only [] at hlaststep
  rw [hlaststep] at hfull
  simp only [Option.map_some'] at hfull
  have hlist : order.dropLast.map (fun _ => (ERR_NO_ERROR, msg)) ++ [(ERR_NO_ERROR, msg)] =
      order.map (fun _ => (ERR_NO_ERROR, msg)) := by
    conv_rhs => rw [hsplit]
    simp
  rw [hlist] at hfull
  have hN : 0 + order.dropLast.length + 1 = q.first_susp.length := by
    rw [List.length_dropLast]
    omega
  have hfinal : ({ q with
      queue_head := q.queue_head
      mem := Function.update (Function.update q.mem ((q.queue_head :: tl).getLast hne') msg)
        ((q.queue_head :: tl).getLast hne') null_msg
      msg_count := q.msg_count + 1 - 1
      send_type := SEND
      first_susp := []
      bcst_tasks_awakened := 0 + order.dropLast.length + 1 } : p2pt_queue_t) =
      { q with
        first_susp := []
        bcst_tasks_awakened := q.first_susp.length
        mem := Function.update q.mem ((q.queue_head :: tl).getLast hne') null_msg } := by
    rw [hN, Function.update_idem, ← hst]
    have : q.msg_count + 1 - 1 = q.msg_count := by omega
    rw [this]
  rw [hfinal] at hfull
  refine ⟨_, _, _, hsend, rfl, rfl, hq0, hq1, hfull, ?_, ?_, rfl, hq2⟩
  · intro k hk
    obtain ⟨remk, hrunk, _, _, _⟩ := hpart k hk
    exact ⟨_, hrunk, rfl, rfl, by simp⟩
  · rfl

/-- An instance of that schedule: three tasks wait on a capacity-4 queue of
two extents that holds the messages 5 and 6, with its head at the first slot
of the second extent; the broadcast of message 11 goes to the last slot of the first extent,
the tasks fetch it in the order 5, 8, 2, the broadcaster is told three tasks,
and the messages 5 and 6 are queued as before. -/
theorem q_broadcast_wakes_every_waiter_witness :
    ∃ q1 q2, q_broadcast_start bcast_queue2 (11, 0, 0, 0) none = some (ERR_NO_ERROR, q1) ∧
      q1.queue_head = 4160 ∧
      queued_msgs bcast_queue2 = some [(5, 0, 0, 0), (6, 0, 0, 0)] ∧
      queued_msgs q1 = some [(11, 0, 0, 0), (5, 0, 0, 0), (6, 0, 0, 0)] ∧
      receivers_run q1 [5, 8, 2] =
        some ([(0, (11, 0, 0, 0)), (0, (11, 0, 0, 0)), (0, (11, 0, 0, 0))], q2) ∧
      q_broadcast_count q2 = 3 ∧ q2.send_type = SEND ∧ q2.msg_count = 2 ∧
      queued_msgs q2 = some [(5, 0, 0, 0), (6, 0, 0, 0)] := by
  obtain ⟨q1, q2, msgs, h1, _, _, h4, h5, h6, _, h8, h9, h10⟩ :=
    q_broadcast_wakes_every_waiter bcast_queue2 4096 [8192] 4 (11, 0, 0, 0) none [5, 8, 2]
      ⟨rfl, rfl, rfl, rfl, by decide, by decide, by decide⟩
      rfl (by decide) (by decide) (by decide) (by decide) (by decide) (by decide)
  have hm : queued_msgs bcast_queue2 = some [(5, 0, 0, 0), (6, 0, 0, 0)] := rfl
  have hmsgs : msgs = [(5, 0, 0, 0), (6, 0, 0, 0)] := by
    rw [hm] at h4
    exact (Option.some.inj h4).symm
  subst hmsgs
  have hq1 : q_broadcast_start bcast_queue2 (11, 0, 0, 0) none =
      some (ERR_NO_ERROR, { bcast_queue2 with
        queue_head := 4160
        mem := Function.update bcast_queue2.mem 4160 (11, 0, 0, 0)
        msg_count := 3
        send_type := BCAST
        bcst_tasks_awakened := 0 }) := rfl
  have hhead : q1.queue_head = 4160 := by
    rw [hq1] at h1
    simp only [Option.some.injEq, Prod.mk.injEq, true_and] at h1
    rw [← h1]
  refine ⟨q1, q2, h1, hhead, hm, h5, h6, h8, ?_, ?_, h10⟩
  · rw [h9]
    rfl
  · rw [h9]
    rfl

/-- C5 fails for the count when a waiter fetches before the broadcaster has
cleared `bcst_tasks_awakened`: `q_broadcast` releases `queue_lock`
(queue.c:1374) and clears the counter afterwards (queue.c:1380) with no lock
held, where `q_vbroadcast` clears its counter under the lock. Three tasks
wait on `bcast_queue2`. After the locked part of the broadcast of message 11,
task 5, whose timed wait has run out, takes `queue_lock`, finds the broadcast
and fetches it, which counts 1; the broadcaster clears the counter; the tasks
8 and 2 fetch. All three have the message with status 0, the wait list is
empty and the mode is SEND again, and the count stored for the broadcaster is
2. On the schedule in which the counter is cleared first it is 3. -/
theorem q_broadcast_count_misses_early_waiter :
    bcast_queue2.first_susp.length = 3 ∧
    ((q_broadcast_send bcast_queue2 (11, 0, 0, 0) none).bind fun r =>
        (receivers_run r.2 [5]).bind fun w1 =>
          (receivers_run (q_broadcast_clear w1.2) [8, 2]).map fun w2 =>
            (r.1, r.2.send_type, w1.1, w1.2.bcst_tasks_awakened, w2.1,
              q_broadcast_count w2.2, w2.2.send_type, w2.2.first_susp, w2.2.msg_count))
      = some (ERR_NO_ERROR, BCAST, [(ERR_NO_ERROR, (11, 0, 0, 0))], 1,
          [(ERR_NO_ERROR, (11, 0, 0, 0)), (ERR_NO_ERROR, (11, 0, 0, 0))],
          2, SEND, [], 2) ∧
    ((q_broadcast_start bcast_queue2 (11, 0, 0, 0) none).bind fun r =>
        (receivers_run r.2 [5, 8, 2]).map fun w =>
          (r.1, w.1, q_broadcast_count w.2, w.2.send_type, w.2.first_susp, w.2.msg_count))
      = some (ERR_NO_ERROR,
          [(ERR_NO_ERROR, (11, 0, 0, 0)), (ERR_NO_ERROR, (11, 0, 0, 0)),
            (ERR_NO_ERROR, (11, 0, 0, 0))],
          3, SEND, [], 2) :=
  ⟨rfl, rfl, rfl⟩

end Queue
namespace VQueue
open Task

/-! ### Broadcast on a variable-length queue (vqueue.c) -/

/-- C6. After a `q_vbroadcast` that woke the three tasks waiting on a
capacity-4 queue (count 3), a second `q_vbroadcast` on the same queue, made
while no task is waiting, returns success and still stores 3 through `tasks`:
`bcst_tasks_awakened` is cleared only inside the branch taken when tasks are
waiting. -/
theorem q_vbroadcast_count_is_stale :
    q_vcreate 0 4 16 true (some 4096) (fun _ => ⟨0, []⟩) = (ERR_NO_ERROR, some vlq1) ∧
    (q_vbroadcast_send vlq1_waited (vmsg 10) 16).1 = ERR_NO_ERROR ∧
    (vreceivers_run (q_vbroadcast_send vlq1_waited (vmsg 10) 16).2 [3, 6, 9]).map Prod.fst =
      some [(0, vmsg 10, 16), (0, vmsg 10, 16), (0, vmsg 10, 16)] ∧
    q_vbroadcast_count vlq1_after_broadcast = 3 ∧
    vlq1_after_broadcast.first_susp = [] ∧
    vlq1_after_broadcast.send_type = SEND ∧
    (q_vbroadcast_send vlq1_after_broadcast (vmsg 11) 16).1 = ERR_NO_ERROR ∧
    q_vbroadcast_count (q_vbroadcast_send vlq1_after_broadcast (vmsg 11) 16).2 = 3 :=
  ⟨rfl, rfl, rfl, rfl, rfl, rfl, rfl, rfl⟩

end VQueue
namespace Sema4
open Task

/-! ### Counting semaphore (sema4.c) -/

end Sema4
namespace MemBlk

/-! ### Fixed-block partition (memblk.c) -/

theorem ulong_of_small (x : Nat) (h : x < 4294967296) : ulong (x : Int) = x := by
  unfold ulong
  have : ((x : Int) % 4294967296) = (x : Int) := Int.emod_eq_of_lt (by omega) (by omega)
  rw [this]
  simp

theorem ulong_succ (x : Nat) (h : x + 1 < 4294967296) : ulong ((x : Int) + 1) = x + 1 := by
  have := ulong_of_small (x + 1) h
  simpa using this

theorem ulong_pred (x : Nat) (h0 : 0 < x) (h : x < 4294967296) :
    ulong ((x : Int) - 1) = x - 1 := by
  have := ulong_of_small (x - 1) (by omega)
  have hc : ((x - 1 : Nat) : Int) = (x : Int) - 1 := by omega
  rw [hc] at this
  exact this

theorem is_free_list_nonzero (mem : Nat → Nat) :
    ∀ (fl : List Nat) (first : Nat), is_free_list mem first fl → ∀ a ∈ fl, a ≠ 0
  | [], _, _ => by simp
  | x :: rest, first, h => by
      intro a ha
      rcases List.mem_cons.mp ha with rfl | ha
      · exact h.2.1
      · exact is_free_list_nonzero mem rest _ h.2.2 a ha

/-- The search of `pt_retbuf` ends on a well-formed free list when it is given
more rounds than the list has blocks, and tells whether the address is on it. -/
theorem on_free_list_spec (mem : Nat → Nat) (bufaddr : Nat) :
    ∀ (fl : List Nat) (first rounds : Nat), is_free_list mem first fl → fl.length < rounds →
      on_free_list mem bufaddr rounds first = some (decide (bufaddr ∈ fl))
  | [], first, rounds, h, hr => by
      cases rounds with
      | zero => omega
      | succ r =>
          have h0 : first = 0 := h
          simp [on_free_list, h0]
  | x :: rest, first, rounds, h, hr => by
      cases rounds with
      | zero => omega
      | succ r =>
          obtain ⟨h1, h2, h3⟩ := h
          subst h1
          have hr' : rest.length < r := by simpa using hr
          have ih := on_free_list_spec mem bufaddr rest (mem first) r h3 hr'
          by_cases hx : first = bufaddr
          · subst hx
            simp [on_free_list, h2]
          · have hx' : ¬ bufaddr = first := fun h => hx h.symm
            simp [on_free_list, h2, hx, hx', ih]

theorem is_free_list_congr (mem mem' : Nat → Nat) :
    ∀ (fl : List Nat) (first : Nat), (∀ a ∈ fl, mem' a = mem a) →
      is_free_list mem first fl → is_free_list mem' first fl
  | [], _, _, h => h
  | x :: rest, first, hm, h => by
      refine ⟨h.1, h.2.1, ?_⟩
      rw [hm x (by simp)]
      exact is_free_list_congr mem mem' rest _ (fun a ha => hm a (List.mem_cons_of_mem _ ha)) h.2.2

/-- Linking a block behind the last block of a non-empty free list. -/
theorem is_free_list_snoc (mem : Nat → Nat) (a : Nat) (ha0 : a ≠ 0) :
    ∀ (fl : List Nat) (first last : Nat), is_free_list mem first fl → fl.Nodup → a ∉ fl →
      fl.getLast? = some last →
      is_free_list (Function.update (Function.update mem a 0) last a) first (fl ++ [a])
  | [], _, _, _, _, _, hl => by simp at hl
  | [x], first, last, h, _, ha, hl => by
      simp only [List.getLast?_singleton, Option.some.injEq] at hl
      subst hl
      have hxa : a ≠ x := fun h => ha (by simp [h])
      refine ⟨h.1, h.2.1, ?_⟩
      simp only [Function.update_same]
      refine ⟨rfl, ha0, ?_⟩
      rw [Function.update_noteq hxa, Function.update_same]
      rfl
  | x :: y :: rest, first, last, h, hd, ha, hl => by
      have hl' : (y :: rest).getLast? = some last := by
        simpa [List.getLast?_cons_cons] using hl
      have hd' := (List.nodup_cons.mp hd)
      have ha' : a ∉ y :: rest := fun h => ha (List.mem_cons_of_mem _ h)
      have hxa : x ≠ a := fun h => ha (by simp [h])
      have hlast_mem : last ∈ y :: rest := List.mem_of_getLast?_eq_some hl'
      have hxl : x ≠ last := fun h => hd'.1 (h ▸ hlast_mem)
      have ih := is_free_list_snoc mem a ha0 (y :: rest) (mem x) last h.2.2 hd'.2 ha' hl'
      refine ⟨h.1, h.2.1, ?_⟩
      rw [Function.update_noteq hxl, Function.update_noteq hxa]
      exact ih

theorem is_block_inj (base bs n x y : Nat) (hx : is_block base bs n x)
    (hy : is_block base bs n y) (h : (x - base) / bs = (y - base) / bs) : x = y := by
  obtain ⟨hx1, hx2, _⟩ := hx
  obtain ⟨hy1, hy2, _⟩ := hy
  have ex := Nat.div_add_mod (x - base) bs
  have ey := Nat.div_add_mod (y - base) bs
  rw [hx2, h] at ex
  rw [hy2] at ey
  omega

/-- A duplicate-free list of blocks that misses one block of the partition has
fewer entries than the partition has blocks. -/
theorem free_list_short (base bs n a : Nat) (fl : List Nat) (hd : fl.Nodup)
    (hb : ∀ x ∈ fl, is_block base bs n x) (ha : is_block base bs n a) (hna : a ∉ fl) :
    fl.length < n := by
  have hd' : (a :: fl).Nodup := List.nodup_cons.mpr ⟨hna, hd⟩
  have hb' : ∀ x ∈ a :: fl, is_block base bs n x := by
    intro x hx
    rcases List.mem_cons.mp hx with rfl | hx
    · exact ha
    · exact hb x hx
  have hmap : ((a :: fl).map fun x => (x - base) / bs).Nodup :=
    List.Nodup.map_on (fun x hx y hy h => is_block_inj base bs n x y (hb' x hx) (hb' y hy) h) hd'
  have hsub : ((a :: fl).map fun x => (x - base) / bs) ⊆ List.range n := by
    intro i hi
    obtain ⟨x, hx, rfl⟩ := List.mem_map.mp hi
    exact List.mem_range.mpr (hb' x hx).2.2
  have hlen := (List.subperm_of_subset hmap hsub).length_le
  simp only [List.length_map, List.length_cons, List.length_range] at hlen
  omega

/-- What `pt_getbuf` does on an accounted partition: with an empty free list it
returns `ERR_NOBUF` and a null address and changes nothing; otherwise it
returns the head of the list, and the rest of the list is the new free list. -/
theorem pt_getbuf_accounted (p : p2pt_prtn_t) (base bs n : Nat) (fl : List Nat)
    (h : Accounted p base bs n fl) :
    (fl = [] → pt_getbuf p = (ERR_NOBUF, 0, p)) ∧
    (∀ a rest, fl = a :: rest → (pt_getbuf p).1 = ERR_NO_ERROR ∧ (pt_getbuf p).2.1 = a) ∧
    Accounted (pt_getbuf p).2.2 base bs n fl.tail := by
  cases fl with
  | nil =>
      have h0 : p.first_free = 0 := h.chain
      have hg : pt_getbuf p = (ERR_NOBUF, 0, p) := by simp [pt_getbuf, h0]
      refine ⟨fun _ => hg, (fun a rest he => by cases he), ?_⟩
      rw [hg]
      exact h
  | cons a rest =>
      obtain ⟨h1, h2, h3⟩ := h.chain
      have hne : p.first_free ≠ 0 := by rw [h1]; exact h2
      have hfree := h.free
      have hused := h.used
      have hfits := h.fits
      have hbpos := h.bpos
      simp only [List.length_cons] at hfree hused
      have hnle : n ≤ n * bs := Nat.le_mul_of_pos_right n hbpos
      have hg : pt_getbuf p = (ERR_NO_ERROR, a, { p with
          first_free := p.mem a
          free_blk_count := rest.length
          used_blk_count := p.used_blk_count + 1 }) := by
        have e1 : ulong ((p.free_blk_count : Int) - 1) = rest.length := by
          rw [ulong_pred _ (by omega) (by omega)]; omega
        have e2 : ulong ((p.used_blk_count : Int) + 1) = p.used_blk_count + 1 :=
          ulong_succ _ (by omega)
        simp [pt_getbuf, e1, e2, h1, h2]
      refine ⟨(fun he => by cases he), ?_, ?_⟩
      · intro a' rest' he
        rw [hg]
        cases he
        exact ⟨rfl, rfl⟩
      · rw [hg]
        exact
          { baddr := h.baddr
            bcount := h.bcount
            bsize := h.bsize
            bpos := h.bpos
            basepos := h.basepos
            npos := h.npos
            fits := h.fits
            chain := h3
            nodup := (List.nodup_cons.mp h.nodup).2
            blocks := fun x hx => h.blocks x (List.mem_cons_of_mem _ hx)
            free := rfl
            used := by simp only [List.tail_cons]; omega
            last := by
              intro x hx
              cases rest with
              | nil => simp at hx
              | cons y r => exact h.last x (by simpa [List.getLast?_cons_cons] using hx)
            lastnz := h.lastnz }

theorem ulong_mul (x y : Nat) (h : x * y < 4294967296) : ulong ((x : Int) * (y : Int)) = x * y := by
  have := ulong_of_small (x * y) h
  rw [Nat.cast_mul] at this
  exact this

theorem is_block_in_range (base bs n a : Nat) (hbs : 0 < bs) (h : is_block base bs n a) :
    base ≤ a ∧ a < base + n * bs := by
  obtain ⟨h1, _, h3⟩ := h
  have := (Nat.div_lt_iff_lt_mul hbs).mp h3
  omega

/-- An address outside the data area is refused with `ERR_BUFADDR` and the
partition stays as it is. -/
theorem pt_retbuf_outside (rounds : Nat) (p : p2pt_prtn_t) (base bs n a : Nat) (fl : List Nat)
    (h : Accounted p base bs n fl) (ha : a < base ∨ base + n * bs ≤ a) :
    pt_retbuf rounds p a = some (ERR_BUFADDR, p) := by
  have hfits := h.fits
  have hbpos := h.bpos
  have hnpos := h.npos
  have hpos : 0 < n * bs := Nat.mul_pos hnpos hbpos
  have hsz : ulong ((p.bcount : Int) * (p.blk_size : Int)) = n * bs := by
    rw [h.bcount, h.bsize]
    exact ulong_mul n bs (by omega)
  have hcond : ¬ (a = p.baddr ∨ (a > p.baddr ∧ a < p.baddr + n * bs)) := by
    rw [h.baddr]
    omega
  unfold pt_retbuf
  simp only [hsz]
  rw [if_neg hcond]

/-- A block that is on the free list is refused with `ERR_BUFFREE` and the
partition stays as it is. -/
theorem pt_retbuf_on_free_list (rounds : Nat) (p : p2pt_prtn_t) (base bs n a : Nat)
    (fl : List Nat) (h : Accounted p base bs n fl) (ha : a ∈ fl) (hr : fl.length < rounds) :
    pt_retbuf rounds p a = some (ERR_BUFFREE, p) := by
  have hfits := h.fits
  have hbpos := h.bpos
  have hsz : ulong ((p.bcount : Int) * (p.blk_size : Int)) = n * bs := by
    rw [h.bcount, h.bsize]
    exact ulong_mul n bs (by omega)
  have hin := is_block_in_range base bs n a hbpos (h.blocks a ha)
  have hcond : a = p.baddr ∨ (a > p.baddr ∧ a < p.baddr + n * bs) := by
    rw [h.baddr]
    omega
  have hscan := on_free_list_spec p.mem a fl p.first_free rounds h.chain hr
  unfold pt_retbuf
  simp only [hsz]
  rw [if_pos hcond, hscan]
  simp [ha]

/-- A block that is not on the free list is linked behind its last block,
unless the list is empty and `last_free` still points to that very block. -/
theorem pt_retbuf_links (rounds : Nat) (p : p2pt_prtn_t) (base bs n a : Nat) (fl : List Nat)
    (h : Accounted p base bs n fl) (hb : is_block base bs n a) (ha : a ∉ fl)
    (hl : ¬ (p.first_free = 0 ∧ p.last_free = a)) (hr : fl.length < rounds) :
    ∃ p', pt_retbuf rounds p a = some (ERR_NO_ERROR, p') ∧ Accounted p' base bs n (fl ++ [a]) := by
  have hfits := h.fits
  have hbpos := h.bpos
  have hbase := h.basepos
  have hfree := h.free
  have hused := h.used
  have hnle : n ≤ n * bs := Nat.le_mul_of_pos_right n hbpos
  have hsz : ulong ((p.bcount : Int) * (p.blk_size : Int)) = n * bs := by
    rw [h.bcount, h.bsize]
    exact ulong_mul n bs (by omega)
  have hin := is_block_in_range base bs n a hbpos hb
  have ha0 : a ≠ 0 := by omega
  have hcond : a = p.baddr ∨ (a > p.baddr ∧ a < p.baddr + n * bs) := by
    rw [h.baddr]
    omega
  have hscan := on_free_list_spec p.mem a fl p.first_free rounds h.chain hr
  have hshort := free_list_short base bs n a fl h.nodup h.blocks hb ha
  have e1 : ulong ((p.free_blk_count : Int) + 1) = fl.length + 1 := by
    rw [ulong_succ _ (by omega)]; omega
  have e2 : ulong ((p.used_blk_count : Int) - 1) = p.used_blk_count - 1 :=
    ulong_pred _ (by omega) (by omega)
  have hrun : pt_retbuf rounds p a = some (ERR_NO_ERROR, { p with
      mem := Function.update (Function.update p.mem a 0) p.last_free a
      last_free := a
      first_free := if p.first_free = 0 then a else p.first_free
      free_blk_count := fl.length + 1
      used_blk_count := p.used_blk_count - 1 }) := by
    unfold pt_retbuf
    simp only [hsz]
    rw [if_pos hcond, hscan]
    simp [ha, h.lastnz, e1, e2]
  refine ⟨_, hrun, ?_⟩
  refine
    { baddr := h.baddr
      bcount := h.bcount
      bsize := h.bsize
      bpos := h.bpos
      basepos := h.basepos
      npos := h.npos
      fits := h.fits
      chain := ?_
      nodup := ?_
      blocks := ?_
      free := by simp
      used := by simp only [List.length_append, List.length_singleton]; omega
      last := by
        intro x hx
        simpa using hx
      lastnz := ha0 }
  · cases hfl : fl with
    | nil =>
        have hc := h.chain
        rw [hfl] at hc
        have h0 : p.first_free = 0 := hc
        have hne : p.last_free ≠ a := fun e => hl ⟨h0, e⟩
        have hne' : a ≠ p.last_free := fun e => hne e.symm
        simp only [h0, if_true, List.nil_append]
        refine ⟨rfl, ha0, ?_⟩
        rw [Function.update_noteq hne', Function.update_same]
        rfl
    | cons x rest =>
        have hc := h.chain
        rw [hfl] at hc
        have hne : p.first_free ≠ 0 := by rw [hc.1]; exact hc.2.1
        obtain ⟨last, hlast⟩ : ∃ last, (x :: rest).getLast? = some last := by
          cases hg : (x :: rest).getLast? with
          | none => simp at hg
          | some l => exact ⟨l, rfl⟩
        have hpl : p.last_free = last := h.last last (by rw [hfl]; exact hlast)
        simp only [if_neg hne]
        rw [hpl]
        exact is_free_list_snoc p.mem a ha0 (x :: rest) p.first_free last hc
          (by rw [← hfl]; exact h.nodup) (by rw [← hfl]; exact ha) hlast
  · exact List.nodup_append.mpr ⟨h.nodup, List.nodup_singleton a, by
      intro x hx hx'
      rw [List.mem_singleton] at hx'
      exact ha (hx' ▸ hx)⟩
  · intro x hx
    rcases List.mem_append.mp hx with hx | hx
    · exact h.blocks x hx
    · rw [List.mem_singleton] at hx
      rw [hx]
      exact hb

theorem blk_lt (base bs j n : Nat) (hbs : 0 < bs) :
    base + j * bs + bs < base + n * bs ↔ j + 1 < n := by
  have e : base + j * bs + bs = base + (j + 1) * bs := by rw [Nat.succ_mul]; omega
  rw [e]
  constructor
  · intro h
    exact (Nat.mul_lt_mul_right hbs).mp (by omega)
  · intro h
    have := (Nat.mul_lt_mul_right hbs).mpr h
    omega

theorem blk_inj (base bs j k : Nat) (hbs : 0 < bs) (h : base + j * bs = base + k * bs) :
    j = k := by
  have : j * bs = k * bs := by omega
  exact Nat.eq_of_mul_eq_mul_right hbs this

/-- The linking loop of `new_extent_for`, started at block `j` of `n`: it stops
at the last block, writes into the link cell of every block but the last the
address of the next block, and writes nothing else. -/
theorem link_blocks_spec (base bs n : Nat) (hbs : 0 < bs) :
    ∀ (r j : Nat) (mem : Nat → Nat), j < n → n - 1 - j ≤ r →
      (link_blocks bs (base + n * bs) r (base + j * bs) mem).1 = base + (n - 1) * bs ∧
      (∀ k, j ≤ k → k + 1 < n →
        (link_blocks bs (base + n * bs) r (base + j * bs) mem).2 (base + k * bs)
          = base + (k + 1) * bs) ∧
      (∀ a, (∀ k, j ≤ k → k + 1 < n → a ≠ base + k * bs) →
        (link_blocks bs (base + n * bs) r (base + j * bs) mem).2 a = mem a)
  | 0, j, mem, hj, hr => by
      have hjn : j = n - 1 := by omega
      refine ⟨by simp [link_blocks, hjn], ?_, ?_⟩
      · intro k h1 h2
        omega
      · intro a _
        rfl
  | r + 1, j, mem, hj, hr => by
      by_cases hlt : j + 1 < n
      · have hc : base + j * bs + bs < base + n * bs := (blk_lt base bs j n hbs).mpr hlt
        have e : base + j * bs + bs = base + (j + 1) * bs := by rw [Nat.succ_mul]; omega
        have ih := link_blocks_spec base bs n hbs r (j + 1)
          (Function.update mem (base + j * bs) (base + (j + 1) * bs)) hlt (by omega)
        have hstep : link_blocks bs (base + n * bs) (r + 1) (base + j * bs) mem
            = link_blocks bs (base + n * bs) r (base + (j + 1) * bs)
                (Function.update mem (base + j * bs) (base + (j + 1) * bs)) := by
          rw [link_blocks, if_pos hc, e]
        rw [hstep]
        refine ⟨ih.1, ?_, ?_⟩
        · intro k h1 h2
          by_cases hk : k = j
          · subst hk
            rw [ih.2.2 (base + k * bs) (fun k' h1' _ he => by
              have := blk_inj base bs k k' hbs he
              omega)]
            exact Function.update_same _ _ _
          · exact ih.2.1 k (by omega) h2
        · intro a ha
          rw [ih.2.2 a (fun k h1 h2 => ha k (by omega) h2)]
          exact Function.update_noteq (ha j (le_refl j) hlt) _ _
      · have hc : ¬ base + j * bs + bs < base + n * bs := fun h => hlt ((blk_lt base bs j n hbs).mp h)
        have hjn : j = n - 1 := by omega
        have hstep : link_blocks bs (base + n * bs) (r + 1) (base + j * bs) mem
            = (base + j * bs, mem) := by
          rw [link_blocks, if_neg hc]
        rw [hstep]
        refine ⟨by simp [hjn], ?_, ?_⟩
        · intro k h1 h2
          omega
        · intro a _
          rfl

theorem mem_blocks_from (base bs : Nat) :
    ∀ (m j a : Nat), a ∈ blocks_from base bs j m ↔ ∃ k, j ≤ k ∧ k < j + m ∧ a = base + k * bs
  | 0, j, a => by
      simp only [blocks_from, List.not_mem_nil, false_iff]
      rintro ⟨k, h1, h2, _⟩
      omega
  | m + 1, j, a => by
      simp only [blocks_from, List.mem_cons, mem_blocks_from base bs m (j + 1) a]
      constructor
      · rintro (h | ⟨k, h1, h2, h3⟩)
        · exact ⟨j, le_refl j, by omega, h⟩
        · exact ⟨k, by omega, by omega, h3⟩
      · rintro ⟨k, h1, h2, h3⟩
        by_cases hk : k = j
        · left
          rw [h3, hk]
        · right
          exact ⟨k, by omega, by omega, h3⟩

theorem length_blocks_from (base bs : Nat) :
    ∀ (m j : Nat), (blocks_from base bs j m).length = m
  | 0, _ => rfl
  | m + 1, j => by simp [blocks_from, length_blocks_from base bs m (j + 1)]

theorem nodup_blocks_from (base bs : Nat) (hbs : 0 < bs) :
    ∀ (m j : Nat), (blocks_from base bs j m).Nodup
  | 0, _ => List.nodup_nil
  | m + 1, j => by
      refine List.nodup_cons.mpr ⟨?_, nodup_blocks_from base bs hbs m (j + 1)⟩
      intro h
      obtain ⟨k, h1, _, h3⟩ := (mem_blocks_from base bs m (j + 1) _).mp h
      have := blk_inj base bs j k hbs h3
      omega

theorem getLast_blocks_from (base bs : Nat) :
    ∀ (m j : Nat), (blocks_from base bs j (m + 1)).getLast? = some (base + (j + m) * bs)
  | 0, j => by simp [blocks_from]
  | m + 1, j => by
      have ih := getLast_blocks_from base bs m (j + 1)
      have e : j + 1 + m = j + (m + 1) := by omega
      rw [e] at ih
      rw [blocks_from]
      rw [blocks_from] at ih ⊢
      rw [List.getLast?_cons_cons]
      exact ih

/-- A memory in which every block but the last holds the address of the next
block and the last block holds the null pointer has, from block `j` on, the
remaining blocks as its chain. -/
theorem is_free_list_blocks_from (base bs n : Nat) (hbase : 0 < base) (mem : Nat → Nat)
    (hlink : ∀ k, k + 1 < n → mem (base + k * bs) = base + (k + 1) * bs)
    (hend : mem (base + (n - 1) * bs) = 0) :
    ∀ (m j : Nat), j + m = n →
      is_free_list mem (if m = 0 then 0 else base + j * bs) (blocks_from base bs j m)
  | 0, _, _ => by simp [blocks_from, is_free_list]
  | m + 1, j, hjm => by
      have ih := is_free_list_blocks_from base bs n hbase mem hlink hend m (j + 1) (by omega)
      simp only [blocks_from, Nat.succ_ne_zero, if_false]
      refine ⟨rfl, by omega, ?_⟩
      by_cases hm : m = 0
      · subst hm
        have hj : j = n - 1 := by omega
        rw [hj, hend]
        simpa using ih
      · rw [if_neg hm] at ih
        rw [hlink j (by omega)]
        exact ih

theorem is_block_blk (base bs n k : Nat) (hbs : 0 < bs) (hk : k < n) :
    is_block base bs n (base + k * bs) := by
  refine ⟨by omega, ?_, ?_⟩
  · rw [Nat.add_sub_cancel_left]
    exact Nat.mul_mod_left k bs
  · rw [Nat.add_sub_cancel_left, Nat.mul_div_cancel k hbs]
    exact hk

/-- The partition that `new_extent_for` sets up over at least one block is
accounted, with all blocks on the free list in address order. -/
theorem new_extent_for_accounted (prtn : p2pt_prtn_t) (base bs n : Nat)
    (hbs : prtn.blk_size = bs) (hused : prtn.used_blk_count = 0) (bpos : 0 < bs)
    (basepos : 0 < base) (npos : 0 < n) (fits : base + n * bs < 4294967296) :
    ∃ p, new_extent_for prtn base n true = some p ∧ p.free_blk_count = n ∧
      ∀ f, Accounted { p with flags := f } base bs n (blocks_from base bs 0 n) := by
  have hsz : ulong ((bs : Int) * (n : Int)) = n * bs := by
    rw [ulong_mul bs n (by rw [Nat.mul_comm]; omega), Nat.mul_comm]
  have hne : base ≠ 0 := by omega
  have hspec := link_blocks_spec base bs n bpos n 0
    (fun a => if base ≤ a ∧ a < base + n * bs then 0 else prtn.mem a) npos (by omega)
  simp only [Nat.zero_mul, Nat.add_zero] at hspec
  obtain ⟨hs1, hs2, hs3⟩ := hspec
  have hrun : new_extent_for prtn base n true = some { prtn with
      baddr := base
      bcount := n
      mem := (link_blocks bs (base + n * bs) n base
        (fun a => if base ≤ a ∧ a < base + n * bs then 0 else prtn.mem a)).2
      first_free := base
      last_free := (link_blocks bs (base + n * bs) n base
        (fun a => if base ≤ a ∧ a < base + n * bs then 0 else prtn.mem a)).1
      free_blk_count := n } := by
    unfold new_extent_for
    simp only [hbs, hsz, if_true, ne_eq, hne, not_false_eq_true]
  refine ⟨_, hrun, rfl, fun f => ?_⟩
  have hend : (link_blocks bs (base + n * bs) n base
      (fun a => if base ≤ a ∧ a < base + n * bs then 0 else prtn.mem a)).2
        (base + (n - 1) * bs) = 0 := by
    rw [hs3 _ (fun k _ hk he => by
      have := blk_inj base bs (n - 1) k bpos he
      omega)]
    have hin := is_block_in_range base bs n _ bpos (is_block_blk base bs n (n - 1) bpos (by omega))
    simp only [hin.1, hin.2, and_self, if_true]
  have hchain := is_free_list_blocks_from base bs n basepos _ (fun k hk => hs2 k (Nat.zero_le k) hk)
    hend n 0 (by omega)
  rw [if_neg (by omega), Nat.zero_mul, Nat.add_zero] at hchain
  exact
    { baddr := rfl
      bcount := rfl
      bsize := hbs
      bpos := bpos
      basepos := basepos
      npos := npos
      fits := fits
      chain := hchain
      nodup := nodup_blocks_from base bs bpos n 0
      blocks := by
        intro a ha
        obtain ⟨k, _, hk, rfl⟩ := (mem_blocks_from base bs n 0 a).mp ha
        exact is_block_blk base bs n k bpos (by omega)
      free := (length_blocks_from base bs n 0).symm
      used := by
        show prtn.used_blk_count + _ = n
        rw [hused, length_blocks_from]
        omega
      last := by
        intro a ha
        obtain ⟨m, rfl⟩ : ∃ m, n = m + 1 := ⟨n - 1, by omega⟩
        rw [getLast_blocks_from] at ha
        simp only [Option.some.injEq] at ha
        show (link_blocks _ _ _ _ _).1 = a
        rw [hs1, ← ha]
        simp
      lastnz := by
        show (link_blocks _ _ _ _ _).1 ≠ 0
        rw [hs1]
        omega }

/-- A `pt_create` that succeeds over at least one block leaves an accounted
partition with every block on the free list, and stores the block count
through `nbuf`. -/
theorem pt_create_accounted (paddr length bsize flags : Nat) (mem : Nat → Nat)
    (heven : bsize % 2 = 0) (h4 : 4 ≤ bsize) (hbase : 0 < paddr)
    (hfit : paddr + length < 4294967296) (hn : bsize ≤ length) :
    ∃ r p0, pt_create paddr length bsize flags true true mem = some r ∧
      r.error = ERR_NO_ERROR ∧ r.prtn = some p0 ∧ r.nbuf = some (length / bsize) ∧
      Accounted p0 paddr bsize (length / bsize) (blocks_from paddr bsize 0 (length / bsize)) := by
  have bpos : 0 < bsize := by omega
  have npos : 0 < length / bsize := Nat.div_pos hn bpos
  have hle : length / bsize * bsize ≤ length := Nat.div_mul_le_self length bsize
  obtain ⟨p, hp, hcount, hacc⟩ := new_extent_for_accounted
    { flags := 0, first_free := 0, last_free := 0, free_blk_count := 0,
      used_blk_count := 0, blk_size := bsize, baddr := 0, bcount := 0, mem := mem }
    paddr bsize (length / bsize) rfl rfl bpos hbase npos (by omega)
  have hb0 : bsize ≠ 0 := by omega
  have herr : ¬ (bsize % 2 ≠ 0 ∨ bsize < 4) := by omega
  refine ⟨{ error := ERR_NO_ERROR, prtn := some { p with flags := flags },
            nbuf := some p.free_blk_count, mem := p.mem },
    { p with flags := flags }, ?_, ?_, ?_, ?_, hacc flags⟩
  · unfold pt_create
    simp only [if_true, if_neg hb0, if_neg herr, hp]
  · rfl
  · rfl
  · simp [hcount]

/-- A `pt_create` that links a partition had both control blocks, an even
block size of at least 4 and a data area that is not null. -/
theorem pt_created_success (paddr length bsize flags : Nat) (pcb ts_malloc : Bool)
    (mem : Nat → Nat) (p0 : p2pt_prtn_t)
    (h : pt_created paddr length bsize flags pcb ts_malloc mem = some p0) :
    pcb = true ∧ ts_malloc = true ∧ bsize % 2 = 0 ∧ 4 ≤ bsize ∧ 0 < paddr := by
  unfold pt_created pt_create at h
  cases pcb
  · simp [ERR_OBJTFULL, ERR_NO_ERROR] at h
  · cases ts_malloc
    · by_cases hb : bsize = 0
      · simp [hb] at h
      · simp [hb, new_extent_for, ERR_OBJTFULL, ERR_NO_ERROR] at h
    · by_cases hb : bsize = 0
      · simp [hb] at h
      · by_cases hp : paddr = 0
        · simp [hb, hp, new_extent_for, ERR_OBJTFULL, ERR_NO_ERROR] at h
        · by_cases he : bsize % 2 ≠ 0 ∨ bsize < 4
          · have he1 : ¬ (bsize % 2 = 0 ∧ 4 ≤ bsize) := by omega
            have he2 : bsize % 2 = 1 ∨ bsize < 4 := by omega
            simp [hb, hp, he1, he2, new_extent_for, ERR_BUFSIZE, ERR_NO_ERROR] at h
          · refine ⟨rfl, rfl, ?_, ?_, ?_⟩ <;> omega

theorem pt_retbuf_accounted (rounds : Nat) (p : p2pt_prtn_t) (base bs n a : Nat) (fl : List Nat)
    (h : Accounted p base bs n fl) (hr : n < rounds) (hok : ret_ok p a = true) :
    ∃ e p' fl', pt_retbuf rounds p a = some (e, p') ∧ Accounted p' base bs n fl' := by
  have hlen : fl.length < rounds := by
    have := h.used
    omega
  unfold ret_ok at hok
  rw [h.baddr, h.bcount, h.bsize] at hok
  simp only [Bool.or_eq_true, Bool.and_eq_true, decide_eq_true_eq, Bool.not_eq_true,
    Bool.not_eq_eq_eq_not, Bool.not_true, Bool.and_eq_false_imp] at hok
  rcases hok with hout | ⟨hb, hl⟩
  · exact ⟨_, _, fl, pt_retbuf_outside rounds p base bs n a fl h hout, h⟩
  · by_cases ha : a ∈ fl
    · exact ⟨_, _, fl, pt_retbuf_on_free_list rounds p base bs n a fl h ha hlen, h⟩
    · obtain ⟨p', hp', hacc⟩ := pt_retbuf_links rounds p base bs n a fl h hb ha
        (fun hc => by
          have := hl hc.1
          simp [hc.2] at this) hlen
      exact ⟨_, p', _, hp', hacc⟩

/-- Every sequence of calls whose `pt_retbuf` arguments satisfy `ret_ok` runs to
its end on an accounted partition and leaves an accounted partition. -/
theorem pt_run_accounted (rounds base bs n : Nat) (hr : n < rounds) :
    ∀ (calls : List pt_call) (p : p2pt_prtn_t) (fl : List Nat), Accounted p base bs n fl →
      calls_ok rounds p calls = true →
      ∃ rs p' fl', pt_run rounds p calls = some (rs, p') ∧ rs.length = calls.length ∧
        Accounted p' base bs n fl'
  | [], p, fl, h, _ => ⟨[], p, fl, rfl, rfl, h⟩
  | .getbuf :: calls, p, fl, h, hok => by
      have hstep := (pt_getbuf_accounted p base bs n fl h).2.2
      obtain ⟨rs, p', fl', hrun, hlen, hacc⟩ :=
        pt_run_accounted rounds base bs n hr calls _ _ hstep hok
      refine ⟨((pt_getbuf p).1, (pt_getbuf p).2.1) :: rs, p', fl', ?_, by simp [hlen], hacc⟩
      simp only [pt_run, pt_step, hrun]
  | .retbuf a :: calls, p, fl, h, hok => by
      simp only [calls_ok, Bool.and_eq_true] at hok
      obtain ⟨e, p1, fl1, hret, hacc1⟩ := pt_retbuf_accounted rounds p base bs n a fl h hr hok.1
      have hok2 := hok.2
      rw [hret] at hok2
      obtain ⟨rs, p', fl', hrun, hlen, hacc⟩ :=
        pt_run_accounted rounds base bs n hr calls p1 fl1 hacc1 hok2
      refine ⟨(e, 0) :: rs, p', fl', ?_, by simp [hlen], hacc⟩
      simp only [pt_run, pt_step, hret, Option.map_some', hrun]

end MemBlk
namespace MemBlk

/-- C8, as stated, fails. On a fresh partition of 2 blocks of 16 bytes at 4096,
`pt_retbuf` of 4104, an address inside the data area that is not the start of
a block, returns 0. Afterwards the free list is 4096, 4112, 4104, null: three
entries in a partition of two blocks; `free_blk_count` is 3 and
`used_blk_count` has wrapped to 4294967295. -/
theorem pt_retbuf_accepts_misaligned :
    (pt_session 3 4096 32 16 [.retbuf 4104]).map
        (fun r => (r.1, pt_view r.2 [4096, 4112, 4104]))
      = some ([(0, 0)], (4096, 4104, 3, 4294967295, [4112, 4104, 0])) :=
  rfl

/-- C8, amended. Take a partition linked by a successful `pt_create` over at
least one block, whose region ends below `2 ^ 32`, and a sequence of
`pt_getbuf` and `pt_retbuf` calls in which every `pt_retbuf` argument is
outside the data area or the start of a block, and is not the block
`last_free` points to while the free list is empty. Then every call returns
(the search of `pt_retbuf` ends within more links than there are blocks), and
afterwards the link cells from `first_free` form a null-terminated chain `fl`
with `fl.length + used_blk_count = length / bsize` and
`free_blk_count = fl.length`. -/
theorem partition_block_account (paddr length bsize flags rounds : Nat) (pcb ts_malloc : Bool)
    (mem : Nat → Nat) (p0 : p2pt_prtn_t) (calls : List pt_call)
    (hcreate : pt_created paddr length bsize flags pcb ts_malloc mem = some p0)
    (hblock : bsize ≤ length) (hfit : paddr + length < 4294967296)
    (hrounds : length / bsize < rounds) (hok : calls_ok rounds p0 calls = true) :
    ∃ rs p fl, pt_run rounds p0 calls = some (rs, p) ∧ rs.length = calls.length ∧
      is_free_list p.mem p.first_free fl ∧
      fl.length + p.used_blk_count = length / bsize ∧ p.free_blk_count = fl.length := by
  obtain ⟨hpcb, hts, heven, h4, hbase⟩ :=
    pt_created_success paddr length bsize flags pcb ts_malloc mem p0 hcreate
  subst hpcb
  subst hts
  obtain ⟨r, p1, hc, herr, hprtn, _, hacc⟩ :=
    pt_create_accounted paddr length bsize flags mem heven h4 hbase hfit hblock
  have hp : p1 = p0 := by
    unfold pt_created at hcreate
    rw [hc] at hcreate
    simp only [herr, if_true, hprtn, Option.some.injEq] at hcreate
    exact hcreate
  subst hp
  obtain ⟨rs, p, fl, hrun, hlen, hfin⟩ :=
    pt_run_accounted rounds paddr bsize (length / bsize) hrounds calls p1 _ hacc hok
  have hused := hfin.used
  exact ⟨rs, p, fl, hrun, hlen, hfin.chain, by omega, hfin.free⟩

theorem partition_block_account_witness :
    ∃ p0, pt_created 4096 32 16 0 true true (fun _ => 0) = some p0 ∧
      calls_ok 3 p0 [.getbuf, .getbuf, .getbuf, .retbuf 4096, .retbuf 4096, .retbuf 5000,
        .retbuf 4112, .getbuf] = true ∧
      ∃ rs p fl, pt_run 3 p0 [.getbuf, .getbuf, .getbuf, .retbuf 4096, .retbuf 4096,
          .retbuf 5000, .retbuf 4112, .getbuf] = some (rs, p) ∧ rs.length = 8 ∧
        is_free_list p.mem p.first_free fl ∧
        fl.length + p.used_blk_count = 32 / 16 ∧ p.free_blk_count = fl.length :=
  ⟨_, rfl, rfl,
    partition_block_account 4096 32 16 0 3 true true (fun _ => 0) _ _ rfl (by decide)
      (by decide) (by decide) rfl⟩

end MemBlk
namespace MemBlk

/-- C9 fails on a partition of zero blocks. `pt_create` over 8 bytes with
16-byte blocks at 4096 returns 0 and reports 0 buffers, so the data area
`[4096, 4096 + 0 * 16)` is empty and 4096 lies outside it; `pt_retbuf` of 4096
nevertheless returns `ERR_BUFFREE` (0x2F) where the claim has `ERR_BUFADDR`
(0x2D): the range test takes the base address by itself, and `first_free` of
the empty partition is the base address. -/
theorem pt_retbuf_zero_blocks :
    (pt_create 4096 8 16 0 true true (fun _ => 0)).map (fun r => (r.error, r.nbuf))
      = some (0, some 0) ∧
    (pt_session 4 4096 8 16 [.retbuf 4096]).map (fun r => (r.1, pt_view r.2 []))
      = some ([(ERR_BUFFREE, 0)], (4096, 4096, 0, 0, [])) ∧
    ERR_BUFFREE = 0x2F :=
  ⟨rfl, rfl, rfl⟩

end MemBlk
namespace MemBlk

/-- C10 fails in two ways. On the partition of zero blocks that `pt_create`
accepts over 8 bytes with 16-byte blocks at 4096, `pt_getbuf` returns 0 and
hands out 4096 although `free_blk_count` is 0, and `free_blk_count` wraps to
4294967295. On a partition of one block, get, return, get, get hands the
block out twice in a row: the return of the block `last_free` points to,
made while the free list is empty, links the block to itself. -/
theorem pt_getbuf_hands_out_without_free_block :
    (pt_session 4 4096 8 16 []).map (fun r => pt_view r.2 [])
      = some (4096, 4096, 0, 0, []) ∧
    (pt_session 4 4096 8 16 [.getbuf]).map (fun r => (r.1, pt_view r.2 []))
      = some ([(0, 4096)], (0, 4096, 4294967295, 1, [])) ∧
    (pt_session 4 4096 16 16 [.getbuf, .retbuf 4096, .getbuf, .getbuf]).map
        (fun r => (r.1, pt_view r.2 [4096]))
      = some ([(0, 4096), (0, 0), (0, 4096), (0, 4096)],
          (4096, 4096, 4294967295, 2, [4096])) :=
  ⟨rfl, rfl, rfl⟩

end MemBlk
namespace MemBlk

/-! ### Creation of a partition and the partition list (memblk.c) -/

/-- With both control blocks granted, a data area that is not null and a
block size other than 0, `pt_create` returns: with `ERR_BUFSIZE` and no
partition for an odd block size or one below 4, otherwise with status 0, a
partition and `length / bsize` stored through `nbuf`. -/
theorem pt_create_status (paddr length bsize flags : Nat) (mem : Nat → Nat)
    (hb : bsize ≠ 0) (hp : paddr ≠ 0) :
    ∃ r, pt_create paddr length bsize flags true true mem = some r ∧
      ((bsize % 2 ≠ 0 ∨ bsize < 4) → r.error = ERR_BUFSIZE ∧ r.prtn = none ∧ r.nbuf = none) ∧
      (¬ (bsize % 2 ≠ 0 ∨ bsize < 4) →
        r.error = ERR_NO_ERROR ∧ r.nbuf = some (length / bsize) ∧ ∃ p, r.prtn = some p) := by
  cases hx : new_extent_for
      { flags := 0, first_free := 0, last_free := 0, free_blk_count := 0,
        used_blk_count := 0, blk_size := bsize, baddr := 0, bcount := 0, mem := mem }
      paddr (length / bsize) true with
  | none => simp [new_extent_for, hp] at hx
  | some p =>
      have hcount : p.free_blk_count = length / bsize := by
        simp only [new_extent_for, if_true, ne_eq, hp, not_false_eq_true,
          Option.some.injEq] at hx
        rw [← hx]
      have hne : ERR_BUFSIZE ≠ ERR_NO_ERROR := by decide
      by_cases hbad : bsize % 2 ≠ 0 ∨ bsize < 4
      · refine ⟨⟨ERR_BUFSIZE, none, none, p.mem⟩, ?_,
          fun _ => ⟨rfl, rfl, rfl⟩, fun h => absurd hbad h⟩
        simp only [pt_create, if_true, if_neg hb, hx, if_pos hbad, if_neg hne]
      · refine ⟨⟨ERR_NO_ERROR, some { p with flags := flags }, some p.free_blk_count, p.mem⟩, ?_,
          fun h => absurd h hbad, fun _ => ⟨rfl, by simp only [hcount], _, rfl⟩⟩
        simp only [pt_create, if_true, if_neg hb, hx, if_neg hbad]

theorem foldl_max_ge (ids : List pt_entry) :
    ∀ (m : Nat), m ≤ ids.foldl (fun m e => if e.prtn_id > m then e.prtn_id else m) m ∧
      ∀ e ∈ ids, e.prtn_id ≤ ids.foldl (fun m e => if e.prtn_id > m then e.prtn_id else m) m := by
  induction ids with
  | nil => intro m; simp
  | cons x xs ih =>
      intro m
      simp only [List.foldl_cons, List.mem_cons]
      by_cases hx : x.prtn_id > m
      · simp only [hx, if_true]
        have h := ih x.prtn_id
        refine ⟨by have := h.1; omega, ?_⟩
        rintro e (rfl | he)
        · exact h.1
        · exact h.2 e he
      · simp only [hx, if_false]
        have h := ih m
        refine ⟨h.1, ?_⟩
        rintro e (rfl | he)
        · have := h.1
          omega
        · exact h.2 e he

/-- The id `new_prtn_id` gives is above every id of the list, as long as the
greatest of them is below `2 ^ 32 - 1`. -/
theorem new_prtn_id_fresh (prtn_list : List pt_entry)
    (hsmall : ∀ e ∈ prtn_list, e.prtn_id + 1 < 4294967296) :
    ∀ e ∈ prtn_list, e.prtn_id < new_prtn_id prtn_list := by
  cases prtn_list with
  | nil => intro e he; simp at he
  | cons first rest =>
      have hge := foldl_max_ge rest first.prtn_id
      have hin : ∃ e ∈ first :: rest,
          rest.foldl (fun m e => if e.prtn_id > m then e.prtn_id else m) first.prtn_id
            = e.prtn_id := by
        clear hge hsmall
        induction rest generalizing first with
        | nil => exact ⟨first, by simp, rfl⟩
        | cons x xs ih =>
            simp only [List.foldl_cons]
            by_cases hx : x.prtn_id > first.prtn_id
            · simp only [hx, if_true]
              obtain ⟨e, he, heq⟩ := ih x
              refine ⟨e, ?_, heq⟩
              simp only [List.mem_cons] at he ⊢
              rcases he with he | he
              · exact Or.inr (Or.inl he)
              · exact Or.inr (Or.inr he)
            · simp only [hx, if_false]
              obtain ⟨e, he, heq⟩ := ih first
              refine ⟨e, ?_, heq⟩
              simp only [List.mem_cons] at he ⊢
              rcases he with he | he
              · exact Or.inl he
              · exact Or.inr (Or.inr he)
      obtain ⟨emax, hemax, heq⟩ := hin
      have hs := hsmall emax hemax
      intro e he
      simp only [new_prtn_id]
      rw [ulong_succ _ (by rw [heq]; exact hs)]
      rcases List.mem_cons.mp he with rfl | he
      · have := hge.1
        omega
      · have := hge.2 e he
        omega

theorem pcb_for_link_after (new_prtn : pt_entry) :
    ∀ (l : List pt_entry), (∀ e ∈ l, e.prtn_id ≠ new_prtn.prtn_id) →
      pcb_for (link_after new_prtn l) new_prtn.prtn_id = some new_prtn
  | [], _ => by simp [link_after, pcb_for]
  | x :: xs, h => by
      have hx : x.prtn_id ≠ new_prtn.prtn_id := h x (by simp)
      have ih := pcb_for_link_after new_prtn xs (fun e he => h e (List.mem_cons_of_mem _ he))
      unfold link_after
      split
      · simp [pcb_for]
      · simp only [pcb_for, List.find?_cons, hx, decide_False] at ih ⊢
        exact ih

/-- A lookup by the id of a block that `link_pcb` has just linked finds that
block, when no block of the list had the id. -/
theorem pcb_for_link_pcb (prtn_list : List pt_entry) (new_prtn : pt_entry)
    (h : ∀ e ∈ prtn_list, e.prtn_id ≠ new_prtn.prtn_id) :
    pcb_for (link_pcb prtn_list new_prtn) new_prtn.prtn_id = some new_prtn := by
  cases prtn_list with
  | nil => simp [link_pcb, pcb_for]
  | cons first rest =>
      have hf : first.prtn_id ≠ new_prtn.prtn_id := h first (by simp)
      have ih := pcb_for_link_after new_prtn rest (fun e he => h e (List.mem_cons_of_mem _ he))
      simp only [link_pcb, pcb_for, List.find?_cons, hf, decide_False] at ih ⊢
      exact ih

/-- What `pt_create` does with a block size other than 0, both control
blocks granted and a data area that is not null: for an odd block size or one
below 4 it returns `ERR_BUFSIZE` and the list of partitions is as before;
otherwise it returns 0, stores `length / bsize` through `nbuf` and the new id
through `ptid`, and a lookup by that id finds the new partition. -/
theorem pt_create_linked_spec (prtn_list : List pt_entry) (name : List Nat)
    (paddr length bsize flags : Nat) (mem : Nat → Nat) (hb : bsize ≠ 0) (hp : paddr ≠ 0) :
    ∃ o, pt_create_linked prtn_list name paddr length bsize flags true true mem = some o ∧
      ((bsize % 2 ≠ 0 ∨ bsize < 4) →
        o.error = ERR_BUFSIZE ∧ o.prtn_list = prtn_list ∧ o.ptid = none ∧ o.nbuf = none) ∧
      (¬ (bsize % 2 ≠ 0 ∨ bsize < 4) →
        o.error = ERR_NO_ERROR ∧ o.nbuf = some (length / bsize) ∧
        o.ptid = some (new_prtn_id prtn_list) ∧
        ((∀ e ∈ prtn_list, e.prtn_id + 1 < 4294967296) →
          ∃ e, pcb_for o.prtn_list (new_prtn_id prtn_list) = some e ∧ e.ptname = name ∧
            e.prtn_id = new_prtn_id prtn_list)) := by
  obtain ⟨r, hr, hbad, hgood⟩ := pt_create_status paddr length bsize flags mem hb hp
  by_cases hc : bsize % 2 ≠ 0 ∨ bsize < 4
  · obtain ⟨h1, h2, h3⟩ := hbad hc
    refine ⟨⟨r.error, none, none, prtn_list, r.mem⟩, ?_, fun _ => ⟨h1, rfl, rfl, rfl⟩,
      fun h => absurd hc h⟩
    simp only [pt_create_linked, hr, h2]
  · obtain ⟨h1, h2, p, h3⟩ := hgood hc
    refine ⟨⟨r.error, some (new_prtn_id prtn_list), r.nbuf,
      link_pcb prtn_list ⟨new_prtn_id prtn_list, name, p⟩, r.mem⟩, ?_,
      fun h => absurd h hc, fun _ => ⟨h1, h2, rfl, ?_⟩⟩
    · simp only [pt_create_linked, hr, h3]
    · intro hsmall
      refine ⟨_, pcb_for_link_pcb prtn_list _ ?_, rfl, rfl⟩
      intro e he
      have := new_prtn_id_fresh prtn_list hsmall e he
      simp only
      omega

/-- C11 fails for the block size 0: `pt_create` divides `length` by the block
size (memblk.c:515) before it looks at the status it has set for a bad block
size, so the call with `bsize = 0` does not return `ERR_BUFSIZE`; it does not
return at all. -/
theorem pt_create_zero_block_size (prtn_list : List pt_entry) (name : List Nat)
    (paddr length flags : Nat) (ts_malloc : Bool) (mem : Nat → Nat) :
    pt_create_linked prtn_list name paddr length 0 flags true ts_malloc mem = none := by
  simp [pt_create_linked, pt_create]

end MemBlk
namespace MemBlk

/-- C12, as stated, fails: 12 is not a power of two, and `pt_create` over 512
bytes with 12-byte blocks returns 0, links the partition with id 1 and reports
42 buffers; so does a block size of 6, with 85 buffers. The test of
`pt_create` is `(bsize % 2) || (bsize < 4)`. -/
theorem pt_create_accepts_even_block_size :
    (pt_create_linked [] [80, 82, 84, 49] 4096 512 12 0 true true (fun _ => 0)).map
        (fun o => (o.error, o.ptid, o.nbuf, o.prtn_list.map fun e => e.prtn_id))
      = some (0, some 1, some 42, [1]) ∧
    (pt_create_linked [] [80, 82, 84, 49] 4096 512 6 0 true true (fun _ => 0)).map
        (fun o => (o.error, o.ptid, o.nbuf, o.prtn_list.map fun e => e.prtn_id))
      = some (0, some 1, some 85, [1]) :=
  ⟨rfl, rfl⟩

/-- C12, amended. With both control blocks granted and a data area that is not
null, `pt_create` with a block size of at least 1 returns `ERR_BUFSIZE` (0x29)
exactly when the block size is smaller than 4 or odd, and returns 0 exactly
when it is even and at least 4; so it rejects 15, and it accepts every power
of two from 4 on as well as every other even size. -/
theorem pt_create_block_size_rule (prtn_list : List pt_entry) (name : List Nat)
    (paddr length bsize flags : Nat) (mem : Nat → Nat) (hb : 0 < bsize) (hp : 0 < paddr) :
    ∃ o, pt_create_linked prtn_list name paddr length bsize flags true true mem = some o ∧
      (o.error = ERR_BUFSIZE ↔ (bsize < 4 ∨ bsize % 2 = 1)) ∧
      (o.error = ERR_NO_ERROR ↔ (4 ≤ bsize ∧ bsize % 2 = 0)) ∧
      (∀ k, 2 ≤ k → bsize = 2 ^ k → o.error = ERR_NO_ERROR) := by
  obtain ⟨o, ho, hbad, hgood⟩ := pt_create_linked_spec prtn_list name paddr length bsize flags mem
    (by omega) (by omega)
  have hne : ERR_BUFSIZE ≠ ERR_NO_ERROR := by decide
  have hiff : o.error = ERR_NO_ERROR ↔ (4 ≤ bsize ∧ bsize % 2 = 0) := by
    constructor
    · intro h
      by_cases hc : bsize % 2 ≠ 0 ∨ bsize < 4
      · have := (hbad hc).1
        rw [h] at this
        exact absurd this.symm hne
      · omega
    · intro h
      exact (hgood (by omega)).1
  refine ⟨o, ho, ?_, hiff, ?_⟩
  · constructor
    · intro h
      by_cases hc : bsize % 2 ≠ 0 ∨ bsize < 4
      · omega
      · have := (hgood hc).1
        rw [h] at this
        exact absurd this hne
    · intro h
      exact (hbad (by omega)).1
  · intro k hk hpow
    apply hiff.mpr
    obtain ⟨j, rfl⟩ : ∃ j, k = j + 2 := ⟨k - 2, by omega⟩
    have h4 : bsize = 4 * 2 ^ j := by rw [hpow, pow_add]; ring
    have hpos : 0 < 2 ^ j := Nat.pow_pos (by decide)
    omega

theorem pt_create_block_size_rule_witness :
    ∃ o, pt_create_linked [] [80, 82, 84, 49] 4096 512 16 0 true true (fun _ => 0) = some o ∧
      (o.error = ERR_BUFSIZE ↔ (16 < 4 ∨ 16 % 2 = 1)) ∧
      (o.error = ERR_NO_ERROR ↔ (4 ≤ 16 ∧ 16 % 2 = 0)) ∧
      (∀ k, 2 ≤ k → 16 = 2 ^ k → o.error = ERR_NO_ERROR) :=
  pt_create_block_size_rule [] [80, 82, 84, 49] 4096 512 16 0 (fun _ => 0) (by decide)
    (by decide)

end MemBlk
namespace Event

/-! ### Task event flags (event.c) -/

theorem testBit_ulong_not (x i : Nat) :
    (ulong_not x).testBit i = (x.testBit i != decide (i < 32)) := by
  have h : (4294967295 : Nat) = 2 ^ 32 - 1 := by norm_num
  unfold ulong_not
  rw [h, Nat.testBit_xor, Nat.testBit_two_pow_sub_one]

theorem land_ne_zero_iff (x m : Nat) :
    x &&& m ≠ 0 ↔ ∃ i, x.testBit i = true ∧ m.testBit i = true := by
  constructor
  · intro h
    by_contra hne
    apply h
    apply Nat.eq_of_testBit_eq
    intro i
    rw [Nat.testBit_and, Nat.zero_testBit]
    cases hx : x.testBit i <;> cases hm : m.testBit i <;> simp
    exact hne ⟨i, hx, hm⟩
  · rintro ⟨i, hx, hm⟩ h
    have := congrArg (fun y => Nat.testBit y i) h
    simp [hx, hm] at this

theorem land_eq_right_iff (x m : Nat) :
    x &&& m = m ↔ ∀ i, m.testBit i = true → x.testBit i = true := by
  constructor
  · intro h i hm
    have := congrArg (fun y => Nat.testBit y i) h
    simp only [Nat.testBit_and, hm, Bool.and_true] at this
    exact this
  · intro h
    apply Nat.eq_of_testBit_eq
    intro i
    rw [Nat.testBit_and]
    cases hm : m.testBit i
    · simp
    · simp [h i hm]

/-- C13. One evaluation of `events_match_mask` on the event state (mask `m`,
pending `p`, captured `c`) leaves the mask as it is, captured
`c OR (p AND m)` and pending `p AND ((NOT m) OR c)`. Bit by bit: a wanted
event that was pending and not yet captured is captured and no longer
pending; a wanted event that was pending and already captured stays pending;
an event outside the mask stays as it was. The result is true, under the OR
rule (EV_ANY set), iff some event of the mask is captured afterwards, and
under the AND rule iff every event of the mask is. -/
theorem events_match_mask_spec (m p c rule : Nat) :
    (events_match_mask ⟨m, p, c⟩ rule).2 = ⟨m, p &&& (ulong_not m ||| c), c ||| (p &&& m)⟩ ∧
    (∀ i, i < 32 → p.testBit i = true → m.testBit i = true → c.testBit i = false →
      (events_match_mask ⟨m, p, c⟩ rule).2.events_captured.testBit i = true ∧
      (events_match_mask ⟨m, p, c⟩ rule).2.events_pending.testBit i = false) ∧
    (∀ i, i < 32 → p.testBit i = true → m.testBit i = true → c.testBit i = true →
      (events_match_mask ⟨m, p, c⟩ rule).2.events_captured.testBit i = true ∧
      (events_match_mask ⟨m, p, c⟩ rule).2.events_pending.testBit i = true) ∧
    (∀ i, i < 32 → (p.testBit i = false ∨ m.testBit i = false) →
      (events_match_mask ⟨m, p, c⟩ rule).2.events_captured.testBit i = c.testBit i ∧
      (events_match_mask ⟨m, p, c⟩ rule).2.events_pending.testBit i = p.testBit i) ∧
    (rule &&& EV_ANY ≠ 0 →
      ((events_match_mask ⟨m, p, c⟩ rule).1 = true ↔ (c ||| (p &&& m)) &&& m ≠ 0) ∧
      ((events_match_mask ⟨m, p, c⟩ rule).1 = true ↔
        ∃ i, (c ||| (p &&& m)).testBit i = true ∧ m.testBit i = true)) ∧
    (rule &&& EV_ANY = 0 →
      ((events_match_mask ⟨m, p, c⟩ rule).1 = true ↔ (c ||| (p &&& m)) &&& m = m) ∧
      ((events_match_mask ⟨m, p, c⟩ rule).1 = true ↔
        ∀ i, m.testBit i = true → (c ||| (p &&& m)).testBit i = true)) := by
  refine ⟨rfl, ?_, ?_, ?_, ?_, ?_⟩
  · intro i hi hp hm hc
    simp [events_match_mask, testBit_ulong_not, hi, hp, hm, hc]
  · intro i hi hp hm hc
    simp [events_match_mask, testBit_ulong_not, hi, hp, hm, hc]
  · intro i hi h
    rcases h with h | h
    · simp [events_match_mask, testBit_ulong_not, hi, h]
    · simp [events_match_mask, testBit_ulong_not, hi, h]
  · intro hr
    have h1 : (events_match_mask ⟨m, p, c⟩ rule).1 = true ↔ (c ||| (p &&& m)) &&& m ≠ 0 := by
      simp [events_match_mask, hr]
    exact ⟨h1, h1.trans (land_ne_zero_iff _ _)⟩
  · intro hr
    have h1 : (events_match_mask ⟨m, p, c⟩ rule).1 = true ↔ (c ||| (p &&& m)) &&& m = m := by
      simp [events_match_mask, hr]
    exact ⟨h1, h1.trans (land_eq_right_iff _ _)⟩

/-- Witness for C13: mask 7, events 1 and 2 pending with event 2 captured
before, under the AND rule and under the OR rule. -/
theorem events_match_mask_spec_witness :
    events_match_mask ⟨7, 3, 2⟩ 0 = (false, ⟨7, 2, 3⟩) ∧
    events_match_mask ⟨7, 3, 2⟩ EV_ANY = (true, ⟨7, 2, 3⟩) ∧
    (events_match_mask ⟨7, 3, 2⟩ 0).2 = ⟨7, 3 &&& (ulong_not 7 ||| 2), 2 ||| (3 &&& 7)⟩ :=
  ⟨by decide, by decide, (events_match_mask_spec 7 3 2 0).1⟩

end Event
namespace Event

theorem testBit_ulong_high (x i : Nat) (hx : x < 4294967296) (hi : 32 ≤ i) :
    x.testBit i = false := by
  apply Nat.testBit_lt_two_pow
  have h : (4294967296 : Nat) = 2 ^ 32 := by norm_num
  have h2 : 2 ^ 32 ≤ 2 ^ i := Nat.pow_le_pow_right (by decide) hi
  omega

/-- C14, as stated, fails: with mask 1, event 1 pending and event 1 already
captured, `events_match_mask` leaves event 1 pending, while pending AND (NOT
mask) is 0. -/
theorem events_match_mask_keeps_recaptured_pending :
    (events_match_mask ⟨1, 1, 1⟩ 0).2.events_pending = 1 ∧
    (events_match_mask ⟨1, 1, 1⟩ 0).2.events_pending &&& 1 ≠ 0 ∧
    1 &&& ulong_not 1 = 0 := by
  decide

/-- C14, amended. After `events_match_mask` with mask `m`, `events_pending` is
the previous pending AND ((NOT `m`) OR the previous captured). It is the
previous pending AND (NOT `m`) exactly when no event of the mask was both
pending and already captured, and then no event of the mask is still pending;
this is so whenever captured was 0. -/
theorem events_pending_after_extract (m p c rule : Nat) (hp : p < 4294967296) :
    (events_match_mask ⟨m, p, c⟩ rule).2.events_pending = p &&& (ulong_not m ||| c) ∧
    ((events_match_mask ⟨m, p, c⟩ rule).2.events_pending = p &&& ulong_not m ↔
      p &&& m &&& c = 0) ∧
    (p &&& m &&& c = 0 → (events_match_mask ⟨m, p, c⟩ rule).2.events_pending &&& m = 0) ∧
    (c = 0 → (events_match_mask ⟨m, p, c⟩ rule).2.events_pending = p &&& ulong_not m) := by
  have hiff : p &&& (ulong_not m ||| c) = p &&& ulong_not m ↔ p &&& m &&& c = 0 := by
    constructor
    · intro h
      apply Nat.eq_of_testBit_eq
      intro i
      have hi := congrArg (fun y => Nat.testBit y i) h
      simp only [Nat.testBit_and, Nat.testBit_or, testBit_ulong_not] at hi
      rw [Nat.testBit_and, Nat.testBit_and, Nat.zero_testBit]
      by_cases h32 : i < 32
      · simp only [h32, decide_True] at hi
        cases hpi : p.testBit i <;> cases hmi : m.testBit i <;> cases hci : c.testBit i <;>
          simp_all
      · rw [testBit_ulong_high p i hp (by omega)]
        simp
    · intro h
      apply Nat.eq_of_testBit_eq
      intro i
      have hi := congrArg (fun y => Nat.testBit y i) h
      simp only [Nat.testBit_and, Nat.zero_testBit] at hi
      simp only [Nat.testBit_and, Nat.testBit_or, testBit_ulong_not]
      by_cases h32 : i < 32
      · simp only [h32, decide_True]
        cases hpi : p.testBit i <;> cases hmi : m.testBit i <;> cases hci : c.testBit i <;>
          simp_all
      · rw [testBit_ulong_high p i hp (by omega)]
        simp
  have hclear : p &&& m &&& c = 0 → (p &&& (ulong_not m ||| c)) &&& m = 0 := by
    intro h
    rw [hiff.mpr h]
    apply Nat.eq_of_testBit_eq
    intro i
    simp only [Nat.testBit_and, testBit_ulong_not, Nat.zero_testBit]
    by_cases h32 : i < 32
    · simp only [h32, decide_True]
      cases hpi : p.testBit i <;> cases hmi : m.testBit i <;> simp
    · rw [testBit_ulong_high p i hp (by omega)]
      simp
  refine ⟨rfl, hiff, hclear, ?_⟩
  intro hc
  apply hiff.mpr
  rw [hc]
  simp

theorem events_pending_after_extract_witness :
    (events_match_mask ⟨6, 7, 0⟩ 0).2.events_pending = 7 &&& (ulong_not 6 ||| 0) ∧
    ((events_match_mask ⟨6, 7, 0⟩ 0).2.events_pending = 7 &&& ulong_not 6 ↔ 7 &&& 6 &&& 0 = 0) ∧
    (7 &&& 6 &&& 0 = 0 → (events_match_mask ⟨6, 7, 0⟩ 0).2.events_pending &&& 6 = 0) ∧
    ((0 : Nat) = 0 → (events_match_mask ⟨6, 7, 0⟩ 0).2.events_pending = 7 &&& ulong_not 6) :=
  events_pending_after_extract 6 7 0 0 (by decide)

end Event
namespace Event

theorem captured_in_call_snoc (evals : List p2pthread_cb_t) (tcb : p2pthread_cb_t) :
    captured_in_call (evals ++ [tcb]) =
      captured_in_call evals ||| (tcb.events_pending &&& tcb.event_mask) := by
  simp [captured_in_call, List.foldl_append]

theorem foldl_ev_send_fields (sent : List Nat) :
    ∀ (tcb : p2pthread_cb_t),
      (sent.foldl ev_send tcb).event_mask = tcb.event_mask ∧
      (sent.foldl ev_send tcb).events_captured = tcb.events_captured := by
  induction sent with
  | nil => intro tcb; exact ⟨rfl, rfl⟩
  | cons x xs ih =>
      intro tcb
      simp only [List.foldl_cons]
      have h := ih (ev_send tcb x)
      have h1 : (ev_send tcb x).event_mask = tcb.event_mask := by
        unfold ev_send; split <;> rfl
      have h2 : (ev_send tcb x).events_captured = tcb.events_captured := by
        unfold ev_send; split <;> rfl
      rw [h.1, h.2, h1, h2]
      exact ⟨rfl, rfl⟩

/-- The loops of `ev_receive`: `events_captured` at the end is what it was at
the start of the call together with what the evaluations of the call have
captured, and a loop left with a `retcode` other than `ETIMEDOUT` was left on
a match. -/
theorem ev_wait_loop_spec (timed : Bool) (opt c0 mask : Nat) :
    ∀ (wakeups : List ev_wakeup) (tcb : p2pthread_cb_t) (retcode : Nat)
      (evals : List p2pthread_cb_t) (e : ev_loop_end),
      tcb.event_mask = mask → tcb.events_captured = c0 ||| captured_in_call evals →
      ev_wait_loop timed opt wakeups tcb retcode evals = some e →
      e.tcb.events_captured = c0 ||| captured_in_call e.evals ∧
      (e.retcode ≠ ETIMEDOUT → opt &&& EV_ANY = 0 → e.tcb.events_captured &&& mask = mask) := by
  have hexit : ∀ (tcb : p2pthread_cb_t) (retcode : Nat) (evals : List p2pthread_cb_t),
      tcb.event_mask = mask → tcb.events_captured = c0 ||| captured_in_call evals →
      ((events_match_mask tcb opt).1 = true ∨ (timed = true ∧ retcode = ETIMEDOUT)) →
      (events_match_mask tcb opt).2.events_captured =
          c0 ||| captured_in_call (evals ++ [tcb]) ∧
      (retcode ≠ ETIMEDOUT → opt &&& EV_ANY = 0 →
        (events_match_mask tcb opt).2.events_captured &&& mask = mask) := by
    intro tcb retcode evals hm hc hcond
    refine ⟨?_, ?_⟩
    · rw [captured_in_call_snoc, ← Nat.lor_assoc, ← hc]
      rfl
    · intro hrc hall
      rcases hcond with hmatch | ⟨_, hto⟩
      · simp only [events_match_mask, hall, ne_eq, not_true_eq_false, if_false,
          decide_eq_true_eq] at hmatch
        rw [hm] at hmatch
        simp only [events_match_mask]
        rw [hm]
        exact hmatch
      · exact absurd hto hrc
  intro wakeups
  induction wakeups with
  | nil =>
      intro tcb retcode evals e hm hc hrun
      simp only [ev_wait_loop] at hrun
      split at hrun
      · rename_i hcond
        simp only [Option.some.injEq] at hrun
        subst hrun
        exact hexit tcb retcode evals hm hc hcond
      · cases hrun
  | cons w ws ih =>
      intro tcb retcode evals e hm hc hrun
      simp only [ev_wait_loop] at hrun
      split at hrun
      · rename_i hcond
        simp only [Option.some.injEq] at hrun
        subst hrun
        exact hexit tcb retcode evals hm hc hcond
      · have hf := foldl_ev_send_fields w.sent (events_match_mask tcb opt).2
        refine ih _ _ _ e ?_ ?_ hrun
        · rw [hf.1]
          exact hm
        · rw [hf.2, captured_in_call_snoc, ← Nat.lor_assoc, ← hc]
          rfl

/-- C15, as stated, fails. Event 1 is pending; an `ev_receive` of the events
1 and 2 under the AND rule with EV_NOWAIT captures event 1 and returns
`ERR_NOEVS`, leaving event 1 in `events_captured`. A following `ev_receive`
of event 1 under the AND rule returns success at its first evaluation, which
moves nothing from pending to captured. -/
theorem ev_receive_counts_earlier_capture :
    ev_receive ⟨0, 1, 0⟩ 3 EV_NOWAIT 0 [⟨[], ETIMEDOUT⟩] =
      some ⟨ERR_NOEVS, 1, ⟨3, 0, 1⟩, [⟨3, 1, 0⟩, ⟨3, 0, 1⟩]⟩ ∧
    ev_receive ⟨3, 0, 1⟩ 1 0 0 [] = some ⟨ERR_NO_ERROR, 1, ⟨1, 0, 0⟩, [⟨1, 0, 1⟩]⟩ ∧
    captured_in_call [⟨1, 0, 1⟩] = 0 := by
  decide

/-- C15, amended. An `ev_receive` with the AND rule (EV_ANY clear) and mask
`m` returns success only if every event of `m` was in `events_captured` when
the call began or has been moved from pending to captured by an evaluation
made during the call; the value stored through `captured` is made of exactly
these events. When no event of `m` was in `events_captured` at the start, as
it is after every `ev_receive` that returned success, every event of `m` has
been captured during the call. -/
theorem ev_receive_all_captured (tcb : p2pthread_cb_t) (mask opt max_wait : Nat)
    (wakeups : List ev_wakeup) (r : ev_receive_result)
    (hall : opt &&& EV_ANY = 0)
    (hret : ev_receive tcb mask opt max_wait wakeups = some r)
    (hok : r.error = ERR_NO_ERROR) :
    (tcb.events_captured ||| captured_in_call r.evals) &&& mask = mask ∧
    r.captured = tcb.events_captured ||| captured_in_call r.evals ∧
    r.tcb.events_captured = 0 ∧
    (tcb.events_captured &&& mask = 0 → captured_in_call r.evals &&& mask = mask) := by
  unfold ev_receive at hret
  cases hloop : ev_wait_loop (decide (opt &&& EV_NOWAIT ≠ 0) || decide (max_wait ≠ 0)) opt wakeups
      { tcb with event_mask := mask } 0 [] with
  | none =>
      rw [hloop] at hret
      cases hret
  | some e =>
      have hspec := ev_wait_loop_spec _ opt tcb.events_captured mask wakeups
        { tcb with event_mask := mask } 0 [] e rfl (by simp [captured_in_call]) hloop
      simp only [hloop] at hret
      by_cases hto : e.retcode = ETIMEDOUT
      · simp only [hto, if_true, Option.some.injEq] at hret
        rw [← hret] at hok
        simp only at hok
        split at hok <;> exact absurd hok (by decide)
      · simp only [hto, if_false, Option.some.injEq] at hret
        have hcap := hspec.1
        have hall' := hspec.2 hto hall
        rw [hcap] at hall'
        rw [← hret]
        refine ⟨hall', hcap, rfl, ?_⟩
        intro hzero
        apply (land_eq_right_iff _ _).mpr
        intro i hmi
        have h1 := (land_eq_right_iff _ _).mp hall' i hmi
        have h2 := congrArg (fun y => Nat.testBit y i) hzero
        simp only [Nat.testBit_and, hmi, Bool.and_true, Nat.zero_testBit] at h2
        simp only [Nat.testBit_or, h2, Bool.false_or] at h1
        exact h1

/-- Witness for C15: a task without events waits for the events 1 and 2 under
the AND rule; event 1 is sent during its first wait and event 2 during its
second. -/
theorem ev_receive_all_captured_witness :
    ev_receive ⟨0, 0, 0⟩ 3 0 0 [⟨[1], 0⟩, ⟨[2], 0⟩] =
      some ⟨ERR_NO_ERROR, 3, ⟨3, 0, 0⟩, [⟨3, 0, 0⟩, ⟨3, 1, 0⟩, ⟨3, 2, 1⟩]⟩ ∧
    (0 ||| captured_in_call [⟨3, 0, 0⟩, ⟨3, 1, 0⟩, ⟨3, 2, 1⟩]) &&& 3 = 3 ∧
    captured_in_call [⟨3, 0, 0⟩, ⟨3, 1, 0⟩, ⟨3, 2, 1⟩] &&& 3 = 3 :=
  ⟨by decide,
    (ev_receive_all_captured ⟨0, 0, 0⟩ 3 0 0 [⟨[1], 0⟩, ⟨[2], 0⟩]
      ⟨ERR_NO_ERROR, 3, ⟨3, 0, 0⟩, [⟨3, 0, 0⟩, ⟨3, 1, 0⟩, ⟨3, 2, 1⟩]⟩
      (by decide) (by decide) rfl).1,
    by decide⟩

end Event
namespace Queue
open Task

/-! ### Queues of capacity 0 (queue.c, vqueue.c) -/

/-- C16 fails for the fixed-message queue of capacity 0 created without
Q_LIMIT. With no task pending, `q_send` does not return `ERR_QFULL`: it asks
`new_extent_for` for an extent of `msgs_per_extent - 1 = -1` messages and,
when the allocator grants it, stores the message in the new extent and then
finds no extent that holds `queue_tail`, so that it goes through a null
`cur_extent` (no result); it returns `ERR_QFULL` only when the allocator
refuses. The same happens with a task pending, where the claim has success.
The queue with Q_LIMIT and the variable-length queue do as the claim says:
`ERR_QFULL` and no change with no task pending, success with task 8 pending,
whose fetch then returns the message. -/
theorem q_send_zero_size_queue_without_limit :
    ((zero_size_queue 0).map fun q => (q.msgs_per_extent, q.msg_count, extent_qsize q))
      = some (0, 0, 4294967295) ∧
    ((zero_size_queue 0).map fun q => (q_send q (1, 0, 0, 0) (some 8192)).map fun r => r.1)
      = some none ∧
    ((zero_size_queue 0).map fun q =>
        (q_send (with_task_8 q) (1, 0, 0, 0) (some 8192)).map fun r => r.1)
      = some none ∧
    ((zero_size_queue 0).map fun q => (q_send q (1, 0, 0, 0) none).map fun r =>
        (r.1, r.2.msg_count))
      = some (some (ERR_QFULL, 0)) ∧
    ((zero_size_queue Q_LIMIT).map fun q => (q_send q (1, 0, 0, 0) (some 8192)).map fun r =>
        (r.1, r.2.msg_count, r.2.queue_head, r.2.queue_tail))
      = some (some (ERR_QFULL, 0, 4096, 4096)) ∧
    ((zero_size_queue Q_LIMIT).map fun q =>
        (q_send (with_task_8 q) (1, 0, 0, 0) (some 8192)).map fun r =>
          (r.1, r.2.msg_count, (q_receive_fetch r.2 8).map fun f => (f.1, f.2.1, f.2.2.msg_count)))
      = some (some (ERR_NO_ERROR, 1, some (ERR_NO_ERROR, (1, 0, 0, 0), 0))) ∧
    (VQueue.zero_size_vqueue.map fun q =>
        ((VQueue.q_vsend q [1, 2, 3] 3).1, (VQueue.q_vsend q [1, 2, 3] 3).2.msg_count))
      = some (VQueue.ERR_QFULL, 0) ∧
    (VQueue.zero_size_vqueue.map fun q =>
        ((VQueue.q_vsend { q with first_susp := [⟨8, 20⟩] } [1, 2, 3] 3).1,
          (VQueue.q_vreceive_fetch
            (VQueue.q_vsend { q with first_susp := [⟨8, 20⟩] } [1, 2, 3] 3).2 8).2.1.take 3))
      = some (VQueue.ERR_NO_ERROR, [1, 2, 3]) :=
  ⟨rfl, rfl, rfl, rfl, rfl, rfl, rfl, rfl⟩

end Queue
namespace Queue
open Task

/-! ### `q_delete` and the queue list (queue.c) -/

theorem qcb_for_eq_none_iff (l : List q_entry) (qid : Nat) :
    qcb_for l qid = none ↔ qid ∉ l.map q_entry.qid := by
  simp only [qcb_for, List.find?_eq_none, decide_eq_true_eq, List.mem_map, not_exists, not_and]

theorem qcb_for_qid (l : List q_entry) (qid : Nat) (e : q_entry) (h : qcb_for l qid = some e) :
    e.qid = qid := by
  have := List.find?_some h
  simpa using this

theorem unlink_qcb_eq (l : List q_entry) (qid : Nat) : unlink_qcb l qid = unlink_qcb_after qid l := by
  cases l <;> rfl

theorem unlink_qcb_after_ids (qid : Nat) :
    ∀ l : List q_entry, (unlink_qcb_after qid l).map q_entry.qid = (l.map q_entry.qid).erase qid
  | [] => rfl
  | x :: l => by
      by_cases h : x.qid = qid
      · simp [unlink_qcb_after, h]
      · simp [unlink_qcb_after, h, List.erase_cons_tail, unlink_qcb_after_ids qid l]

theorem unlink_qcb_after_other (qid id : Nat) (hne : id ≠ qid) :
    ∀ l : List q_entry, qcb_for (unlink_qcb_after qid l) id = qcb_for l id
  | [] => rfl
  | x :: l => by
      by_cases h : x.qid = qid
      · have hx : ¬ x.qid = id := fun e => hne (e.symm.trans h)
        simp [unlink_qcb_after, h, qcb_for, List.find?_cons, hx, hne.symm]
      · have ih := unlink_qcb_after_other qid id hne l
        simp only [qcb_for] at ih
        by_cases hx : x.qid = id
        · subst hx
          simp [unlink_qcb_after, h, qcb_for, List.find?_cons]
        · simp [unlink_qcb_after, h, qcb_for, List.find?_cons, hx, ih]

theorem store_qcb_ids (queue : p2pt_queue_t) (qid : Nat) :
    ∀ l : List q_entry, (store_qcb queue qid l).map q_entry.qid = l.map q_entry.qid
  | [] => rfl
  | x :: l => by
      by_cases h : x.qid = qid
      · simp [store_qcb, h]
      · simp [store_qcb, h, store_qcb_ids queue qid l]

theorem link_qcb_after_ids (new_queue : q_entry) (x : Nat) :
    ∀ l : List q_entry, x ∈ (link_qcb_after new_queue l).map q_entry.qid ↔
      (x = new_queue.qid ∨ x ∈ l.map q_entry.qid)
  | [] => by simp [link_qcb_after]
  | y :: l => by
      by_cases h : y.qid > new_queue.qid
      · simp [link_qcb_after, h]
      · simp only [link_qcb_after, h, if_false, List.map_cons, List.mem_cons,
          link_qcb_after_ids new_queue x l]
        tauto

theorem link_qcb_ids (l : List q_entry) (new_queue : q_entry) (x : Nat) :
    x ∈ (link_qcb l new_queue).map q_entry.qid ↔ (x = new_queue.qid ∨ x ∈ l.map q_entry.qid) := by
  cases l with
  | nil => simp [link_qcb]
  | cons y l =>
      simp only [link_qcb, List.map_cons, List.mem_cons, link_qcb_after_ids new_queue x l]
      tauto

theorem fetch_killed_keep (q : p2pt_queue_t) (hst : q.send_type = KILLD)
    (hsusp : q.first_susp ≠ []) :
    fetch_msg_from q = some (q.mem q.queue_head, q) := by
  have hns : ¬ (q.send_type = SEND ∨ q.first_susp = []) := by
    rw [hst]
    intro h
    rcases h with h | h
    · exact absurd h (by decide)
    · exact hsusp h
  have hbc : (q.send_type = BCAST) = False := eq_false (by rw [hst]; decide)
  have hns' : (q.send_type = SEND ∨ q.first_susp = []) = False := eq_false hns
  unfold fetch_msg_from
  simp only [hbc, if_false, hns']

theorem fetch_killed_last (q : p2pt_queue_t) (nxt : Int)
    (hst : q.send_type = KILLD) (hsusp : q.first_susp = [])
    (hnext : step_forward q q.queue_head = some nxt) :
    fetch_msg_from q = some (q.mem q.queue_head, { q with
      mem := Function.update q.mem q.queue_head null_msg
      queue_head := nxt
      msg_count := q.msg_count - 1
      send_type := SEND }) := by
  have hs : q.send_type = SEND ∨ q.first_susp = [] := Or.inr hsusp
  have hstep : step_forward
      { q with mem := Function.update q.mem q.queue_head null_msg } q.queue_head = some nxt :=
    (step_forward_congr q _ rfl rfl _).trans hnext
  have hne : KILLD ≠ SEND := by decide
  have hbc : (q.send_type = BCAST) = False := eq_false (by rw [hst]; decide)
  have hs' : (q.send_type = SEND ∨ q.first_susp = []) = True := eq_true hs
  unfold fetch_msg_from
  simp only [hbc, if_false, if_true, hs', hstep]
  simp [hst, hne]

theorem waiting_on_queue_killed (q : p2pt_queue_t) (t : Nat) (hst : q.send_type = KILLD) :
    waiting_on_queue q t = false := by
  have hk : q.send_type &&& KILLD ≠ 0 := by rw [hst]; decide
  simp [waiting_on_queue, hk]

theorem killed_step_keep (qk : p2pt_queue_t) (hst : qk.send_type = KILLD)
    (hfront : qk.mem qk.queue_head = deleted_msg)
    (pre post : List p2pthread_cb_t) (r : p2pthread_cb_t) (ts : List Nat)
    (hd : ((pre ++ r :: post).map p2pthread_cb_t.addr).Nodup) (hne : pre ++ post ≠ []) :
    receivers_run { qk with first_susp := pre ++ r :: post } (r.addr :: ts) =
      (receivers_run { qk with first_susp := pre ++ post } ts).map fun rs =>
        ((ERR_QKILLD, deleted_msg) :: rs.1, rs.2) := by
  obtain ⟨hpre, hpost, _⟩ := nodup_addr_middle pre post r hd
  have hun := unlink_susp_tcb_middle pre post r hpre hpost
  have hw := waiting_on_queue_killed { qk with first_susp := pre ++ r :: post } r.addr hst
  have hf := fetch_killed_keep { qk with first_susp := pre ++ post } hst hne
  have hk : qk.send_type &&& KILLD ≠ 0 := by rw [hst]; decide
  simp only [receivers_run, hw, Bool.false_eq_true, if_false, q_receive_fetch, hun, hf,
    Option.map_some', hk, ne_eq, not_false_eq_true, if_true, hfront]

theorem killed_step_last (qk : p2pt_queue_t) (nxt : Int) (hst : qk.send_type = KILLD)
    (hfront : qk.mem qk.queue_head = deleted_msg)
    (hnext : step_forward qk qk.queue_head = some nxt) (r : p2pthread_cb_t) :
    receivers_run { qk with first_susp := [r] } [r.addr] =
      some ([(ERR_QKILLD, deleted_msg)], { qk with
        first_susp := []
        mem := Function.update qk.mem qk.queue_head null_msg
        queue_head := nxt
        msg_count := qk.msg_count - 1
        send_type := SEND }) := by
  have hun : unlink_susp_tcb [r] r.addr = [] := by simp [unlink_susp_tcb]
  have hw := waiting_on_queue_killed { qk with first_susp := [r] } r.addr hst
  have hf := fetch_killed_last { qk with first_susp := [] } nxt hst rfl
    ((step_forward_congr qk _ rfl rfl _).trans hnext)
  have hk : qk.send_type &&& KILLD ≠ 0 := by rw [hst]; decide
  simp only [receivers_run, hw, Bool.false_eq_true, if_false, q_receive_fetch, hun, hf,
    Option.map_some', hk, ne_eq, not_false_eq_true, if_true, hfront]

/-- The pending tasks of a queue that is being deleted leave in any order,
each with `ERR_QKILLD`; the fetch of the last one takes the deletion message
out and sets the send type back to SEND. -/
theorem killed_drain (qk : p2pt_queue_t) (nxt : Int) (hst : qk.send_type = KILLD)
    (hfront : qk.mem qk.queue_head = deleted_msg)
    (hnext : step_forward qk qk.queue_head = some nxt) :
    ∀ (order : List Nat) (rem : List p2pthread_cb_t),
      (rem.map p2pthread_cb_t.addr).Nodup → order.Perm (rem.map p2pthread_cb_t.addr) →
      rem ≠ [] →
      receivers_run { qk with first_susp := rem } order =
        some (order.map (fun _ => (ERR_QKILLD, deleted_msg)), { qk with
          first_susp := []
          mem := Function.update qk.mem qk.queue_head null_msg
          queue_head := nxt
          msg_count := qk.msg_count - 1
          send_type := SEND })
  | [], rem, _, hperm, hne => by
      have : rem.map p2pthread_cb_t.addr = [] := List.Perm.eq_nil hperm.symm
      exact absurd (List.map_eq_nil_iff.mp this) hne
  | t :: ts, rem, hd, hperm, _ => by
      have ht : t ∈ rem.map p2pthread_cb_t.addr := hperm.subset (by simp)
      obtain ⟨r, hr, hrt⟩ := List.mem_map.mp ht
      obtain ⟨pre, post, hsplit⟩ := List.append_of_mem hr
      subst hsplit
      subst hrt
      obtain ⟨_, _, hnd⟩ := nodup_addr_middle pre post r hd
      have hmid : ((pre ++ r :: post).map p2pthread_cb_t.addr).Perm
          (r.addr :: (pre ++ post).map p2pthread_cb_t.addr) :=
        (@List.perm_middle _ r pre post).map p2pthread_cb_t.addr
      have hperm' : ts.Perm ((pre ++ post).map p2pthread_cb_t.addr) :=
        (hperm.trans hmid).cons_inv
      by_cases hne : pre ++ post = []
      · have hts : ts = [] := by
          rw [hne] at hperm'
          exact List.Perm.eq_nil hperm'
        have hpre : pre = [] := (List.append_eq_nil.mp hne).1
        have hpost : post = [] := (List.append_eq_nil.mp hne).2
        subst hts; subst hpre; subst hpost
        exact killed_step_last qk nxt hst hfront hnext r
      · rw [killed_step_keep qk hst hfront pre post r ts hd hne,
          killed_drain qk nxt hst hfront hnext ts (pre ++ post) hnd hperm' hne]
        rfl

/-- While the list has no queue of the id, `q_send`, `q_receive` and
`q_delete` with the id return `ERR_OBJDEL` and change nothing, the calls with
any id leave the id out of the list, and so does a `q_create` that is given
another id. -/
theorem absent_qid_stays (l : List q_entry) (qid : Nat) (h : qcb_for l qid = none) :
    (∀ msg a, q_send_id l qid msg a = some (ERR_OBJDEL, l)) ∧
    (∀ t, q_receive_id l qid t = some (ERR_OBJDEL, none, l)) ∧
    (∀ o, q_delete l qid o = some ⟨ERR_OBJDEL, [], l⟩) ∧
    (∀ id msg a s l', q_send_id l id msg a = some (s, l') → qcb_for l' qid = none) ∧
    (∀ id t s m l', q_receive_id l id t = some (s, m, l') → qcb_for l' qid = none) ∧
    (∀ id o r, q_delete l id o = some r → qcb_for r.queue_list qid = none) ∧
    (∀ name qsize opt qcb a mem,
      (q_create_linked l name qsize opt qcb a mem).2.1 ≠ some qid →
      qcb_for (q_create_linked l name qsize opt qcb a mem).2.2 qid = none) := by
  have hn := (qcb_for_eq_none_iff l qid).mp h
  have hstore : ∀ q id, qcb_for (store_qcb q id l) qid = none := by
    intro q id
    rw [qcb_for_eq_none_iff, store_qcb_ids]
    exact hn
  have hunlink : ∀ id, qcb_for (unlink_qcb l id) qid = none := by
    intro id
    rw [qcb_for_eq_none_iff, unlink_qcb_eq, unlink_qcb_after_ids]
    exact fun hin => hn (List.mem_of_mem_erase hin)
  refine ⟨fun _ _ => by simp [q_send_id, h], fun _ => by simp [q_receive_id, h],
    fun _ => by simp [q_delete, h], ?_, ?_, ?_, ?_⟩
  · intro id msg a s l' hs
    unfold q_send_id at hs
    cases hf : qcb_for l id with
    | none =>
        simp only [hf, Option.some.injEq, Prod.mk.injEq] at hs
        rw [← hs.2]; exact h
    | some e =>
        simp only [hf] at hs
        cases hq : q_send e.queue msg a with
        | none => simp [hq] at hs
        | some r =>
            simp only [hq, Option.map_some', Option.some.injEq, Prod.mk.injEq] at hs
            rw [← hs.2]; exact hstore _ _
  · intro id t s m l' hs
    unfold q_receive_id at hs
    cases hf : qcb_for l id with
    | none =>
        simp only [hf, Option.some.injEq, Prod.mk.injEq] at hs
        rw [← hs.2.2]; exact h
    | some e =>
        simp only [hf] at hs
        cases hq : q_receive_nowait e.queue t with
        | none => simp [hq] at hs
        | some r =>
            simp only [hq, Option.map_some', Option.some.injEq, Prod.mk.injEq] at hs
            rw [← hs.2.2]; exact hstore _ _
  · intro id o r hr
    unfold q_delete at hr
    cases hf : qcb_for l id with
    | none =>
        simp only [hf, Option.some.injEq] at hr
        rw [← hr]; exact h
    | some e =>
        simp only [hf] at hr
        cases hm : q_delete_mark e.queue with
        | none => simp [hm] at hr
        | some p =>
            obtain ⟨error, queue⟩ := p
            simp only [hm] at hr
            by_cases hw : queue.first_susp ≠ []
            · simp only [hw, ne_eq, not_false_eq_true, if_true] at hr
              cases hrun : receivers_run queue o with
              | none => simp [hrun] at hr
              | some p2 =>
                  obtain ⟨rs, q2⟩ := p2
                  simp only [hrun] at hr
                  by_cases hw2 : q2.first_susp ≠ []
                  · simp [hw2] at hr
                  · simp only [hw2, if_false, Option.some.injEq] at hr
                    rw [← hr]; exact hunlink _
            · simp only [hw, if_false, Option.some.injEq] at hr
              rw [← hr]; exact hunlink _
  · intro name qsize opt qcb a mem hid
    unfold q_create_linked at hid ⊢
    cases hc : q_create qsize opt qcb a mem with
    | mk error oq =>
        cases oq with
        | none => simpa [hc] using h
        | some queue =>
            simp only [hc, ne_eq, Option.some.injEq] at hid ⊢
            rw [qcb_for_eq_none_iff, link_qcb_ids]
            rintro (e | e)
            · exact hid e.symm
            · exact hn e

/-- C17 fails in its "every later call": the id of a deleted queue is given
out again. On the list of the queues 1 and 2, `q_delete(2)` returns 0 and
leaves queue 1 alone, and `q_send` with id 2 then returns `ERR_OBJDEL`; the
next `q_create` is given the id 2 again (the greatest id in the list plus
one), and `q_send` with id 2 after it returns 0 and queues the message. -/
theorem q_delete_id_is_assigned_again :
    ((q_delete two_queues 2 []).map fun r => (r.error, r.waiters, list_view r.queue_list))
      = some (ERR_NO_ERROR, [], [(1, 0, SEND, [])]) ∧
    ((q_delete two_queues 2 []).bind fun r =>
        (q_send_id r.queue_list 2 (1, 0, 0, 0) none).map fun s => (s.1, list_view s.2))
      = some (ERR_OBJDEL, [(1, 0, SEND, [])]) ∧
    ((q_delete two_queues 2 []).map fun r =>
        ((q_create_linked r.queue_list [81, 85, 69, 51] 4 Q_LIMIT (some []) (some 12288)
            (fun _ => null_msg)).1,
          (q_create_linked r.queue_list [81, 85, 69, 51] 4 Q_LIMIT (some []) (some 12288)
            (fun _ => null_msg)).2.1,
          (q_send_id (q_create_linked r.queue_list [81, 85, 69, 51] 4 Q_LIMIT (some [])
            (some 12288) (fun _ => null_msg)).2.2 2 (1, 0, 0, 0) none).map fun s =>
              (s.1, list_view s.2)))
      = some (ERR_NO_ERROR, some 2, some (ERR_NO_ERROR, [(1, 0, SEND, []), (2, 1, SEND, [])])) := by
  exact ⟨rfl, rfl, rfl⟩

/-- C17, with the id free for a later `q_create`. For a queue list with
distinct ids and a queue `qid` in it whose extents are laid out as `Extents`
says and whose pending tasks are distinct, `q_delete` returns, with status
`ERR_TATQDEL` if a task is pending, otherwise `ERR_MATQDEL` if `msg_count` is
not 0, otherwise 0; every task that was pending returns `ERR_QKILLD` with the
deletion message, whatever the order in which the tasks leave; the queue is
unlinked and the other queues stay in the list; and on every list that has
no queue of the id (the list after the call is one, and it stays one under
`q_send`, `q_receive` and `q_delete` with any id and under a `q_create` that
is given another id) `q_send`, `q_receive` and `q_delete` with the id return
`ERR_OBJDEL` and change nothing. -/
theorem q_delete_removes_queue (queue_list : List q_entry) (qid : Nat) (e : q_entry)
    (e0 : Int) (rest : List Int) (n : Nat) (order : List Nat)
    (hids : (queue_list.map q_entry.qid).Nodup)
    (hfind : qcb_for queue_list qid = some e)
    (hE : Extents e.queue e0 rest n)
    (hhead : e.queue.queue_head ∈ queue_slots e0 rest n)
    (hd : (e.queue.first_susp.map p2pthread_cb_t.addr).Nodup)
    (horder : order.Perm (e.queue.first_susp.map p2pthread_cb_t.addr)) :
    ∃ r, q_delete queue_list qid order = some r ∧
      r.error = (if e.queue.first_susp ≠ [] then ERR_TATQDEL
        else if e.queue.msg_count ≠ 0 then ERR_MATQDEL else ERR_NO_ERROR) ∧
      r.waiters = order.map (fun _ => (ERR_QKILLD, deleted_msg)) ∧
      r.waiters.length = e.queue.first_susp.length ∧
      r.queue_list = unlink_qcb queue_list qid ∧
      qcb_for r.queue_list qid = none ∧
      (∀ id, id ≠ qid → qcb_for r.queue_list id = qcb_for queue_list id) ∧
      (∀ l, qcb_for l qid = none →
        (∀ msg a, q_send_id l qid msg a = some (ERR_OBJDEL, l)) ∧
        (∀ t, q_receive_id l qid t = some (ERR_OBJDEL, none, l)) ∧
        (∀ o, q_delete l qid o = some ⟨ERR_OBJDEL, [], l⟩) ∧
        (∀ id msg a s l', q_send_id l id msg a = some (s, l') → qcb_for l' qid = none) ∧
        (∀ id t s m l', q_receive_id l id t = some (s, m, l') → qcb_for l' qid = none) ∧
        (∀ id o r', q_delete l id o = some r' → qcb_for r'.queue_list qid = none) ∧
        (∀ name qsize opt qcb a mem,
          (q_create_linked l name qsize opt qcb a mem).2.1 ≠ some qid →
          qcb_for (q_create_linked l name qsize opt qcb a mem).2.2 qid = none)) := by
  have hq : e.qid = qid := qcb_for_qid queue_list qid e hfind
  have hgone : qcb_for (unlink_qcb queue_list qid) qid = none := by
    rw [qcb_for_eq_none_iff, unlink_qcb_eq, unlink_qcb_after_ids]
    intro hin
    exact ((List.Nodup.mem_erase_iff hids).mp hin).1 rfl
  have hother : ∀ id, id ≠ qid →
      qcb_for (unlink_qcb queue_list qid) id = qcb_for queue_list id := by
    intro id hne
    rw [unlink_qcb_eq]
    exact unlink_qcb_after_other qid id hne queue_list
  have hlen : order.length = e.queue.first_susp.length := by
    simpa using horder.length_eq
  by_cases hw : e.queue.first_susp = []
  · have horder0 : order = [] := by
      rw [hw] at horder
      exact List.Perm.eq_nil horder
    have hres : q_delete queue_list qid order =
        some ⟨if e.queue.msg_count ≠ 0 then ERR_MATQDEL else ERR_NO_ERROR, [],
          unlink_qcb queue_list qid⟩ := by
      simp [q_delete, hfind, q_delete_mark, hw, hq]
    refine ⟨_, hres, ?_, ?_, ?_, rfl, hgone, hother,
      fun l h => absent_qid_stays l qid h⟩
    · simp [hw]
    · simp [horder0]
    · simp [hw]
  · obtain ⟨tl, hchain, _, _⟩ := ring_from hE e.queue.queue_head hhead
    have hne' : e.queue.queue_head :: tl ≠ [] := List.cons_ne_nil _ _
    have hlast : (e.queue.queue_head :: tl).getLast? =
        some ((e.queue.queue_head :: tl).getLast hne') := List.getLast?_eq_getLast _ hne'
    have hlink : slot_link e.queue ((e.queue.queue_head :: tl).getLast hne')
        e.queue.queue_head := (List.chain'_append.mp hchain).2.2 _ hlast _ rfl
    have hu := urgent_msg_to_head e.queue deleted_msg _ hlink.2
    have hmark : q_delete_mark e.queue = some (ERR_TATQDEL, { e.queue with
        queue_head := (e.queue.queue_head :: tl).getLast hne'
        mem := Function.update e.queue.mem ((e.queue.queue_head :: tl).getLast hne')
          deleted_msg
        msg_count := e.queue.msg_count + 1
        send_type := KILLD }) := by
      simp only [q_delete_mark, hw, ne_eq, not_false_eq_true, if_true, hu, Option.map_some']
    have hrun := killed_drain { e.queue with
        queue_head := (e.queue.queue_head :: tl).getLast hne'
        mem := Function.update e.queue.mem ((e.queue.queue_head :: tl).getLast hne')
          deleted_msg
        msg_count := e.queue.msg_count + 1
        send_type := KILLD } e.queue.queue_head rfl (by simp)
      ((step_forward_congr e.queue _ rfl rfl _).trans hlink.1) order e.queue.first_susp
      hd horder hw
    have hres : q_delete queue_list qid order =
        some ⟨ERR_TATQDEL, order.map (fun _ => (ERR_QKILLD, deleted_msg)),
          unlink_qcb queue_list qid⟩ := by
      unfold q_delete
      simp only [hfind, hmark, hw, ne_eq, not_false_eq_true, if_true]
      rw [hrun]
      simp [hq]
    refine ⟨_, hres, ?_, rfl, ?_, rfl, hgone, hother,
      fun l h => absent_qid_stays l qid h⟩
    · simp [hw]
    · simp [hlen]

/-- Witness for C17: on the list of the queues 1 and 2, the tasks 5 and 8
pending on queue 1, `q_delete(1)` returns `ERR_TATQDEL`, both tasks return
`ERR_QKILLD`, queue 2 with its message stays, and `q_send`, `q_receive` and
`q_delete` with id 1 then return `ERR_OBJDEL`. -/
theorem q_delete_removes_queue_witness :
    ∃ r, q_delete busy_queues 1 [8, 5] = some r ∧
      r.error = ERR_TATQDEL ∧
      r.waiters = [(ERR_QKILLD, deleted_msg), (ERR_QKILLD, deleted_msg)] ∧
      qcb_for r.queue_list 1 = none ∧
      (qcb_for r.queue_list 2).map (fun e => e.queue.msg_count) = some 1 ∧
      q_send_id r.queue_list 1 (1, 0, 0, 0) none = some (ERR_OBJDEL, r.queue_list) ∧
      q_receive_id r.queue_list 1 ⟨5, 15⟩ = some (ERR_OBJDEL, none, r.queue_list) ∧
      q_delete r.queue_list 1 [] = some ⟨ERR_OBJDEL, [], r.queue_list⟩ := by
  obtain ⟨r, h1, h2, h3, _, _, h6, h7, h8⟩ :=
    q_delete_removes_queue busy_queues 1 ((qcb_for busy_queues 1).get rfl) 4096 [] 4 [8, 5]
      (by decide) (Option.some_get _).symm
      ⟨rfl, rfl, rfl, rfl, by decide, by decide, by decide⟩
      (by decide) (by decide) (by decide)
  obtain ⟨s1, s2, s3, _⟩ := h8 r.queue_list h6
  refine ⟨r, h1, h2, h3, h6, ?_, s1 _ _, s2 _, s3 _⟩
  rw [h7 2 (by decide)]
  rfl

end Queue

namespace Sched

/-! ### The scheduler lock as (owner, level) (task.c) -/

theorem sched_lock_isSome (host : host_t) (s : sched_state) (me : Nat) :
    (∃ s', sched_lock host s me = some s') ↔
      (s.scheduler_locked = 0 ∨ s.scheduler_locked = me) := by
  unfold sched_lock
  by_cases h : s.scheduler_locked = 0 ∨ s.scheduler_locked = me
  · simp only [h, if_true, iff_true]
    split <;> exact ⟨_, rfl⟩
  · simp [h]

theorem sched_lock_owner_level (host : host_t) (s s' : sched_state) (me : Nat)
    (hlevel : s.sched_lock_level ≤ ULONG_MAX) (h : sched_lock host s me = some s') :
    s'.scheduler_locked = me ∧
      s'.sched_lock_level =
        (if s.sched_lock_level = ULONG_MAX then ULONG_MAX else s.sched_lock_level + 1) := by
  unfold sched_lock at h
  have hl : (if (s.sched_lock_level + 1) % 4294967296 = 0
      then ((s.sched_lock_level + 1) % 4294967296 + 4294967295) % 4294967296
      else (s.sched_lock_level + 1) % 4294967296) =
      (if s.sched_lock_level = ULONG_MAX then ULONG_MAX else s.sched_lock_level + 1) := by
    unfold ULONG_MAX at hlevel ⊢
    by_cases e : s.sched_lock_level = 4294967295
    · simp [e]
    · have : (s.sched_lock_level + 1) % 4294967296 = s.sched_lock_level + 1 :=
        Nat.mod_eq_of_lt (by omega)
      simp [e, this]
  by_cases hc : s.scheduler_locked = 0 ∨ s.scheduler_locked = me
  · simp only [hc, if_true] at h
    split at h <;> (cases h; exact ⟨rfl, hl⟩)
  · simp [hc] at h

theorem sched_unlock_owner_level (s : sched_state) (me : Nat) (h : s.scheduler_locked = me) :
    (sched_unlock s me).sched_lock_level = s.sched_lock_level - 1 ∧
      (sched_unlock s me).scheduler_locked = (if s.sched_lock_level ≤ 1 then 0 else me) := by
  unfold sched_unlock
  simp only [h, if_true]
  by_cases h0 : s.sched_lock_level > 0
  · by_cases h1 : s.sched_lock_level ≤ 1
    · have h2 : s.sched_lock_level - 1 < 1 := by omega
      simp only [h0, h1, h2, if_true]
      split <;> simp
    · have h2 : ¬ s.sched_lock_level - 1 < 1 := by omega
      simp only [h0, h1, h2, if_true, if_false]
      exact ⟨trivial, trivial⟩
  · have h2 : s.sched_lock_level ≤ 1 := by omega
    have h3 : s.sched_lock_level = 0 := by omega
    have h4 : s.sched_lock_level < 1 := by omega
    simp only [h0, h2, h4, if_true, if_false]
    split <;> simp [h3]

theorem sched_unlock_not_owner (s : sched_state) (me : Nat) (h : s.scheduler_locked ≠ me) :
    sched_unlock s me = s := by
  simp [sched_unlock, h]

/-- The level after `n` nested `sched_lock` calls saturates at `ULONG_MAX`. -/
theorem sched_lock_calls_spec (host : host_t) (me : Nat) :
    ∀ (n : Nat) (s : sched_state), s.sched_lock_level ≤ ULONG_MAX →
      (s.scheduler_locked = 0 ∨ s.scheduler_locked = me) →
      ∃ s', sched_lock_calls host me n s = some s' ∧
        (0 < n → s'.scheduler_locked = me) ∧
        s'.sched_lock_level = min (s.sched_lock_level + n) ULONG_MAX
  | 0, s, hl, _ => ⟨s, rfl, fun h => absurd h (by omega), by simp [Nat.min_eq_left hl]⟩
  | n + 1, s, hl, ho => by
      obtain ⟨s1, h1⟩ := (sched_lock_isSome host s me).2 ho
      obtain ⟨ho1, hl1⟩ := sched_lock_owner_level host s s1 me hl h1
      have hl1' : s1.sched_lock_level ≤ ULONG_MAX := by
        rw [hl1]; split <;> omega
      obtain ⟨s', hs', hown, hlev⟩ := sched_lock_calls_spec host me n s1 hl1' (Or.inr ho1)
      refine ⟨s', ?_, ?_, ?_⟩
      · simp [sched_lock_calls, h1, hs']
      · intro _
        rcases Nat.eq_zero_or_pos n with hn | hn
        · subst hn
          simp only [sched_lock_calls] at hs'
          cases hs'
          exact ho1
        · exact hown hn
      · rw [hlev, hl1]
        split <;> omega

/-- After `k` calls of `sched_unlock` the owner has given back `k` levels and
has left the lock when none remains. -/
theorem sched_unlock_calls_spec (me : Nat) (hme : 0 < me) :
    ∀ (k : Nat) (s : sched_state), s.scheduler_locked = me → 0 < s.sched_lock_level →
      (sched_unlock_calls me k s).sched_lock_level = s.sched_lock_level - k ∧
      (sched_unlock_calls me k s).scheduler_locked = (if k < s.sched_lock_level then me else 0)
  | 0, s, ho, hl => by simp [sched_unlock_calls, ho, hl]
  | k + 1, s, ho, hl => by
      obtain ⟨h1, h2⟩ := sched_unlock_owner_level s me ho
      simp only [sched_unlock_calls]
      by_cases hone : s.sched_lock_level ≤ 1
      · have hfree : (sched_unlock s me).scheduler_locked ≠ me := by
          rw [h2]; simp only [hone, if_true]; omega
        have hstay : ∀ j, sched_unlock_calls me j (sched_unlock s me) = sched_unlock s me := by
          intro j
          induction j with
          | zero => rfl
          | succ j ih =>
              simp only [sched_unlock_calls]
              rw [sched_unlock_not_owner _ _ hfree]
              exact ih
        rw [hstay, h1, h2]
        have : ¬ k + 1 < s.sched_lock_level := by omega
        simp only [hone, this, if_true, if_false]
        exact ⟨by omega, trivial⟩
      · have ho1 : (sched_unlock s me).scheduler_locked = me := by
          rw [h2]; simp only [hone, if_false]
        have hl1 : 0 < (sched_unlock s me).sched_lock_level := by rw [h1]; omega
        obtain ⟨h3, h4⟩ := sched_unlock_calls_spec me hme k _ ho1 hl1
        rw [h3, h4, h1]
        refine ⟨by omega, ?_⟩
        by_cases hk : k < s.sched_lock_level - 1
        · have : k + 1 < s.sched_lock_level := by omega
          simp [hk, this]
        · have : ¬ k + 1 < s.sched_lock_level := by omega
          simp [hk, this]

/-- C18 fails where the level counter is at its greatest value: `sched_lock`
by the owner at level `ULONG_MAX` leaves the level there instead of adding
one, so that 4294967296 nested `sched_lock` calls by thread 103 are undone by
the 4294967295 calls of `sched_unlock` that follow, one fewer than the number
of locks. -/
theorem sched_lock_level_saturates :
    ((sched_lock linux_host ⟨103, 4294967295, two_tasks.task_list⟩ 103).map fun s =>
      (s.scheduler_locked, s.sched_lock_level)) = some (103, 4294967295) ∧
    ∃ s, sched_lock_calls linux_host 103 4294967296 two_tasks = some s ∧
      (sched_unlock_calls 103 4294967295 s).scheduler_locked = 0 ∧
      (sched_unlock_calls 103 4294967295 s).sched_lock_level = 0 := by
  refine ⟨by decide, ?_⟩
  obtain ⟨s, hs, ho, hl⟩ := sched_lock_calls_spec linux_host 103 4294967296 two_tasks
    (by decide) (Or.inl rfl)
  have hl' : s.sched_lock_level = 4294967295 := by
    rw [hl]; decide
  obtain ⟨h1, h2⟩ := sched_unlock_calls_spec 103 (by decide) 4294967295 s (ho (by decide))
    (by rw [hl']; decide)
  refine ⟨s, hs, ?_, ?_⟩
  · rw [h2, hl']; decide
  · rw [h1, hl']

/-- C18, with the level an `unsigned long` that saturates: `sched_lock` by the
thread `me` acquires at once iff the owner is null or `me`, and then the owner
is `me` and the level is one more, except that a level of `ULONG_MAX` stays;
`sched_unlock` by the owner takes one from the level and clears the owner
when the level was 1 (or 0), and keeps the owner otherwise; `sched_unlock` by
another thread changes nothing. Hence from the free lock at level 0, for
every `n` from 1 to `ULONG_MAX`, `n` nested locks succeed and leave owner
`me` at level `n`; after `k < n` unlocks `me` still owns the lock at level
`n - k`, and after `n` unlocks the lock is free at level 0. -/
theorem sched_lock_nesting (host : host_t) (s : sched_state) (me : Nat) (hme : 0 < me)
    (hlevel : s.sched_lock_level ≤ ULONG_MAX) :
    ((∃ s', sched_lock host s me = some s') ↔
      (s.scheduler_locked = 0 ∨ s.scheduler_locked = me)) ∧
    (∀ s', sched_lock host s me = some s' →
      s'.scheduler_locked = me ∧
      s'.sched_lock_level =
        (if s.sched_lock_level = ULONG_MAX then ULONG_MAX else s.sched_lock_level + 1)) ∧
    (s.scheduler_locked = me →
      (sched_unlock s me).sched_lock_level = s.sched_lock_level - 1 ∧
      (sched_unlock s me).scheduler_locked = (if s.sched_lock_level ≤ 1 then 0 else me)) ∧
    (s.scheduler_locked ≠ me → sched_unlock s me = s) ∧
    (s.scheduler_locked = 0 → s.sched_lock_level = 0 → ∀ n, 1 ≤ n → n ≤ ULONG_MAX →
      ∃ s', sched_lock_calls host me n s = some s' ∧
        s'.scheduler_locked = me ∧ s'.sched_lock_level = n ∧
        (∀ k, k < n →
          (sched_unlock_calls me k s').scheduler_locked = me ∧
          (sched_unlock_calls me k s').sched_lock_level = n - k) ∧
        (sched_unlock_calls me n s').scheduler_locked = 0 ∧
        (sched_unlock_calls me n s').sched_lock_level = 0) := by
  refine ⟨sched_lock_isSome host s me, fun s' h => sched_lock_owner_level host s s' me hlevel h,
    sched_unlock_owner_level s me, sched_unlock_not_owner s me, ?_⟩
  intro ho hl n hn hmax
  obtain ⟨s', hs', hown, hlev⟩ := sched_lock_calls_spec host me n s hlevel (Or.inl ho)
  have hlev' : s'.sched_lock_level = n := by
    rw [hlev, hl]; simp only [Nat.zero_add]; exact Nat.min_eq_left hmax
  have hown' := hown (by omega)
  refine ⟨s', hs', hown', hlev', ?_, ?_, ?_⟩
  · intro k hk
    obtain ⟨h1, h2⟩ := sched_unlock_calls_spec me hme k s' hown' (by omega)
    rw [h1, h2, hlev']
    simp [hk]
  · rw [(sched_unlock_calls_spec me hme n s' hown' (by omega)).2, hlev']
    simp
  · rw [(sched_unlock_calls_spec me hme n s' hown' (by omega)).1, hlev']
    simp

/-- Witness for C18 on the two tasks of the fixture, thread 103 locking. -/
theorem sched_lock_nesting_witness :
    ((∃ s', sched_lock linux_host two_tasks 103 = some s') ↔
      (two_tasks.scheduler_locked = 0 ∨ two_tasks.scheduler_locked = 103)) ∧
    (∀ s', sched_lock linux_host two_tasks 103 = some s' →
      s'.scheduler_locked = 103 ∧
      s'.sched_lock_level =
        (if two_tasks.sched_lock_level = ULONG_MAX then ULONG_MAX
         else two_tasks.sched_lock_level + 1)) ∧
    (two_tasks.scheduler_locked = 103 →
      (sched_unlock two_tasks 103).sched_lock_level = two_tasks.sched_lock_level - 1 ∧
      (sched_unlock two_tasks 103).scheduler_locked =
        (if two_tasks.sched_lock_level ≤ 1 then 0 else 103)) ∧
    (two_tasks.scheduler_locked ≠ 103 → sched_unlock two_tasks 103 = two_tasks) ∧
    (two_tasks.scheduler_locked = 0 → two_tasks.sched_lock_level = 0 →
      ∀ n, 1 ≤ n → n ≤ ULONG_MAX →
      ∃ s', sched_lock_calls linux_host 103 n two_tasks = some s' ∧
        s'.scheduler_locked = 103 ∧ s'.sched_lock_level = n ∧
        (∀ k, k < n →
          (sched_unlock_calls 103 k s').scheduler_locked = 103 ∧
          (sched_unlock_calls 103 k s').sched_lock_level = n - k) ∧
        (sched_unlock_calls 103 n s').scheduler_locked = 0 ∧
        (sched_unlock_calls 103 n s').sched_lock_level = 0) :=
  sched_lock_nesting linux_host two_tasks 103 (by decide) (by decide)

end Sched

namespace Sched

/-! ### `t_setpri` under the scheduler lock (task.c) -/

theorem find_map_preserve {α : Type} (p : α → Bool) (g : α → α) (hg : ∀ x, p (g x) = p x) :
    ∀ l : List α, (l.map g).find? p = (l.find? p).map g
  | [] => rfl
  | x :: l => by
      simp only [List.map_cons, List.find?_cons, hg]
      cases p x
      · exact find_map_preserve p g hg l
      · rfl

theorem my_tcb_modify (o l o' l' : Nat) (tl : List p2pthread_cb_t) (a me : Nat)
    (f : p2pthread_cb_t → p2pthread_cb_t) (hf : ∀ t, (f t).pthrid = t.pthrid) :
    my_tcb ⟨o, l, modify_tcb tl a f⟩ me =
      (my_tcb ⟨o', l', tl⟩ me).map fun t => if t.addr = a then f t else t := by
  unfold my_tcb modify_tcb
  apply find_map_preserve
  intro t
  by_cases h : t.addr = a <;> simp [h, hf]

theorem tcb_for_modify (o l o' l' : Nat) (tl : List p2pthread_cb_t) (a tid : Nat)
    (f : p2pthread_cb_t → p2pthread_cb_t) (hf : ∀ t, (f t).taskid = t.taskid) :
    tcb_for ⟨o, l, modify_tcb tl a f⟩ tid =
      (tcb_for ⟨o', l', tl⟩ tid).map fun t => if t.addr = a then f t else t := by
  unfold tcb_for modify_tcb
  apply find_map_preserve
  intro t
  by_cases h : t.addr = a <;> simp [h, hf]

/-- What `sched_lock` does for a caller that may take the lock and has a
block in the task list. -/
theorem sched_lock_state (host : host_t) (s : sched_state) (me : Nat) (tcb : p2pthread_cb_t)
    (hlevel : s.sched_lock_level ≤ ULONG_MAX)
    (hown : s.scheduler_locked = 0 ∨ s.scheduler_locked = me)
    (hmy : my_tcb s me = some tcb) :
    sched_lock host s me = some ⟨me,
      if s.sched_lock_level = ULONG_MAX then ULONG_MAX else s.sched_lock_level + 1,
      modify_tcb s.task_list tcb.addr
        (set_thread_priority (host.sched_get_priority_max tcb.sched_policy))⟩ := by
  obtain ⟨s', hs'⟩ := (sched_lock_isSome host s me).2 hown
  obtain ⟨h1, h2⟩ := sched_lock_owner_level host s s' me hlevel hs'
  rw [hs']
  have hmy' : ∀ o l, my_tcb ⟨o, l, s.task_list⟩ me = some tcb := fun _ _ => hmy
  unfold sched_lock at hs'
  simp only [hown, if_true, hmy'] at hs'
  cases hs'
  simp only at h2
  simp only [h2]

/-- The `sched_unlock` of an owner above level 1 only takes one level. -/
theorem sched_unlock_inner (s : sched_state) (me : Nat) (hown : s.scheduler_locked = me)
    (hl : 2 ≤ s.sched_lock_level) :
    sched_unlock s me = ⟨me, s.sched_lock_level - 1, s.task_list⟩ := by
  have h0 : s.sched_lock_level > 0 := by omega
  have h1 : ¬ s.sched_lock_level - 1 < 1 := by omega
  simp [sched_unlock, hown, h0, h1]

/-- The outermost `sched_unlock` of an owner with a block in the task list
restores the priority of `prv_priority` and frees the lock. -/
theorem sched_unlock_outermost (s : sched_state) (me : Nat) (tcb : p2pthread_cb_t)
    (hown : s.scheduler_locked = me) (hl : s.sched_lock_level = 1)
    (hmy : my_tcb s me = some tcb) :
    sched_unlock s me = ⟨0, 0, modify_tcb s.task_list tcb.addr
      (set_thread_priority tcb.prv_priority)⟩ := by
  have hmy' : ∀ o l, my_tcb ⟨o, l, s.task_list⟩ me = some tcb := fun _ _ => hmy
  simp [sched_unlock, hown, hl, hmy']

theorem sched_unlock_calls_inner (me : Nat) :
    ∀ (k : Nat) (s : sched_state), s.scheduler_locked = me → k < s.sched_lock_level →
      sched_unlock_calls me k s = ⟨me, s.sched_lock_level - k, s.task_list⟩
  | 0, s, ho, _ => by cases s; cases ho; rfl
  | k + 1, s, ho, hk => by
      simp only [sched_unlock_calls]
      rw [sched_unlock_inner s me ho (by omega)]
      rw [sched_unlock_calls_inner me k _ rfl (by simp only; omega)]
      simp only [sched_state.mk.injEq, true_and, and_true]
      omega

theorem sched_unlock_calls_succ (me : Nat) :
    ∀ (k : Nat) (s : sched_state),
      sched_unlock_calls me (k + 1) s = sched_unlock (sched_unlock_calls me k s) me
  | 0, _ => rfl
  | k + 1, s => by
      rw [sched_unlock_calls, sched_unlock_calls_succ me k]
      rfl

/-- The part of C19 that the code has: a task that holds the scheduler lock
and names itself by its own task id gets status 0 for a priority within the
p2pthread bounds, still owns the lock, runs at the policy maximum until the
unlock that takes the level to 0, and runs at the translated priority after
that unlock. -/
theorem t_setpri_self_by_id (host : host_t) (s : sched_state) (me tid pri : Nat)
    (tcb : p2pthread_cb_t)
    (hown : s.scheduler_locked = me) (hl1 : 1 ≤ s.sched_lock_level)
    (hl2 : s.sched_lock_level ≤ ULONG_MAX)
    (hmy : my_tcb s me = some tcb) (hfor : tcb_for s tid = some tcb)
    (hmax : host.sched_get_priority_max tcb.sched_policy ≠ 0)
    (hvalid : host.MIN_P2PT_PRIORITY ≤ pri ∧ pri ≤ host.MAX_P2PT_PRIORITY) :
    ∃ r new_priority,
      t_setpri host s me tid pri = some r ∧
      translate_priority host pri tcb.sched_policy ERR_NO_ERROR
        = some (new_priority, ERR_NO_ERROR) ∧
      r.error = ERR_NO_ERROR ∧
      r.state.scheduler_locked = me ∧ 1 ≤ r.state.sched_lock_level ∧
      (∀ k, k < r.state.sched_lock_level →
        (sched_unlock_calls me k r.state).scheduler_locked = me ∧
        (my_tcb (sched_unlock_calls me k r.state) me).map (fun t => t.thread_priority)
          = some (host.sched_get_priority_max tcb.sched_policy)) ∧
      (sched_unlock_calls me r.state.sched_lock_level r.state).scheduler_locked = 0 ∧
      (my_tcb (sched_unlock_calls me r.state.sched_lock_level r.state) me).map
        (fun t => t.thread_priority) = some new_priority := by
  have hlock := sched_lock_state host s me tcb hl2 (Or.inr hown) hmy
  obtain ⟨new_priority, htr⟩ : ∃ np,
      translate_priority host pri tcb.sched_policy ERR_NO_ERROR = some (np, ERR_NO_ERROR) := by
    have hv : ¬ (pri < host.MIN_P2PT_PRIORITY ∨ pri > host.MAX_P2PT_PRIORITY) := by omega
    simp only [translate_priority, hv, hmax, if_false]
    exact ⟨_, rfl⟩
  -- the level that the lock inside `t_setpri` reaches, and the blocks it sees
  generalize hL : (if s.sched_lock_level = ULONG_MAX then ULONG_MAX
    else s.sched_lock_level + 1) = L at hlock
  have hL2 : 2 ≤ L := by
    rw [← hL]; unfold ULONG_MAX; split <;> omega
  have hfor1 : tcb_for ⟨me, L, modify_tcb s.task_list tcb.addr
      (set_thread_priority (host.sched_get_priority_max tcb.sched_policy))⟩ tid
      = some (set_thread_priority (host.sched_get_priority_max tcb.sched_policy) tcb) := by
    rw [tcb_for_modify me L s.scheduler_locked s.sched_lock_level s.task_list tcb.addr tid
      (set_thread_priority (host.sched_get_priority_max tcb.sched_policy)) (fun _ => rfl)]
    have : tcb_for ⟨s.scheduler_locked, s.sched_lock_level, s.task_list⟩ tid = some tcb := hfor
    rw [this]; simp
  have hmy1 : my_tcb ⟨me, L, modify_tcb s.task_list tcb.addr
      (set_thread_priority (host.sched_get_priority_max tcb.sched_policy))⟩ me
      = some (set_thread_priority (host.sched_get_priority_max tcb.sched_policy) tcb) := by
    rw [my_tcb_modify me L s.scheduler_locked s.sched_lock_level s.task_list tcb.addr me
      (set_thread_priority (host.sched_get_priority_max tcb.sched_policy)) (fun _ => rfl)]
    have : my_tcb ⟨s.scheduler_locked, s.sched_lock_level, s.task_list⟩ me = some tcb := hmy
    rw [this]; simp
  have htr1 : translate_priority host pri
      (set_thread_priority (host.sched_get_priority_max tcb.sched_policy) tcb).sched_policy
      ERR_NO_ERROR = some (new_priority, ERR_NO_ERROR) := htr
  -- the state that `t_setpri` returns
  let tl2 := modify_tcb (modify_tcb s.task_list tcb.addr
      (set_thread_priority (host.sched_get_priority_max tcb.sched_policy))) tcb.addr
      (fun t => { t with prv_priority := new_priority })
  have hres : t_setpri host s me tid pri = some ⟨ERR_NO_ERROR,
      some ((tcb.prv_priority % 4294967296).toNat), ⟨me, L - 1, tl2⟩⟩ := by
    unfold t_setpri
    simp only [hlock, hfor1, htr1, hmy1]
    have hother : (decide (tid ≠ 0) &&
        decide (some (set_thread_priority (host.sched_get_priority_max tcb.sched_policy)
          tcb).addr ≠ Option.map (fun t => t.addr)
            (some (set_thread_priority (host.sched_get_priority_max tcb.sched_policy)
              tcb)))) = false := by
      simp
    simp only [hother]
    rw [sched_unlock_inner _ me rfl (by simpa using hL2)]
    rfl
  have hmy2 : ∀ o l, my_tcb ⟨o, l, tl2⟩ me = some
      { set_thread_priority (host.sched_get_priority_max tcb.sched_policy) tcb with
        prv_priority := new_priority } := by
    intro o l
    show my_tcb ⟨o, l, modify_tcb _ tcb.addr _⟩ me = _
    rw [my_tcb_modify o l me L _ tcb.addr me (fun t => { t with prv_priority := new_priority })
      (fun _ => rfl), hmy1]
    simp [set_thread_priority]
  refine ⟨_, new_priority, hres, htr, rfl, rfl, by simp only; omega, ?_, ?_, ?_⟩
  · intro k hk
    simp only at hk
    rw [sched_unlock_calls_inner me k _ rfl (by simpa using hk)]
    refine ⟨rfl, ?_⟩
    simp only
    rw [hmy2]
    rfl
  · obtain ⟨m, hm⟩ : ∃ m, L - 1 = m + 1 := ⟨L - 2, by omega⟩
    simp only [hm]
    rw [sched_unlock_calls_succ, sched_unlock_calls_inner me m _ rfl (by simp only; omega)]
    rw [sched_unlock_outermost _ me _ rfl (by simp only; omega) (hmy2 _ _)]
  · obtain ⟨m, hm⟩ : ∃ m, L - 1 = m + 1 := ⟨L - 2, by omega⟩
    simp only [hm]
    rw [sched_unlock_calls_succ, sched_unlock_calls_inner me m _ rfl (by simp only; omega)]
    rw [sched_unlock_outermost _ me _ rfl (by simp only; omega) (hmy2 _ _)]
    simp only
    rw [my_tcb_modify 0 0 me L tl2 _ me (set_thread_priority new_priority) (fun _ => rfl), hmy2]
    simp [set_thread_priority]

theorem t_setpri_self_by_id_holds :
    ∃ s r, sched_lock linux_host two_tasks 103 = some s ∧
      t_setpri linux_host s 103 3 50 = some r ∧ r.error = ERR_NO_ERROR ∧
      (my_tcb (sched_unlock_calls 103 r.state.sched_lock_level r.state) 103).map
        (fun t => t.thread_priority) = some 50 := by
  refine ⟨_, _, rfl, rfl, rfl, rfl⟩

/-- With no block of task id 0 in the task list, `t_setpri` for task id 0 is
the `sched_lock` and `sched_unlock` pair with status `ERR_OBJDEL`: no
priority is stored. -/
theorem t_setpri_zero_is_objdel (host : host_t) (s s1 : sched_state) (me pri : Nat)
    (hids : ∀ t ∈ s.task_list, t.taskid ≠ 0) (hlock : sched_lock host s me = some s1) :
    t_setpri host s me 0 pri = some ⟨ERR_OBJDEL, none, sched_unlock s1 me⟩ := by
  have hnone : tcb_for s1 0 = none := by
    unfold sched_lock at hlock
    split at hlock
    · have hk : ∀ (o l : Nat) (a : Nat) (f : p2pthread_cb_t → p2pthread_cb_t),
          (∀ t, (f t).taskid = t.taskid) →
          tcb_for ⟨o, l, modify_tcb s.task_list a f⟩ 0 = none := by
        intro o l a f hf
        rw [tcb_for_modify o l o l _ _ _ _ hf]
        have : tcb_for ⟨o, l, s.task_list⟩ 0 = none := by
          simp only [tcb_for, List.find?_eq_none, decide_eq_true_eq]
          exact hids
        rw [this]; rfl
      dsimp only at hlock
      split at hlock
      · cases hlock
        exact hk _ _ _ _ (fun _ => rfl)
      · cases hlock
        simp only [tcb_for, List.find?_eq_none, decide_eq_true_eq]
        exact hids
    · cases hlock
  simp [t_setpri, hlock, hnone]

/-- C19 fails for task id 0. Thread 103 (task 3, priority 20) holds the
scheduler lock and calls `t_setpri(0, 50, &old)`: `tcb_for(0)` finds no block,
the status is `ERR_OBJDEL`, nothing is stored through `oldpri`, the
`prv_priority` of the task stays 20, and after the outermost `sched_unlock`
the thread runs at 20 again and not at 50. The same call with the task's own
id 3 returns 0, stores the old priority 20, keeps the thread at the maximum
99 under the lock and leaves it at 50 after the unlock. -/
theorem t_setpri_zero_names_no_task :
    ((sched_lock linux_host two_tasks 103).bind fun s =>
        (t_setpri linux_host s 103 0 50).map fun r =>
          (r.error, r.oldpri, r.state.scheduler_locked, r.state.sched_lock_level,
            (my_tcb r.state 103).map (fun t => (t.prv_priority, t.thread_priority)),
            (my_tcb (sched_unlock r.state 103) 103).map (fun t => t.thread_priority)))
      = some (ERR_OBJDEL, none, 103, 1, some (20, 99), some 20) ∧
    ((sched_lock linux_host two_tasks 103).bind fun s =>
        (t_setpri linux_host s 103 3 50).map fun r =>
          (r.error, r.oldpri, r.state.scheduler_locked, r.state.sched_lock_level,
            (my_tcb r.state 103).map (fun t => (t.prv_priority, t.thread_priority)),
            (my_tcb (sched_unlock r.state 103) 103).map (fun t => t.thread_priority)))
      = some (ERR_NO_ERROR, some 20, 103, 1, some (50, 99), some 50) :=
  ⟨rfl, rfl⟩

end Sched

namespace Sched

/-! ### `translate_priority` (task.c) -/

/-- C20 fails for a priority at or above the policy maximum: the code takes
the remainder by the maximum instead of clamping. Under SCHED_FIFO with the
range 1 to 99 the priority 150 becomes 51 and the priority 99 becomes 1, where
clamping gives 98 for both; `t_setpri` of task 4 to 150 stores 51. -/
theorem translate_priority_wraps_around :
    translate_priority linux_host 150 SCHED_FIFO ERR_NO_ERROR = some (51, ERR_NO_ERROR) ∧
    clamped_priority linux_host 150 SCHED_FIFO = 98 ∧
    translate_priority linux_host 99 SCHED_FIFO ERR_NO_ERROR = some (1, ERR_NO_ERROR) ∧
    clamped_priority linux_host 99 SCHED_FIFO = 98 ∧
    ((t_setpri linux_host two_tasks 103 4 150).map fun r =>
        (r.error, (tcb_for r.state 4).map fun t => (t.prv_priority, t.attr_priority)))
      = some (ERR_NO_ERROR, some (51, 51)) := by
  refine ⟨by decide, by decide, by decide, by decide, by decide⟩

/-- C20, as the code has it: for a policy with `0 < policy_max` and
`policy_min < policy_max`, `translate_priority` returns the C remainder of
the priority (as an `int`) by `policy_max`, raised to `policy_min` when below
it. The result lies between `policy_min` and `policy_max - 1`, so that the
policy maximum is never assigned; it is the priority clamped into that range
when the priority is below `policy_max`, and for every priority below 2^31 it
is the greater of `policy_min` and the priority modulo `policy_max`. -/
theorem translate_priority_range (host : host_t) (p sched_policy errp : Nat)
    (hmax : 0 < host.sched_get_priority_max sched_policy)
    (hmin : host.sched_get_priority_min sched_policy < host.sched_get_priority_max sched_policy) :
    ∃ r e, translate_priority host p sched_policy errp = some (r, e) ∧
      r = max (host.sched_get_priority_min sched_policy)
            (Int.tmod (to_int p) (host.sched_get_priority_max sched_policy)) ∧
      host.sched_get_priority_min sched_policy ≤ r ∧
      r ≤ host.sched_get_priority_max sched_policy - 1 ∧
      r ≠ host.sched_get_priority_max sched_policy ∧
      (p < 2147483648 → (p : Int) < host.sched_get_priority_max sched_policy →
        r = clamped_priority host p sched_policy) ∧
      (p < 2147483648 →
        r = max (host.sched_get_priority_min sched_policy)
              ((p : Int) % host.sched_get_priority_max sched_policy)) := by
  have hne : host.sched_get_priority_max sched_policy ≠ 0 := by omega
  have hlt := Int.tmod_lt_of_pos (to_int p) hmax
  have hr : ∀ x : Int, (if x < host.sched_get_priority_min sched_policy
      then host.sched_get_priority_min sched_policy else x) =
      max (host.sched_get_priority_min sched_policy) x := by
    intro x
    by_cases h : x < host.sched_get_priority_min sched_policy
    · simp only [h, if_true]; omega
    · simp only [h, if_false]; omega
  have hto : p < 2147483648 → to_int p = (p : Int) := by
    intro hp
    have h1 : p % 4294967296 = p := Nat.mod_eq_of_lt (by omega)
    simp [to_int, h1, hp]
  have hres : translate_priority host p sched_policy errp =
      some (max (host.sched_get_priority_min sched_policy)
          (Int.tmod (to_int p) (host.sched_get_priority_max sched_policy)),
        if p < host.MIN_P2PT_PRIORITY ∨ p > host.MAX_P2PT_PRIORITY then ERR_PRIOR else errp) := by
    simp only [translate_priority, hne, if_false, hr]
  refine ⟨_, _, hres, rfl, ?_, ?_, ?_, ?_, ?_⟩
  · omega
  · omega
  · omega
  · intro hp hpm
    rw [hto hp, Int.tmod_eq_of_lt (by omega) hpm]
    unfold clamped_priority
    omega
  · intro hp
    rw [hto hp, Int.tmod_eq_emod (by omega) (by omega)]

/-- Witness for C20 on the Linux range of SCHED_RR with the priority 250. -/
theorem translate_priority_range_witness :
    ∃ r e, translate_priority linux_host 250 SCHED_RR 0 = some (r, e) ∧
      r = max (linux_host.sched_get_priority_min SCHED_RR)
            (Int.tmod (to_int 250) (linux_host.sched_get_priority_max SCHED_RR)) ∧
      linux_host.sched_get_priority_min SCHED_RR ≤ r ∧
      r ≤ linux_host.sched_get_priority_max SCHED_RR - 1 ∧
      r ≠ linux_host.sched_get_priority_max SCHED_RR ∧
      (250 < 2147483648 → ((250 : Nat) : Int) < linux_host.sched_get_priority_max SCHED_RR →
        r = clamped_priority linux_host 250 SCHED_RR) ∧
      (250 < 2147483648 →
        r = max (linux_host.sched_get_priority_min SCHED_RR)
              (((250 : Nat) : Int) % linux_host.sched_get_priority_max SCHED_RR)) :=
  translate_priority_range linux_host 250 SCHED_RR 0 (by decide) (by decide)

end Sched

namespace Sched

/-! ### Priorities at `t_create` and `t_setpri` (task.c) -/

theorem modify_tcb_keys (l : List p2pthread_cb_t) (a : Nat) (f : p2pthread_cb_t → p2pthread_cb_t)
    (hf : ∀ t, tcb_key (f t) = tcb_key t) :
    (modify_tcb l a f).map tcb_key = l.map tcb_key := by
  unfold modify_tcb
  rw [List.map_map]
  apply List.map_congr_left
  intro t _
  by_cases h : t.addr = a <;> simp [h, hf]

theorem sched_lock_keys (host : host_t) (s s' : sched_state) (me : Nat)
    (h : sched_lock host s me = some s') :
    s'.task_list.map tcb_key = s.task_list.map tcb_key := by
  unfold sched_lock at h
  split at h
  · dsimp only at h
    split at h
    · cases h
      exact modify_tcb_keys _ _ _ (fun _ => rfl)
    · cases h
      rfl
  · cases h

theorem sched_unlock_keys (s : sched_state) (me : Nat) :
    (sched_unlock s me).task_list.map tcb_key = s.task_list.map tcb_key := by
  unfold sched_unlock
  split
  · dsimp only
    split
    · split
      · split
        · exact modify_tcb_keys _ _ _ (fun _ => rfl)
        · rfl
      · rfl
    · split
      · split
        · exact modify_tcb_keys _ _ _ (fun _ => rfl)
        · rfl
      · rfl
  · rfl

theorem find_of_keys (p : p2pthread_cb_t → Bool) (q : Nat × Nat × Nat → Bool)
    (hp : ∀ t, p t = q (tcb_key t)) :
    ∀ l l' : List p2pthread_cb_t, l'.map tcb_key = l.map tcb_key →
      (l'.find? p).map tcb_key = (l.find? p).map tcb_key
  | [], [], _ => rfl
  | [], _ :: _, h => by simp at h
  | _ :: _, [], h => by simp at h
  | x :: l, y :: l', h => by
      simp only [List.map_cons, List.cons.injEq] at h
      have hxy : p y = p x := by rw [hp, hp, h.1]
      simp only [List.find?_cons, hxy]
      cases p x
      · exact find_of_keys p q hp l l' h.2
      · simp [h.1]

theorem tcb_for_of_keys (s s' : sched_state) (tid : Nat)
    (h : s'.task_list.map tcb_key = s.task_list.map tcb_key) :
    (tcb_for s' tid).map tcb_key = (tcb_for s tid).map tcb_key :=
  find_of_keys _ (fun k => decide (k.2.2 = tid)) (fun _ => rfl) _ _ h

theorem my_tcb_of_keys (s s' : sched_state) (me : Nat)
    (h : s'.task_list.map tcb_key = s.task_list.map tcb_key) :
    (my_tcb s' me).map tcb_key = (my_tcb s me).map tcb_key :=
  find_of_keys _ (fun k => decide (me = k.2.1)) (fun _ => rfl) _ _ h

theorem named_tcb_of_keys (s s' : sched_state) (me tid : Nat)
    (h : s'.task_list.map tcb_key = s.task_list.map tcb_key) :
    (named_tcb s' me tid).map tcb_key = (named_tcb s me tid).map tcb_key := by
  unfold named_tcb
  split
  · exact my_tcb_of_keys s s' me h
  · exact tcb_for_of_keys s s' tid h

theorem addr_of_keys {o o' : Option p2pthread_cb_t}
    (h : o'.map tcb_key = o.map tcb_key) :
    o'.map (fun t => t.addr) = o.map (fun t => t.addr) := by
  cases o <;> cases o' <;> simp_all [tcb_key]

/-- A caller that may take the scheduler lock takes it, and gives it back to
a state in which it may take it again; the blocks keep their addresses,
threads and ids. -/
theorem sched_lock_unlock (host : host_t) (s : sched_state) (me : Nat)
    (hlock : s.scheduler_locked = 0 ∨ s.scheduler_locked = me)
    (hlevel : s.sched_lock_level ≤ ULONG_MAX) :
    ∃ sl, sched_lock host s me = some sl ∧
      sl.scheduler_locked = me ∧ 1 ≤ sl.sched_lock_level ∧ sl.sched_lock_level ≤ ULONG_MAX ∧
      sl.task_list.map tcb_key = s.task_list.map tcb_key ∧
      (s.scheduler_locked = me → 1 ≤ s.sched_lock_level → 2 ≤ sl.sched_lock_level) := by
  obtain ⟨sl, hsl⟩ := (sched_lock_isSome host s me).2 hlock
  obtain ⟨h1, h2⟩ := sched_lock_owner_level host s sl me hlevel hsl
  refine ⟨sl, hsl, h1, ?_, ?_, sched_lock_keys host s sl me hsl, ?_⟩
  · rw [h2]; unfold ULONG_MAX; split <;> omega
  · rw [h2]; split <;> omega
  · intro _ hl
    rw [h2]; unfold ULONG_MAX; split <;> omega

/-- C21 fails for `t_setpri`, which stores the translated priority although
`translate_priority` has set `ERR_PRIOR`. Thread 103 calls `t_setpri` on task
4 (priority 30, range 1 to 99, bounds 1 and 255): priority 300 returns
`ERR_PRIOR` and leaves 3 in `prv_priority` and in the attributes, priority 0
returns `ERR_PRIOR` and leaves 1, where the valid priority 50 returns 0 and
leaves 50. `t_create` with priority 300 or 0 returns `ERR_PRIOR` and adds no
task; with priority 10 it returns 0 and adds task 1. -/
theorem t_setpri_stores_invalid_priority :
    ((t_setpri linux_host two_tasks 103 4 300).map fun r =>
        (r.error, r.oldpri, (tcb_for r.state 4).map fun t => (t.prv_priority, t.attr_priority)))
      = some (ERR_PRIOR, some 30, some (3, 3)) ∧
    ((t_setpri linux_host two_tasks 103 4 0).map fun r =>
        (r.error, r.oldpri, (tcb_for r.state 4).map fun t => (t.prv_priority, t.attr_priority)))
      = some (ERR_PRIOR, some 30, some (1, 1)) ∧
    ((t_setpri linux_host two_tasks 103 4 50).map fun r =>
        (r.error, r.oldpri, (tcb_for r.state 4).map fun t => (t.prv_priority, t.attr_priority)))
      = some (ERR_NO_ERROR, some 30, some (50, 50)) ∧
    ((t_create linux_host (no_tasks 0) 300 (some 4096)).map fun r =>
        (r.error, r.state.sched.task_list))
      = some (ERR_PRIOR, []) ∧
    ((t_create linux_host (no_tasks 0) 0 (some 4096)).map fun r =>
        (r.error, r.state.sched.task_list))
      = some (ERR_PRIOR, []) ∧
    ((t_create linux_host (no_tasks 0) 10 (some 4096)).map fun r =>
        (r.error, r.state.sched.task_list.map fun t => (t.taskid, t.prv_priority)))
      = some (ERR_NO_ERROR, [(1, 10)]) := by
  refine ⟨by decide, by decide, by decide, by decide, by decide, by decide⟩

/-- The part of C21 that the code has for `t_create`: with a block granted
and a policy maximum other than 0 the call returns, with `ERR_PRIOR` exactly
for a priority outside the p2pthread bounds and with 0 otherwise, and with
`ERR_PRIOR` the scheduler globals and the task list are as before. -/
theorem t_create_priority_check (host : host_t) (s : task_state) (pri tcb : Nat)
    (hmax : host.sched_get_priority_max SCHED_FIFO ≠ 0) :
    ∃ r, t_create host s pri (some tcb) = some r ∧
      (r.error = ERR_PRIOR ↔ (pri < host.MIN_P2PT_PRIORITY ∨ pri > host.MAX_P2PT_PRIORITY)) ∧
      (r.error = ERR_NO_ERROR ↔ ¬ (pri < host.MIN_P2PT_PRIORITY ∨ pri > host.MAX_P2PT_PRIORITY)) ∧
      (r.error = ERR_PRIOR → r.state.sched = s.sched) := by
  have hne : ERR_PRIOR ≠ ERR_NO_ERROR := by decide
  by_cases hv : pri < host.MIN_P2PT_PRIORITY ∨ pri > host.MAX_P2PT_PRIORITY
  · have h : ∃ r, t_create host s pri (some tcb) = some r ∧ r.error = ERR_PRIOR ∧
        r.state.sched = s.sched := by
      simp only [t_create, translate_priority, hmax, hv, if_true, if_false, hne]
      exact ⟨_, rfl, rfl, rfl⟩
    obtain ⟨r, hr, he, hs⟩ := h
    refine ⟨r, hr, ?_, ?_, fun _ => hs⟩
    · simp [he, hv]
    · simp [he, hv, hne]
  · have h : ∃ r, t_create host s pri (some tcb) = some r ∧ r.error = ERR_NO_ERROR := by
      simp only [t_create, translate_priority, hmax, hv, if_true, if_false]
      exact ⟨_, rfl, rfl⟩
    obtain ⟨r, hr, he⟩ := h
    refine ⟨r, hr, ?_, ?_, ?_⟩
    · simp [he, hv, hne.symm]
    · simp [he, hv]
    · intro h; rw [he] at h; exact absurd h hne.symm

/-- `t_setpri` on an existing task returns `ERR_PRIOR` exactly for a priority
outside the p2pthread bounds. -/
theorem t_setpri_priority_check (host : host_t) (s : sched_state) (me tid pri : Nat)
    (r : t_setpri_result) (h : t_setpri host s me tid pri = some r)
    (hfor : r.error ≠ ERR_OBJDEL) :
    (r.error = ERR_PRIOR ↔ (pri < host.MIN_P2PT_PRIORITY ∨ pri > host.MAX_P2PT_PRIORITY)) := by
  have hne : ERR_PRIOR ≠ ERR_NO_ERROR := by decide
  unfold t_setpri at h
  split at h
  · cases h
  · split at h
    · split at h
      · cases h
      · rename_i new_priority error htr
        simp only [Option.some.injEq] at h
        subst h
        simp only
        unfold translate_priority at htr
        dsimp only at htr
        split at htr
        · cases htr
        · simp only [Option.some.injEq, Prod.mk.injEq] at htr
          rw [← htr.2]
          by_cases hv : pri < host.MIN_P2PT_PRIORITY ∨ pri > host.MAX_P2PT_PRIORITY
          · simp [hv]
          · simp [hv, hne.symm]
    · simp only [Option.some.injEq] at h
      subst h
      exact absurd rfl hfor

/-- The scheduler state in which `sched_lock` and `sched_unlock` around a
call leave a caller that may take the lock. -/
theorem lock_unlock_state (host : host_t) (s : sched_state) (me : Nat)
    (hlock : s.scheduler_locked = 0 ∨ s.scheduler_locked = me)
    (hlevel : s.sched_lock_level ≤ ULONG_MAX) :
    ∃ sl, sched_lock host s me = some sl ∧
      sl.task_list.map tcb_key = s.task_list.map tcb_key ∧
      ((sched_unlock sl me).scheduler_locked = 0 ∨ (sched_unlock sl me).scheduler_locked = me) ∧
      (sched_unlock sl me).sched_lock_level ≤ ULONG_MAX ∧
      (sched_unlock sl me).task_list.map tcb_key = s.task_list.map tcb_key := by
  obtain ⟨sl, hsl, ho, _, hl2, hkeys, _⟩ := sched_lock_unlock host s me hlock hlevel
  obtain ⟨h1, h2⟩ := sched_unlock_owner_level sl me ho
  refine ⟨sl, hsl, hkeys, ?_, ?_, ?_⟩
  · rw [h2]; split
    · exact Or.inl rfl
    · exact Or.inr rfl
  · rw [h1]; omega
  · rw [sched_unlock_keys, hkeys]

theorem named_of_addr {o : Option p2pthread_cb_t} {a : Nat}
    (h : o.map (fun t => t.addr) = some a) : ∃ tcb, o = some tcb ∧ tcb.addr = a := by
  cases o with
  | none => simp at h
  | some tcb => exact ⟨tcb, rfl, by simpa using h⟩

end Sched

namespace Sched

/-! ### The states of a task (task.c) -/

theorem tcb_for_locked (s sl : sched_state) (tid a : Nat)
    (hk : sl.task_list.map tcb_key = s.task_list.map tcb_key)
    (h : (tcb_for s tid).map (fun t => t.addr) = some a) :
    ∃ tcb, tcb_for sl tid = some tcb ∧ tcb.addr = a :=
  named_of_addr (by rw [addr_of_keys (tcb_for_of_keys s sl tid hk)]; exact h)

theorem update_other {β : Type} (f : Nat → β) (a b : Nat) (v : β) (h : b ≠ a) :
    Function.update f a v b = f b := Function.update_noteq h v f

theorem t_start_not_started (host : host_t) (s : task_state) (me tid mode a th : Nat) (pr : Int)
    (hlock : s.sched.scheduler_locked = 0 ∨ s.sched.scheduler_locked = me)
    (hlevel : s.sched.sched_lock_level ≤ ULONG_MAX)
    (hfor : (tcb_for s.sched tid).map (fun t => t.addr) = some a)
    (hst : s.suspend_reason a = .WAIT_TSTRT) :
    ∃ s', t_start host s me tid mode true (some (th, pr)) = some (ERR_NO_ERROR, s') ∧
      s'.suspend_reason = Function.update s.suspend_reason a .WAIT_READY := by
  obtain ⟨sl, hsl, hk, _⟩ := lock_unlock_state host s.sched me hlock hlevel
  obtain ⟨tcb, htcb, ha⟩ := tcb_for_locked s.sched sl tid a hk hfor
  simp only [t_start, hsl, with_sched, htcb, ha, hst, if_true]
  exact ⟨_, rfl, rfl⟩

theorem t_start_active (host : host_t) (s : task_state) (me tid mode a : Nat) (parmblk : Bool)
    (pc : Option (Nat × Int))
    (hlock : s.sched.scheduler_locked = 0 ∨ s.sched.scheduler_locked = me)
    (hlevel : s.sched.sched_lock_level ≤ ULONG_MAX)
    (hfor : (tcb_for s.sched tid).map (fun t => t.addr) = some a)
    (hst : s.suspend_reason a ≠ .WAIT_TSTRT) :
    ∃ s', t_start host s me tid mode parmblk pc = some (ERR_ACTIVE, s') ∧
      s'.suspend_reason = s.suspend_reason := by
  obtain ⟨sl, hsl, hk, _⟩ := lock_unlock_state host s.sched me hlock hlevel
  obtain ⟨tcb, htcb, ha⟩ := tcb_for_locked s.sched sl tid a hk hfor
  refine ⟨with_sched s (sched_unlock sl me), ?_, rfl⟩
  simp only [t_start, hsl, with_sched, htcb, ha, hst, if_false]

theorem t_resume_suspended (host : host_t) (s : task_state) (me tid a : Nat)
    (hlock : s.sched.scheduler_locked = 0 ∨ s.sched.scheduler_locked = me)
    (hlevel : s.sched.sched_lock_level ≤ ULONG_MAX)
    (hfor : (tcb_for s.sched tid).map (fun t => t.addr) = some a)
    (hst : s.suspend_reason a = .WAIT_TSUSP) :
    ∃ s', t_resume host s me tid = some (ERR_NO_ERROR, s') ∧
      s'.suspend_reason = Function.update s.suspend_reason a .WAIT_READY := by
  obtain ⟨sl, hsl, hk, _⟩ := lock_unlock_state host s.sched me hlock hlevel
  obtain ⟨tcb, htcb, ha⟩ := tcb_for_locked s.sched sl tid a hk hfor
  simp only [t_resume, hsl, with_sched, htcb, ha, hst, if_true]
  exact ⟨_, rfl, rfl⟩

theorem t_resume_not_suspended (host : host_t) (s : task_state) (me tid a : Nat)
    (hlock : s.sched.scheduler_locked = 0 ∨ s.sched.scheduler_locked = me)
    (hlevel : s.sched.sched_lock_level ≤ ULONG_MAX)
    (hfor : (tcb_for s.sched tid).map (fun t => t.addr) = some a)
    (hst : s.suspend_reason a ≠ .WAIT_TSUSP) :
    ∃ s', t_resume host s me tid = some (ERR_NOTSUSP, s') ∧
      s'.suspend_reason = s.suspend_reason := by
  obtain ⟨sl, hsl, hk, _⟩ := lock_unlock_state host s.sched me hlock hlevel
  obtain ⟨tcb, htcb, ha⟩ := tcb_for_locked s.sched sl tid a hk hfor
  refine ⟨with_sched s (sched_unlock sl me), ?_, rfl⟩
  simp only [t_resume, hsl, with_sched, htcb, ha, hst, if_false]

theorem t_suspend_other (host : host_t) (s : task_state) (me tid a : Nat)
    (hlock : s.sched.scheduler_locked = 0 ∨ s.sched.scheduler_locked = me)
    (hlevel : s.sched.sched_lock_level ≤ ULONG_MAX) (htid : tid ≠ 0)
    (hfor : (tcb_for s.sched tid).map (fun t => t.addr) = some a)
    (hself : (my_tcb s.sched me).map (fun t => t.addr) ≠ some a)
    (hst : s.suspend_reason a ≠ .WAIT_TSUSP) :
    ∃ s', t_suspend host s me tid = some (ERR_NO_ERROR, s') ∧
      s'.suspend_reason = Function.update s.suspend_reason a .WAIT_TSUSP := by
  obtain ⟨sl, hsl, _⟩ := lock_unlock_state host s.sched me hlock hlevel
  obtain ⟨tcb, htcb, ha⟩ := named_of_addr hfor
  have hne : some tcb.addr ≠ (my_tcb s.sched me).map (fun t => t.addr) := by
    rw [ha]; exact fun h => hself h.symm
  rw [ha] at hne
  simp only [t_suspend, htid, if_false, htcb, ha, hst, ne_eq, not_false_eq_true, if_true, hsl,
    with_sched]
  rw [if_pos hne]
  exact ⟨_, rfl, by simp only [suspend_tcb, ha]⟩

theorem t_suspend_already (host : host_t) (s : task_state) (me tid a : Nat) (htid : tid ≠ 0)
    (hfor : (tcb_for s.sched tid).map (fun t => t.addr) = some a)
    (hst : s.suspend_reason a = .WAIT_TSUSP) :
    t_suspend host s me tid = some (ERR_SUSP, s) := by
  obtain ⟨tcb, htcb, ha⟩ := named_of_addr hfor
  simp [t_suspend, htid, htcb, ha, hst]

/-- A task that suspends itself by id 0: nothing happens while it holds the
scheduler lock, otherwise it is suspended; the status is 0. -/
theorem t_suspend_self (host : host_t) (s : task_state) (me a : Nat)
    (hself : (my_tcb s.sched me).map (fun t => t.addr) = some a) :
    (s.sched.scheduler_locked = me → 1 ≤ s.sched.sched_lock_level →
      t_suspend host s me 0 = some (ERR_NO_ERROR, s)) ∧
    (s.sched.scheduler_locked ≠ me →
      ∃ s', t_suspend host s me 0 = some (ERR_NO_ERROR, s') ∧
        s'.suspend_reason = Function.update s.suspend_reason a .WAIT_TSUSP) := by
  obtain ⟨tcb, htcb, ha⟩ := named_of_addr hself
  refine ⟨?_, ?_⟩
  · intro ho hl
    have : ¬ s.sched.sched_lock_level < 1 := by omega
    simp [t_suspend, htcb, ho, this]
  · intro ho
    refine ⟨suspend_tcb s tcb, by simp [t_suspend, htcb, ho], ?_⟩
    simp only [suspend_tcb, ha]

/-- `t_resume` does not move a task out of `WAIT_TSTRT`, and `t_suspend`
does not make a task `WAIT_READY`. -/
theorem t_step_reason (host : host_t) (s s' : task_state) (me e b : Nat) (call : t_call)
    (h : t_step host s me call = some (e, s')) :
    (is_resume call = true → s.suspend_reason b = .WAIT_TSTRT →
      s'.suspend_reason b = .WAIT_TSTRT) ∧
    (∀ tid, call = .suspend tid → s'.suspend_reason b = .WAIT_READY →
      s.suspend_reason b = .WAIT_READY) := by
  refine ⟨?_, ?_⟩
  · intro hres hb
    cases call with
    | start _ _ _ _ => simp [is_resume] at hres
    | suspend _ => simp [is_resume] at hres
    | resume tid =>
        simp only [t_step, t_resume] at h
        split at h
        · cases h
        · split at h
          · rename_i tcb _
            split at h
            · rename_i hsus
              simp only [Option.some.injEq, Prod.mk.injEq] at h
              rw [← h.2]
              simp only [with_sched]
              by_cases hba : b = tcb.addr
              · subst hba
                simp only [with_sched] at hsus
                rw [hb] at hsus
                cases hsus
              · rw [update_other _ _ _ _ hba]; exact hb
            · simp only [Option.some.injEq, Prod.mk.injEq] at h
              rw [← h.2]; exact hb
          · simp only [Option.some.injEq, Prod.mk.injEq] at h
            rw [← h.2]; exact hb
  · intro tid hc hb
    subst hc
    have hsus : ∀ (x : task_state) (t : p2pthread_cb_t),
        (suspend_tcb x t).suspend_reason b = .WAIT_READY → x.suspend_reason b = .WAIT_READY := by
      intro x t hx
      simp only [suspend_tcb] at hx
      by_cases hba : b = t.addr
      · subst hba
        rw [Function.update_same] at hx
        cases hx
      · rwa [update_other _ _ _ _ hba] at hx
    simp only [t_step, t_suspend] at h
    split at h
    · split at h
      · split at h
        · split at h
          · simp only [Option.some.injEq, Prod.mk.injEq] at h
            rw [← h.2] at hb; exact hsus _ _ hb
          · simp only [Option.some.injEq, Prod.mk.injEq] at h
            rw [← h.2] at hb; exact hb
        · simp only [Option.some.injEq, Prod.mk.injEq] at h
          rw [← h.2] at hb; exact hsus _ _ hb
      · simp only [Option.some.injEq, Prod.mk.injEq] at h
        rw [← h.2] at hb; exact hb
    · split at h
      · split at h
        · split at h
          · cases h
          · split at h
            · simp only [Option.some.injEq, Prod.mk.injEq] at h
              rw [← h.2] at hb
              exact hsus _ _ hb
            · split at h
              · simp only [Option.some.injEq, Prod.mk.injEq] at h
                rw [← h.2] at hb; exact hb
              · simp only [Option.some.injEq, Prod.mk.injEq] at h
                rw [← h.2] at hb
                exact hsus _ _ hb
        · simp only [Option.some.injEq, Prod.mk.injEq] at h
          rw [← h.2] at hb; exact hb
      · simp only [Option.some.injEq, Prod.mk.injEq] at h
        rw [← h.2] at hb; exact hb

theorem t_create_reason (host : host_t) (s : task_state) (pri b : Nat) (r : t_create_result)
    (h : t_create host s pri (some b) = some r) :
    r.state.suspend_reason b = .WAIT_TSTRT := by
  unfold t_create at h
  dsimp only at h
  split at h
  · cases h
  · split at h
    · simp only [Option.some.injEq] at h
      rw [← h]
      exact Function.update_same _ _ _
    · simp only [Option.some.injEq] at h
      rw [← h]
      exact Function.update_same _ _ _

/-- A `t_suspend` that is about a started task leaves a task that has not
been started as it is. -/
theorem t_suspend_keeps_unstarted (host : host_t) (s s' : task_state) (me e b tid : Nat)
    (h : t_suspend host s me tid = some (e, s'))
    (hok : suspends_started_task s me (.suspend tid) = true)
    (hb : s.suspend_reason b = .WAIT_TSTRT) : s'.suspend_reason b = .WAIT_TSTRT := by
  have hsus : ∀ (x : task_state) (t : p2pthread_cb_t), x.suspend_reason = s.suspend_reason →
      named_tcb s.sched me tid = some t → (suspend_tcb x t).suspend_reason b = .WAIT_TSTRT := by
    intro x t hx ht
    simp only [suspends_started_task, ht, decide_eq_true_eq] at hok
    have hba : b ≠ t.addr := fun hba => hok (by rw [← hba]; exact hb)
    simp only [suspend_tcb, hx]
    rw [update_other _ _ _ _ hba]; exact hb
  simp only [t_suspend] at h
  split at h
  · rename_i h0
    have hn : named_tcb s.sched me tid = my_tcb s.sched me := by simp [named_tcb, h0]
    split at h
    · rename_i self_tcb hself
      rw [hself] at hn
      split at h
      · split at h
        · simp only [Option.some.injEq, Prod.mk.injEq] at h
          rw [← h.2]; exact hsus s self_tcb rfl hn
        · simp only [Option.some.injEq, Prod.mk.injEq] at h
          rw [← h.2]; exact hb
      · simp only [Option.some.injEq, Prod.mk.injEq] at h
        rw [← h.2]; exact hsus s self_tcb rfl hn
    · simp only [Option.some.injEq, Prod.mk.injEq] at h
      rw [← h.2]; exact hb
  · rename_i h0
    have hn : named_tcb s.sched me tid = tcb_for s.sched tid := by simp [named_tcb, h0]
    split at h
    · rename_i current_tcb hcur
      rw [hcur] at hn
      split at h
      · split at h
        · cases h
        · split at h
          · simp only [Option.some.injEq, Prod.mk.injEq] at h
            rw [← h.2]
            exact hsus _ current_tcb rfl hn
          · split at h
            · simp only [Option.some.injEq, Prod.mk.injEq] at h
              rw [← h.2]; exact hb
            · simp only [Option.some.injEq, Prod.mk.injEq] at h
              rw [← h.2]
              exact hsus _ current_tcb rfl hn
      · simp only [Option.some.injEq, Prod.mk.injEq] at h
        rw [← h.2]; exact hb
    · simp only [Option.some.injEq, Prod.mk.injEq] at h
      rw [← h.2]; exact hb

/-- Over a sequence of calls in which every `t_suspend` is about a started
task, a block leaves `WAIT_TSTRT` only when the sequence has a `t_start`. -/
theorem t_run_started_only (host : host_t) (b : Nat) :
    ∀ (calls : List (Nat × t_call)) (s s' : task_state) (errors : List Nat),
      t_run host s calls = some (errors, s') → suspends_started host s calls = true →
      s.suspend_reason b = .WAIT_TSTRT → s'.suspend_reason b ≠ .WAIT_TSTRT →
      ∃ c ∈ calls, is_start c.2 = true
  | [], s, s', errors, h, _, hb, hb' => by
      simp only [t_run, Option.some.injEq, Prod.mk.injEq] at h
      rw [← h.2] at hb'
      exact absurd hb hb'
  | (me, call) :: calls, s, s', errors, h, hok, hb, hb' => by
      simp only [t_run] at h
      cases hstep : t_step host s me call with
      | none => simp [hstep] at h
      | some r =>
          obtain ⟨e, s1⟩ := r
          simp only [hstep] at h
          cases hrun : t_run host s1 calls with
          | none => simp [hrun] at h
          | some r2 =>
              obtain ⟨errs, s2⟩ := r2
              simp only [hrun, Option.some.injEq, Prod.mk.injEq] at h
              simp only [suspends_started, hstep, Bool.and_eq_true] at hok
              have hrest : ∀ hb1 : s1.suspend_reason b = .WAIT_TSTRT,
                  ∃ c ∈ (me, call) :: calls, is_start c.2 = true := by
                intro hb1
                obtain ⟨c, hc, hcs⟩ := t_run_started_only host b calls s1 s2 errs hrun hok.2 hb1
                  (by rw [h.2]; exact hb')
                exact ⟨c, List.mem_cons_of_mem _ hc, hcs⟩
              cases call with
              | start tid mode parmblk pc => exact ⟨_, List.mem_cons_self _ _, rfl⟩
              | suspend tid =>
                  exact hrest (t_suspend_keeps_unstarted host s s1 me e b tid hstep hok.1 hb)
              | resume tid =>
                  exact hrest ((t_step_reason host s s1 me e b (.resume tid) hstep).1 rfl hb)

/-- C22 fails for a task that has not been started: `t_suspend` makes no test
for `WAIT_TSTRT`. Task 1 has been created and not started: `t_suspend(1)` by
thread 101 returns 0, stores `WAIT_TSUSP` and sends SIGSTOP to the null
thread id of the task; `t_resume(1)` returns 0 and stores `WAIT_READY`; the
task has left `WAIT_TSTRT` through no `t_start`, it has no thread, and
`t_start(1)` returns `ERR_ACTIVE` from then on. -/
theorem t_suspend_moves_unstarted_task :
    (one_task 0).suspend_reason 4096 = .WAIT_TSTRT ∧
    (tcb_for (one_task 0).sched 1).map (fun t => (t.addr, t.pthrid)) = some (4096, 0) ∧
    ((t_run linux_host (one_task 0)
        [(101, .suspend 1), (101, .resume 1), (101, .start 1 0 true (some (102, 0)))]).map
        fun r => (r.1, r.2.suspend_reason 4096, r.2.signals,
          (tcb_for r.2.sched 1).map (fun t => t.pthrid)))
      = some ([ERR_NO_ERROR, ERR_NO_ERROR, ERR_ACTIVE], .WAIT_READY,
          [(0, SIGSTOP), (0, SIGCONT)], some 0) :=
  ⟨rfl, rfl, rfl⟩

/-- A task that holds the scheduler lock is not suspended by its own
`t_suspend`, as the comments of `t_suspend` say: thread 103 (task 3, ready)
holds the lock at level 1, and its `t_suspend` of itself, by id 0 or by id 3,
returns 0, sends no signal and leaves it `WAIT_READY`. -/
theorem t_suspend_leaves_lock_holder :
    ((t_suspend linux_host locked_tasks 103 0).map fun r =>
        (r.1, r.2.suspend_reason 4096, r.2.signals))
      = some (ERR_NO_ERROR, .WAIT_READY, []) ∧
    ((t_suspend linux_host locked_tasks 103 3).map fun r =>
        (r.1, r.2.suspend_reason 4096, r.2.signals))
      = some (ERR_NO_ERROR, .WAIT_READY, []) :=
  ⟨rfl, rfl⟩

/-- The transitions of C22 that the code has. `t_create` leaves the new block
in `WAIT_TSTRT`. For a caller that may take the scheduler lock and a task id
other than 0 that names the block at `a`: `t_start` with a thread granted
moves `WAIT_TSTRT` to `WAIT_READY` and returns 0, and in any other state
returns `ERR_ACTIVE` and changes no state; `t_suspend` returns `ERR_SUSP` and
changes nothing for a block in `WAIT_TSUSP`, and moves a block in
`WAIT_READY` that is not the caller's own to `WAIT_TSUSP` with status 0;
`t_resume` moves `WAIT_TSUSP` to `WAIT_READY` with status 0 and in any other
state returns `ERR_NOTSUSP` and changes no state. A caller that suspends
itself by id 0 is left as it is, with status 0, while it holds the scheduler
lock, and is moved to `WAIT_TSUSP` otherwise. Over every sequence of calls in
which each `t_suspend` is about a started task, a block leaves `WAIT_TSTRT`
only when the sequence has a `t_start`; and no `t_suspend` makes a block
`WAIT_READY`. -/
theorem suspend_reason_transitions (host : host_t) (s : task_state) (me tid a : Nat)
    (hlock : s.sched.scheduler_locked = 0 ∨ s.sched.scheduler_locked = me)
    (hlevel : s.sched.sched_lock_level ≤ ULONG_MAX) (htid : tid ≠ 0)
    (hfor : (tcb_for s.sched tid).map (fun t => t.addr) = some a) :
    (∀ s0 pri b r, t_create host s0 pri (some b) = some r →
      r.state.suspend_reason b = .WAIT_TSTRT) ∧
    (s.suspend_reason a = .WAIT_TSTRT → ∀ mode th pr,
      ∃ s', t_start host s me tid mode true (some (th, pr)) = some (ERR_NO_ERROR, s') ∧
        s'.suspend_reason = Function.update s.suspend_reason a .WAIT_READY) ∧
    (s.suspend_reason a ≠ .WAIT_TSTRT → ∀ mode parmblk pc,
      ∃ s', t_start host s me tid mode parmblk pc = some (ERR_ACTIVE, s') ∧
        s'.suspend_reason = s.suspend_reason) ∧
    (s.suspend_reason a = .WAIT_TSUSP → t_suspend host s me tid = some (ERR_SUSP, s)) ∧
    (s.suspend_reason a = .WAIT_READY →
      (my_tcb s.sched me).map (fun t => t.addr) ≠ some a →
      ∃ s', t_suspend host s me tid = some (ERR_NO_ERROR, s') ∧
        s'.suspend_reason = Function.update s.suspend_reason a .WAIT_TSUSP) ∧
    (∀ c, (my_tcb s.sched me).map (fun t => t.addr) = some c →
      (s.sched.scheduler_locked = me → 1 ≤ s.sched.sched_lock_level →
        t_suspend host s me 0 = some (ERR_NO_ERROR, s)) ∧
      (s.sched.scheduler_locked ≠ me →
        ∃ s', t_suspend host s me 0 = some (ERR_NO_ERROR, s') ∧
          s'.suspend_reason = Function.update s.suspend_reason c .WAIT_TSUSP)) ∧
    (s.suspend_reason a = .WAIT_TSUSP →
      ∃ s', t_resume host s me tid = some (ERR_NO_ERROR, s') ∧
        s'.suspend_reason = Function.update s.suspend_reason a .WAIT_READY) ∧
    (s.suspend_reason a ≠ .WAIT_TSUSP →
      ∃ s', t_resume host s me tid = some (ERR_NOTSUSP, s') ∧
        s'.suspend_reason = s.suspend_reason) ∧
    (∀ b calls s0 s' errors, t_run host s0 calls = some (errors, s') →
      suspends_started host s0 calls = true →
      s0.suspend_reason b = .WAIT_TSTRT → s'.suspend_reason b ≠ .WAIT_TSTRT →
      ∃ c ∈ calls, is_start c.2 = true) ∧
    (∀ b s0 s' caller e tid', t_step host s0 caller (.suspend tid') = some (e, s') →
      s'.suspend_reason b = .WAIT_READY → s0.suspend_reason b = .WAIT_READY) :=
  ⟨fun s0 pri b r h => t_create_reason host s0 pri b r h,
    fun h mode th pr => t_start_not_started host s me tid mode a th pr hlock hlevel hfor h,
    fun h mode parmblk pc => t_start_active host s me tid mode a parmblk pc hlock hlevel hfor h,
    fun h => t_suspend_already host s me tid a htid hfor h,
    fun h hself => t_suspend_other host s me tid a hlock hlevel htid hfor hself
      (by rw [h]; exact fun hc => by cases hc),
    fun c hc => t_suspend_self host s me c hc,
    fun h => t_resume_suspended host s me tid a hlock hlevel hfor h,
    fun h => t_resume_not_suspended host s me tid a hlock hlevel hfor h,
    fun b calls s0 s' errors h hok hb hb' =>
      t_run_started_only host b calls s0 s' errors h hok hb hb',
    fun b s0 s' caller e tid' h hb =>
      (t_step_reason host s0 s' caller e b (.suspend tid') h).2 tid' rfl hb⟩

/-- An instance of the transitions: thread 103, which holds the scheduler
lock, suspends the ready task 4 and finds it suspended at the second call;
its `t_resume` of the ready task 4 returns `ERR_NOTSUSP`; its `t_suspend` of
itself changes nothing. -/
theorem suspend_reason_transitions_witness :
    (∃ s', t_suspend linux_host locked_tasks 103 4 = some (ERR_NO_ERROR, s') ∧
      s'.suspend_reason 8192 = .WAIT_TSUSP ∧
      t_suspend linux_host s' 103 4 = some (ERR_SUSP, s')) ∧
    (∃ s', t_resume linux_host locked_tasks 103 4 = some (ERR_NOTSUSP, s')) ∧
    t_suspend linux_host locked_tasks 103 0 = some (ERR_NO_ERROR, locked_tasks) := by
  obtain ⟨_, _, _, _, h5, h6, _, h8, _, _⟩ :=
    suspend_reason_transitions linux_host locked_tasks 103 4 8192 (Or.inr rfl) (by decide)
      (by decide) rfl
  obtain ⟨s', hs', hr⟩ := h5 rfl (by decide)
  refine ⟨⟨s', hs', by rw [hr]; rfl, ?_⟩, ?_, (h6 4096 rfl).1 rfl (by decide)⟩
  · have hfor' : (tcb_for s'.sched 4).map (fun t => t.addr) = some 8192 := by
      have h0 : t_suspend linux_host locked_tasks 103 4 = some (ERR_NO_ERROR, s') := hs'
      have h1 : (t_suspend linux_host locked_tasks 103 4).map
          (fun r => (tcb_for r.2.sched 4).map (fun t => t.addr)) = some (some 8192) := rfl
      rw [h0] at h1
      simpa using h1
    exact t_suspend_already linux_host s' 103 4 8192 (by decide) hfor' (by rw [hr]; rfl)
  · obtain ⟨s2, h2, _⟩ := h8 (by decide)
    exact ⟨s2, h2⟩

end Sched
namespace Sched

/-! ### `t_setreg` and `t_getreg` (task.c) -/

theorem t_getreg_named (host : host_t) (s : task_state) (me tid r a : Nat)
    (hlock : s.sched.scheduler_locked = 0 ∨ s.sched.scheduler_locked = me)
    (hlevel : s.sched.sched_lock_level ≤ ULONG_MAX) (hr : r < 8)
    (hname : (named_tcb s.sched me tid).map (fun t => t.addr) = some a) :
    ∃ su : sched_state,
      t_getreg host s me tid r = some (ERR_NO_ERROR, some (s.registers a r), with_sched s su) ∧
      (su.scheduler_locked = 0 ∨ su.scheduler_locked = me) ∧
      su.sched_lock_level ≤ ULONG_MAX ∧
      su.task_list.map tcb_key = s.sched.task_list.map tcb_key := by
  obtain ⟨sl, hsl, hk, ho, hl, hku⟩ := lock_unlock_state host s.sched me hlock hlevel
  have hn : (named_tcb sl me tid).map (fun t => t.addr) = some a := by
    rw [addr_of_keys (named_tcb_of_keys s.sched sl me tid hk)]; exact hname
  obtain ⟨tcb, htcb, ha⟩ := named_of_addr hn
  have hr' : r < NUM_TASK_REGS := hr
  refine ⟨sched_unlock sl me, ?_, ho, hl, hku⟩
  simp only [t_getreg, hr', if_true, hsl, with_sched, htcb, ha]

theorem t_setreg_named (host : host_t) (s : task_state) (me tid r v a : Nat)
    (hlock : s.sched.scheduler_locked = 0 ∨ s.sched.scheduler_locked = me)
    (hlevel : s.sched.sched_lock_level ≤ ULONG_MAX) (hr : r < 8)
    (hname : (named_tcb s.sched me tid).map (fun t => t.addr) = some a) :
    ∃ su : sched_state,
      t_setreg host s me tid r v = some (ERR_NO_ERROR,
        { sched := su, suspend_reason := s.suspend_reason,
          registers := fun b i => if b = a ∧ i = r then v else s.registers b i,
          signals := s.signals }) ∧
      (su.scheduler_locked = 0 ∨ su.scheduler_locked = me) ∧
      su.sched_lock_level ≤ ULONG_MAX ∧
      su.task_list.map tcb_key = s.sched.task_list.map tcb_key := by
  obtain ⟨sl, hsl, hk, ho, hl, hku⟩ := lock_unlock_state host s.sched me hlock hlevel
  have hn : (named_tcb sl me tid).map (fun t => t.addr) = some a := by
    rw [addr_of_keys (named_tcb_of_keys s.sched sl me tid hk)]; exact hname
  obtain ⟨tcb, htcb, ha⟩ := named_of_addr hn
  have hr' : r < NUM_TASK_REGS := hr
  refine ⟨sched_unlock sl me, ?_, ho, hl, hku⟩
  simp only [t_setreg, hr', if_true, hsl, with_sched, htcb, ha]

/-- C23. For a caller that may take the scheduler lock: when the task id
names a block (the caller's own for id 0) and the register number is below 8,
`t_getreg` returns 0 with the value of the register, `t_setreg` returns 0,
`t_getreg` after it returns 0 with the value written, every other register of
every block is as before, and `t_getreg` changes no register; for a register
number of 8 or more both calls return `ERR_REGNUM` and leave the state as it
is, whatever the id; for a register number below 8 and an id that names no
block both return `ERR_OBJDEL` and change no register. -/
theorem t_setreg_then_t_getreg (host : host_t) (s : task_state) (me tid r v a : Nat)
    (hlock : s.sched.scheduler_locked = 0 ∨ s.sched.scheduler_locked = me)
    (hlevel : s.sched.sched_lock_level ≤ ULONG_MAX) :
    (r < 8 → (named_tcb s.sched me tid).map (fun t => t.addr) = some a →
      ∃ s0 s1 s2, t_getreg host s me tid r = some (ERR_NO_ERROR, some (s.registers a r), s0) ∧
        s0.registers = s.registers ∧
        t_setreg host s me tid r v = some (ERR_NO_ERROR, s1) ∧
        t_getreg host s1 me tid r = some (ERR_NO_ERROR, some v, s2) ∧
        s1.registers a r = v ∧
        (∀ b i, (b ≠ a ∨ i ≠ r) → s1.registers b i = s.registers b i) ∧
        s2.registers = s1.registers) ∧
    (8 ≤ r → t_setreg host s me tid r v = some (ERR_REGNUM, s) ∧
      t_getreg host s me tid r = some (ERR_REGNUM, none, s)) ∧
    (r < 8 → named_tcb s.sched me tid = none →
      ∃ s1 s2, t_setreg host s me tid r v = some (ERR_OBJDEL, s1) ∧
        s1.registers = s.registers ∧
        t_getreg host s me tid r = some (ERR_OBJDEL, none, s2) ∧
        s2.registers = s.registers) := by
  refine ⟨?_, ?_, ?_⟩
  · intro hr hname
    obtain ⟨su0, hg0, _, _, _⟩ := t_getreg_named host s me tid r a hlock hlevel hr hname
    obtain ⟨su, hset, ho, hl, hk⟩ := t_setreg_named host s me tid r v a hlock hlevel hr hname
    have hname1 : (named_tcb su me tid).map (fun t => t.addr) = some a := by
      rw [addr_of_keys (named_tcb_of_keys s.sched su me tid hk)]; exact hname
    obtain ⟨su2, hget, _, _, _⟩ := t_getreg_named host
      { sched := su, suspend_reason := s.suspend_reason,
        registers := fun b i => if b = a ∧ i = r then v else s.registers b i,
        signals := s.signals } me tid r a ho hl hr hname1
    refine ⟨with_sched s su0,
      ⟨su, s.suspend_reason, (fun b i => if b = a ∧ i = r then v else s.registers b i),
        s.signals⟩,
      with_sched ⟨su, s.suspend_reason,
        (fun b i => if b = a ∧ i = r then v else s.registers b i), s.signals⟩ su2,
      hg0, rfl, hset, ?_, ?_, ?_, rfl⟩
    · rw [hget]; simp
    · simp
    · intro b i hbi
      have : ¬ (b = a ∧ i = r) := by
        rintro ⟨h1, h2⟩
        rcases hbi with h | h
        · exact h h1
        · exact h h2
      simp [this]
  · intro hr
    have hr' : ¬ r < NUM_TASK_REGS := by unfold NUM_TASK_REGS; omega
    exact ⟨by simp only [t_setreg, hr', if_false], by simp only [t_getreg, hr', if_false]⟩
  · intro hr hnone
    obtain ⟨sl, hsl, hk, _, _, _⟩ := lock_unlock_state host s.sched me hlock hlevel
    have hn : named_tcb sl me tid = none := by
      have h := named_tcb_of_keys s.sched sl me tid hk
      rw [hnone] at h
      cases hx : named_tcb sl me tid with
      | none => rfl
      | some t => rw [hx] at h; simp at h
    have hr' : r < NUM_TASK_REGS := hr
    exact ⟨with_sched s (sched_unlock sl me), with_sched s (sched_unlock sl me),
      by simp only [t_setreg, hr', if_true, hsl, with_sched, hn], rfl,
      by simp only [t_getreg, hr', if_true, hsl, with_sched, hn], rfl⟩

/-- Witness for C23: thread 103 (task 3) of the two ready tasks writes 77 to
register 5 of task 4 and reads it back, and names itself by id 0. -/
theorem t_setreg_then_t_getreg_witness :
    (∃ s1 s2, t_setreg linux_host locked_tasks 103 4 5 77 = some (ERR_NO_ERROR, s1) ∧
      t_getreg linux_host s1 103 4 5 = some (ERR_NO_ERROR, some 77, s2) ∧
      s1.registers 4096 5 = 0) ∧
    t_getreg linux_host locked_tasks 103 4 8 = some (ERR_REGNUM, none, locked_tasks) ∧
    (∃ s2, t_getreg linux_host locked_tasks 103 9 5 = some (ERR_OBJDEL, none, s2)) := by
  obtain ⟨h1, h2, h3⟩ := t_setreg_then_t_getreg linux_host locked_tasks 103 4 5 77 8192
    (Or.inr rfl) (by decide)
  obtain ⟨_, s1, s2, _, _, hs, hg, _, hother, _⟩ := h1 (by decide) rfl
  refine ⟨⟨s1, s2, hs, hg, ?_⟩, ?_, ?_⟩
  · rw [hother 4096 5 (Or.inl (by decide))]
    rfl
  · exact (t_setreg_then_t_getreg linux_host locked_tasks 103 4 8 77 8192
      (Or.inr rfl) (by decide)).2.1 (by decide) |>.2
  · obtain ⟨_, s2', _, _, hg', _⟩ := (t_setreg_then_t_getreg linux_host locked_tasks 103 9 5 77 0
      (Or.inr rfl) (by decide)).2.2 (by decide) rfl
    exact ⟨s2', hg'⟩

end Sched

namespace Registry

/-! ### The ids of new objects (memblk.c, queue.c, vqueue.c, sema4.c, task.c) -/

theorem max_fold_ge {α : Type} (key : α → Nat) (l : List α) :
    ∀ (m : Nat), m ≤ l.foldl (fun m e => if key e > m then key e else m) m ∧
      ∀ e ∈ l, key e ≤ l.foldl (fun m e => if key e > m then key e else m) m := by
  induction l with
  | nil => intro m; simp
  | cons x xs ih =>
      intro m
      simp only [List.foldl_cons, List.mem_cons]
      by_cases hx : key x > m
      · simp only [hx, if_true]
        have h := ih (key x)
        refine ⟨by have := h.1; omega, ?_⟩
        rintro e (rfl | he)
        · exact h.1
        · exact h.2 e he
      · simp only [hx, if_false]
        have h := ih m
        refine ⟨h.1, ?_⟩
        rintro e (rfl | he)
        · have := h.1
          omega
        · exact h.2 e he

theorem max_fold_le {α : Type} (key : α → Nat) (b : Nat) (l : List α) :
    ∀ (m : Nat), m ≤ b → (∀ e ∈ l, key e ≤ b) →
      l.foldl (fun m e => if key e > m then key e else m) m ≤ b := by
  induction l with
  | nil => intro m hm _; simpa using hm
  | cons x xs ih =>
      intro m hm h
      simp only [List.foldl_cons]
      have hx : key x ≤ b := h x (by simp)
      have hxs : ∀ e ∈ xs, key e ≤ b := fun e he => h e (List.mem_cons_of_mem _ he)
      by_cases hc : key x > m
      · simp only [hc, if_true]
        exact ih (key x) hx hxs
      · simp only [hc, if_false]
        exact ih m hm hxs

theorem max_fold_eq {α : Type} (key : α → Nat) (first : α) (rest : List α) (e : α)
    (he : e ∈ first :: rest) (hmax : ∀ x ∈ first :: rest, key x ≤ key e) :
    rest.foldl (fun m e => if key e > m then key e else m) (key first) = key e := by
  have hle := max_fold_le key (key e) rest (key first) (hmax first (by simp))
    (fun x hx => hmax x (List.mem_cons_of_mem _ hx))
  have hge := max_fold_ge key rest (key first)
  rcases List.mem_cons.mp he with rfl | he
  · have := hge.1
    omega
  · have := hge.2 e he
    omega

theorem find_append_new {α : Type} (key : α → Nat) (l : List α) (new_block : α)
    (h : ∀ e ∈ l, key e ≠ key new_block) :
    (l ++ [new_block]).find? (fun e => decide (key e = key new_block)) = some new_block := by
  induction l with
  | nil => simp
  | cons x xs ih =>
      have hx : key x ≠ key new_block := h x (by simp)
      simp only [List.cons_append, List.find?_cons, hx, decide_False]
      exact ih (fun e he => h e (List.mem_cons_of_mem _ he))

theorem pairwise_append_new {α : Type} (key : α → Nat) (l : List α) (new_block : α)
    (h : ∀ e ∈ l, key e < key new_block) (hs : l.Pairwise (fun a b => key a < key b)) :
    (l ++ [new_block]).Pairwise (fun a b => key a < key b) := by
  rw [List.pairwise_append]
  refine ⟨hs, List.pairwise_singleton _ _, ?_⟩
  intro a ha b hb
  rw [List.mem_singleton] at hb
  rw [hb]
  exact h a ha

/-- The id rule holds for a family whose functions have the shape all five
families share, in a list whose ids are below `2 ^ 32 - 1`. -/
theorem fresh_id_rule_of {α : Type} (key : α → Nat) (first_id : Nat) (new_id : List α → Nat)
    (link : List α → α → List α) (lookup : List α → Nat → Option α) (l : List α)
    (hnil : new_id [] = first_id)
    (hcons : ∀ first rest, new_id (first :: rest)
      = (rest.foldl (fun m e => if key e > m then key e else m) (key first) + 1) % 4294967296)
    (hlink : ∀ l new_block, (∀ e ∈ l, key e < key new_block) →
      link l new_block = l ++ [new_block])
    (hlookup : ∀ l id, lookup l id = l.find? (fun e => decide (key e = id)))
    (hsmall : ∀ e ∈ l, key e < 4294967295) :
    fresh_id_rule key first_id new_id link lookup l := by
  have hgt : ∀ e ∈ l, key e < new_id l := by
    cases l with
    | nil => intro e he; simp at he
    | cons first rest =>
        intro e he
        have hle := max_fold_le key 4294967294 rest (key first)
          (by have := hsmall first (by simp); omega)
          (fun x hx => by have := hsmall x (List.mem_cons_of_mem _ hx); omega)
        have hge := max_fold_ge key rest (key first)
        rw [hcons, Nat.mod_eq_of_lt (by omega)]
        rcases List.mem_cons.mp he with rfl | he
        · have := hge.1
          omega
        · have := hge.2 e he
          omega
  refine ⟨fun h => by rw [h, hnil], ?_, fun e he => Nat.ne_of_lt (hgt e he), ?_⟩
  · intro e he hmax
    cases l with
    | nil => simp at he
    | cons first rest =>
        have hs := hsmall e he
        rw [hcons, max_fold_eq key first rest e he hmax, Nat.mod_eq_of_lt (by omega)]
  · intro new_block hkey
    have hlt : ∀ e ∈ l, key e < key new_block := fun e he => by rw [hkey]; exact hgt e he
    have hl := hlink l new_block hlt
    refine ⟨hl, ?_, fun hs => by rw [hl]; exact pairwise_append_new key l new_block hlt hs⟩
    rw [hl, hlookup, ← hkey]
    exact find_append_new key l new_block (fun e he => Nat.ne_of_lt (hlt e he))

theorem pt_link_end (new_prtn : MemBlk.pt_entry) (l : List MemBlk.pt_entry)
    (h : ∀ e ∈ l, e.prtn_id < new_prtn.prtn_id) : MemBlk.link_pcb l new_prtn = l ++ [new_prtn] := by
  have haft : ∀ (l : List MemBlk.pt_entry), (∀ e ∈ l, e.prtn_id < new_prtn.prtn_id) →
      MemBlk.link_after new_prtn l = l ++ [new_prtn] := by
    intro l
    induction l with
    | nil => intro _; rfl
    | cons x xs ih =>
        intro h
        have hx : ¬ x.prtn_id > new_prtn.prtn_id := by have := h x (by simp); omega
        simp only [MemBlk.link_after, hx, if_false, List.cons_append,
          ih (fun e he => h e (List.mem_cons_of_mem _ he))]
  cases l with
  | nil => rfl
  | cons x xs =>
      simp only [MemBlk.link_pcb, List.cons_append,
        haft xs (fun e he => h e (List.mem_cons_of_mem _ he))]

theorem q_link_end (new_queue : Queue.q_entry) (l : List Queue.q_entry)
    (h : ∀ e ∈ l, e.qid < new_queue.qid) : Queue.link_qcb l new_queue = l ++ [new_queue] := by
  have haft : ∀ (l : List Queue.q_entry), (∀ e ∈ l, e.qid < new_queue.qid) →
      Queue.link_qcb_after new_queue l = l ++ [new_queue] := by
    intro l
    induction l with
    | nil => intro _; rfl
    | cons x xs ih =>
        intro h
        have hx : ¬ x.qid > new_queue.qid := by have := h x (by simp); omega
        simp only [Queue.link_qcb_after, hx, if_false, List.cons_append,
          ih (fun e he => h e (List.mem_cons_of_mem _ he))]
  cases l with
  | nil => rfl
  | cons x xs =>
      simp only [Queue.link_qcb, List.cons_append,
        haft xs (fun e he => h e (List.mem_cons_of_mem _ he))]

theorem vq_link_end (new_vqueue : VQueue.vq_entry) (l : List VQueue.vq_entry)
    (h : ∀ e ∈ l, e.qid < new_vqueue.qid) : VQueue.link_qcb l new_vqueue = l ++ [new_vqueue] := by
  have haft : ∀ (l : List VQueue.vq_entry), (∀ e ∈ l, e.qid < new_vqueue.qid) →
      VQueue.link_qcb_after new_vqueue l = l ++ [new_vqueue] := by
    intro l
    induction l with
    | nil => intro _; rfl
    | cons x xs ih =>
        intro h
        have hx : ¬ x.qid > new_vqueue.qid := by have := h x (by simp); omega
        simp only [VQueue.link_qcb_after, hx, if_false, List.cons_append,
          ih (fun e he => h e (List.mem_cons_of_mem _ he))]
  cases l with
  | nil => rfl
  | cons x xs =>
      simp only [VQueue.link_qcb, List.cons_append,
        haft xs (fun e he => h e (List.mem_cons_of_mem _ he))]

theorem sm_link_end (new_sema4 : Sema4.sm_entry) (l : List Sema4.sm_entry)
    (h : ∀ e ∈ l, e.smid < new_sema4.smid) : Sema4.link_smcb l new_sema4 = l ++ [new_sema4] := by
  have haft : ∀ (l : List Sema4.sm_entry), (∀ e ∈ l, e.smid < new_sema4.smid) →
      Sema4.link_smcb_after new_sema4 l = l ++ [new_sema4] := by
    intro l
    induction l with
    | nil => intro _; rfl
    | cons x xs ih =>
        intro h
        have hx : ¬ x.smid > new_sema4.smid := by have := h x (by simp); omega
        simp only [Sema4.link_smcb_after, hx, if_false, List.cons_append,
          ih (fun e he => h e (List.mem_cons_of_mem _ he))]
  cases l with
  | nil => rfl
  | cons x xs =>
      simp only [Sema4.link_smcb, List.cons_append,
        haft xs (fun e he => h e (List.mem_cons_of_mem _ he))]

theorem ulong_succ_mod (x : Nat) : MemBlk.ulong ((x : Int) + 1) = (x + 1) % 4294967296 := by
  unfold MemBlk.ulong
  omega

theorem t_create_list (host : Sched.host_t) (s : Sched.task_state) (pri : Nat)
    (ts_malloc : Option Nat) (r : Sched.t_create_result)
    (h : Sched.t_create host s pri ts_malloc = some r) :
    r.tid = Sched.new_tid s.sched.task_list ∧
    (r.error = Sched.ERR_NO_ERROR → ∃ block : Sched.p2pthread_cb_t, block.taskid = r.tid ∧
      r.state.sched.task_list = s.sched.task_list ++ [block]) ∧
    (r.error ≠ Sched.ERR_NO_ERROR → r.state.sched.task_list = s.sched.task_list) := by
  unfold Sched.t_create at h
  dsimp only at h
  split at h
  · simp only [Option.some.injEq] at h
    rw [← h]
    exact ⟨rfl, fun he => absurd he (show Sched.ERR_OBJTFULL ≠ Sched.ERR_NO_ERROR by decide),
      fun _ => rfl⟩
  · split at h
    · cases h
    · split at h
      · rename_i he
        simp only [Option.some.injEq] at h
        rw [← h]
        exact ⟨rfl, fun _ => ⟨_, rfl, rfl⟩, fun hne => absurd he hne⟩
      · rename_i he
        simp only [Option.some.injEq] at h
        rw [← h]
        exact ⟨rfl, fun h0 => absurd h0 he, fun _ => rfl⟩

/-- C24 fails when the greatest id of a list is 4294967295: the increment
wraps and the new id is 0. With the queues A (id 0) and B (id 4294967295) in
the list, `q_vcreate` of C returns 0 and stores the id 0, which A has; the
list holds the ids 0, 0, 4294967295 and the lookup by 0 finds A. With the
tasks 1 and 4294967295, `t_create` stores the id 0, neither 1 nor one more
than the greatest id, the list 1, 4294967295, 0 is not ascending, and the
next `t_create` stores 0 again. -/
theorem new_id_wraps_to_zero :
    VQueue.old_vqueues.map (fun e => (e.qid, e.qname)) = [(0, [65]), (4294967295, [66])] ∧
    (let r := VQueue.q_vcreate_linked VQueue.old_vqueues [67] 0 4 16 true (some 8192)
        (fun _ => ⟨0, []⟩)
     (r.1, r.2.1, r.2.2.map (fun e => (e.qid, e.qname)),
        (VQueue.qcb_for r.2.2 0).map (fun e => e.qname)))
      = (VQueue.ERR_NO_ERROR, some 0, [(0, [65]), (0, [67]), (4294967295, [66])],
          some [65]) ∧
    ((Sched.t_create Sched.linux_host Sched.old_tasks 10 (some 12288)).map fun r =>
        (r.error, r.tid, r.state.sched.task_list.map (fun t => t.taskid)))
      = some (Sched.ERR_NO_ERROR, 0, [1, 4294967295, 0]) ∧
    ((Sched.t_create Sched.linux_host Sched.old_tasks 10 (some 12288)).bind fun r =>
        (Sched.t_create Sched.linux_host r.state 10 (some 16384)).map fun r =>
          (r.error, r.tid, r.state.sched.task_list.map (fun t => t.taskid)))
      = some (Sched.ERR_NO_ERROR, 0, [1, 4294967295, 0, 0]) :=
  ⟨rfl, rfl, rfl, rfl⟩

/-- C24, as the code has it: in a list of partitions, queues, variable-length
queues, semaphores or tasks whose ids are all below 4294967295, the new id is
1 for an empty list (0 for variable-length queues) and otherwise one more
than the greatest id of the list, it is the id of no block of the list, the
block that gets it is linked at the end, a lookup by the id finds that block,
and a list in ascending order of ids stays so. The id that `pt_create`,
`q_create`, `q_vcreate` and `sm_create` store through their last pointer is
the new id of the list, and the list afterwards is the list with the new
block linked; `t_create` stores the new id in any case and appends the block
to the task list when it returns 0, leaving the list as it is otherwise. -/
theorem new_id_follows_greatest :
    (∀ l : List MemBlk.pt_entry, (∀ e ∈ l, e.prtn_id < 4294967295) →
      fresh_id_rule (fun e => e.prtn_id) 1 MemBlk.new_prtn_id MemBlk.link_pcb
        MemBlk.pcb_for l) ∧
    (∀ l : List Queue.q_entry, (∀ e ∈ l, e.qid < 4294967295) →
      fresh_id_rule (fun e => e.qid) 1 Queue.new_qid Queue.link_qcb Queue.qcb_for l) ∧
    (∀ l : List VQueue.vq_entry, (∀ e ∈ l, e.qid < 4294967295) →
      fresh_id_rule (fun e => e.qid) 0 VQueue.new_vqid VQueue.link_qcb VQueue.qcb_for l) ∧
    (∀ l : List Sema4.sm_entry, (∀ e ∈ l, e.smid < 4294967295) →
      fresh_id_rule (fun e => e.smid) 1 Sema4.new_smid Sema4.link_smcb Sema4.smcb_for l) ∧
    (∀ l : List Sched.p2pthread_cb_t, (∀ e ∈ l, e.taskid < 4294967295) →
      fresh_id_rule (fun t => t.taskid) 1 Sched.new_tid (fun l tcb => l ++ [tcb])
        (fun l tid => Sched.tcb_for ⟨0, 0, l⟩ tid) l) ∧
    (∀ l name paddr length bsize flags pcb ts_malloc mem o id,
      MemBlk.pt_create_linked l name paddr length bsize flags pcb ts_malloc mem = some o →
      o.ptid = some id →
      id = MemBlk.new_prtn_id l ∧ ∃ prtn, o.prtn_list = MemBlk.link_pcb l ⟨id, name, prtn⟩) ∧
    (∀ l name qsize opt qcb ts_malloc mem error id l',
      Queue.q_create_linked l name qsize opt qcb ts_malloc mem = (error, some id, l') →
      id = Queue.new_qid l ∧ ∃ queue, l' = Queue.link_qcb l ⟨id, name, queue⟩) ∧
    (∀ l name opt qsize msglen qcb ts_malloc mem error id l',
      VQueue.q_vcreate_linked l name opt qsize msglen qcb ts_malloc mem = (error, some id, l') →
      id = VQueue.new_vqid l ∧ ∃ queue, l' = VQueue.link_qcb l ⟨id, name, queue⟩) ∧
    (∀ sem_value_max l name count opt ts_malloc error id l',
      Sema4.sm_create_linked sem_value_max l name count opt ts_malloc
          = (error, some id, l') →
      id = Sema4.new_smid l ∧ ∃ semaphore, l' = Sema4.link_smcb l ⟨id, name, semaphore⟩) ∧
    (∀ host s pri ts_malloc r, Sched.t_create host s pri ts_malloc = some r →
      r.tid = Sched.new_tid s.sched.task_list ∧
      (r.error = Sched.ERR_NO_ERROR → ∃ block : Sched.p2pthread_cb_t, block.taskid = r.tid ∧
        r.state.sched.task_list = s.sched.task_list ++ [block]) ∧
      (r.error ≠ Sched.ERR_NO_ERROR → r.state.sched.task_list = s.sched.task_list)) := by
  refine ⟨?_, ?_, ?_, ?_, ?_, ?_, ?_, ?_, ?_, ?_⟩
  · intro l hsmall
    exact fresh_id_rule_of _ 1 _ _ _ l rfl (fun first rest => ulong_succ_mod _)
      (fun l new_block h => pt_link_end new_block l h) (fun _ _ => rfl) hsmall
  · intro l hsmall
    exact fresh_id_rule_of _ 1 _ _ _ l rfl (fun _ _ => rfl)
      (fun l new_block h => q_link_end new_block l h) (fun _ _ => rfl) hsmall
  · intro l hsmall
    exact fresh_id_rule_of _ 0 _ _ _ l rfl (fun _ _ => rfl)
      (fun l new_block h => vq_link_end new_block l h) (fun _ _ => rfl) hsmall
  · intro l hsmall
    exact fresh_id_rule_of _ 1 _ _ _ l rfl (fun _ _ => rfl)
      (fun l new_block h => sm_link_end new_block l h) (fun _ _ => rfl) hsmall
  · intro l hsmall
    exact fresh_id_rule_of _ 1 _ _ _ l rfl (fun _ _ => rfl)
      (fun _ _ _ => rfl) (fun _ _ => rfl) hsmall
  · intro l name paddr length bsize flags pcb ts_malloc mem o id h hid
    unfold MemBlk.pt_create_linked at h
    split at h
    · cases h
    · split at h
      · simp only [Option.some.injEq] at h
        rw [← h] at hid ⊢
        simp only [Option.some.injEq] at hid
        rw [← hid]
        exact ⟨rfl, _, rfl⟩
      · simp only [Option.some.injEq] at h
        rw [← h] at hid
        cases hid
  · intro l name qsize opt qcb ts_malloc mem error id l' h
    unfold Queue.q_create_linked at h
    split at h
    · simp only [Prod.mk.injEq, Option.some.injEq] at h
      obtain ⟨_, hid, hl⟩ := h
      rw [← hid, ← hl]
      exact ⟨rfl, _, rfl⟩
    · simp only [Prod.mk.injEq] at h
      exact absurd h.2.1 (by simp)
  · intro l name opt qsize msglen qcb ts_malloc mem error id l' h
    unfold VQueue.q_vcreate_linked at h
    split at h
    · simp only [Prod.mk.injEq, Option.some.injEq] at h
      obtain ⟨_, hid, hl⟩ := h
      rw [← hid, ← hl]
      exact ⟨rfl, _, rfl⟩
    · simp only [Prod.mk.injEq] at h
      exact absurd h.2.1 (by simp)
  · intro sem_value_max l name count opt ts_malloc error id l' h
    unfold Sema4.sm_create_linked at h
    split at h
    · simp only [Prod.mk.injEq, Option.some.injEq] at h
      obtain ⟨_, hid, hl⟩ := h
      rw [← hid, ← hl]
      exact ⟨rfl, _, rfl⟩
    · simp only [Prod.mk.injEq] at h
      exact absurd h.2.1 (by simp)
  · intro host s pri ts_malloc r h
    exact t_create_list host s pri ts_malloc r h

/-- Witness for C24: the three `pt_create` calls of test.c store the ids 1, 2
and 3, and in the list of the two queues with the ids 1 and 2 the new id is
3. -/
theorem new_id_follows_greatest_witness :
    MemBlk.three_partitions (fun _ => 0) = some [some 1, some 2, some 3] ∧
    (∀ e ∈ Queue.two_queues, e.qid < 4294967295) ∧
    Queue.new_qid Queue.two_queues = 3 ∧
    (∀ e ∈ Queue.two_queues, e.qid ≠ Queue.new_qid Queue.two_queues) ∧
    ((Queue.q_create_linked Queue.two_queues [81, 85, 69, 51] 4 Queue.Q_LIMIT (some [])
        (some 12288) (fun _ => Queue.null_msg)).2.2.map fun e => e.qid) = [1, 2, 3] := by
  have hsmall : ∀ e ∈ Queue.two_queues, e.qid < 4294967295 := by
    intro e he
    have h2 : e.qid ∈ Queue.two_queues.map (fun e => e.qid) := List.mem_map_of_mem _ he
    have h3 : Queue.two_queues.map (fun e => e.qid) = [1, 2] := rfl
    rw [h3] at h2
    simp only [List.mem_cons, List.mem_singleton, List.not_mem_nil, or_false] at h2
    omega
  obtain ⟨_, _, hne, _⟩ := new_id_follows_greatest.2.1 Queue.two_queues hsmall
  exact ⟨rfl, hsmall, rfl, hne, rfl⟩

end Registry
namespace Queue
open Task

/-! ### The bounds of a fixed-message queue (queue.c) -/

/-- C25 fails for `q_delete`, which puts its deletion message in front
without the test for room that `q_urgent` and `q_broadcast` make. On a
Q_LIMIT queue of capacity 1 with task 8 pending and not yet run, `q_send` of
message 1 and `q_urgent` of message 2 return 0 and fill the queue up to
`msg_count = 2`, the bound; the part of `q_delete` under `queue_lock` then
makes `msg_count` 3 and writes the deletion message over message 1. It fails
also for the queue of capacity 0 without Q_LIMIT, where `q_send` moves
`queue_tail` into a block of 4 bytes and goes through a null pointer (no
result). -/
theorem q_delete_overfills_queue :
    (one_slot_queue.bind fun q =>
        (q_send q (1, 0, 0, 0) none).bind fun r =>
          (q_urgent r.2 (2, 0, 0, 0) none).map fun s =>
            (r.1, s.1, s.2.msg_count, msg_count_bound s.2, queued_msgs s.2))
      = some (ERR_NO_ERROR, ERR_NO_ERROR, 2, 2, some [(2, 0, 0, 0), (1, 0, 0, 0)]) ∧
    (one_slot_queue.bind fun q =>
        (q_send q (1, 0, 0, 0) none).bind fun r =>
          (q_urgent r.2 (2, 0, 0, 0) none).bind fun s =>
            (q_delete_mark s.2).map fun d =>
              (d.1, d.2.msg_count, msg_count_bound d.2, d.2.mem 4096, d.2.mem 4112))
      = some (ERR_TATQDEL, 3, 2, (2, 0, 0, 0), deleted_msg) ∧
    ((zero_size_queue 0).map fun q =>
        (msg_count_bound q, (q_send q (1, 0, 0, 0) (some 8192)).map fun r => r.1))
      = some (1, none) :=
  ⟨rfl, rfl, rfl⟩

end Queue

namespace SendMode

/-! ### The send type KILLD of a deleted queue or semaphore -/

/-- C26 fails: the last pending task sets the send type back to SEND before
the control block is freed. With one task pending, `q_delete`, `q_vdelete`
and `sm_delete` set KILLD, and the fetch of the task (for the semaphore, the
end of its `sm_p`) returns the status of a killed object and leaves SEND. -/
theorem killd_is_set_back_to_send :
    (Queue.one_slot_queue.bind fun q =>
        (Queue.q_delete_mark q).bind fun d =>
          (Queue.q_receive_fetch d.2 8).map fun r =>
            (d.2.send_type, r.1, r.2.2.send_type, r.2.2.first_susp))
      = some (Queue.KILLD, Queue.ERR_QKILLD, Queue.SEND, []) ∧
    ((VQueue.small_vqueue 16).map fun q =>
        ((VQueue.q_vdelete_mark q).2.send_type,
          (VQueue.q_vreceive_fetch (VQueue.q_vdelete_mark q).2 3).1,
          (VQueue.q_vreceive_fetch (VQueue.q_vdelete_mark q).2 3).2.2.2.send_type))
      = some (VQueue.KILLD, VQueue.ERR_QKILLD, VQueue.SEND) ∧
    ((Sema4.sm_delete_mark Sema4.pending_sema4.1).2.send_type,
      (Sema4.sm_p_resume Sema4.linux_sem_value_max
        (Sema4.sm_delete_mark Sema4.pending_sema4.1).2
        Sema4.pending_sema4.2 false 0).2.pc,
      (Sema4.sm_p_resume Sema4.linux_sem_value_max
        (Sema4.sm_delete_mark Sema4.pending_sema4.1).2
        Sema4.pending_sema4.2 false 0).1.send_type)
      = (Sema4.KILLD, Sema4.sm_pc.returned Sema4.ERR_SKILLD, Sema4.SEND) :=
  ⟨rfl, rfl, rfl⟩

/-- C26, as the code has it. `q_delete`, `q_vdelete` and `sm_delete` set
the send type to KILLD only when a task is pending, and leave the object as
it is otherwise. On an object in KILLD mode a pending task that leaves the
wait list gets the status of a killed object; the send type stays KILLD while
another task is still in the wait list, and the task that empties the wait
list sets it back to SEND. -/
theorem killd_until_last_waiter (q : Queue.p2pt_queue_t) (vq : VQueue.p2pt_vqueue_t)
    (s : Sema4.p2pt_sema4_t) (call : Sema4.sm_p_call) (t : Nat)
    (hq : q.send_type = Queue.KILLD) (hvq : vq.send_type = VQueue.KILLD)
    (hs : s.send_type = Sema4.KILLD) :
    (Task.unlink_susp_tcb q.first_susp t ≠ [] →
      Queue.q_receive_fetch q t = some (Queue.ERR_QKILLD, q.mem q.queue_head,
        { q with first_susp := Task.unlink_susp_tcb q.first_susp t })) ∧
    (Task.unlink_susp_tcb q.first_susp t = [] → ∀ nxt,
      Queue.step_forward q q.queue_head = some nxt →
      ∃ q', Queue.q_receive_fetch q t = some (Queue.ERR_QKILLD, q.mem q.queue_head, q') ∧
        q'.send_type = Queue.SEND ∧ q'.first_susp = []) ∧
    ((VQueue.q_vreceive_fetch vq t).1 = VQueue.ERR_QKILLD ∧
      (VQueue.q_vreceive_fetch vq t).2.2.2.send_type =
        (if Task.unlink_susp_tcb vq.first_susp t = [] then VQueue.SEND else VQueue.KILLD)) ∧
    ((Sema4.sm_p_finish s call).2.pc = Sema4.sm_pc.returned Sema4.ERR_SKILLD ∧
      (Sema4.sm_p_finish s call).1.send_type =
        (if Task.unlink_susp_tcb s.first_susp call.our_tcb.addr = [] then Sema4.SEND
         else Sema4.KILLD)) ∧
    (∀ q0 : Queue.p2pt_queue_t,
      (q0.first_susp = [] → ∃ e, Queue.q_delete_mark q0 = some (e, q0)) ∧
      (q0.first_susp ≠ [] → ∀ e q1, Queue.q_delete_mark q0 = some (e, q1) →
        q1.send_type = Queue.KILLD)) ∧
    (∀ vq0 : VQueue.p2pt_vqueue_t,
      (vq0.first_susp = [] → (VQueue.q_vdelete_mark vq0).2 = vq0) ∧
      (vq0.first_susp ≠ [] → (VQueue.q_vdelete_mark vq0).2.send_type = VQueue.KILLD)) ∧
    (∀ s0 : Sema4.p2pt_sema4_t,
      (s0.first_susp = [] → (Sema4.sm_delete_mark s0).2 = s0) ∧
      (s0.first_susp ≠ [] → (Sema4.sm_delete_mark s0).2.send_type = Sema4.KILLD)) := by
  have hqk : q.send_type &&& Queue.KILLD ≠ 0 := by rw [hq]; decide
  have hvk : vq.send_type &&& VQueue.KILLD ≠ 0 := by rw [hvq]; decide
  have hsk : s.send_type &&& Sema4.KILLD ≠ 0 := by rw [hs]; decide
  refine ⟨?_, ?_, ?_, ?_, ?_, ?_, ?_⟩
  · intro hne
    have hf := Queue.fetch_killed_keep
      { q with first_susp := Task.unlink_susp_tcb q.first_susp t } hq hne
    simp only [Queue.q_receive_fetch, hf, Option.map_some', hqk, ne_eq, not_false_eq_true,
      if_true]
  · intro he nxt hnext
    have hf := Queue.fetch_killed_last
      { q with first_susp := Task.unlink_susp_tcb q.first_susp t } nxt hq he
      ((Queue.step_forward_congr q _ rfl rfl _).trans hnext)
    have hres : Queue.q_receive_fetch q t = some (Queue.ERR_QKILLD, q.mem q.queue_head,
        { q with
          first_susp := Task.unlink_susp_tcb q.first_susp t
          mem := Function.update q.mem q.queue_head Queue.null_msg
          queue_head := nxt
          msg_count := q.msg_count - 1
          send_type := Queue.SEND }) := by
      simp only [Queue.q_receive_fetch, hf, Option.map_some', hqk, ne_eq, not_false_eq_true,
        if_true]
    exact ⟨_, hres, rfl, he⟩
  · refine ⟨by simp [VQueue.q_vreceive_fetch, hvk], ?_⟩
    have hnb : (VQueue.KILLD = VQueue.BCAST) = False := eq_false (by decide)
    have hns : (VQueue.KILLD = VQueue.SEND) = False := eq_false (by decide)
    by_cases he : Task.unlink_susp_tcb vq.first_susp t = []
    · simp [VQueue.q_vreceive_fetch, VQueue.fetch_msg_from, hvq, hnb, hns, he]
    · simp [VQueue.q_vreceive_fetch, VQueue.fetch_msg_from, hvq, hnb, hns, he]
  · by_cases he : Task.unlink_susp_tcb s.first_susp call.our_tcb.addr = []
    · simp only [Sema4.sm_p_finish, hsk, ne_eq, not_false_eq_true, if_true, he]
      exact ⟨trivial, trivial⟩
    · simp only [Sema4.sm_p_finish, hsk, ne_eq, not_false_eq_true, if_true, he, if_false]
      exact ⟨trivial, hs⟩
  · intro q0
    refine ⟨fun h0 => ⟨if q0.msg_count ≠ 0 then Queue.ERR_MATQDEL else Queue.ERR_NO_ERROR,
      by simp [Queue.q_delete_mark, h0]⟩, ?_⟩
    intro hne e q1 hmark
    simp only [Queue.q_delete_mark, hne, ne_eq, not_false_eq_true, if_true] at hmark
    cases hu : Queue.urgent_msg_to q0 Queue.deleted_msg with
    | none => simp [hu] at hmark
    | some q2 =>
        simp only [hu, Option.map_some', Option.some.injEq, Prod.mk.injEq] at hmark
        rw [← hmark.2]
  · intro vq0
    exact ⟨fun h0 => by simp [VQueue.q_vdelete_mark, h0],
      fun hne => by simp [VQueue.q_vdelete_mark, hne]⟩
  · intro s0
    exact ⟨fun h0 => by simp [Sema4.sm_delete_mark, h0],
      fun hne => by simp [Sema4.sm_delete_mark, hne]⟩

/-- Witness for C26: task 3 leaves the killed capacity-1 queue, on which task
8 is still pending, and the send type stays KILLD; task 3 is the last task on
the killed variable-length queue and on the killed semaphore, and its leaving
sets SEND. -/
theorem killd_until_last_waiter_witness :
    ((Queue.q_receive_fetch Queue.killed_queue 3).map fun r =>
        (r.1, r.2.2.send_type, r.2.2.first_susp))
      = some (Queue.ERR_QKILLD, Queue.KILLD, [⟨8, 20⟩]) ∧
    (VQueue.q_vreceive_fetch VQueue.killed_vqueue 3).2.2.2.send_type = VQueue.SEND ∧
    (Sema4.sm_p_finish Sema4.killed_sema4 Sema4.pending_sema4.2).1.send_type = Sema4.SEND := by
  obtain ⟨h1, _, h3, h4, _⟩ := killd_until_last_waiter Queue.killed_queue
    VQueue.killed_vqueue Sema4.killed_sema4 Sema4.pending_sema4.2 3 rfl rfl rfl
  refine ⟨?_, ?_, ?_⟩
  · rw [h1 (by decide)]
    rfl
  · rw [h3.2]
    rfl
  · rw [h4.2]
    rfl

end SendMode

namespace MemBlk

/-- C27 fails in the state the claim names. On a partition of two 16-byte
blocks at 4096 both blocks are handed out, so that the free list is empty
while `last_free` still points to the block 4112, and the holder of 4112
stores 43690 in it. `pt_retbuf(4096)` returns 0 and stores the address 4096
through `last_free`, that is into the in-use block 4112, whose first word is
4096 afterwards. On a partition of three blocks, where a block is still free,
the same calls leave the word alone. -/
theorem pt_retbuf_writes_in_use_block :
    ((pt_session 8 4096 32 16 [.getbuf, .getbuf]).bind fun r =>
        (pt_retbuf 8 (user_store r.2 4112 43690) 4096).map fun s =>
          (r.1, r.2.first_free, r.2.last_free, (user_store r.2 4112 43690).mem 4112,
            s.1, s.2.mem 4112))
      = some ([(0, 4096), (0, 4112)], 0, 4112, 43690, ERR_NO_ERROR, 4096) ∧
    ((pt_session 8 4096 48 16 [.getbuf, .getbuf]).bind fun r =>
        (pt_retbuf 8 (user_store r.2 4112 43690) 4096).map fun s =>
          (r.1, r.2.first_free, r.2.last_free, (user_store r.2 4112 43690).mem 4112,
            s.1, s.2.mem 4112))
      = some ([(0, 4096), (0, 4112)], 4128, 4128, 43690, ERR_NO_ERROR, 43690) :=
  ⟨rfl, rfl⟩

end MemBlk

namespace VQueue
open Task

/-! ### Message lengths in a variable-length queue (vqueue.c) -/

/-- C28 fails for `q_vdelete` and for `q_vbroadcast`, which do not compare
the length with `msg_len` as `q_vsend` and `q_vurgent` do. On a queue of
messages of up to 4 bytes with task 3 pending, `q_vdelete` puts its 16-byte
deletion message in front with `msglen` 16, and the fetch of task 3 reports
16 bytes; a `q_vbroadcast` of 8 bytes records `msglen` 8 and the fetch
reports 8 bytes, where `q_vsend` and `q_vurgent` of the same message return
`ERR_MSGSIZ`. The copy loops of `urgent_msg_to` and `fetch_msg_from` run
`msglen` times, over the 4 data bytes of the slot and the 4 bytes that
`q_vreceive` asks of the receiver's buffer. With `msg_len` 16 the deletion
message fits. -/
theorem q_vdelete_records_longer_message :
    ((small_vqueue 4).map fun q =>
        (q.msg_len, (q_vdelete_mark q).1,
          ((q_vdelete_mark q).2.mem (q_vdelete_mark q).2.queue_head).msglen,
          (q_vreceive_fetch (q_vdelete_mark q).2 3).1,
          (q_vreceive_fetch (q_vdelete_mark q).2 3).2.2.1))
      = some (4, ERR_TATQDEL, 16, ERR_QKILLD, 16) ∧
    ((small_vqueue 4).map fun q =>
        ((q_vbroadcast_send q [1, 2, 3, 4, 5, 6, 7, 8] 8).1,
          ((q_vbroadcast_send q [1, 2, 3, 4, 5, 6, 7, 8] 8).2.mem
            (q_vbroadcast_send q [1, 2, 3, 4, 5, 6, 7, 8] 8).2.queue_head).msglen,
          (q_vreceive_fetch (q_vbroadcast_send q [1, 2, 3, 4, 5, 6, 7, 8] 8).2 3).2.2.1,
          (q_vsend q [1, 2, 3, 4, 5, 6, 7, 8] 8).1,
          (q_vurgent q [1, 2, 3, 4, 5, 6, 7, 8] 8).1))
      = some (ERR_NO_ERROR, 8, 8, ERR_MSGSIZ, ERR_MSGSIZ) ∧
    ((small_vqueue 16).map fun q =>
        ((q_vdelete_mark q).1,
          ((q_vdelete_mark q).2.mem (q_vdelete_mark q).2.queue_head).msglen))
      = some (ERR_TATQDEL, 16) :=
  ⟨rfl, rfl, rfl⟩

end VQueue

namespace Timeout

/-! ### The deadline of a timed wait -/

/-- The deadline is always the instant `now + max_wait * 10 ms`, and its
`tv_nsec` is below 1000000000 exactly when the microseconds of the wait and
of the current time do not add up to 1000000. -/
theorem timed_wait_timeout_spec (max_wait : Nat) (now_sec now_usec : Int)
    (hfit : (max_wait : Int) * 10000 + 999999 ≤ 2147483647)
    (h0 : 0 ≤ now_usec) (h1 : now_usec < 1000000) :
    instant (timed_wait_timeout max_wait now_sec now_usec) =
      (now_sec * 1000000 + now_usec + (max_wait : Int) * 10000) * 1000 ∧
    0 ≤ (timed_wait_timeout max_wait now_sec now_usec).tv_nsec ∧
    ((timed_wait_timeout max_wait now_sec now_usec).tv_nsec < 1000000000 ↔
      (max_wait : Int) * 10000 + now_usec ≠ 1000000) := by
  have hlong : to_long (max_wait * P2PT_TICK * 1000) = (max_wait : Int) * 10000 := by
    have hm : max_wait * P2PT_TICK * 1000 = max_wait * 10000 := by
      unfold P2PT_TICK; omega
    have hlt : max_wait * 10000 < 2147483648 := by omega
    have hmod : max_wait * 10000 % 4294967296 = max_wait * 10000 := Nat.mod_eq_of_lt (by omega)
    rw [hm]
    simp only [to_long, hmod, hlt, if_true]
    push_cast
    ring
  unfold timed_wait_timeout instant
  simp only [hlong]
  by_cases hgt : (max_wait : Int) * 10000 + now_usec > 1000000
  · simp only [hgt, if_true]
    have hnn : 0 ≤ (max_wait : Int) * 10000 + now_usec := by omega
    rw [Int.tdiv_eq_ediv hnn (by omega : (0 : Int) ≤ 1000000), Int.tmod_eq_emod hnn (by omega : (0 : Int) ≤ 1000000)]
    refine ⟨?_, ?_, ?_⟩
    · have := Int.emod_add_ediv ((max_wait : Int) * 10000 + now_usec) 1000000
      omega
    · have := Int.emod_nonneg ((max_wait : Int) * 10000 + now_usec)
        (by omega : (1000000 : Int) ≠ 0)
      omega
    · have := Int.emod_lt_of_pos ((max_wait : Int) * 10000 + now_usec)
        (by omega : (0 : Int) < 1000000)
      constructor
      · intro _; omega
      · intro _; omega
  · simp only [hgt, if_false]
    refine ⟨by ring, by omega, ?_⟩
    constructor
    · intro h; omega
    · intro h; omega

/-- C29 fails when the microseconds add up to exactly 1000000: the code
carries into the seconds only when `usec > 1000000`. A wait of 100 ticks that
starts at `tv_usec = 0`, and a wait of 1 tick that starts at
`tv_usec = 990000`, get `tv_nsec = 1000000000`, which is not a valid
`timespec`; one microsecond later the carry is made. -/
theorem timed_wait_timeout_full_second :
    timed_wait_timeout 100 5 0 = ⟨5, 1000000000⟩ ∧
    timed_wait_timeout 1 5 990000 = ⟨5, 1000000000⟩ ∧
    timed_wait_timeout 1 5 990001 = ⟨6, 1000⟩ ∧
    timed_wait_timeout 1 5 989999 = ⟨5, 999999000⟩ := by
  decide

end Timeout

namespace Sched

/-! ### The notepad registers of a new task (task.c) -/

/-- C30 fails for register 0: the loop of `t_create` that clears the
registers starts at index 1. When the memory of the new control block holds
57005 in every word, `t_create` returns 0 with task id 1, and `t_getreg`
reads 57005 from register 0 and 0 from the registers 1 to 7; over memory that
holds zeros all eight read 0. -/
theorem t_create_leaves_register_zero :
    ((t_create linux_host (no_tasks 57005) 10 (some 4096)).map fun r =>
        (r.error, r.tid,
          (List.range 8).map fun i =>
            (t_getreg linux_host r.state 101 r.tid i).map fun g => (g.1, g.2.1)))
      = some (ERR_NO_ERROR, 1,
          [some (0, some 57005), some (0, some 0), some (0, some 0), some (0, some 0),
            some (0, some 0), some (0, some 0), some (0, some 0), some (0, some 0)]) ∧
    ((t_create linux_host (no_tasks 0) 10 (some 4096)).map fun r =>
        (r.error, r.tid,
          (List.range 8).map fun i =>
            (t_getreg linux_host r.state 101 r.tid i).map fun g => (g.1, g.2.1)))
      = some (ERR_NO_ERROR, 1,
          [some (0, some 0), some (0, some 0), some (0, some 0), some (0, some 0),
            some (0, some 0), some (0, some 0), some (0, some 0), some (0, some 0)]) :=
  ⟨rfl, rfl⟩

end Sched

